import Mathlib

/-!
Verification of the resumable bulk-migration subsystem of the repository.

The embedding follows `crates/services/src/services/migration/mod.rs` (the
`MigrationService`) and `crates/db/src/models/migration_state.rs` (the
`migration_state` table).  Database rows of the state store are modelled as a
list of rows; every SQL statement of `migration_state.rs` becomes a pure
function on that list.  The asynchronous service functions are modelled by
explicit state passing of the whole SQLite database (`Db`), together with a
ghost trace of the remote bulk-create calls issued during a run.  Identifiers
(`Uuid`) are modelled as naturals and timestamps as naturals; the
`created_at`/`updated_at` bookkeeping columns, which no claim mentions, are
omitted from the row model.
-/

set_option maxRecDepth 8192

namespace Executor

/-- `Uuid` identifiers are modelled as naturals. -/
abbrev Uuid := Nat

/-- `EntityType` from `db/src/models/migration_state.rs`. -/
inductive EntityType where
  | project
  | task
  | prMerge
  | workspace
deriving DecidableEq, Repr

/-- `MigrationStatus` from `db/src/models/migration_state.rs`. -/
inductive MigrationStatus where
  | pending
  | migrated
  | failed
  | skipped
deriving DecidableEq, Repr

/-- One row of the `migration_state` table (struct `MigrationState`); the
surrogate `id` and the two timestamp columns are omitted. -/
structure MigrationRow where
  entity_type : EntityType
  local_id : Uuid
  remote_id : Option Uuid
  status : MigrationStatus
  error_message : Option String
  attempt_count : Nat
deriving DecidableEq, Repr

/-- The `migration_state` table, in insertion (`created_at`) order. -/
abbrev Store := List MigrationRow

/-- The `WHERE entity_type = $1 AND local_id = $2` filter shared by the
queries of `migration_state.rs`. -/
def rowMatches (et : EntityType) (lid : Uuid) (r : MigrationRow) : Bool :=
  r.entity_type == et && r.local_id == lid

namespace MigrationState

/-- `MigrationState::find_by_entity`: point lookup by `(entity_type, local_id)`. -/
def find_by_entity (s : Store) (et : EntityType) (lid : Uuid) : Option MigrationRow :=
  s.find? (rowMatches et lid)

/-- `MigrationState::get_remote_id`: the `remote_id` of the row for
`(entity_type, local_id)` provided its status is `migrated` (the SQL adds
`AND status = 'migrated'` and flattens the nullable column). -/
def get_remote_id (s : Store) (et : EntityType) (lid : Uuid) : Option Uuid :=
  match s.find? (fun r => rowMatches et lid r && r.status == .migrated) with
  | some r => r.remote_id
  | none => none

/-- The row inserted by `MigrationState::create`/`upsert`: status `pending`,
no remote id, no error, zero attempts (the SQL column defaults). -/
def newRow (et : EntityType) (lid : Uuid) : MigrationRow :=
  { entity_type := et, local_id := lid, remote_id := none,
    status := .pending, error_message := none, attempt_count := 0 }

/-- `MigrationState::create`: plain `INSERT`; fails (returns `none`) when a row
for the key already exists (unique index on `(entity_type, local_id)`). -/
def create (s : Store) (et : EntityType) (lid : Uuid) : Option Store :=
  if s.any (rowMatches et lid) then none else some (s ++ [newRow et lid])

/-- `MigrationState::upsert`: `INSERT ... ON CONFLICT (entity_type, local_id)
DO UPDATE SET updated_at = ...` — on conflict only the (unmodelled) timestamp
changes, so the table is unchanged; otherwise a fresh `pending` row is added. -/
def upsert (s : Store) (et : EntityType) (lid : Uuid) : Store :=
  if s.any (rowMatches et lid) then s else s ++ [newRow et lid]

/-- The `UPDATE migration_state SET ... WHERE entity_type = $1 AND
local_id = $2` pattern shared by the three `mark_*` statements. -/
def updateRows (et : EntityType) (lid : Uuid) (f : MigrationRow → MigrationRow)
    (s : Store) : Store :=
  s.map fun r => if rowMatches et lid r then f r else r

/-- `MigrationState::mark_migrated`: sets status `migrated`, stores the remote
id, clears `error_message`. -/
def mark_migrated (s : Store) (et : EntityType) (lid : Uuid) (rid : Uuid) : Store :=
  updateRows et lid
    (fun r => { r with status := .migrated, remote_id := some rid, error_message := none }) s

/-- `MigrationState::mark_failed`: sets status `failed`, stores the error,
increments `attempt_count`. -/
def mark_failed (s : Store) (et : EntityType) (lid : Uuid) (msg : String) : Store :=
  updateRows et lid
    (fun r =>
      { r with status := .failed, error_message := some msg, attempt_count := r.attempt_count + 1 })
    s

/-- `MigrationState::mark_skipped`: sets status `skipped` and stores the
reason; `attempt_count` is not touched. -/
def mark_skipped (s : Store) (et : EntityType) (lid : Uuid) (reason : String) : Store :=
  updateRows et lid
    (fun r => { r with status := .skipped, error_message := some reason }) s

/-- `MigrationState::reset_failed`: `UPDATE ... SET status = 'pending',
error_message = NULL WHERE status = 'failed'`. -/
def reset_failed (s : Store) : Store :=
  s.map fun r =>
    if r.status == .failed then { r with status := .pending, error_message := none } else r

/-- `MigrationState::find_by_entity_type`: all rows of one entity type, in
`created_at` (insertion) order. -/
def find_by_entity_type (s : Store) (et : EntityType) : Store :=
  s.filter fun r => r.entity_type == et

end MigrationState

/-- `TaskStatus` of the local `Task` model (variants as matched by
`map_task_status` in `migration/mod.rs`). -/
inductive TaskStatus where
  | todo
  | inProgress
  | inReview
  | done
  | cancelled
deriving DecidableEq, Repr

/-- `MergeStatus` of the local PR-merge model (variants as matched by
`map_merge_status` in `migration/mod.rs`). -/
inductive MergeStatus where
  | «open»
  | merged
  | closed
  | unknown
deriving DecidableEq, Repr

/-- Modelled from the spec: the local `Project` row (its `crates/db` model is
not part of the sources); the fields are the ones the migration service reads
(`id`, `name`, `created_at`) plus `remote_project_id`, written by
`Project::set_remote_project_id`. -/
structure Project where
  id : Uuid
  name : String
  created_at : Nat
  remote_project_id : Option Uuid
deriving DecidableEq, Repr

/-- Modelled from the spec: the local `Task` row (model not in the sources);
fields as read by the migration service. -/
structure Task where
  id : Uuid
  project_id : Uuid
  title : String
  description : Option String
  status : TaskStatus
  created_at : Nat
deriving DecidableEq, Repr

/-- Modelled from the spec: the local `Workspace` row (model not in the
sources); fields as read by the migration service. -/
structure Workspace where
  id : Uuid
  task_id : Uuid
  archived : Bool
  created_at : Nat
deriving DecidableEq, Repr

/-- Modelled from the spec: the `pr_info` payload of a PR merge (model not in
the sources); fields as read by the migration service. -/
structure PrInfo where
  url : String
  number : Int
  status : MergeStatus
  merged_at : Option Nat
  merge_commit_sha : Option String
deriving DecidableEq, Repr

/-- Modelled from the spec: the local `PrMerge` row (model not in the
sources); fields as read by the migration service. -/
structure PrMerge where
  id : Uuid
  workspace_id : Uuid
  target_branch_name : String
  pr_info : PrInfo
deriving DecidableEq, Repr

/-- The SQLite database threaded through the service: the four local tables
(read through the collaborator accessors of spec §6) plus `migration_state`. -/
structure Db where
  projects : List Project
  tasks : List Task
  pr_merges : List PrMerge
  workspaces : List Workspace
  migration_state : Store
deriving DecidableEq, Repr

/-- Modelled from the spec: `Project::find_all` (local read-only accessor). -/
def Project.find_all (db : Db) : List Project := db.projects

/-- Modelled from the spec: `Project::set_remote_project_id` updates the
`remote_project_id` column of the project row with the given id. -/
def Project.set_remote_project_id (db : Db) (id : Uuid) (rid : Option Uuid) : Db :=
  { db with projects :=
      db.projects.map fun p => if p.id == id then { p with remote_project_id := rid } else p }

/-- Modelled from the spec: `Task::find_all` (local read-only accessor). -/
def Task.find_all (db : Db) : List Task := db.tasks

/-- Modelled from the spec: `Task::find_by_id` (local point lookup). -/
def Task.find_by_id (db : Db) (id : Uuid) : Option Task :=
  db.tasks.find? fun t => t.id == id

/-- Modelled from the spec: `Workspace::find_by_id` (local point lookup). -/
def Workspace.find_by_id (db : Db) (id : Uuid) : Option Workspace :=
  db.workspaces.find? fun w => w.id == id

/-- Modelled from the spec: `Workspace::fetch_all(pool, None)` (all local
workspaces). -/
def Workspace.fetch_all (db : Db) : List Workspace := db.workspaces

/-- Modelled from the spec: `Merge::find_all_pr` (all local PR merges). -/
def Merge.find_all_pr (db : Db) : List PrMerge := db.pr_merges

/-- `MigrateProjectRequest` from `api-types/src/migration.rs`. -/
structure MigrateProjectRequest where
  organization_id : Uuid
  name : String
  color : String
  created_at : Nat
deriving DecidableEq, Repr

/-- `MigrateIssueRequest` from `api-types/src/migration.rs`. -/
structure MigrateIssueRequest where
  project_id : Uuid
  status_name : String
  title : String
  description : Option String
  created_at : Nat
deriving DecidableEq, Repr

/-- `MigratePullRequestRequest` from `api-types/src/migration.rs`. -/
structure MigratePullRequestRequest where
  url : String
  number : Int
  status : String
  merged_at : Option Nat
  merge_commit_sha : Option String
  target_branch_name : String
  issue_id : Uuid
deriving DecidableEq, Repr

/-- `MigrateWorkspaceRequest` from `api-types/src/migration.rs`. -/
structure MigrateWorkspaceRequest where
  project_id : Uuid
  issue_id : Option Uuid
  local_workspace_id : Uuid
  archived : Bool
  created_at : Nat
deriving DecidableEq, Repr

/-- `MigrationError` from `services/src/services/migration/error.rs`; wrapped
error payloads are carried as strings. -/
inductive MigrationError where
  | database (msg : String)
  | migrationState (msg : String)
  | workspace (msg : String)
  | remoteClient (msg : String)
  | notAuthenticated
  | organizationNotFound
  | entityNotFound (entity_type : String) (id : String)
  | migrationInProgress
  | statusMappingFailed (status : String)
  | brokenReferenceChain (msg : String)
  | remoteError (msg : String)
deriving DecidableEq, Repr

/-- `EntityError` from `migration/types.rs`. -/
structure EntityError where
  local_id : Uuid
  error : String
deriving DecidableEq, Repr

/-- `EntityReport` from `migration/types.rs`; `Default::default()` is
`EntityReport.empty`. -/
structure EntityReport where
  total : Nat
  migrated : Nat
  failed : Nat
  skipped : Nat
  errors : List EntityError
deriving DecidableEq, Repr

def EntityReport.empty : EntityReport :=
  { total := 0, migrated := 0, failed := 0, skipped := 0, errors := [] }

/-- `MigrationReport` from `migration/types.rs`; `Default::default()` is
`MigrationReport.empty`. -/
structure MigrationReport where
  projects : EntityReport
  tasks : EntityReport
  pr_merges : EntityReport
  workspaces : EntityReport
  warnings : List String
deriving DecidableEq, Repr

def MigrationReport.empty : MigrationReport :=
  { projects := .empty, tasks := .empty, pr_merges := .empty,
    workspaces := .empty, warnings := [] }

/-- `map_task_status` from `migration/mod.rs`. -/
def map_task_status : TaskStatus → String
  | .todo => "To do"
  | .inProgress => "In progress"
  | .inReview => "In review"
  | .done => "Done"
  | .cancelled => "Cancelled"

/-- `map_merge_status` from `migration/mod.rs` (`Unknown` maps to "open"). -/
def map_merge_status : MergeStatus → String
  | .«open» => "open"
  | .merged => "merged"
  | .closed => "closed"
  | .unknown => "open"

/-- `generate_hsl_color` from `migration/mod.rs`. -/
def generate_hsl_color (index : Nat) : String :=
  let hues : List Nat := [217, 142, 38, 258, 0, 180, 300, 60]
  let h := hues.getD (index % hues.length) 0
  let s := 70 + (index / hues.length) % 20
  let l := 50 + (index / hues.length) % 15
  toString h ++ " " ++ toString s ++ "% " ++ toString l ++ "%"

/-- The wrapping `as i32` cast applied to the local PR number. -/
def wrap_i32 (n : Int) : Int := (n + 2 ^ 31) % 2 ^ 32 - 2 ^ 31

/-- `BATCH_SIZE` from `migration/mod.rs`. -/
def BATCH_SIZE : Nat := 100

/-- Recursion core of `chunksOf`, structural over a fuel argument that the
wrapper seeds with the list length (enough fuel for any positive `n`). -/
def chunksOfFuel (n : Nat) : Nat → List α → List (List α)
  | _, [] => []
  | 0, _ :: _ => []
  | fuel + 1, x :: rest =>
    if n = 0 then []
    else (x :: rest).take n :: chunksOfFuel n fuel ((x :: rest).drop n)

/-- Rust's `slice::chunks`: consecutive sub-slices of length `n` (last one
possibly shorter); empty input gives no chunks. -/
def chunksOf (n : Nat) (xs : List α) : List (List α) := chunksOfFuel n xs.length xs

/-- The request body of one authenticated bulk-create POST of the service
(`BulkMigrateRequest.items`, one constructor per endpoint). -/
inductive RemoteCallPayload where
  | projects (reqs : List MigrateProjectRequest)
  | issues (reqs : List MigrateIssueRequest)
  | pullRequests (reqs : List MigratePullRequestRequest)
  | workspaces (reqs : List MigrateWorkspaceRequest)
deriving DecidableEq, Repr

/-- Ghost record of one remote bulk-create call: its payload, the local ids of
the submitted records in submission order, and the contents of the state store
at the moment the call was issued. -/
structure RemoteCall where
  payload : RemoteCallPayload
  local_ids : List Uuid
  store_at : Store
deriving DecidableEq, Repr

/-- Modelled from the spec: the Remote Migration Client (`RemoteClient`, whose
HTTP transport is outside the migration engine).  Each endpoint is a pure
response function; `.ok ids` models a successful `BulkMigrateResponse` and
`.error` a transport/HTTP failure of `post_authed`. -/
structure RemoteClient where
  projectsResponse : List MigrateProjectRequest → Except String (List Uuid)
  issuesResponse : List MigrateIssueRequest → Except String (List Uuid)
  pullRequestsResponse : List MigratePullRequestRequest → Except String (List Uuid)
  workspacesResponse : List MigrateWorkspaceRequest → Except String (List Uuid)

/-- Dispatch a payload to the endpoint's response function. -/
def RemoteClient.call (c : RemoteClient) : RemoteCallPayload → Except String (List Uuid)
  | .projects reqs => c.projectsResponse reqs
  | .issues reqs => c.issuesResponse reqs
  | .pullRequests reqs => c.pullRequestsResponse reqs
  | .workspaces reqs => c.workspacesResponse reqs

/-- Result of one service step: the `Result` value, the database afterwards,
and the remote calls issued (in order). -/
abbrev StepResult (α : Type) := Except MigrationError α × Db × MigrationReport × List RemoteCall

/-- Output of a batch dependency-resolution loop: the requests and the
submitted local ids (both in input order), plus database and report after the
loop's skip markings. -/
structure Resolved (ρ : Type) where
  requests : List ρ
  local_ids : List Uuid
  db : Db
  report : MigrationReport

/-- The `Result` component of a step. -/
def StepResult.res (r : StepResult α) : Except MigrationError α := r.1

/-- The database after a step. -/
def StepResult.db (r : StepResult α) : Db := r.2.1

/-- The report after a step. -/
def StepResult.report (r : StepResult α) : MigrationReport := r.2.2.1

/-- The remote calls issued during a step. -/
def StepResult.calls (r : StepResult α) : List RemoteCall := r.2.2.2

namespace MigrationService

/-- The upsert loop opening every batch function: a `pending` state row is
upserted for each record of the batch before anything else happens. -/
def upsertAll (et : EntityType) (lids : List Uuid) (s : Store) : Store :=
  match lids with
  | [] => s
  | lid :: rest => upsertAll et rest (MigrationState.upsert s et lid)

/-- The shared already-migrated pre-filter of the four phases: walks the
records in order and either counts a record as skipped (a `migrated` state row
exists for it) or keeps it as pending. -/
def filterPending (et : EntityType) (key : α → Uuid) (s : Store) : List α → List α × Nat
  | [] => ([], 0)
  | x :: rest =>
    let (pend, n) := filterPending et key s rest
    match MigrationState.find_by_entity s et (key x) with
    | some existing => if existing.status == .migrated then (pend, n + 1) else (x :: pend, n)
    | none => (x :: pend, n)

/-- The `for chunk in pending.chunks(BATCH_SIZE) { batch(chunk)? }` loop: runs
the batch step on each chunk in order, aborting on the first error. -/
def runBatches (batch : List α → MigrationReport → Db → StepResult Unit) :
    List (List α) → MigrationReport → Db → StepResult Unit
  | [], report, db => (.ok (), db, report, [])
  | chunk :: rest, report, db =>
    match batch chunk report db with
    | (.error e, db2, report2, cs2) => (.error e, db2, report2, cs2)
    | (.ok _, db2, report2, cs2) =>
      let (res, db3, report3, cs3) := runBatches batch rest report2 db2
      (res, db3, report3, cs2 ++ cs3)

/-- The `zip`-and-`mark_migrated` loop of `migrate_project_batch`: pairs the
submitted projects with the returned remote ids positionally, marks each
migrated, stores the remote project id on the local row and bumps the
`projects.migrated` counter once per pair. -/
def commitProjects : List (Project × Uuid) → Db → MigrationReport → Db × MigrationReport
  | [], db, report => (db, report)
  | (p, rid) :: rest, db, report =>
    let ms := MigrationState.mark_migrated db.migration_state .project p.id rid
    let db := { db with migration_state := ms }
    let db := Project.set_remote_project_id db p.id (some rid)
    commitProjects rest db { report with projects.migrated := report.projects.migrated + 1 }

/-- The submit-and-record tail of `migrate_project_batch`: issues the bulk
call and, on success, zips projects with the returned ids and records them. -/
def projectBatchFinish (client : RemoteClient) (projects : List Project)
    (requests : List MigrateProjectRequest) (report : MigrationReport) (db : Db) :
    StepResult Unit :=
  let call : RemoteCall :=
    { payload := .projects requests, local_ids := projects.map (·.id),
      store_at := db.migration_state }
  match client.call call.payload with
  | .error e => (.error (.remoteClient e), db, report, [call])
  | .ok ids =>
    let (db2, report2) := commitProjects (projects.zip ids) db report
    (.ok (), db2, report2, [call])

/-- `MigrationService::migrate_project_batch`. -/
def migrate_project_batch (client : RemoteClient) (organization_id : Uuid)
    (projects : List Project) (report : MigrationReport) (db : Db) : StepResult Unit :=
  let ms := upsertAll .project (projects.map (·.id)) db.migration_state
  let db := { db with migration_state := ms }
  let requests : List MigrateProjectRequest := projects.enum.map fun (i, p) =>
    { organization_id := organization_id, name := p.name,
      color := generate_hsl_color i, created_at := p.created_at }
  projectBatchFinish client projects requests report db

/-- `MigrationService::migrate_projects` (phase 1). -/
def migrate_projects (client : RemoteClient) (organization_id : Uuid)
    (project_ids : List Uuid) (report : MigrationReport) (db : Db) : StepResult Unit :=
  let projects := (Project.find_all db).filter fun p => project_ids.contains p.id
  let report := { report with projects.total := projects.length }
  let (pending_projects, nskipped) :=
    filterPending .project (·.id) db.migration_state projects
  let report := { report with projects.skipped := report.projects.skipped + nskipped }
  runBatches (migrate_project_batch client organization_id)
    (chunksOf BATCH_SIZE pending_projects) report db

/-- The dependency-resolution loop of `migrate_task_batch`: builds the request
and submitted-id lists in input order; a task whose project has no migrated
remote id is marked `skipped` on the spot, counted, and a warning is pushed. -/
def resolveTasks : List Task → Db → MigrationReport → Resolved MigrateIssueRequest
  | [], db, report => ⟨[], [], db, report⟩
  | task :: rest, db, report =>
    match MigrationState.get_remote_id db.migration_state .project task.project_id with
    | some project_id =>
      let req : MigrateIssueRequest :=
        { project_id := project_id, status_name := map_task_status task.status,
          title := task.title.take 255, description := task.description,
          created_at := task.created_at }
      let r := resolveTasks rest db report
      ⟨req :: r.requests, task.id :: r.local_ids, r.db, r.report⟩
    | none =>
      let error_msg := "Project " ++ toString task.project_id ++ " not migrated"
      let ms := MigrationState.mark_skipped db.migration_state .task task.id error_msg
      let db := { db with migration_state := ms }
      let ws := report.warnings ++ ["Skipped task " ++ toString task.id ++ ": " ++ error_msg]
      let report := { report with tasks.skipped := report.tasks.skipped + 1, warnings := ws }
      resolveTasks rest db report

/-- The `zip`-and-`mark_migrated` loop of `migrate_task_batch`. -/
def commitTasks : List (Uuid × Uuid) → Db → MigrationReport → Db × MigrationReport
  | [], db, report => (db, report)
  | (tid, rid) :: rest, db, report =>
    let ms := MigrationState.mark_migrated db.migration_state .task tid rid
    let db := { db with migration_state := ms }
    commitTasks rest db { report with tasks.migrated := report.tasks.migrated + 1 }

/-- The empty-guard, submit and record tail of `migrate_task_batch`. -/
def taskBatchFinish (client : RemoteClient) (r : Resolved MigrateIssueRequest) :
    StepResult Unit :=
  if r.requests.isEmpty then (.ok (), r.db, r.report, [])
  else
    let call : RemoteCall :=
      { payload := .issues r.requests, local_ids := r.local_ids,
        store_at := r.db.migration_state }
    match client.call call.payload with
    | .error e => (.error (.remoteClient e), r.db, r.report, [call])
    | .ok ids =>
      let (db2, report2) := commitTasks (r.local_ids.zip ids) r.db r.report
      (.ok (), db2, report2, [call])

/-- `MigrationService::migrate_task_batch`. -/
def migrate_task_batch (client : RemoteClient) (tasks : List Task)
    (report : MigrationReport) (db : Db) : StepResult Unit :=
  let ms := upsertAll .task (tasks.map (·.id)) db.migration_state
  let db := { db with migration_state := ms }
  taskBatchFinish client (resolveTasks tasks db report)

/-- `MigrationService::migrate_tasks` (phase 2). -/
def migrate_tasks (client : RemoteClient) (project_ids : List Uuid)
    (report : MigrationReport) (db : Db) : StepResult Unit :=
  let tasks := (Task.find_all db).filter fun t => project_ids.contains t.project_id
  let report := { report with tasks.total := tasks.length }
  let (pending_tasks, nskipped) := filterPending .task (·.id) db.migration_state tasks
  let report := { report with tasks.skipped := report.tasks.skipped + nskipped }
  runBatches (migrate_task_batch client) (chunksOf BATCH_SIZE pending_tasks) report db

/-- The dependency-resolution loop of `migrate_pr_merge_batch`: resolves the
remote issue id through the merge's workspace's task; unresolvable merges are
marked `skipped` with the reason of the source. -/
def resolvePrMerges : List PrMerge → Db → MigrationReport → Resolved MigratePullRequestRequest
  | [], db, report => ⟨[], [], db, report⟩
  | pr_merge :: rest, db, report =>
    let issue_id :=
      match Workspace.find_by_id db pr_merge.workspace_id with
      | some ws => MigrationState.get_remote_id db.migration_state .task ws.task_id
      | none => none
    match issue_id with
    | some remote_issue_id =>
      let req : MigratePullRequestRequest :=
        { url := pr_merge.pr_info.url, number := wrap_i32 pr_merge.pr_info.number,
          status := map_merge_status pr_merge.pr_info.status,
          merged_at := pr_merge.pr_info.merged_at,
          merge_commit_sha := pr_merge.pr_info.merge_commit_sha,
          target_branch_name := pr_merge.target_branch_name,
          issue_id := remote_issue_id }
      let r := resolvePrMerges rest db report
      ⟨req :: r.requests, pr_merge.id :: r.local_ids, r.db, r.report⟩
    | none =>
      let error_msg := "Cannot resolve issue for PR merge " ++ toString pr_merge.id ++
        " (workspace: " ++ toString pr_merge.workspace_id ++ ")"
      let ms := MigrationState.mark_skipped db.migration_state .prMerge pr_merge.id error_msg
      let db := { db with migration_state := ms }
      let ws := report.warnings ++ ["Skipped PR " ++ toString pr_merge.id ++ ": " ++ error_msg]
      let report :=
        { report with pr_merges.skipped := report.pr_merges.skipped + 1, warnings := ws }
      resolvePrMerges rest db report

/-- The `zip`-and-`mark_migrated` loop of `migrate_pr_merge_batch`. -/
def commitPrMerges : List (Uuid × Uuid) → Db → MigrationReport → Db × MigrationReport
  | [], db, report => (db, report)
  | (mid, rid) :: rest, db, report =>
    let ms := MigrationState.mark_migrated db.migration_state .prMerge mid rid
    let db := { db with migration_state := ms }
    commitPrMerges rest db { report with pr_merges.migrated := report.pr_merges.migrated + 1 }

/-- The empty-guard, submit and record tail of `migrate_pr_merge_batch`. -/
def prMergeBatchFinish (client : RemoteClient) (r : Resolved MigratePullRequestRequest) :
    StepResult Unit :=
  if r.requests.isEmpty then (.ok (), r.db, r.report, [])
  else
    let call : RemoteCall :=
      { payload := .pullRequests r.requests, local_ids := r.local_ids,
        store_at := r.db.migration_state }
    match client.call call.payload with
    | .error e => (.error (.remoteClient e), r.db, r.report, [call])
    | .ok ids =>
      let (db2, report2) := commitPrMerges (r.local_ids.zip ids) r.db r.report
      (.ok (), db2, report2, [call])

/-- `MigrationService::migrate_pr_merge_batch`. -/
def migrate_pr_merge_batch (client : RemoteClient) (pr_merges : List PrMerge)
    (report : MigrationReport) (db : Db) : StepResult Unit :=
  let ms := upsertAll .prMerge (pr_merges.map (·.id)) db.migration_state
  let db := { db with migration_state := ms }
  prMergeBatchFinish client (resolvePrMerges pr_merges db report)

/-- Scope filter of `migrate_pr_merges`: a merge is in scope when its
workspace and that workspace's task exist and the task's project is in the
selected set. -/
def prMergeInScope (db : Db) (project_ids : List Uuid) (pr_merge : PrMerge) : Bool :=
  match Workspace.find_by_id db pr_merge.workspace_id with
  | some ws =>
    match Task.find_by_id db ws.task_id with
    | some task => project_ids.contains task.project_id
    | none => false
  | none => false

/-- `MigrationService::migrate_pr_merges` (phase 3). -/
def migrate_pr_merges (client : RemoteClient) (project_ids : List Uuid)
    (report : MigrationReport) (db : Db) : StepResult Unit :=
  let pr_merges := (Merge.find_all_pr db).filter (prMergeInScope db project_ids)
  let report := { report with pr_merges.total := pr_merges.length }
  let (pending_merges, nskipped) :=
    filterPending .prMerge (·.id) db.migration_state pr_merges
  let report := { report with pr_merges.skipped := report.pr_merges.skipped + nskipped }
  runBatches (migrate_pr_merge_batch client) (chunksOf BATCH_SIZE pending_merges) report db

/-- The dependency-resolution loop of `migrate_workspace_batch`: needs the
owning task to exist, the task's project to be migrated, and the task itself
to be migrated; each unresolved check marks the workspace `skipped` with the
reason of the source and pushes a warning. -/
def resolveWorkspaces : List Workspace → Db → MigrationReport → Resolved MigrateWorkspaceRequest
  | [], db, report => ⟨[], [], db, report⟩
  | workspace :: rest, db, report =>
    let skip (error_msg : String) : Resolved MigrateWorkspaceRequest :=
      let ms :=
        MigrationState.mark_skipped db.migration_state .workspace workspace.id error_msg
      let db := { db with migration_state := ms }
      let ws :=
        report.warnings ++ ["Skipped workspace " ++ toString workspace.id ++ ": " ++ error_msg]
      let report :=
        { report with workspaces.skipped := report.workspaces.skipped + 1, warnings := ws }
      resolveWorkspaces rest db report
    match Task.find_by_id db workspace.task_id with
    | none => skip ("Task " ++ toString workspace.task_id ++ " not found for workspace")
    | some task =>
      match MigrationState.get_remote_id db.migration_state .project task.project_id with
      | none => skip ("Project " ++ toString task.project_id ++ " not migrated")
      | some remote_project_id =>
        let remote_issue_id :=
          MigrationState.get_remote_id db.migration_state .task workspace.task_id
        if remote_issue_id.isNone then
          skip ("Task " ++ toString workspace.task_id ++ " not migrated")
        else
          let req : MigrateWorkspaceRequest :=
            { project_id := remote_project_id, issue_id := remote_issue_id,
              local_workspace_id := workspace.id, archived := workspace.archived,
              created_at := workspace.created_at }
          let r := resolveWorkspaces rest db report
          ⟨req :: r.requests, workspace.id :: r.local_ids, r.db, r.report⟩

/-- The `zip`-and-`mark_migrated` loop of `migrate_workspace_batch`. -/
def commitWorkspaces : List (Uuid × Uuid) → Db → MigrationReport → Db × MigrationReport
  | [], db, report => (db, report)
  | (wid, rid) :: rest, db, report =>
    let ms := MigrationState.mark_migrated db.migration_state .workspace wid rid
    let db := { db with migration_state := ms }
    commitWorkspaces rest db
      { report with workspaces.migrated := report.workspaces.migrated + 1 }

/-- The empty-guard, submit and record tail of `migrate_workspace_batch`. -/
def workspaceBatchFinish (client : RemoteClient) (r : Resolved MigrateWorkspaceRequest) :
    StepResult Unit :=
  if r.requests.isEmpty then (.ok (), r.db, r.report, [])
  else
    let call : RemoteCall :=
      { payload := .workspaces r.requests, local_ids := r.local_ids,
        store_at := r.db.migration_state }
    match client.call call.payload with
    | .error e => (.error (.remoteClient e), r.db, r.report, [call])
    | .ok ids =>
      let (db2, report2) := commitWorkspaces (r.local_ids.zip ids) r.db r.report
      (.ok (), db2, report2, [call])

/-- `MigrationService::migrate_workspace_batch`. -/
def migrate_workspace_batch (client : RemoteClient) (workspaces : List Workspace)
    (report : MigrationReport) (db : Db) : StepResult Unit :=
  let ms := upsertAll .workspace (workspaces.map (·.id)) db.migration_state
  let db := { db with migration_state := ms }
  workspaceBatchFinish client (resolveWorkspaces workspaces db report)

/-- Scope filter of `migrate_workspaces`: the workspace's task exists and its
project is in the selected set. -/
def workspaceInScope (db : Db) (project_ids : List Uuid) (workspace : Workspace) : Bool :=
  match Task.find_by_id db workspace.task_id with
  | some task => project_ids.contains task.project_id
  | none => false

/-- `MigrationService::migrate_workspaces` (phase 4). -/
def migrate_workspaces (client : RemoteClient) (project_ids : List Uuid)
    (report : MigrationReport) (db : Db) : StepResult Unit :=
  let workspaces := (Workspace.fetch_all db).filter (workspaceInScope db project_ids)
  let report := { report with workspaces.total := workspaces.length }
  let (pending_workspaces, nskipped) :=
    filterPending .workspace (·.id) db.migration_state workspaces
  let report := { report with workspaces.skipped := report.workspaces.skipped + nskipped }
  runBatches (migrate_workspace_batch client) (chunksOf BATCH_SIZE pending_workspaces)
    report db

/-- `MigrationService::run_migration`: the four phases in dependency order;
any phase error aborts the run (the report is not returned). -/
def run_migration (client : RemoteClient) (organization_id : Uuid)
    (project_ids : List Uuid) (db : Db) :
    Except MigrationError MigrationReport × Db × List RemoteCall :=
  let report := MigrationReport.empty
  match migrate_projects client organization_id project_ids report db with
  | (.error e, db1, _, cs1) => (.error e, db1, cs1)
  | (.ok _, db1, report1, cs1) =>
    match migrate_tasks client project_ids report1 db1 with
    | (.error e, db2, _, cs2) => (.error e, db2, cs1 ++ cs2)
    | (.ok _, db2, report2, cs2) =>
      match migrate_pr_merges client project_ids report2 db2 with
      | (.error e, db3, _, cs3) => (.error e, db3, cs1 ++ cs2 ++ cs3)
      | (.ok _, db3, report3, cs3) =>
        match migrate_workspaces client project_ids report3 db3 with
        | (.error e, db4, _, cs4) => (.error e, db4, cs1 ++ cs2 ++ cs3 ++ cs4)
        | (.ok _, db4, report4, cs4) =>
          (.ok report4, db4, cs1 ++ cs2 ++ cs3 ++ cs4)

/-- `MigrationService::resume_migration`: `reset_failed`, then `run_migration`. -/
def resume_migration (client : RemoteClient) (organization_id : Uuid)
    (project_ids : List Uuid) (db : Db) :
    Except MigrationError MigrationReport × Db × List RemoteCall :=
  let db := { db with migration_state := MigrationState.reset_failed db.migration_state }
  run_migration client organization_id project_ids db

/-- `MigrationService::entity_report_from_states`: aggregates a list of state
rows into an `EntityReport` (a `failed` row contributes an `errors` entry only
when it carries an error message). -/
def entity_report_from_states (states : List MigrationRow) : EntityReport :=
  states.foldl
    (fun report state =>
      match state.status with
      | .migrated => { report with migrated := report.migrated + 1 }
      | .failed =>
        let report := { report with failed := report.failed + 1 }
        match state.error_message with
        | some msg =>
          { report with errors :=
              report.errors ++ [{ local_id := state.local_id, error := msg }] }
        | none => report
      | .skipped => { report with skipped := report.skipped + 1 }
      | .pending => report)
    { EntityReport.empty with total := states.length }

/-- `MigrationService::get_status`: read-only aggregation of the state store;
only the projects section is restricted to the selected project ids. -/
def get_status (project_ids : List Uuid) (db : Db) : MigrationReport :=
  let projects := MigrationState.find_by_entity_type db.migration_state .project
  let tasks := MigrationState.find_by_entity_type db.migration_state .task
  let pr_merges := MigrationState.find_by_entity_type db.migration_state .prMerge
  let workspaces := MigrationState.find_by_entity_type db.migration_state .workspace
  let projects := projects.filter fun s => project_ids.contains s.local_id
  { projects := entity_report_from_states projects,
    tasks := entity_report_from_states tasks,
    pr_merges := entity_report_from_states pr_merges,
    workspaces := entity_report_from_states workspaces,
    warnings := [] }

end MigrationService

/-! ### Concrete fixtures used to instantiate the theorems -/

/-- A well-behaved remote client: assigns consecutive remote ids from 100. -/
def wClient : RemoteClient :=
  { projectsResponse := fun reqs => .ok ((List.range reqs.length).map (100 + ·)),
    issuesResponse := fun reqs => .ok ((List.range reqs.length).map (200 + ·)),
    pullRequestsResponse := fun reqs => .ok ((List.range reqs.length).map (300 + ·)),
    workspacesResponse := fun reqs => .ok ((List.range reqs.length).map (400 + ·)) }

/-- A remote client whose issue endpoint returns no ids at all. -/
def wShortClient : RemoteClient :=
  { projectsResponse := fun reqs => .ok ((List.range reqs.length).map (100 + ·)),
    issuesResponse := fun _ => .ok [],
    pullRequestsResponse := fun reqs => .ok ((List.range reqs.length).map (300 + ·)),
    workspacesResponse := fun reqs => .ok ((List.range reqs.length).map (400 + ·)) }

/-- A remote client whose issue endpoint fails. -/
def wIssuesDownClient : RemoteClient :=
  { projectsResponse := fun reqs => .ok ((List.range reqs.length).map (100 + ·)),
    issuesResponse := fun _ => .error "boom",
    pullRequestsResponse := fun reqs => .ok ((List.range reqs.length).map (300 + ·)),
    workspacesResponse := fun reqs => .ok ((List.range reqs.length).map (400 + ·)) }

def wProject : Project := ⟨1, "p", 0, none⟩

def wTask : Task := ⟨2, 1, "t", none, .todo, 0⟩

/-- A task whose project (7) is outside every selected set used below. -/
def wTask2 : Task := ⟨3, 7, "u", none, .done, 0⟩

def wWorkspace : Workspace := ⟨4, 2, false, 0⟩

def wPrMerge : PrMerge := ⟨5, 4, "main", ⟨"http://x", 1, .merged, none, none⟩⟩

/-- A state row recording project 1 as already migrated to remote id 5. -/
def wProjRow : MigrationRow := ⟨.project, 1, some 5, .migrated, none, 0⟩

def wDb : Db := ⟨[wProject], [wTask, wTask2], [wPrMerge], [wWorkspace], []⟩

/-- A database whose store already has project 1 migrated. -/
def wDbP : Db := ⟨[wProject], [wTask, wTask2], [], [], [wProjRow]⟩

/-- A function is key-preserving when it changes neither `entity_type` nor
`local_id` of a row. -/
def keyPreserving (f : MigrationRow → MigrationRow) : Prop :=
  ∀ r, (f r).entity_type = r.entity_type ∧ (f r).local_id = r.local_id

/-- No new `failed` rows: every `failed` row of the evolved table is an
unchanged row of the original table (at the same position). -/
def noNewFailed (s s' : Store) : Prop :=
  ∀ i : Fin s'.length, (s'.get i).status = MigrationStatus.failed →
    ∃ h : i.val < s.length, s'.get i = s.get ⟨i.val, h⟩

/-- Every key that had a row still has one. -/
def rowsRetained (s s' : Store) : Prop :=
  ∀ et lid, (MigrationState.find_by_entity s et lid).isSome →
    (MigrationState.find_by_entity s' et lid).isSome

/-- The store evolution relation every step of a migration run satisfies. -/
def storeEvolves (s s' : Store) : Prop := noNewFailed s s' ∧ rowsRetained s s'

/-- No row of the table is `failed`. -/
def noFailed (s : Store) : Prop :=
  ∀ i : Fin s.length, (s.get i).status ≠ MigrationStatus.failed

/-- Every `migrated` row carries a remote id (the invariant of spec §3). -/
def storeInv (s : Store) : Prop :=
  ∀ r ∈ s, r.status = MigrationStatus.migrated → r.remote_id.isSome

/-- The key has a state row and that row is `migrated` — exactly the
condition under which the pre-filter of a phase skips a record. -/
def rowMigratedP (s : Store) (et : EntityType) (lid : Uuid) : Prop :=
  ∃ r, MigrationState.find_by_entity s et lid = some r ∧
    r.status = MigrationStatus.migrated

/-- Number of records in one bulk payload (one request per record). -/
def payloadLen : RemoteCallPayload → Nat
  | .projects reqs => reqs.length
  | .issues reqs => reqs.length
  | .pullRequests reqs => reqs.length
  | .workspaces reqs => reqs.length

/-- Modelled from the spec (§4.3, the remote client contract): a successful
bulk create answers with exactly one remote id per submitted request. -/
def RemoteClient.honest (client : RemoteClient) : Prop :=
  ∀ payload ids, RemoteClient.call client payload = Except.ok ids →
    ids.length = payloadLen payload

/-- The dependency lookup of `resolvePrMerges`: the remote issue id reached
through the merge's workspace. -/
def prMergeDep (d : Db) (m : PrMerge) : Option Uuid :=
  match Workspace.find_by_id d m.workspace_id with
  | some ws => MigrationState.get_remote_id d.migration_state .task ws.task_id
  | none => none

/-- A workspace fails one of the three dependency checks of
`resolveWorkspaces` (owning task missing, its project not migrated, or the
task itself not migrated). -/
def workspaceDead (d : Db) (w : Workspace) : Prop :=
  match Task.find_by_id d w.task_id with
  | none => True
  | some task =>
    MigrationState.get_remote_id d.migration_state .project task.project_id = none ∨
    MigrationState.get_remote_id d.migration_state .task w.task_id = none

/-- The operation alphabet of the state store (spec §4.1). -/
inductive StoreOp where
  | createOp (et : EntityType) (lid : Uuid)
  | upsertOp (et : EntityType) (lid : Uuid)
  | markMigratedOp (et : EntityType) (lid : Uuid) (rid : Uuid)
  | markFailedOp (et : EntityType) (lid : Uuid) (msg : String)
  | markSkippedOp (et : EntityType) (lid : Uuid) (reason : String)
  | resetFailedOp
deriving DecidableEq, Repr

/-- Table state after one operation (a failed `create` — key conflict — is a
SQL error and leaves the table unchanged). -/
def applyOp (op : StoreOp) (s : Store) : Store :=
  match op with
  | .createOp et lid =>
    match MigrationState.create s et lid with
    | some s2 => s2
    | none => s
  | .upsertOp et lid => MigrationState.upsert s et lid
  | .markMigratedOp et lid rid => MigrationState.mark_migrated s et lid rid
  | .markFailedOp et lid msg => MigrationState.mark_failed s et lid msg
  | .markSkippedOp et lid reason => MigrationState.mark_skipped s et lid reason
  | .resetFailedOp => MigrationState.reset_failed s

/-! ### Basic lemmas about the state-store operations -/

theorem rowMatches_eq_true {et : EntityType} {lid : Uuid} {r : MigrationRow} :
    rowMatches et lid r = true ↔ r.entity_type = et ∧ r.local_id = lid := by
  simp [rowMatches]

theorem rowMatches_eq_false {et : EntityType} {lid : Uuid} {r : MigrationRow} :
    rowMatches et lid r = false ↔ ¬(r.entity_type = et ∧ r.local_id = lid) := by
  rw [← Bool.not_eq_true, rowMatches_eq_true]

/-- `find?` ignores a pointwise map that fixes every hit of the predicate and
preserves the predicate everywhere. -/
theorem find?_map_invariant {p : α → Bool} {g : α → α} (l : List α)
    (hp : ∀ x, p (g x) = p x) (hfix : ∀ x, p x = true → g x = x) :
    (l.map g).find? p = l.find? p := by
  induction l with
  | nil => rfl
  | cons x xs ih =>
    by_cases hx : p x = true
    · simp [List.find?, hp, hx, hfix x hx]
    · have hx' : p x = false := by revert hx; cases p x <;> simp
      simp [List.find?, hp, hx', ih]

theorem keyPreserving_rowMatches {f : MigrationRow → MigrationRow}
    (hf : keyPreserving f) (et : EntityType) (lid : Uuid) (r : MigrationRow) :
    rowMatches et lid (f r) = rowMatches et lid r := by
  simp [rowMatches, (hf r).1, (hf r).2]

theorem keyPreserving_migrated (rid : Uuid) :
    keyPreserving (fun r => { r with status := MigrationStatus.migrated, remote_id := some rid, error_message := none }) :=
  fun _ => ⟨rfl, rfl⟩

theorem keyPreserving_skipped (m : String) :
    keyPreserving (fun r => { r with status := MigrationStatus.skipped, error_message := some m }) :=
  fun _ => ⟨rfl, rfl⟩

theorem keyPreserving_failed (m : String) :
    keyPreserving (fun r => { r with status := MigrationStatus.failed, error_message := some m, attempt_count := r.attempt_count + 1 }) :=
  fun _ => ⟨rfl, rfl⟩

namespace MigrationState

theorem find_by_entity_updateRows_self {f : MigrationRow → MigrationRow}
    (hf : keyPreserving f) (s : Store) (et : EntityType) (lid : Uuid) :
    find_by_entity (updateRows et lid f s) et lid = (find_by_entity s et lid).map f := by
  unfold find_by_entity updateRows
  induction s with
  | nil => rfl
  | cons r rs ih =>
    by_cases hr : rowMatches et lid r = true
    · simp [List.find?, hr, keyPreserving_rowMatches hf]
    · have hr' : rowMatches et lid r = false := by revert hr; cases rowMatches et lid r <;> simp
      simp [List.find?, hr', ih]

/-- A row whose key is `(et, lid)` does not match a different key. -/
theorem rowMatches_false_of_ne {et et' : EntityType} {lid lid' : Uuid} {r : MigrationRow}
    (h : ¬(et' = et ∧ lid' = lid)) (h1 : r.entity_type = et) (h2 : r.local_id = lid) :
    rowMatches et' lid' r = false := by
  apply rowMatches_eq_false.mpr
  rintro ⟨c1, c2⟩
  exact h ⟨c1.symm.trans h1, c2.symm.trans h2⟩

theorem find_by_entity_updateRows_other {f : MigrationRow → MigrationRow}
    (hf : keyPreserving f) (s : Store) {et et' : EntityType} {lid lid' : Uuid}
    (h : ¬(et' = et ∧ lid' = lid)) :
    find_by_entity (updateRows et lid f s) et' lid' = find_by_entity s et' lid' := by
  unfold find_by_entity updateRows
  apply find?_map_invariant
  · intro r
    by_cases hr : rowMatches et lid r = true
    · obtain ⟨h1, h2⟩ := rowMatches_eq_true.mp hr
      have e1 : rowMatches et' lid' r = false := rowMatches_false_of_ne h h1 h2
      have e2 : rowMatches et' lid' (f r) = false :=
        rowMatches_false_of_ne h ((hf r).1.trans h1) ((hf r).2.trans h2)
      simp [hr, e1, e2]
    · have hr' : rowMatches et lid r = false := by revert hr; cases rowMatches et lid r <;> simp
      simp [hr']
  · intro r hr
    obtain ⟨h1, h2⟩ := rowMatches_eq_true.mp hr
    have : rowMatches et lid r = false := by
      apply rowMatches_eq_false.mpr
      rintro ⟨c1, c2⟩
      exact h ⟨h1.symm.trans c1, h2.symm.trans c2⟩
    simp [this]

/-- When the first row of a key is `migrated`, `get_remote_id` returns its
remote id. -/
theorem get_remote_id_of_find {s : Store} {et : EntityType} {lid : Uuid}
    {r : MigrationRow} (h : find_by_entity s et lid = some r)
    (hst : r.status = MigrationStatus.migrated) :
    get_remote_id s et lid = r.remote_id := by
  unfold find_by_entity at h
  unfold get_remote_id
  induction s with
  | nil => simp at h
  | cons x xs ih =>
    by_cases hx : rowMatches et lid x = true
    · simp only [List.find?, hx] at h
      injection h with h
      subst h
      have hp : (rowMatches et lid x && x.status == MigrationStatus.migrated) = true := by
        rw [Bool.and_eq_true]
        exact ⟨hx, by rw [hst]; simp⟩
      simp [List.find?, hp]
    · have hx' : rowMatches et lid x = false := by revert hx; cases rowMatches et lid x <;> simp
      simp only [List.find?, hx'] at h
      have hp : (rowMatches et lid x && x.status == MigrationStatus.migrated) = false := by
        rw [hx']
        simp
      simp only [List.find?, hp]
      exact ih h

/-- Every row the predicate of `get_remote_id` accepts matches the key. -/
theorem get_remote_id_eq_none_of_all {s : Store} {et : EntityType} {lid : Uuid}
    (h : ∀ x ∈ s, (rowMatches et lid x && x.status == MigrationStatus.migrated) = false) :
    get_remote_id s et lid = none := by
  unfold get_remote_id
  have : s.find? (fun r => rowMatches et lid r && r.status == MigrationStatus.migrated)
      = none := by
    rw [List.find?_eq_none]
    intro x hx
    rw [h x hx]
    simp
  rw [this]

/-- After `mark_skipped` on a key, `get_remote_id` for that key is `none`
(every row of the key now has status `skipped`). -/
theorem get_remote_id_mark_skipped_self (s : Store) (et : EntityType) (lid : Uuid)
    (m : String) : get_remote_id (mark_skipped s et lid m) et lid = none := by
  apply get_remote_id_eq_none_of_all
  intro x hx
  unfold mark_skipped updateRows at hx
  obtain ⟨y, hy, rfl⟩ := List.mem_map.mp hx
  by_cases hr : rowMatches et lid y = true
  · simp [hr]
  · have hr' : rowMatches et lid y = false := by revert hr; cases rowMatches et lid y <;> simp
    simp [hr']

/-- After `mark_migrated` on a key, `get_remote_id` of that key is the stored
remote id as soon as the key has a row at all. -/
theorem get_remote_id_mark_migrated_self (s : Store) (et : EntityType) (lid : Uuid)
    (rid : Uuid) (h : (find_by_entity s et lid).isSome) :
    get_remote_id (mark_migrated s et lid rid) et lid = some rid := by
  obtain ⟨r, hr⟩ := Option.isSome_iff_exists.mp h
  have h3 : find_by_entity (mark_migrated s et lid rid) et lid = some ({ r with status := MigrationStatus.migrated, remote_id := some rid, error_message := none } : MigrationRow) := by
    unfold mark_migrated
    rw [find_by_entity_updateRows_self (keyPreserving_migrated rid) s et lid, hr]
    rfl
  rw [get_remote_id_of_find h3 rfl]

/-- `updateRows` on one key leaves `get_remote_id` of every other key alone. -/
theorem get_remote_id_updateRows_other {f : MigrationRow → MigrationRow}
    (hf : keyPreserving f) (s : Store) {et et' : EntityType} {lid lid' : Uuid}
    (h : ¬(et' = et ∧ lid' = lid)) :
    get_remote_id (updateRows et lid f s) et' lid' = get_remote_id s et' lid' := by
  unfold get_remote_id updateRows
  rw [find?_map_invariant]
  · intro r
    by_cases hr : rowMatches et lid r = true
    · obtain ⟨h1, h2⟩ := rowMatches_eq_true.mp hr
      have e1 : rowMatches et' lid' r = false := rowMatches_false_of_ne h h1 h2
      have e2 : rowMatches et' lid' (f r) = false :=
        rowMatches_false_of_ne h ((hf r).1.trans h1) ((hf r).2.trans h2)
      simp [hr, e1, e2]
    · have hr' : rowMatches et lid r = false := by revert hr; cases rowMatches et lid r <;> simp
      simp [hr']
  · intro r hr
    rw [Bool.and_eq_true] at hr
    obtain ⟨h1, h2⟩ := rowMatches_eq_true.mp hr.1
    have : rowMatches et lid r = false := by
      apply rowMatches_eq_false.mpr
      rintro ⟨c1, c2⟩
      exact h ⟨h1.symm.trans c1, h2.symm.trans c2⟩
    simp [this]

/-- `upsert` is the identity when the key already has a row. -/
theorem upsert_of_found {s : Store} {et : EntityType} {lid : Uuid}
    (h : (find_by_entity s et lid).isSome) : upsert s et lid = s := by
  unfold upsert
  have : s.any (rowMatches et lid) = true := by
    rcases Option.isSome_iff_exists.mp h with ⟨r, hr⟩
    rcases List.find?_some hr with hpr
    exact List.any_eq_true.mpr ⟨r, List.mem_of_find?_eq_some hr, hpr⟩
  simp [this]

/-- After `upsert`, the key always has a row. -/
theorem find_by_entity_upsert_isSome (s : Store) (et : EntityType) (lid : Uuid) :
    (find_by_entity (upsert s et lid) et lid).isSome := by
  unfold upsert
  by_cases h : s.any (rowMatches et lid) = true
  · rcases List.any_eq_true.mp h with ⟨r, hmem, hpr⟩
    simp only [h, if_true]
    unfold find_by_entity
    rcases List.find?_isSome.mpr ⟨r, hmem, hpr⟩ with h2
    exact h2
  · have h' : s.any (rowMatches et lid) = false := by
      revert h; cases s.any (rowMatches et lid) <;> simp
    simp only [h', Bool.false_eq_true, if_false]
    unfold find_by_entity
    rw [List.find?_append]
    have hnone : s.find? (rowMatches et lid) = none := by
      rw [List.find?_eq_none]
      intro x hx hpx
      have hany : s.any (rowMatches et lid) = true := List.any_eq_true.mpr ⟨x, hx, hpx⟩
      rw [hany] at h'
      simp at h'
    rw [hnone]
    have : rowMatches et lid (newRow et lid) = true := by
      rw [rowMatches_eq_true]; exact ⟨rfl, rfl⟩
    simp [List.find?, this]

/-- `upsert` never disturbs an existing row lookup. -/
theorem find_by_entity_upsert_of_found {s : Store} {et' : EntityType} {lid' : Uuid}
    {r : MigrationRow} (h : find_by_entity s et' lid' = some r)
    (et : EntityType) (lid : Uuid) :
    find_by_entity (upsert s et lid) et' lid' = some r := by
  unfold upsert
  by_cases hc : s.any (rowMatches et lid) = true
  · simp [hc, h]
  · have hc' : s.any (rowMatches et lid) = false := by
      revert hc; cases s.any (rowMatches et lid) <;> simp
    simp only [hc', Bool.false_eq_true, if_false]
    unfold find_by_entity at h ⊢
    rw [List.find?_append, h]
    rfl

/-- `upsert` leaves lookups of absent other keys absent. -/
theorem find_by_entity_upsert_other {s : Store} {et et' : EntityType} {lid lid' : Uuid}
    (h : ¬(et' = et ∧ lid' = lid)) :
    find_by_entity (upsert s et lid) et' lid' = find_by_entity s et' lid' := by
  unfold upsert
  by_cases hc : s.any (rowMatches et lid) = true
  · simp [hc]
  · have hc' : s.any (rowMatches et lid) = false := by
      revert hc; cases s.any (rowMatches et lid) <;> simp
    simp only [hc', Bool.false_eq_true, if_false]
    unfold find_by_entity
    rw [List.find?_append]
    cases hf : s.find? (rowMatches et' lid') with
    | some r => rfl
    | none =>
      have : rowMatches et' lid' (newRow et lid) = false := by
        apply rowMatches_eq_false.mpr
        intro hcon
        exact h ⟨hcon.1.symm, hcon.2.symm⟩
      simp [List.find?, this]

/-- `upsert` never changes `get_remote_id` (the new row is `pending`). -/
theorem get_remote_id_upsert (s : Store) (et : EntityType) (lid : Uuid)
    (et' : EntityType) (lid' : Uuid) :
    get_remote_id (upsert s et lid) et' lid' = get_remote_id s et' lid' := by
  unfold upsert
  by_cases hc : s.any (rowMatches et lid) = true
  · simp [hc]
  · have hc' : s.any (rowMatches et lid) = false := by
      revert hc; cases s.any (rowMatches et lid) <;> simp
    simp only [hc', Bool.false_eq_true, if_false]
    unfold get_remote_id
    rw [List.find?_append]
    cases hf : s.find? (fun r => rowMatches et' lid' r && r.status == .migrated) with
    | some r => rfl
    | none =>
      have : (rowMatches et' lid' (newRow et lid) &&
          (newRow et lid).status == MigrationStatus.migrated) = false := by
        simp [newRow]
      simp [List.find?, this]

end MigrationState

/-! ### Lemmas on the state-store invariant (C7) -/

theorem storeInv_nil : storeInv [] := by
  intro r hr
  simp at hr

theorem storeInv_append_newRow {s : Store} (h : storeInv s) (et : EntityType) (lid : Uuid) :
    storeInv (s ++ [MigrationState.newRow et lid]) := by
  intro r hr hst
  rcases List.mem_append.mp hr with hm | hm
  · exact h r hm hst
  · rcases List.mem_singleton.mp hm with rfl
    simp [MigrationState.newRow] at hst

theorem storeInv_applyOp (op : StoreOp) (s : Store) (h : storeInv s) :
    storeInv (applyOp op s) := by
  cases op with
  | createOp et lid =>
    unfold applyOp MigrationState.create
    by_cases hc : s.any (rowMatches et lid) = true
    · simpa [hc] using h
    · have hc' : s.any (rowMatches et lid) = false := by
        revert hc; cases s.any (rowMatches et lid) <;> simp
      simpa [hc'] using storeInv_append_newRow h et lid
  | upsertOp et lid =>
    unfold applyOp MigrationState.upsert
    by_cases hc : s.any (rowMatches et lid) = true
    · simpa [hc] using h
    · have hc' : s.any (rowMatches et lid) = false := by
        revert hc; cases s.any (rowMatches et lid) <;> simp
      simpa [hc'] using storeInv_append_newRow h et lid
  | markMigratedOp et lid rid =>
    intro r hr hst
    unfold applyOp MigrationState.mark_migrated MigrationState.updateRows at hr
    obtain ⟨y, hy, rfl⟩ := List.mem_map.mp hr
    by_cases hm : rowMatches et lid y = true
    · simp [hm]
    · have hm' : rowMatches et lid y = false := by revert hm; cases rowMatches et lid y <;> simp
      simp only [hm', Bool.false_eq_true, if_false] at hst ⊢
      exact h y hy hst
  | markFailedOp et lid msg =>
    intro r hr hst
    unfold applyOp MigrationState.mark_failed MigrationState.updateRows at hr
    obtain ⟨y, hy, rfl⟩ := List.mem_map.mp hr
    by_cases hm : rowMatches et lid y = true
    · simp [hm] at hst
    · have hm' : rowMatches et lid y = false := by revert hm; cases rowMatches et lid y <;> simp
      simp only [hm', Bool.false_eq_true, if_false] at hst ⊢
      exact h y hy hst
  | markSkippedOp et lid reason =>
    intro r hr hst
    unfold applyOp MigrationState.mark_skipped MigrationState.updateRows at hr
    obtain ⟨y, hy, rfl⟩ := List.mem_map.mp hr
    by_cases hm : rowMatches et lid y = true
    · simp [hm] at hst
    · have hm' : rowMatches et lid y = false := by revert hm; cases rowMatches et lid y <;> simp
      simp only [hm', Bool.false_eq_true, if_false] at hst ⊢
      exact h y hy hst
  | resetFailedOp =>
    intro r hr hst
    unfold applyOp MigrationState.reset_failed at hr
    obtain ⟨y, hy, rfl⟩ := List.mem_map.mp hr
    by_cases hm : y.status == MigrationStatus.failed
    · simp [hm] at hst
    · have hm' : (y.status == MigrationStatus.failed) = false := by
        revert hm; cases y.status == MigrationStatus.failed <;> simp
      simp only [hm', Bool.false_eq_true, if_false] at hst ⊢
      exact h y hy hst

theorem storeInv_foldl (ops : List StoreOp) (s : Store) (h : storeInv s) :
    storeInv (ops.foldl (fun t op => applyOp op t) s) := by
  induction ops generalizing s with
  | nil => exact h
  | cons op rest ih => exact ih _ (storeInv_applyOp op s h)

/-! ### Preservation lemmas for the batch steps -/

theorem find_isSome_updateRows {f : MigrationRow → MigrationRow} (hf : keyPreserving f)
    {s : Store} {a : EntityType} {b : Uuid}
    (h : (MigrationState.find_by_entity s a b).isSome) (et : EntityType) (lid : Uuid) :
    (MigrationState.find_by_entity (MigrationState.updateRows et lid f s) a b).isSome := by
  by_cases hk : a = et ∧ b = lid
  · obtain ⟨rfl, rfl⟩ := hk
    rw [MigrationState.find_by_entity_updateRows_self hf]
    obtain ⟨r, hr⟩ := Option.isSome_iff_exists.mp h
    rw [hr]
    rfl
  · rw [MigrationState.find_by_entity_updateRows_other hf _ hk]
    exact h

theorem find_isSome_upsert {s : Store} {a : EntityType} {b : Uuid}
    (h : (MigrationState.find_by_entity s a b).isSome) (et : EntityType) (lid : Uuid) :
    (MigrationState.find_by_entity (MigrationState.upsert s et lid) a b).isSome := by
  obtain ⟨r, hr⟩ := Option.isSome_iff_exists.mp h
  rw [MigrationState.find_by_entity_upsert_of_found hr et lid]
  rfl

/-- `upsert` on an absent key appends the fresh `pending` row. -/
theorem find_by_entity_upsert_none {s : Store} {et : EntityType} {lid : Uuid}
    (h : MigrationState.find_by_entity s et lid = none) :
    MigrationState.find_by_entity (MigrationState.upsert s et lid) et lid =
      some (MigrationState.newRow et lid) := by
  unfold MigrationState.upsert
  have hany : s.any (rowMatches et lid) = false := by
    cases hb : s.any (rowMatches et lid)
    · rfl
    · rcases List.any_eq_true.mp hb with ⟨r, hmem, hpr⟩
      unfold MigrationState.find_by_entity at h
      rw [List.find?_eq_none] at h
      exact absurd hpr (h r hmem)
  simp only [hany, Bool.false_eq_true, if_false]
  unfold MigrationState.find_by_entity at h ⊢
  rw [List.find?_append, h]
  have : rowMatches et lid (MigrationState.newRow et lid) = true := by
    rw [rowMatches_eq_true]
    exact ⟨rfl, rfl⟩
  simp [List.find?, this]

namespace MigrationService

theorem upsertAll_find_of_found {s : Store} {a : EntityType} {b : Uuid} {r : MigrationRow}
    (h : MigrationState.find_by_entity s a b = some r) (et : EntityType) (lids : List Uuid) :
    MigrationState.find_by_entity (upsertAll et lids s) a b = some r := by
  induction lids generalizing s with
  | nil => exact h
  | cons l rest ih =>
    unfold upsertAll
    exact ih (MigrationState.find_by_entity_upsert_of_found h et l)

theorem find_isSome_upsertAll {s : Store} {a : EntityType} {b : Uuid}
    (h : (MigrationState.find_by_entity s a b).isSome) (et : EntityType) (lids : List Uuid) :
    (MigrationState.find_by_entity (upsertAll et lids s) a b).isSome := by
  obtain ⟨r, hr⟩ := Option.isSome_iff_exists.mp h
  rw [upsertAll_find_of_found hr et lids]
  rfl

/-- After the upsert loop, every upserted key has a row. -/
theorem upsertAll_mem_isSome (et : EntityType) (lids : List Uuid) (s : Store)
    {lid : Uuid} (h : lid ∈ lids) :
    (MigrationState.find_by_entity (upsertAll et lids s) et lid).isSome := by
  induction lids generalizing s with
  | nil => simp at h
  | cons l rest ih =>
    unfold upsertAll
    rcases List.mem_cons.mp h with rfl | hmem
    · exact find_isSome_upsertAll (MigrationState.find_by_entity_upsert_isSome s et lid) et rest
    · exact ih _ hmem

theorem get_remote_id_upsertAll (et : EntityType) (lids : List Uuid) (s : Store)
    (a : EntityType) (b : Uuid) :
    MigrationState.get_remote_id (upsertAll et lids s) a b =
      MigrationState.get_remote_id s a b := by
  induction lids generalizing s with
  | nil => rfl
  | cons l rest ih =>
    unfold upsertAll
    rw [ih, MigrationState.get_remote_id_upsert]

/-- The task resolution loop never loses a state row. -/
theorem resolveTasks_find_isSome (ts : List Task) (d : Db) (rep : MigrationReport)
    {a : EntityType} {b : Uuid}
    (h : (MigrationState.find_by_entity d.migration_state a b).isSome) :
    (MigrationState.find_by_entity (resolveTasks ts d rep).db.migration_state a b).isSome := by
  induction ts generalizing d rep with
  | nil => exact h
  | cons task rest ih =>
    unfold resolveTasks
    cases hdep : MigrationState.get_remote_id d.migration_state .project task.project_id with
    | some pid =>
      simp only [hdep]
      exact ih d rep h
    | none =>
      simp only [hdep]
      exact ih _ _ (find_isSome_updateRows (keyPreserving_skipped _) h .task task.id)

/-- The upsert loop creates the fresh `pending` row for an absent key. -/
theorem upsertAll_find_none_mem {s : Store} {et : EntityType} {lid : Uuid}
    (h : MigrationState.find_by_entity s et lid = none) (lids : List Uuid)
    (hmem : lid ∈ lids) :
    MigrationState.find_by_entity (upsertAll et lids s) et lid =
      some (MigrationState.newRow et lid) := by
  induction lids generalizing s with
  | nil => simp at hmem
  | cons l rest ih =>
    unfold upsertAll
    rcases List.mem_cons.mp hmem with rfl | hmem2
    · exact upsertAll_find_of_found (find_by_entity_upsert_none h) et rest
    · by_cases hk : lid = l
      · subst hk
        exact upsertAll_find_of_found (find_by_entity_upsert_none h) et rest
      · have : MigrationState.find_by_entity (MigrationState.upsert s et l) et lid = none := by
          rw [MigrationState.find_by_entity_upsert_other (by rintro ⟨_, h2⟩; exact hk h2)]
          exact h
        exact ih this hmem2

/-- The store never changes for entity types other than `.project` during the
upsert loop keyed on another entity, nor for local ids outside the loop: the
general untouched-key lemma for `upsertAll`. -/
theorem upsertAll_find_not_mem {s : Store} {a et : EntityType} {b : Uuid}
    (lids : List Uuid) (h : a ≠ et ∨ b ∉ lids) :
    MigrationState.find_by_entity (upsertAll et lids s) a b =
      MigrationState.find_by_entity s a b := by
  induction lids generalizing s with
  | nil => rfl
  | cons l rest ih =>
    unfold upsertAll
    have hne : ¬(a = et ∧ b = l) := by
      rintro ⟨rfl, rfl⟩
      rcases h with h | h
      · exact h rfl
      · exact h (List.mem_cons_self _ _)
    have hrest : a ≠ et ∨ b ∉ rest := by
      rcases h with h | h
      · exact Or.inl h
      · exact Or.inr fun hmem => h (List.mem_cons_of_mem _ hmem)
    rw [ih hrest, MigrationState.find_by_entity_upsert_other hne]

/-- The submitted local ids of the task loop form a sublist of the batch's
task ids, in batch order. -/
theorem resolveTasks_local_ids_sublist (ts : List Task) (d : Db) (rep : MigrationReport) :
    (resolveTasks ts d rep).local_ids.Sublist (ts.map Task.id) := by
  induction ts generalizing d rep with
  | nil => simp [resolveTasks]
  | cons task rest ih =>
    unfold resolveTasks
    cases hdep : MigrationState.get_remote_id d.migration_state .project task.project_id with
    | some pid =>
      simp only [hdep]
      exact List.Sublist.cons₂ _ (ih d rep)
    | none =>
      simp only [hdep]
      exact List.Sublist.cons _ (ih _ _)

/-- The task loop issues one request per submitted id. -/
theorem resolveTasks_requests_length (ts : List Task) (d : Db) (rep : MigrationReport) :
    (resolveTasks ts d rep).requests.length = (resolveTasks ts d rep).local_ids.length := by
  induction ts generalizing d rep with
  | nil => rfl
  | cons task rest ih =>
    unfold resolveTasks
    cases hdep : MigrationState.get_remote_id d.migration_state .project task.project_id with
    | some pid =>
      simp only [hdep, List.length_cons]
      rw [ih d rep]
    | none =>
      simp only [hdep]
      exact ih _ _

/-- The task loop touches no state row outside the `.task` rows of the batch. -/
theorem resolveTasks_find_untouched (ts : List Task) (d : Db) (rep : MigrationReport)
    {a : EntityType} {b : Uuid} (h : a ≠ .task ∨ b ∉ ts.map Task.id) :
    MigrationState.find_by_entity (resolveTasks ts d rep).db.migration_state a b =
      MigrationState.find_by_entity d.migration_state a b := by
  induction ts generalizing d rep with
  | nil => rfl
  | cons task rest ih =>
    have hrest : a ≠ EntityType.task ∨ b ∉ rest.map Task.id := by
      rcases h with h | h
      · exact Or.inl h
      · exact Or.inr fun hmem => h (by simpa using List.mem_cons_of_mem _ hmem)
    have hne : ¬(a = EntityType.task ∧ b = task.id) := by
      rintro ⟨rfl, rfl⟩
      rcases h with h | h
      · exact h rfl
      · exact h (by simp)
    unfold resolveTasks
    cases hdep : MigrationState.get_remote_id d.migration_state .project task.project_id with
    | some pid =>
      simp only [hdep]
      exact ih d rep hrest
    | none =>
      simp only [hdep]
      rw [ih _ _ hrest]
      exact MigrationState.find_by_entity_updateRows_other (keyPreserving_skipped _) _ hne

/-- The task loop leaves the rows of the ids it submits untouched. -/
theorem resolveTasks_find_submitted (ts : List Task) (d : Db) (rep : MigrationReport)
    {b : Uuid} (hb : b ∈ (resolveTasks ts d rep).local_ids)
    (hnodup : (ts.map Task.id).Nodup) :
    MigrationState.find_by_entity (resolveTasks ts d rep).db.migration_state .task b =
      MigrationState.find_by_entity d.migration_state .task b := by
  induction ts generalizing d rep with
  | nil => simp [resolveTasks] at hb
  | cons task rest ih =>
    have hhead : task.id ∉ rest.map Task.id := by
      simp only [List.map_cons, List.nodup_cons] at hnodup
      exact hnodup.1
    have htail : (rest.map Task.id).Nodup := by
      simp only [List.map_cons, List.nodup_cons] at hnodup
      exact hnodup.2
    unfold resolveTasks at hb ⊢
    cases hdep : MigrationState.get_remote_id d.migration_state .project task.project_id with
    | some pid =>
      simp only [hdep] at hb ⊢
      rcases List.mem_cons.mp hb with rfl | hmem
      · exact resolveTasks_find_untouched rest d rep (Or.inr hhead)
      · exact ih d rep hmem htail
    | none =>
      simp only [hdep] at hb ⊢
      have hbrest : b ∈ rest.map Task.id :=
        (resolveTasks_local_ids_sublist rest _ _).mem hb
      have hbne : ¬(EntityType.task = EntityType.task ∧ b = task.id) := by
        rintro ⟨-, rfl⟩
        exact hhead hbrest
      rw [ih _ _ hb htail]
      exact MigrationState.find_by_entity_updateRows_other (keyPreserving_skipped _) _ hbne

/-- The recording loop of the task batch: rows of other keys are untouched. -/
theorem commitTasks_find_other (pairs : List (Uuid × Uuid)) (d : Db) (rep : MigrationReport)
    {a : EntityType} {b : Uuid} (h : a ≠ .task ∨ b ∉ pairs.map Prod.fst) :
    MigrationState.find_by_entity (commitTasks pairs d rep).1.migration_state a b =
      MigrationState.find_by_entity d.migration_state a b := by
  induction pairs generalizing d rep with
  | nil => rfl
  | cons pr rest ih =>
    obtain ⟨tid, rid⟩ := pr
    have hrest : a ≠ EntityType.task ∨ b ∉ rest.map Prod.fst := by
      rcases h with h | h
      · exact Or.inl h
      · exact Or.inr fun hmem => h (by simpa using List.mem_cons_of_mem _ hmem)
    have hne : ¬(a = EntityType.task ∧ b = tid) := by
      rintro ⟨rfl, rfl⟩
      rcases h with h | h
      · exact h rfl
      · exact h (by simp)
    unfold commitTasks
    rw [ih _ _ hrest]
    exact MigrationState.find_by_entity_updateRows_other (keyPreserving_migrated _) _ hne

/-- The recording loop of the task batch: the row of each recorded pair is
marked migrated with exactly that pair's remote id. -/
theorem commitTasks_find_mem (pairs : List (Uuid × Uuid)) (d : Db) (rep : MigrationReport)
    {tid rid : Uuid} (hmem : (tid, rid) ∈ pairs) (hnodup : (pairs.map Prod.fst).Nodup) :
    MigrationState.find_by_entity (commitTasks pairs d rep).1.migration_state .task tid =
      (MigrationState.find_by_entity d.migration_state .task tid).map
        (fun row => { row with status := MigrationStatus.migrated, remote_id := some rid, error_message := none }) := by
  induction pairs generalizing d rep with
  | nil => simp at hmem
  | cons pr rest ih =>
    obtain ⟨tid0, rid0⟩ := pr
    have hhead : tid0 ∉ rest.map Prod.fst := by
      simp only [List.map_cons, List.nodup_cons] at hnodup
      exact hnodup.1
    have htail : (rest.map Prod.fst).Nodup := by
      simp only [List.map_cons, List.nodup_cons] at hnodup
      exact hnodup.2
    rcases List.mem_cons.mp hmem with heq | hmem2
    · injection heq with h1 h2
      subst h1
      subst h2
      unfold commitTasks
      rw [commitTasks_find_other rest _ _ (Or.inr hhead)]
      exact MigrationState.find_by_entity_updateRows_self (keyPreserving_migrated rid) _ .task tid
    · have hne : ¬(EntityType.task = EntityType.task ∧ tid = tid0) := by
        rintro ⟨-, rfl⟩
        exact hhead (by simpa using List.mem_map_of_mem Prod.fst hmem2)
      unfold commitTasks
      rw [ih _ _ hmem2 htail]
      dsimp only
      unfold MigrationState.mark_migrated
      rw [MigrationState.find_by_entity_updateRows_other (keyPreserving_migrated _) _ hne]

/-- The recording loop of the task batch: the report gains one `migrated`
count per recorded pair and nothing else changes. -/
theorem commitTasks_report (pairs : List (Uuid × Uuid)) (d : Db) (rep : MigrationReport) :
    (commitTasks pairs d rep).2 =
      { rep with tasks.migrated := rep.tasks.migrated + pairs.length } := by
  induction pairs generalizing d rep with
  | nil =>
    simp only [commitTasks, List.length_nil, Nat.add_zero]
  | cons pr rest ih =>
    obtain ⟨tid, rid⟩ := pr
    unfold commitTasks
    rw [ih]
    simp [Nat.add_comm, Nat.add_assoc, Nat.add_left_comm]

/-- The task loop leaves every report field except `tasks.skipped` and
`warnings` unchanged. -/
theorem resolveTasks_report_frame (ts : List Task) (d : Db) (rep : MigrationReport) :
    (resolveTasks ts d rep).report.projects = rep.projects ∧
    (resolveTasks ts d rep).report.tasks.migrated = rep.tasks.migrated ∧
    (resolveTasks ts d rep).report.tasks.total = rep.tasks.total ∧
    (resolveTasks ts d rep).report.tasks.failed = rep.tasks.failed ∧
    (resolveTasks ts d rep).report.tasks.errors = rep.tasks.errors ∧
    (resolveTasks ts d rep).report.pr_merges = rep.pr_merges ∧
    (resolveTasks ts d rep).report.workspaces = rep.workspaces := by
  induction ts generalizing d rep with
  | nil => exact ⟨rfl, rfl, rfl, rfl, rfl, rfl, rfl⟩
  | cons task rest ih =>
    unfold resolveTasks
    cases hdep : MigrationState.get_remote_id d.migration_state .project task.project_id with
    | some pid =>
      simp only [hdep]
      exact ih d rep
    | none =>
      simp only [hdep]
      exact ih _ _

end MigrationService

/-- `map Prod.fst` of a zip is the left list truncated to the right list's
length. -/
theorem map_fst_zip_eq_take (as : List α) (bs : List β) :
    (as.zip bs).map Prod.fst = as.take bs.length := by
  induction as generalizing bs with
  | nil => simp
  | cons a as ih =>
    cases bs with
    | nil => simp
    | cons b bs => simp [List.zip_cons_cons, ih]

namespace MigrationService

/-- The empty-requests early return of the task batch tail. -/
theorem taskBatchFinish_empty (client : RemoteClient) (r : Resolved MigrateIssueRequest)
    (h : r.requests.isEmpty = true) :
    taskBatchFinish client r = (.ok (), r.db, r.report, []) := by
  unfold taskBatchFinish
  simp [h]

/-- The error arm of the task batch tail. -/
theorem taskBatchFinish_error (client : RemoteClient) (r : Resolved MigrateIssueRequest)
    {e : String} (h : r.requests.isEmpty = false)
    (hcall : client.call (.issues r.requests) = .error e) :
    taskBatchFinish client r =
      (.error (.remoteClient e), r.db, r.report,
        [⟨.issues r.requests, r.local_ids, r.db.migration_state⟩]) := by
  unfold taskBatchFinish
  rw [h]
  simp only [Bool.false_eq_true, if_false]
  rw [hcall]

/-- The success arm of the task batch tail. -/
theorem taskBatchFinish_ok (client : RemoteClient) (r : Resolved MigrateIssueRequest)
    {ids : List Uuid} (h : r.requests.isEmpty = false)
    (hcall : client.call (.issues r.requests) = .ok ids) :
    taskBatchFinish client r =
      (.ok (), (commitTasks (r.local_ids.zip ids) r.db r.report).1,
        (commitTasks (r.local_ids.zip ids) r.db r.report).2,
        [⟨.issues r.requests, r.local_ids, r.db.migration_state⟩]) := by
  unfold taskBatchFinish
  rw [h]
  simp only [Bool.false_eq_true, if_false]
  rw [hcall]

/-- The PR-merge resolution loop never loses a state row. -/
theorem resolvePrMerges_find_isSome (ms : List PrMerge) (d : Db) (rep : MigrationReport)
    {a : EntityType} {b : Uuid}
    (h : (MigrationState.find_by_entity d.migration_state a b).isSome) :
    (MigrationState.find_by_entity (resolvePrMerges ms d rep).db.migration_state a b).isSome := by
  induction ms generalizing d rep with
  | nil => exact h
  | cons pm rest ih =>
    unfold resolvePrMerges
    cases hdep : (match Workspace.find_by_id d pm.workspace_id with
      | some ws => MigrationState.get_remote_id d.migration_state .task ws.task_id
      | none => none : Option Uuid) with
    | some iid =>
      simp only [hdep]
      exact ih d rep h
    | none =>
      simp only [hdep]
      exact ih _ _ (find_isSome_updateRows (keyPreserving_skipped _) h .prMerge pm.id)

/-- The workspace resolution loop never loses a state row. -/
theorem resolveWorkspaces_find_isSome (ws : List Workspace) (d : Db) (rep : MigrationReport)
    {a : EntityType} {b : Uuid}
    (h : (MigrationState.find_by_entity d.migration_state a b).isSome) :
    (MigrationState.find_by_entity (resolveWorkspaces ws d rep).db.migration_state a b).isSome := by
  induction ws generalizing d rep with
  | nil => exact h
  | cons w rest ih =>
    unfold resolveWorkspaces
    cases htask : Task.find_by_id d w.task_id with
    | none =>
      simp only [htask]
      exact ih _ _ (find_isSome_updateRows (keyPreserving_skipped _) h .workspace w.id)
    | some task =>
      cases hdep : MigrationState.get_remote_id d.migration_state .project task.project_id with
      | none =>
        simp only [htask, hdep]
        exact ih _ _ (find_isSome_updateRows (keyPreserving_skipped _) h .workspace w.id)
      | some rpid =>
        cases hiss : (MigrationState.get_remote_id d.migration_state .task w.task_id).isNone with
        | true =>
          simp only [htask, hdep, hiss, if_true]
          exact ih _ _ (find_isSome_updateRows (keyPreserving_skipped _) h .workspace w.id)
        | false =>
          simp only [htask, hdep, hiss, Bool.false_eq_true, if_false]
          exact ih d rep h

/-- Every call the project batch tail issues carries the store at call time. -/
theorem projectBatchFinish_calls (client : RemoteClient) (projects : List Project)
    (requests : List MigrateProjectRequest) (report : MigrationReport) (db : Db)
    {c : RemoteCall} (hc : c ∈ (projectBatchFinish client projects requests report db).calls) :
    c = ⟨.projects requests, projects.map (·.id), db.migration_state⟩ := by
  unfold projectBatchFinish at hc
  dsimp only [] at hc
  cases hcall : client.call (.projects requests) with
  | error e =>
    rw [hcall] at hc
    simpa [StepResult.calls] using hc
  | ok ids =>
    rw [hcall] at hc
    simpa [StepResult.calls] using hc

theorem taskBatchFinish_calls (client : RemoteClient) (r : Resolved MigrateIssueRequest)
    {c : RemoteCall} (hc : c ∈ (taskBatchFinish client r).calls) :
    c = ⟨.issues r.requests, r.local_ids, r.db.migration_state⟩ := by
  unfold taskBatchFinish at hc
  dsimp only [] at hc
  by_cases hreq : r.requests.isEmpty
  · simp [hreq, StepResult.calls] at hc
  · have hreq' : r.requests.isEmpty = false := by
      revert hreq; cases r.requests.isEmpty <;> simp
    rw [hreq'] at hc
    simp only [Bool.false_eq_true, if_false] at hc
    cases hcall : client.call (.issues r.requests) with
    | error e =>
      rw [hcall] at hc
      simpa [StepResult.calls] using hc
    | ok ids =>
      rw [hcall] at hc
      simpa [StepResult.calls] using hc

theorem prMergeBatchFinish_calls (client : RemoteClient)
    (r : Resolved MigratePullRequestRequest) {c : RemoteCall}
    (hc : c ∈ (prMergeBatchFinish client r).calls) :
    c = ⟨.pullRequests r.requests, r.local_ids, r.db.migration_state⟩ := by
  unfold prMergeBatchFinish at hc
  dsimp only [] at hc
  by_cases hreq : r.requests.isEmpty
  · simp [hreq, StepResult.calls] at hc
  · have hreq' : r.requests.isEmpty = false := by
      revert hreq; cases r.requests.isEmpty <;> simp
    rw [hreq'] at hc
    simp only [Bool.false_eq_true, if_false] at hc
    cases hcall : client.call (.pullRequests r.requests) with
    | error e =>
      rw [hcall] at hc
      simpa [StepResult.calls] using hc
    | ok ids =>
      rw [hcall] at hc
      simpa [StepResult.calls] using hc

theorem workspaceBatchFinish_calls (client : RemoteClient)
    (r : Resolved MigrateWorkspaceRequest) {c : RemoteCall}
    (hc : c ∈ (workspaceBatchFinish client r).calls) :
    c = ⟨.workspaces r.requests, r.local_ids, r.db.migration_state⟩ := by
  unfold workspaceBatchFinish at hc
  dsimp only [] at hc
  by_cases hreq : r.requests.isEmpty
  · simp [hreq, StepResult.calls] at hc
  · have hreq' : r.requests.isEmpty = false := by
      revert hreq; cases r.requests.isEmpty <;> simp
    rw [hreq'] at hc
    simp only [Bool.false_eq_true, if_false] at hc
    cases hcall : client.call (.workspaces r.requests) with
    | error e =>
      rw [hcall] at hc
      simpa [StepResult.calls] using hc
    | ok ids =>
      rw [hcall] at hc
      simpa [StepResult.calls] using hc

/-- Spec of a successful task-batch call: the step succeeds, the migrated
counter grows by the number of zipped pairs, each zipped position's row is
marked migrated with the id at that position, and rows of submitted records
beyond the response length keep their at-call-time state. -/
theorem migrate_task_batch_ok_spec (client : RemoteClient) (tasks : List Task)
    (report : MigrationReport) (db : Db) (hnodup : (tasks.map Task.id).Nodup)
    {c : RemoteCall} (hc : c ∈ (migrate_task_batch client tasks report db).calls)
    {ids : List Uuid} (hcall : client.call c.payload = .ok ids) :
    (migrate_task_batch client tasks report db).res = .ok () ∧
    (migrate_task_batch client tasks report db).report.tasks.migrated =
      report.tasks.migrated + min c.local_ids.length ids.length ∧
    (∀ i (hi : i < c.local_ids.length) (hlt : i < ids.length),
      ∃ row, MigrationState.find_by_entity
          (migrate_task_batch client tasks report db).db.migration_state .task
          (c.local_ids.get ⟨i, hi⟩) = some row ∧
        row.status = MigrationStatus.migrated ∧ row.remote_id = some (ids.get ⟨i, hlt⟩)) ∧
    (∀ i (hi : i < c.local_ids.length), ids.length ≤ i →
      MigrationState.find_by_entity
          (migrate_task_batch client tasks report db).db.migration_state .task
          (c.local_ids.get ⟨i, hi⟩) =
        MigrationState.find_by_entity c.store_at .task (c.local_ids.get ⟨i, hi⟩)) := by
  have hmb : migrate_task_batch client tasks report db =
      taskBatchFinish client (resolveTasks tasks
        { db with migration_state := upsertAll .task (tasks.map (·.id)) db.migration_state }
        report) := rfl
  set R := resolveTasks tasks
    { db with migration_state := upsertAll .task (tasks.map (·.id)) db.migration_state }
    report with hR
  have hreq : R.requests.isEmpty = false := by
    cases hb : R.requests.isEmpty
    · rfl
    · rw [hmb, taskBatchFinish_empty client R hb] at hc
      simp [StepResult.calls] at hc
  rw [hmb] at hc
  have hcc := taskBatchFinish_calls client R hc
  subst hcc
  have hcall2 : client.call (.issues R.requests) = .ok ids := hcall
  have hok := taskBatchFinish_ok client R hreq hcall2
  have hlocnodup : R.local_ids.Nodup :=
    List.Nodup.sublist (resolveTasks_local_ids_sublist tasks _ report) hnodup
  refine ⟨?_, ?_, ?_, ?_⟩
  · rw [hmb, hok]
    rfl
  · rw [hmb, hok]
    show (commitTasks (R.local_ids.zip ids) R.db R.report).2.tasks.migrated = _
    rw [commitTasks_report]
    show R.report.tasks.migrated + (R.local_ids.zip ids).length = _
    rw [(resolveTasks_report_frame tasks _ report).2.1, List.length_zip]
  · intro i hi hlt
    have hi' : i < R.local_ids.length := hi
    have hilen : i < (R.local_ids.zip ids).length := by
      rw [List.length_zip]
      exact lt_min hi' hlt
    have hp : (R.local_ids.get ⟨i, hi⟩, ids.get ⟨i, hlt⟩) ∈ R.local_ids.zip ids := by
      have hz : (R.local_ids.zip ids)[i] = (R.local_ids[i], ids[i]) :=
        List.getElem_zip
      have hmm := List.getElem_mem hilen
      rw [hz] at hmm
      simpa [List.get_eq_getElem] using hmm
    have hnodup2 : ((R.local_ids.zip ids).map Prod.fst).Nodup := by
      rw [map_fst_zip_eq_take]
      exact List.Nodup.sublist (List.take_sublist _ _) hlocnodup
    rw [hmb, hok]
    show ∃ row, MigrationState.find_by_entity
        (commitTasks (R.local_ids.zip ids) R.db R.report).1.migration_state .task
        (R.local_ids.get ⟨i, hi⟩) = some row ∧ _
    rw [commitTasks_find_mem (R.local_ids.zip ids) R.db R.report hp hnodup2]
    rw [resolveTasks_find_submitted tasks _ report (List.get_mem R.local_ids i hi) hnodup]
    have hin : R.local_ids.get ⟨i, hi⟩ ∈ tasks.map Task.id :=
      List.Sublist.mem (List.get_mem R.local_ids i hi)
        (resolveTasks_local_ids_sublist tasks _ report)
    have hrow := upsertAll_mem_isSome .task (tasks.map (·.id)) db.migration_state hin
    obtain ⟨row, hrowe⟩ := Option.isSome_iff_exists.mp hrow
    show ∃ row2, (MigrationState.find_by_entity
        (upsertAll .task (tasks.map (·.id)) db.migration_state) .task
        (R.local_ids.get ⟨i, hi⟩)).map _ = some row2 ∧ _
    rw [hrowe]
    exact ⟨_, rfl, rfl, rfl⟩
  · intro i hi hge
    have hi' : i < R.local_ids.length := hi
    have htid : R.local_ids.get ⟨i, hi⟩ ∉ (R.local_ids.zip ids).map Prod.fst := by
      rw [map_fst_zip_eq_take]
      intro hmem
      obtain ⟨j, hj, hje⟩ := List.mem_iff_getElem.mp hmem
      have hjid : j < ids.length := by
        rw [List.length_take] at hj
        omega
      have hjloc : j < R.local_ids.length := by
        rw [List.length_take] at hj
        omega
      have hjeq : R.local_ids.get ⟨j, hjloc⟩ = R.local_ids.get ⟨i, hi'⟩ := by
        rw [List.get_eq_getElem, List.get_eq_getElem]
        have htk : (R.local_ids.take ids.length)[j] = R.local_ids[j] :=
          List.getElem_take R.local_ids
        exact htk.symm.trans hje
      have hji : j = i := by
        have harg : R.local_ids[j] = R.local_ids[i] := by
          simpa [List.get_eq_getElem] using hjeq
        exact (hlocnodup.getElem_inj_iff).mp harg
      omega
    rw [hmb, hok]
    show MigrationState.find_by_entity
        (commitTasks (R.local_ids.zip ids) R.db R.report).1.migration_state .task
        (R.local_ids.get ⟨i, hi⟩) = _
    rw [commitTasks_find_other (R.local_ids.zip ids) R.db R.report (Or.inr htid)]


/-! #### The workspace-batch lemma family -/

/-- The submitted local ids of the workspace loop form a sublist of the
batch's workspace ids, in batch order. -/
theorem resolveWorkspaces_local_ids_sublist (ws : List Workspace) (d : Db)
    (rep : MigrationReport) :
    (resolveWorkspaces ws d rep).local_ids.Sublist (ws.map Workspace.id) := by
  induction ws generalizing d rep with
  | nil => simp [resolveWorkspaces]
  | cons w rest ih =>
    unfold resolveWorkspaces
    cases htask : Task.find_by_id d w.task_id with
    | none =>
      simp only [htask]
      exact List.Sublist.cons _ (ih _ _)
    | some task =>
      cases hdep : MigrationState.get_remote_id d.migration_state .project task.project_id with
      | none =>
        simp only [htask, hdep]
        exact List.Sublist.cons _ (ih _ _)
      | some rpid =>
        cases hiss : (MigrationState.get_remote_id d.migration_state .task w.task_id).isNone with
        | true =>
          simp only [htask, hdep, hiss, if_true]
          exact List.Sublist.cons _ (ih _ _)
        | false =>
          simp only [htask, hdep, hiss, Bool.false_eq_true, if_false]
          exact List.Sublist.cons₂ _ (ih d rep)

/-- The workspace loop touches no state row outside the `.workspace` rows of
the batch. -/
theorem resolveWorkspaces_find_untouched (ws : List Workspace) (d : Db)
    (rep : MigrationReport) {a : EntityType} {b : Uuid}
    (h : a ≠ .workspace ∨ b ∉ ws.map Workspace.id) :
    MigrationState.find_by_entity (resolveWorkspaces ws d rep).db.migration_state a b =
      MigrationState.find_by_entity d.migration_state a b := by
  induction ws generalizing d rep with
  | nil => rfl
  | cons w rest ih =>
    have hrest : a ≠ EntityType.workspace ∨ b ∉ rest.map Workspace.id := by
      rcases h with h | h
      · exact Or.inl h
      · exact Or.inr fun hmem => h (by simpa using List.mem_cons_of_mem _ hmem)
    have hne : ¬(a = EntityType.workspace ∧ b = w.id) := by
      rintro ⟨rfl, rfl⟩
      rcases h with h | h
      · exact h rfl
      · exact h (by simp)
    have hmark : ∀ msg rep2,
        MigrationState.find_by_entity (resolveWorkspaces rest
          { d with migration_state :=
              MigrationState.mark_skipped d.migration_state .workspace w.id msg }
          rep2).db.migration_state a b =
        MigrationState.find_by_entity d.migration_state a b := by
      intro msg rep2
      rw [ih _ _ hrest]
      exact MigrationState.find_by_entity_updateRows_other (keyPreserving_skipped _) _ hne
    unfold resolveWorkspaces
    cases htask : Task.find_by_id d w.task_id with
    | none =>
      simp only [htask]
      exact hmark _ _
    | some task =>
      cases hdep : MigrationState.get_remote_id d.migration_state .project task.project_id with
      | none =>
        simp only [htask, hdep]
        exact hmark _ _
      | some rpid =>
        cases hiss : (MigrationState.get_remote_id d.migration_state .task w.task_id).isNone with
        | true =>
          simp only [htask, hdep, hiss, if_true]
          exact hmark _ _
        | false =>
          simp only [htask, hdep, hiss, Bool.false_eq_true, if_false]
          exact ih d rep hrest

/-- The workspace loop leaves the rows of the ids it submits untouched. -/
theorem resolveWorkspaces_find_submitted (ws : List Workspace) (d : Db)
    (rep : MigrationReport) {b : Uuid} (hb : b ∈ (resolveWorkspaces ws d rep).local_ids)
    (hnodup : (ws.map Workspace.id).Nodup) :
    MigrationState.find_by_entity (resolveWorkspaces ws d rep).db.migration_state
        .workspace b =
      MigrationState.find_by_entity d.migration_state .workspace b := by
  induction ws generalizing d rep with
  | nil => simp [resolveWorkspaces] at hb
  | cons w rest ih =>
    have hhead : w.id ∉ rest.map Workspace.id := by
      simp only [List.map_cons, List.nodup_cons] at hnodup
      exact hnodup.1
    have htail : (rest.map Workspace.id).Nodup := by
      simp only [List.map_cons, List.nodup_cons] at hnodup
      exact hnodup.2
    have hmark : ∀ msg rep2,
        b ∈ (resolveWorkspaces rest
            { d with migration_state :=
                MigrationState.mark_skipped d.migration_state .workspace w.id msg }
            rep2).local_ids →
        MigrationState.find_by_entity (resolveWorkspaces rest
            { d with migration_state :=
                MigrationState.mark_skipped d.migration_state .workspace w.id msg }
            rep2).db.migration_state .workspace b =
          MigrationState.find_by_entity d.migration_state .workspace b := by
      intro msg rep2 hb2
      have hbrest : b ∈ rest.map Workspace.id :=
        (resolveWorkspaces_local_ids_sublist rest _ _).mem hb2
      have hbne : ¬(EntityType.workspace = EntityType.workspace ∧ b = w.id) := by
        rintro ⟨-, rfl⟩
        exact hhead hbrest
      rw [ih _ _ hb2 htail]
      exact MigrationState.find_by_entity_updateRows_other (keyPreserving_skipped _) _ hbne
    unfold resolveWorkspaces at hb ⊢
    cases htask : Task.find_by_id d w.task_id with
    | none =>
      simp only [htask] at hb ⊢
      exact hmark _ _ hb
    | some task =>
      cases hdep : MigrationState.get_remote_id d.migration_state .project task.project_id with
      | none =>
        simp only [htask, hdep] at hb ⊢
        exact hmark _ _ hb
      | some rpid =>
        cases hiss : (MigrationState.get_remote_id d.migration_state .task w.task_id).isNone with
        | true =>
          simp only [htask, hdep, hiss, if_true] at hb ⊢
          exact hmark _ _ hb
        | false =>
          simp only [htask, hdep, hiss, Bool.false_eq_true, if_false] at hb ⊢
          rcases List.mem_cons.mp hb with rfl | hmem
          · exact resolveWorkspaces_find_untouched rest d rep (Or.inr hhead)
          · exact ih d rep hmem htail

/-- The workspace loop leaves every report field except `workspaces.skipped`
and `warnings` unchanged. -/
theorem resolveWorkspaces_report_frame (ws : List Workspace) (d : Db)
    (rep : MigrationReport) :
    (resolveWorkspaces ws d rep).report.projects = rep.projects ∧
    (resolveWorkspaces ws d rep).report.tasks = rep.tasks ∧
    (resolveWorkspaces ws d rep).report.pr_merges = rep.pr_merges ∧
    (resolveWorkspaces ws d rep).report.workspaces.migrated = rep.workspaces.migrated ∧
    (resolveWorkspaces ws d rep).report.workspaces.total = rep.workspaces.total ∧
    (resolveWorkspaces ws d rep).report.workspaces.failed = rep.workspaces.failed ∧
    (resolveWorkspaces ws d rep).report.workspaces.errors = rep.workspaces.errors := by
  induction ws generalizing d rep with
  | nil => exact ⟨rfl, rfl, rfl, rfl, rfl, rfl, rfl⟩
  | cons w rest ih =>
    unfold resolveWorkspaces
    cases htask : Task.find_by_id d w.task_id with
    | none =>
      simp only [htask]
      exact ih _ _
    | some task =>
      cases hdep : MigrationState.get_remote_id d.migration_state .project task.project_id with
      | none =>
        simp only [htask, hdep]
        exact ih _ _
      | some rpid =>
        cases hiss : (MigrationState.get_remote_id d.migration_state .task w.task_id).isNone with
        | true =>
          simp only [htask, hdep, hiss, if_true]
          exact ih _ _
        | false =>
          simp only [htask, hdep, hiss, Bool.false_eq_true, if_false]
          exact ih d rep

/-- The recording loop of the workspace batch: rows of other keys are
untouched. -/
theorem commitWorkspaces_find_other (pairs : List (Uuid × Uuid)) (d : Db)
    (rep : MigrationReport) {a : EntityType} {b : Uuid}
    (h : a ≠ .workspace ∨ b ∉ pairs.map Prod.fst) :
    MigrationState.find_by_entity (commitWorkspaces pairs d rep).1.migration_state a b =
      MigrationState.find_by_entity d.migration_state a b := by
  induction pairs generalizing d rep with
  | nil => rfl
  | cons pr rest ih =>
    obtain ⟨wid, rid⟩ := pr
    have hrest : a ≠ EntityType.workspace ∨ b ∉ rest.map Prod.fst := by
      rcases h with h | h
      · exact Or.inl h
      · exact Or.inr fun hmem => h (by simpa using List.mem_cons_of_mem _ hmem)
    have hne : ¬(a = EntityType.workspace ∧ b = wid) := by
      rintro ⟨rfl, rfl⟩
      rcases h with h | h
      · exact h rfl
      · exact h (by simp)
    unfold commitWorkspaces
    rw [ih _ _ hrest]
    exact MigrationState.find_by_entity_updateRows_other (keyPreserving_migrated _) _ hne

/-- The recording loop of the workspace batch: each recorded pair's row is
marked migrated with exactly that pair's remote id. -/
theorem commitWorkspaces_find_mem (pairs : List (Uuid × Uuid)) (d : Db)
    (rep : MigrationReport) {wid rid : Uuid} (hmem : (wid, rid) ∈ pairs)
    (hnodup : (pairs.map Prod.fst).Nodup) :
    MigrationState.find_by_entity (commitWorkspaces pairs d rep).1.migration_state
        .workspace wid =
      (MigrationState.find_by_entity d.migration_state .workspace wid).map
        (fun row => { row with status := MigrationStatus.migrated, remote_id := some rid, error_message := none }) := by
  induction pairs generalizing d rep with
  | nil => simp at hmem
  | cons pr rest ih =>
    obtain ⟨wid0, rid0⟩ := pr
    have hhead : wid0 ∉ rest.map Prod.fst := by
      simp only [List.map_cons, List.nodup_cons] at hnodup
      exact hnodup.1
    have htail : (rest.map Prod.fst).Nodup := by
      simp only [List.map_cons, List.nodup_cons] at hnodup
      exact hnodup.2
    rcases List.mem_cons.mp hmem with heq | hmem2
    · injection heq with h1 h2
      subst h1
      subst h2
      unfold commitWorkspaces
      rw [commitWorkspaces_find_other rest _ _ (Or.inr hhead)]
      exact MigrationState.find_by_entity_updateRows_self (keyPreserving_migrated rid) _
        .workspace wid
    · have hne : ¬(EntityType.workspace = EntityType.workspace ∧ wid = wid0) := by
        rintro ⟨-, rfl⟩
        exact hhead (by simpa using List.mem_map_of_mem Prod.fst hmem2)
      unfold commitWorkspaces
      rw [ih _ _ hmem2 htail]
      dsimp only
      unfold MigrationState.mark_migrated
      rw [MigrationState.find_by_entity_updateRows_other (keyPreserving_migrated _) _ hne]

/-- The recording loop of the workspace batch: the report gains one
`migrated` count per recorded pair and nothing else changes. -/
theorem commitWorkspaces_report (pairs : List (Uuid × Uuid)) (d : Db)
    (rep : MigrationReport) :
    (commitWorkspaces pairs d rep).2 =
      { rep with workspaces.migrated := rep.workspaces.migrated + pairs.length } := by
  induction pairs generalizing d rep with
  | nil =>
    simp only [commitWorkspaces, List.length_nil, Nat.add_zero]
  | cons pr rest ih =>
    obtain ⟨wid, rid⟩ := pr
    unfold commitWorkspaces
    rw [ih]
    simp [Nat.add_comm, Nat.add_assoc, Nat.add_left_comm]

/-- The empty-requests early return of the workspace batch tail. -/
theorem workspaceBatchFinish_empty (client : RemoteClient)
    (r : Resolved MigrateWorkspaceRequest) (h : r.requests.isEmpty = true) :
    workspaceBatchFinish client r = (.ok (), r.db, r.report, []) := by
  unfold workspaceBatchFinish
  simp [h]

/-- The error arm of the workspace batch tail. -/
theorem workspaceBatchFinish_error (client : RemoteClient)
    (r : Resolved MigrateWorkspaceRequest) {e : String} (h : r.requests.isEmpty = false)
    (hcall : client.call (.workspaces r.requests) = .error e) :
    workspaceBatchFinish client r =
      (.error (.remoteClient e), r.db, r.report,
        [⟨.workspaces r.requests, r.local_ids, r.db.migration_state⟩]) := by
  unfold workspaceBatchFinish
  rw [h]
  simp only [Bool.false_eq_true, if_false]
  rw [hcall]

/-- The success arm of the workspace batch tail. -/
theorem workspaceBatchFinish_ok (client : RemoteClient)
    (r : Resolved MigrateWorkspaceRequest) {ids : List Uuid}
    (h : r.requests.isEmpty = false)
    (hcall : client.call (.workspaces r.requests) = .ok ids) :
    workspaceBatchFinish client r =
      (.ok (), (commitWorkspaces (r.local_ids.zip ids) r.db r.report).1,
        (commitWorkspaces (r.local_ids.zip ids) r.db r.report).2,
        [⟨.workspaces r.requests, r.local_ids, r.db.migration_state⟩]) := by
  unfold workspaceBatchFinish
  rw [h]
  simp only [Bool.false_eq_true, if_false]
  rw [hcall]

/-- Spec of a successful workspace-batch call, mirroring
`migrate_task_batch_ok_spec`. -/
theorem migrate_workspace_batch_ok_spec (client : RemoteClient)
    (workspaces : List Workspace) (report : MigrationReport) (db : Db)
    (hnodup : (workspaces.map Workspace.id).Nodup)
    {c : RemoteCall} (hc : c ∈ (migrate_workspace_batch client workspaces report db).calls)
    {ids : List Uuid} (hcall : client.call c.payload = .ok ids) :
    (migrate_workspace_batch client workspaces report db).res = .ok () ∧
    (migrate_workspace_batch client workspaces report db).report.workspaces.migrated =
      report.workspaces.migrated + min c.local_ids.length ids.length ∧
    (∀ i (hi : i < c.local_ids.length) (hlt : i < ids.length),
      ∃ row, MigrationState.find_by_entity
          (migrate_workspace_batch client workspaces report db).db.migration_state .workspace
          (c.local_ids.get ⟨i, hi⟩) = some row ∧
        row.status = MigrationStatus.migrated ∧ row.remote_id = some (ids.get ⟨i, hlt⟩)) ∧
    (∀ i (hi : i < c.local_ids.length), ids.length ≤ i →
      MigrationState.find_by_entity
          (migrate_workspace_batch client workspaces report db).db.migration_state .workspace
          (c.local_ids.get ⟨i, hi⟩) =
        MigrationState.find_by_entity c.store_at .workspace (c.local_ids.get ⟨i, hi⟩)) := by
  have hmb : migrate_workspace_batch client workspaces report db =
      workspaceBatchFinish client (resolveWorkspaces workspaces
        { db with migration_state :=
            upsertAll .workspace (workspaces.map (·.id)) db.migration_state }
        report) := rfl
  set R := resolveWorkspaces workspaces
    { db with migration_state :=
        upsertAll .workspace (workspaces.map (·.id)) db.migration_state }
    report with hR
  have hreq : R.requests.isEmpty = false := by
    cases hb : R.requests.isEmpty
    · rfl
    · rw [hmb, workspaceBatchFinish_empty client R hb] at hc
      simp [StepResult.calls] at hc
  rw [hmb] at hc
  have hcc := workspaceBatchFinish_calls client R hc
  subst hcc
  have hcall2 : client.call (.workspaces R.requests) = .ok ids := hcall
  have hok := workspaceBatchFinish_ok client R hreq hcall2
  have hlocnodup : R.local_ids.Nodup :=
    List.Nodup.sublist (resolveWorkspaces_local_ids_sublist workspaces _ report) hnodup
  refine ⟨?_, ?_, ?_, ?_⟩
  · rw [hmb, hok]
    rfl
  · rw [hmb, hok]
    show (commitWorkspaces (R.local_ids.zip ids) R.db R.report).2.workspaces.migrated = _
    rw [commitWorkspaces_report]
    show R.report.workspaces.migrated + (R.local_ids.zip ids).length = _
    rw [(resolveWorkspaces_report_frame workspaces _ report).2.2.2.1, List.length_zip]
  · intro i hi hlt
    have hi' : i < R.local_ids.length := hi
    have hilen : i < (R.local_ids.zip ids).length := by
      rw [List.length_zip]
      exact lt_min hi' hlt
    have hp : (R.local_ids.get ⟨i, hi⟩, ids.get ⟨i, hlt⟩) ∈ R.local_ids.zip ids := by
      have hz : (R.local_ids.zip ids)[i] = (R.local_ids[i], ids[i]) :=
        List.getElem_zip
      have hmm := List.getElem_mem hilen
      rw [hz] at hmm
      simpa [List.get_eq_getElem] using hmm
    have hnodup2 : ((R.local_ids.zip ids).map Prod.fst).Nodup := by
      rw [map_fst_zip_eq_take]
      exact List.Nodup.sublist (List.take_sublist _ _) hlocnodup
    rw [hmb, hok]
    show ∃ row, MigrationState.find_by_entity
        (commitWorkspaces (R.local_ids.zip ids) R.db R.report).1.migration_state .workspace
        (R.local_ids.get ⟨i, hi⟩) = some row ∧ _
    rw [commitWorkspaces_find_mem (R.local_ids.zip ids) R.db R.report hp hnodup2]
    rw [resolveWorkspaces_find_submitted workspaces _ report
      (List.get_mem R.local_ids i hi) hnodup]
    have hin : R.local_ids.get ⟨i, hi⟩ ∈ workspaces.map Workspace.id :=
      List.Sublist.mem (List.get_mem R.local_ids i hi)
        (resolveWorkspaces_local_ids_sublist workspaces _ report)
    have hrow := upsertAll_mem_isSome .workspace (workspaces.map (·.id)) db.migration_state hin
    obtain ⟨row, hrowe⟩ := Option.isSome_iff_exists.mp hrow
    show ∃ row2, (MigrationState.find_by_entity
        (upsertAll .workspace (workspaces.map (·.id)) db.migration_state) .workspace
        (R.local_ids.get ⟨i, hi⟩)).map _ = some row2 ∧ _
    rw [hrowe]
    exact ⟨_, rfl, rfl, rfl⟩
  · intro i hi hge
    have hi' : i < R.local_ids.length := hi
    have htid : R.local_ids.get ⟨i, hi⟩ ∉ (R.local_ids.zip ids).map Prod.fst := by
      rw [map_fst_zip_eq_take]
      intro hmem
      obtain ⟨j, hj, hje⟩ := List.mem_iff_getElem.mp hmem
      have hjid : j < ids.length := by
        rw [List.length_take] at hj
        omega
      have hjloc : j < R.local_ids.length := by
        rw [List.length_take] at hj
        omega
      have hjeq : R.local_ids.get ⟨j, hjloc⟩ = R.local_ids.get ⟨i, hi'⟩ := by
        rw [List.get_eq_getElem, List.get_eq_getElem]
        have htk : (R.local_ids.take ids.length)[j] = R.local_ids[j] :=
          List.getElem_take R.local_ids
        exact htk.symm.trans hje
      have hji : j = i := by
        have harg : R.local_ids[j] = R.local_ids[i] := by
          simpa [List.get_eq_getElem] using hjeq
        exact (hlocnodup.getElem_inj_iff).mp harg
      omega
    rw [hmb, hok]
    show MigrationState.find_by_entity
        (commitWorkspaces (R.local_ids.zip ids) R.db R.report).1.migration_state .workspace
        (R.local_ids.get ⟨i, hi⟩) = _
    rw [commitWorkspaces_find_other (R.local_ids.zip ids) R.db R.report (Or.inr htid)]

/-! #### The project-batch lemma family -/

/-- `set_remote_project_id` only touches the local projects table. -/
theorem set_remote_project_id_migration_state (d : Db) (id : Uuid) (rid : Option Uuid) :
    (Project.set_remote_project_id d id rid).migration_state = d.migration_state := rfl

/-- The recording loop of the project batch: rows of other keys are
untouched. -/
theorem commitProjects_find_other (pairs : List (Project × Uuid)) (d : Db)
    (rep : MigrationReport) {a : EntityType} {b : Uuid}
    (h : a ≠ .project ∨ b ∉ pairs.map (fun pr => pr.1.id)) :
    MigrationState.find_by_entity (commitProjects pairs d rep).1.migration_state a b =
      MigrationState.find_by_entity d.migration_state a b := by
  induction pairs generalizing d rep with
  | nil => rfl
  | cons pr rest ih =>
    obtain ⟨p, rid⟩ := pr
    have hrest : a ≠ EntityType.project ∨ b ∉ rest.map (fun pr => pr.1.id) := by
      rcases h with h | h
      · exact Or.inl h
      · exact Or.inr fun hmem => h (by simpa using List.mem_cons_of_mem _ hmem)
    have hne : ¬(a = EntityType.project ∧ b = p.id) := by
      rintro ⟨rfl, rfl⟩
      rcases h with h | h
      · exact h rfl
      · exact h (by simp)
    unfold commitProjects
    rw [ih _ _ hrest]
    exact MigrationState.find_by_entity_updateRows_other (keyPreserving_migrated _) _ hne

/-- The recording loop of the project batch: each recorded pair's row is
marked migrated with exactly that pair's remote id. -/
theorem commitProjects_find_mem (pairs : List (Project × Uuid)) (d : Db)
    (rep : MigrationReport) {p : Project} {rid : Uuid} (hmem : (p, rid) ∈ pairs)
    (hnodup : (pairs.map (fun pr => pr.1.id)).Nodup) :
    MigrationState.find_by_entity (commitProjects pairs d rep).1.migration_state
        .project p.id =
      (MigrationState.find_by_entity d.migration_state .project p.id).map
        (fun row => { row with status := MigrationStatus.migrated, remote_id := some rid, error_message := none }) := by
  induction pairs generalizing d rep with
  | nil => simp at hmem
  | cons pr rest ih =>
    obtain ⟨p0, rid0⟩ := pr
    have hhead : p0.id ∉ rest.map (fun pr => pr.1.id) := by
      simp only [List.map_cons, List.nodup_cons] at hnodup
      exact hnodup.1
    have htail : (rest.map (fun pr => pr.1.id)).Nodup := by
      simp only [List.map_cons, List.nodup_cons] at hnodup
      exact hnodup.2
    rcases List.mem_cons.mp hmem with heq | hmem2
    · injection heq with h1 h2
      subst h1
      subst h2
      unfold commitProjects
      rw [commitProjects_find_other rest _ _ (Or.inr hhead)]
      exact MigrationState.find_by_entity_updateRows_self (keyPreserving_migrated rid) _
        .project p.id
    · have hne : ¬(EntityType.project = EntityType.project ∧ p.id = p0.id) := by
        rintro ⟨-, hpe⟩
        exact hhead (hpe ▸ (by simpa using List.mem_map_of_mem (fun pr => pr.1.id) hmem2))
      unfold commitProjects
      rw [ih _ _ hmem2 htail]
      rw [set_remote_project_id_migration_state]
      dsimp only
      unfold MigrationState.mark_migrated
      rw [MigrationState.find_by_entity_updateRows_other (keyPreserving_migrated _) _ hne]

/-- The recording loop of the project batch: the report gains one `migrated`
count per recorded pair and nothing else changes. -/
theorem commitProjects_report (pairs : List (Project × Uuid)) (d : Db)
    (rep : MigrationReport) :
    (commitProjects pairs d rep).2 =
      { rep with projects.migrated := rep.projects.migrated + pairs.length } := by
  induction pairs generalizing d rep with
  | nil =>
    simp only [commitProjects, List.length_nil, Nat.add_zero]
  | cons pr rest ih =>
    obtain ⟨p, rid⟩ := pr
    unfold commitProjects
    rw [ih]
    simp [Nat.add_comm, Nat.add_assoc, Nat.add_left_comm]

/-- The error arm of the project batch tail. -/
theorem projectBatchFinish_error (client : RemoteClient) (projects : List Project)
    (requests : List MigrateProjectRequest) (report : MigrationReport) (db : Db)
    {e : String} (hcall : client.call (.projects requests) = .error e) :
    projectBatchFinish client projects requests report db =
      (.error (.remoteClient e), db, report,
        [⟨.projects requests, projects.map (·.id), db.migration_state⟩]) := by
  unfold projectBatchFinish
  simp only [hcall]

/-- The success arm of the project batch tail. -/
theorem projectBatchFinish_ok (client : RemoteClient) (projects : List Project)
    (requests : List MigrateProjectRequest) (report : MigrationReport) (db : Db)
    {ids : List Uuid} (hcall : client.call (.projects requests) = .ok ids) :
    projectBatchFinish client projects requests report db =
      (.ok (), (commitProjects (projects.zip ids) db report).1,
        (commitProjects (projects.zip ids) db report).2,
        [⟨.projects requests, projects.map (·.id), db.migration_state⟩]) := by
  unfold projectBatchFinish
  rcases hcp : commitProjects (projects.zip ids) db report with ⟨d2, r2⟩
  simp only [hcall, hcp]

/-- Spec of a successful project-batch call, mirroring
`migrate_task_batch_ok_spec`. -/
theorem migrate_project_batch_ok_spec (client : RemoteClient) (organization_id : Uuid)
    (projects : List Project) (report : MigrationReport) (db : Db)
    (hnodup : (projects.map Project.id).Nodup)
    {c : RemoteCall}
    (hc : c ∈ (migrate_project_batch client organization_id projects report db).calls)
    {ids : List Uuid} (hcall : client.call c.payload = .ok ids) :
    (migrate_project_batch client organization_id projects report db).res = .ok () ∧
    (migrate_project_batch client organization_id projects
        report db).report.projects.migrated =
      report.projects.migrated + min c.local_ids.length ids.length ∧
    (∀ i (hi : i < c.local_ids.length) (hlt : i < ids.length),
      ∃ row, MigrationState.find_by_entity
          (migrate_project_batch client organization_id projects
            report db).db.migration_state .project
          (c.local_ids.get ⟨i, hi⟩) = some row ∧
        row.status = MigrationStatus.migrated ∧ row.remote_id = some (ids.get ⟨i, hlt⟩)) := by
  have hmb : migrate_project_batch client organization_id projects report db =
      projectBatchFinish client projects
        (projects.enum.map fun (i, p) =>
          { organization_id := organization_id, name := p.name,
            color := generate_hsl_color i, created_at := p.created_at })
        report
        { db with migration_state :=
            upsertAll .project (projects.map (·.id)) db.migration_state } := rfl
  rw [hmb] at hc
  have hcc := projectBatchFinish_calls client projects _ report _ hc
  subst hcc
  have hcall2 : client.call (.projects (projects.enum.map fun (i, p) =>
      ({ organization_id := organization_id, name := p.name,
         color := generate_hsl_color i, created_at := p.created_at } :
        MigrateProjectRequest))) = .ok ids := hcall
  have hok := projectBatchFinish_ok client projects _ report
    { db with migration_state :=
        upsertAll .project (projects.map (·.id)) db.migration_state } hcall2
  have hmapids : ∀ pr ∈ projects.zip ids, pr.1 ∈ projects := by
    intro pr hpr
    exact (List.of_mem_zip hpr).1
  have hfsteq : (projects.zip ids).map (fun pr => pr.1.id) =
      (projects.map Project.id).take ids.length := by
    have h1 : (projects.zip ids).map (fun pr => pr.1.id) =
        ((projects.zip ids).map Prod.fst).map Project.id := by
      rw [List.map_map]
      rfl
    rw [h1, map_fst_zip_eq_take, List.map_take]
  have hnodup2 : ((projects.zip ids).map (fun pr => pr.1.id)).Nodup := by
    rw [hfsteq]
    exact List.Nodup.sublist (List.take_sublist _ _) hnodup
  refine ⟨?_, ?_, ?_⟩
  · rw [hmb, hok]
    rfl
  · rw [hmb, hok]
    show (commitProjects (projects.zip ids)
        { db with migration_state :=
            upsertAll .project (projects.map (·.id)) db.migration_state } report).2.projects.migrated = _
    rw [commitProjects_report]
    show report.projects.migrated + (projects.zip ids).length = _
    rw [List.length_zip, List.length_map]
  · intro i hi hlt
    have hi' : i < projects.length := by
      simpa using hi
    have hilen : i < (projects.zip ids).length := by
      rw [List.length_zip]
      exact lt_min hi' hlt
    have hp : (projects.get ⟨i, hi'⟩, ids.get ⟨i, hlt⟩) ∈ projects.zip ids := by
      have hz : (projects.zip ids)[i] = (projects[i], ids[i]) :=
        List.getElem_zip
      have hmm := List.getElem_mem hilen
      rw [hz] at hmm
      simpa [List.get_eq_getElem] using hmm
    have hgete : (projects.map (·.id)).get ⟨i, hi⟩ = (projects.get ⟨i, hi'⟩).id := by
      simp [List.get_eq_getElem]
    rw [hmb, hok]
    show ∃ row, MigrationState.find_by_entity
        (commitProjects (projects.zip ids)
          { db with migration_state :=
              upsertAll .project (projects.map (·.id)) db.migration_state } report).1.migration_state
        .project ((projects.map fun x => x.id).get ⟨i, hi⟩) = some row ∧ _
    rw [hgete]
    rw [commitProjects_find_mem (projects.zip ids) _ report hp hnodup2]
    have hin : (projects.get ⟨i, hi'⟩).id ∈ projects.map Project.id :=
      List.mem_map_of_mem Project.id (List.get_mem projects i hi')
    have hrow := upsertAll_mem_isSome .project (projects.map (·.id)) db.migration_state hin
    obtain ⟨row, hrowe⟩ := Option.isSome_iff_exists.mp hrow
    show ∃ row2, (MigrationState.find_by_entity
        (upsertAll .project (projects.map (·.id)) db.migration_state) .project
        (projects.get ⟨i, hi'⟩).id).map _ = some row2 ∧ _
    rw [hrowe]
    exact ⟨_, rfl, rfl, rfl⟩

/-! #### Skip behaviour of the task loop (C6) -/

/-- The task loop never changes what `get_remote_id` answers for projects. -/
theorem resolveTasks_get_remote_id_project (ts : List Task) (d : Db)
    (rep : MigrationReport) (pid : Uuid) :
    MigrationState.get_remote_id (resolveTasks ts d rep).db.migration_state .project pid =
      MigrationState.get_remote_id d.migration_state .project pid := by
  induction ts generalizing d rep with
  | nil => rfl
  | cons task rest ih =>
    unfold resolveTasks
    cases hdep : MigrationState.get_remote_id d.migration_state .project task.project_id with
    | some p =>
      simp only [hdep]
      exact ih d rep
    | none =>
      simp only [hdep]
      rw [ih _ _]
      exact MigrationState.get_remote_id_updateRows_other (keyPreserving_skipped _) _
        (by rintro ⟨h, -⟩; exact EntityType.noConfusion h)

/-- Warnings already in the report survive the task loop. -/
theorem resolveTasks_warnings_mono (ts : List Task) (d : Db) (rep : MigrationReport)
    {w : String} (hw : w ∈ rep.warnings) :
    w ∈ (resolveTasks ts d rep).report.warnings := by
  induction ts generalizing d rep with
  | nil => exact hw
  | cons task rest ih =>
    unfold resolveTasks
    cases hdep : MigrationState.get_remote_id d.migration_state .project task.project_id with
    | some p =>
      simp only [hdep]
      exact ih d rep hw
    | none =>
      simp only [hdep]
      exact ih _ _ (List.mem_append_left _ hw)

/-- A task whose project dependency is unresolved is skipped by the task
loop: it is never submitted, its row is marked `skipped` with the reason
naming the project, and the warning naming the task is pushed. -/
theorem resolveTasks_skip_spec (ts : List Task) (d : Db) (rep : MigrationReport)
    {t : Task} (ht : t ∈ ts)
    (hdep : MigrationState.get_remote_id d.migration_state .project t.project_id = none)
    (hnodup : (ts.map Task.id).Nodup) :
    t.id ∉ (resolveTasks ts d rep).local_ids ∧
    MigrationState.find_by_entity (resolveTasks ts d rep).db.migration_state .task t.id =
      (MigrationState.find_by_entity d.migration_state .task t.id).map
        (fun row => { row with status := MigrationStatus.skipped, error_message := some ("Project " ++ toString t.project_id ++ " not migrated") }) ∧
    ("Skipped task " ++ toString t.id ++ ": " ++
        ("Project " ++ toString t.project_id ++ " not migrated")) ∈
      (resolveTasks ts d rep).report.warnings := by
  induction ts generalizing d rep with
  | nil => simp at ht
  | cons task rest ih =>
    have hhead : task.id ∉ rest.map Task.id := by
      simp only [List.map_cons, List.nodup_cons] at hnodup
      exact hnodup.1
    have htail : (rest.map Task.id).Nodup := by
      simp only [List.map_cons, List.nodup_cons] at hnodup
      exact hnodup.2
    rcases List.mem_cons.mp ht with rfl | hmem
    · unfold resolveTasks
      simp only [hdep]
      refine ⟨?_, ?_, ?_⟩
      · intro hin
        exact hhead ((resolveTasks_local_ids_sublist rest _ _).mem hin)
      · rw [resolveTasks_find_untouched rest _ _ (Or.inr hhead)]
        exact MigrationState.find_by_entity_updateRows_self (keyPreserving_skipped _) _
          .task t.id
      · exact resolveTasks_warnings_mono rest _ _ (List.mem_append_right _ (by simp))
    · have htid : t.id ∈ rest.map Task.id := List.mem_map_of_mem Task.id hmem
      have hne : task.id ≠ t.id := fun he => hhead (he ▸ htid)
      unfold resolveTasks
      cases hdep0 : MigrationState.get_remote_id d.migration_state .project
          task.project_id with
      | some p =>
        simp only [hdep0]
        obtain ⟨h1, h2, h3⟩ := ih d rep hmem hdep htail
        refine ⟨?_, h2, h3⟩
        intro hin
        rcases List.mem_cons.mp hin with he | hin2
        · exact hne he.symm
        · exact h1 hin2
      | none =>
        simp only [hdep0]
        have hdep2 : MigrationState.get_remote_id
            (MigrationState.mark_skipped d.migration_state .task task.id
              ("Project " ++ toString task.project_id ++ " not migrated"))
            .project t.project_id = none := by
          unfold MigrationState.mark_skipped
          rw [MigrationState.get_remote_id_updateRows_other (keyPreserving_skipped _) _
            (by rintro ⟨h, -⟩; exact EntityType.noConfusion h)]
          exact hdep
        obtain ⟨h1, h2, h3⟩ := ih
          { d with migration_state := MigrationState.mark_skipped d.migration_state .task task.id ("Project " ++ toString task.project_id ++ " not migrated") }
          { rep with tasks.skipped := rep.tasks.skipped + 1, warnings := rep.warnings ++ ["Skipped task " ++ toString task.id ++ ": " ++ ("Project " ++ toString task.project_id ++ " not migrated")] }
          hmem hdep2 htail
        refine ⟨h1, ?_, h3⟩
        rw [h2]
        dsimp only
        unfold MigrationState.mark_skipped
        rw [MigrationState.find_by_entity_updateRows_other (keyPreserving_skipped _) _
          (by rintro ⟨-, he⟩; exact hne he.symm)]

/-- The skipped counter of the task loop grows by exactly the number of
dependency-dead tasks of the batch. -/
theorem resolveTasks_skipped_count (ts : List Task) (d : Db) (rep : MigrationReport) :
    (resolveTasks ts d rep).report.tasks.skipped =
      rep.tasks.skipped + ts.countP (fun x =>
        (MigrationState.get_remote_id d.migration_state .project x.project_id).isNone) := by
  induction ts generalizing d rep with
  | nil => rfl
  | cons task rest ih =>
    unfold resolveTasks
    cases hdep : MigrationState.get_remote_id d.migration_state .project task.project_id with
    | some p =>
      simp only [hdep]
      rw [ih d rep]
      rw [List.countP_cons_of_neg _ _ (by simp [hdep])]
    | none =>
      simp only [hdep]
      rw [ih _ _]
      rw [List.countP_cons_of_pos _ _ (by simp [hdep])]
      have hcong : rest.countP (fun x =>
          (MigrationState.get_remote_id
            (MigrationState.mark_skipped d.migration_state .task task.id
              ("Project " ++ toString task.project_id ++ " not migrated"))
            .project x.project_id).isNone) =
          rest.countP (fun x =>
            (MigrationState.get_remote_id d.migration_state .project
              x.project_id).isNone) := by
        apply List.countP_congr
        intro x hx
        unfold MigrationState.mark_skipped
        rw [MigrationState.get_remote_id_updateRows_other (keyPreserving_skipped _) _
          (by rintro ⟨h, -⟩; exact EntityType.noConfusion h)]
      rw [hcong]
      dsimp only
      omega

/-- The task batch tail leaves the rows of not-submitted keys at their
post-resolution state. -/
theorem taskBatchFinish_find_not_submitted (client : RemoteClient)
    (r : Resolved MigrateIssueRequest) {b : Uuid} (hb : b ∉ r.local_ids) :
    MigrationState.find_by_entity (taskBatchFinish client r).db.migration_state .task b =
      MigrationState.find_by_entity r.db.migration_state .task b := by
  unfold taskBatchFinish
  by_cases hreq : r.requests.isEmpty
  · simp [hreq, StepResult.db]
  · have hreq' : r.requests.isEmpty = false := by
      revert hreq; cases r.requests.isEmpty <;> simp
    rw [hreq']
    simp only [Bool.false_eq_true, if_false]
    cases hcall : client.call (.issues r.requests) with
    | error e =>
      simp only [hcall, StepResult.db]
    | ok ids =>
      simp only [hcall, StepResult.db]
      show MigrationState.find_by_entity
        (commitTasks (r.local_ids.zip ids) r.db r.report).1.migration_state .task b = _
      apply commitTasks_find_other
      refine Or.inr ?_
      rw [map_fst_zip_eq_take]
      intro hmem
      exact hb (List.mem_of_mem_take hmem)

/-- The task batch tail never changes the skipped counter, the total or the
warnings of the report. -/
theorem taskBatchFinish_report_frame (client : RemoteClient)
    (r : Resolved MigrateIssueRequest) :
    (taskBatchFinish client r).report.tasks.skipped = r.report.tasks.skipped ∧
    (taskBatchFinish client r).report.tasks.total = r.report.tasks.total ∧
    (taskBatchFinish client r).report.warnings = r.report.warnings := by
  unfold taskBatchFinish
  by_cases hreq : r.requests.isEmpty
  · simp [hreq, StepResult.report]
  · have hreq' : r.requests.isEmpty = false := by
      revert hreq; cases r.requests.isEmpty <;> simp
    rw [hreq']
    simp only [Bool.false_eq_true, if_false]
    cases hcall : client.call (.issues r.requests) with
    | error e =>
      simp only [hcall, StepResult.report]
      exact ⟨trivial, trivial, trivial⟩
    | ok ids =>
      simp only [hcall, StepResult.report]
      show ((commitTasks (r.local_ids.zip ids) r.db r.report).2.tasks.skipped = _) ∧ _
      rw [commitTasks_report]
      exact ⟨rfl, rfl, rfl⟩

/-- Fresh records of a task batch have a plain `pending` row in the store at
call time. -/
theorem migrate_task_batch_call_pending (client : RemoteClient) (tasks : List Task)
    (report : MigrationReport) (db : Db) (hnodup : (tasks.map Task.id).Nodup)
    (hfresh : ∀ t ∈ tasks,
      MigrationState.find_by_entity db.migration_state .task t.id = none)
    {c : RemoteCall} (hc : c ∈ (migrate_task_batch client tasks report db).calls)
    {b : Uuid} (hb : b ∈ c.local_ids) :
    MigrationState.find_by_entity c.store_at .task b =
      some (MigrationState.newRow .task b) := by
  have hmb : migrate_task_batch client tasks report db =
      taskBatchFinish client (resolveTasks tasks
        { db with migration_state := upsertAll .task (tasks.map (·.id)) db.migration_state }
        report) := rfl
  set R := resolveTasks tasks
    { db with migration_state := upsertAll .task (tasks.map (·.id)) db.migration_state }
    report with hR
  rw [hmb] at hc
  have hcc := taskBatchFinish_calls client R hc
  subst hcc
  have hb2 : b ∈ R.local_ids := hb
  show MigrationState.find_by_entity R.db.migration_state .task b = _
  rw [resolveTasks_find_submitted tasks _ report hb2 hnodup]
  have hbin : b ∈ tasks.map Task.id :=
    List.Sublist.mem hb2 (resolveTasks_local_ids_sublist tasks _ report)
  obtain ⟨t, ht, hte⟩ := List.mem_map.mp hbin
  show MigrationState.find_by_entity
      (upsertAll .task (tasks.map (·.id)) db.migration_state) .task b = _
  rw [← hte]
  exact upsertAll_find_none_mem (hfresh t ht) _ (hte ▸ hbin)

/-- Fresh records of a workspace batch have a plain `pending` row in the
store at call time. -/
theorem migrate_workspace_batch_call_pending (client : RemoteClient)
    (workspaces : List Workspace) (report : MigrationReport) (db : Db)
    (hnodup : (workspaces.map Workspace.id).Nodup)
    (hfresh : ∀ w ∈ workspaces,
      MigrationState.find_by_entity db.migration_state .workspace w.id = none)
    {c : RemoteCall} (hc : c ∈ (migrate_workspace_batch client workspaces report db).calls)
    {b : Uuid} (hb : b ∈ c.local_ids) :
    MigrationState.find_by_entity c.store_at .workspace b =
      some (MigrationState.newRow .workspace b) := by
  have hmb : migrate_workspace_batch client workspaces report db =
      workspaceBatchFinish client (resolveWorkspaces workspaces
        { db with migration_state :=
            upsertAll .workspace (workspaces.map (·.id)) db.migration_state }
        report) := rfl
  set R := resolveWorkspaces workspaces
    { db with migration_state :=
        upsertAll .workspace (workspaces.map (·.id)) db.migration_state }
    report with hR
  rw [hmb] at hc
  have hcc := workspaceBatchFinish_calls client R hc
  subst hcc
  have hb2 : b ∈ R.local_ids := hb
  show MigrationState.find_by_entity R.db.migration_state .workspace b = _
  rw [resolveWorkspaces_find_submitted workspaces _ report hb2 hnodup]
  have hbin : b ∈ workspaces.map Workspace.id :=
    List.Sublist.mem hb2 (resolveWorkspaces_local_ids_sublist workspaces _ report)
  obtain ⟨w, hw, hwe⟩ := List.mem_map.mp hbin
  show MigrationState.find_by_entity
      (upsertAll .workspace (workspaces.map (·.id)) db.migration_state) .workspace b = _
  rw [← hwe]
  exact upsertAll_find_none_mem (hfresh w hw) _ (hwe ▸ hbin)

end MigrationService

/-! ### The run-level evolution relation (C1, C8) -/

theorem storeEvolves_refl (s : Store) : storeEvolves s s := by
  constructor
  · intro i hst
    exact ⟨i.isLt, rfl⟩
  · intro et lid h
    exact h

theorem storeEvolves_trans {s1 s2 s3 : Store} (h12 : storeEvolves s1 s2)
    (h23 : storeEvolves s2 s3) : storeEvolves s1 s3 := by
  constructor
  · intro i hst
    obtain ⟨h2, he2⟩ := h23.1 i hst
    obtain ⟨h1, he1⟩ := h12.1 ⟨i.val, h2⟩ (by rw [← he2]; exact hst)
    exact ⟨h1, he2.trans he1⟩
  · intro et lid h
    exact h23.2 et lid (h12.2 et lid h)

theorem storeEvolves_upsert (s : Store) (et : EntityType) (lid : Uuid) :
    storeEvolves s (MigrationState.upsert s et lid) := by
  unfold MigrationState.upsert
  by_cases hc : s.any (rowMatches et lid) = true
  · simp only [hc, if_true]
    exact storeEvolves_refl s
  · have hc' : s.any (rowMatches et lid) = false := by
      revert hc; cases s.any (rowMatches et lid) <;> simp
    simp only [hc', Bool.false_eq_true, if_false]
    constructor
    · intro i hst
      by_cases hi : i.val < s.length
      · refine ⟨hi, ?_⟩
        rw [List.get_eq_getElem, List.get_eq_getElem]
        exact List.getElem_append_left hi
      · exfalso
        have hlen : i.val < s.length + 1 := by
          have := i.isLt
          simpa using this
        have hieq : i.val = s.length := by omega
        rw [List.get_eq_getElem] at hst
        have : (s ++ [MigrationState.newRow et lid])[i.val] =
            MigrationState.newRow et lid := by
          rw [List.getElem_append_right (le_of_eq hieq.symm)]
          simp [hieq]
        rw [this] at hst
        exact MigrationStatus.noConfusion hst
    · intro a b h
      obtain ⟨r, hr⟩ := Option.isSome_iff_exists.mp h
      unfold MigrationState.find_by_entity at hr ⊢
      rw [List.find?_append, hr]
      rfl

theorem noNewFailed_updateRows {f : MigrationRow → MigrationRow}
    (hst : ∀ r, (f r).status ≠ MigrationStatus.failed) (s : Store) (et : EntityType)
    (lid : Uuid) : noNewFailed s (MigrationState.updateRows et lid f s) := by
  intro i hfail
  unfold MigrationState.updateRows at i hfail ⊢
  have hlen : i.val < s.length := by
    have := i.isLt
    simpa using this
  have hmap : (s.map (fun r => if rowMatches et lid r = true then f r else r)).get i =
      (fun r => if rowMatches et lid r = true then f r else r) (s.get ⟨i.val, hlen⟩) := by
    rw [List.get_eq_getElem, List.get_eq_getElem, List.getElem_map]
  rw [hmap] at hfail
  refine ⟨hlen, ?_⟩
  rw [hmap]
  by_cases hm : rowMatches et lid (s.get ⟨i.val, hlen⟩) = true
  · simp only [hm, if_true] at hfail
    exact absurd hfail (hst _)
  · have hm' : rowMatches et lid (s.get ⟨i.val, hlen⟩) = false := by
      revert hm; cases rowMatches et lid (s.get ⟨i.val, hlen⟩) <;> simp
    simp only [hm', Bool.false_eq_true, if_false]

theorem storeEvolves_updateRows {f : MigrationRow → MigrationRow}
    (hf : keyPreserving f) (hst : ∀ r, (f r).status ≠ MigrationStatus.failed) (s : Store)
    (et : EntityType) (lid : Uuid) :
    storeEvolves s (MigrationState.updateRows et lid f s) := by
  refine ⟨noNewFailed_updateRows hst s et lid, ?_⟩
  intro a b h
  exact find_isSome_updateRows hf h et lid

theorem storeEvolves_mark_migrated (s : Store) (et : EntityType) (lid rid : Uuid) :
    storeEvolves s (MigrationState.mark_migrated s et lid rid) :=
  storeEvolves_updateRows (keyPreserving_migrated rid)
    (fun _ => MigrationStatus.noConfusion) s et lid

theorem storeEvolves_mark_skipped (s : Store) (et : EntityType) (lid : Uuid)
    (m : String) : storeEvolves s (MigrationState.mark_skipped s et lid m) :=
  storeEvolves_updateRows (keyPreserving_skipped m)
    (fun _ => MigrationStatus.noConfusion) s et lid

namespace MigrationService

theorem storeEvolves_upsertAll (et : EntityType) (lids : List Uuid) (s : Store) :
    storeEvolves s (upsertAll et lids s) := by
  induction lids generalizing s with
  | nil => exact storeEvolves_refl s
  | cons l rest ih =>
    unfold upsertAll
    exact storeEvolves_trans (storeEvolves_upsert s et l) (ih _)

theorem storeEvolves_resolveTasks (ts : List Task) (d : Db) (rep : MigrationReport) :
    storeEvolves d.migration_state (resolveTasks ts d rep).db.migration_state := by
  induction ts generalizing d rep with
  | nil => exact storeEvolves_refl _
  | cons task rest ih =>
    unfold resolveTasks
    cases hdep : MigrationState.get_remote_id d.migration_state .project task.project_id with
    | some pid =>
      simp only [hdep]
      exact ih d rep
    | none =>
      simp only [hdep]
      exact storeEvolves_trans (storeEvolves_mark_skipped _ _ _ _) (ih _ _)

theorem storeEvolves_resolvePrMerges (ms : List PrMerge) (d : Db) (rep : MigrationReport) :
    storeEvolves d.migration_state (resolvePrMerges ms d rep).db.migration_state := by
  induction ms generalizing d rep with
  | nil => exact storeEvolves_refl _
  | cons pm rest ih =>
    unfold resolvePrMerges
    cases hdep : (match Workspace.find_by_id d pm.workspace_id with
      | some ws => MigrationState.get_remote_id d.migration_state .task ws.task_id
      | none => none : Option Uuid) with
    | some iid =>
      simp only [hdep]
      exact ih d rep
    | none =>
      simp only [hdep]
      exact storeEvolves_trans (storeEvolves_mark_skipped _ _ _ _) (ih _ _)

theorem storeEvolves_resolveWorkspaces (ws : List Workspace) (d : Db)
    (rep : MigrationReport) :
    storeEvolves d.migration_state (resolveWorkspaces ws d rep).db.migration_state := by
  induction ws generalizing d rep with
  | nil => exact storeEvolves_refl _
  | cons w rest ih =>
    unfold resolveWorkspaces
    cases htask : Task.find_by_id d w.task_id with
    | none =>
      simp only [htask]
      exact storeEvolves_trans (storeEvolves_mark_skipped _ _ _ _) (ih _ _)
    | some task =>
      cases hdep : MigrationState.get_remote_id d.migration_state .project task.project_id with
      | none =>
        simp only [htask, hdep]
        exact storeEvolves_trans (storeEvolves_mark_skipped _ _ _ _) (ih _ _)
      | some rpid =>
        cases hiss : (MigrationState.get_remote_id d.migration_state .task w.task_id).isNone with
        | true =>
          simp only [htask, hdep, hiss, if_true]
          exact storeEvolves_trans (storeEvolves_mark_skipped _ _ _ _) (ih _ _)
        | false =>
          simp only [htask, hdep, hiss, Bool.false_eq_true, if_false]
          exact ih d rep

theorem storeEvolves_commitProjects (pairs : List (Project × Uuid)) (d : Db)
    (rep : MigrationReport) :
    storeEvolves d.migration_state (commitProjects pairs d rep).1.migration_state := by
  induction pairs generalizing d rep with
  | nil => exact storeEvolves_refl _
  | cons pr rest ih =>
    obtain ⟨p, rid⟩ := pr
    unfold commitProjects
    exact storeEvolves_trans (storeEvolves_mark_migrated _ _ _ _) (ih _ _)

theorem storeEvolves_commitTasks (pairs : List (Uuid × Uuid)) (d : Db)
    (rep : MigrationReport) :
    storeEvolves d.migration_state (commitTasks pairs d rep).1.migration_state := by
  induction pairs generalizing d rep with
  | nil => exact storeEvolves_refl _
  | cons pr rest ih =>
    obtain ⟨tid, rid⟩ := pr
    unfold commitTasks
    exact storeEvolves_trans (storeEvolves_mark_migrated _ _ _ _) (ih _ _)

theorem storeEvolves_commitPrMerges (pairs : List (Uuid × Uuid)) (d : Db)
    (rep : MigrationReport) :
    storeEvolves d.migration_state (commitPrMerges pairs d rep).1.migration_state := by
  induction pairs generalizing d rep with
  | nil => exact storeEvolves_refl _
  | cons pr rest ih =>
    obtain ⟨mid, rid⟩ := pr
    unfold commitPrMerges
    exact storeEvolves_trans (storeEvolves_mark_migrated _ _ _ _) (ih _ _)

theorem storeEvolves_commitWorkspaces (pairs : List (Uuid × Uuid)) (d : Db)
    (rep : MigrationReport) :
    storeEvolves d.migration_state (commitWorkspaces pairs d rep).1.migration_state := by
  induction pairs generalizing d rep with
  | nil => exact storeEvolves_refl _
  | cons pr rest ih =>
    obtain ⟨wid, rid⟩ := pr
    unfold commitWorkspaces
    exact storeEvolves_trans (storeEvolves_mark_migrated _ _ _ _) (ih _ _)

theorem storeEvolves_projectBatchFinish (client : RemoteClient) (projects : List Project)
    (requests : List MigrateProjectRequest) (rep : MigrationReport) (d : Db) :
    storeEvolves d.migration_state
      (projectBatchFinish client projects requests rep d).db.migration_state := by
  cases hcall : client.call (.projects requests) with
  | error e =>
    rw [projectBatchFinish_error client projects requests rep d hcall]
    exact storeEvolves_refl _
  | ok ids =>
    rw [projectBatchFinish_ok client projects requests rep d hcall]
    exact storeEvolves_commitProjects _ _ _

theorem storeEvolves_taskBatchFinish (client : RemoteClient)
    (r : Resolved MigrateIssueRequest) :
    storeEvolves r.db.migration_state (taskBatchFinish client r).db.migration_state := by
  by_cases hreq : r.requests.isEmpty
  · rw [taskBatchFinish_empty client r hreq]
    exact storeEvolves_refl _
  · have hreq' : r.requests.isEmpty = false := by
      revert hreq; cases r.requests.isEmpty <;> simp
    cases hcall : client.call (.issues r.requests) with
    | error e =>
      rw [taskBatchFinish_error client r hreq' hcall]
      exact storeEvolves_refl _
    | ok ids =>
      rw [taskBatchFinish_ok client r hreq' hcall]
      exact storeEvolves_commitTasks _ _ _

theorem storeEvolves_workspaceBatchFinish (client : RemoteClient)
    (r : Resolved MigrateWorkspaceRequest) :
    storeEvolves r.db.migration_state
      (workspaceBatchFinish client r).db.migration_state := by
  by_cases hreq : r.requests.isEmpty
  · rw [workspaceBatchFinish_empty client r hreq]
    exact storeEvolves_refl _
  · have hreq' : r.requests.isEmpty = false := by
      revert hreq; cases r.requests.isEmpty <;> simp
    cases hcall : client.call (.workspaces r.requests) with
    | error e =>
      rw [workspaceBatchFinish_error client r hreq' hcall]
      exact storeEvolves_refl _
    | ok ids =>
      rw [workspaceBatchFinish_ok client r hreq' hcall]
      exact storeEvolves_commitWorkspaces _ _ _

theorem storeEvolves_prMergeBatchFinish (client : RemoteClient)
    (r : Resolved MigratePullRequestRequest) :
    storeEvolves r.db.migration_state
      (prMergeBatchFinish client r).db.migration_state := by
  by_cases hreq : r.requests.isEmpty
  · unfold prMergeBatchFinish
    simp only [hreq, if_true]
    exact storeEvolves_refl _
  · have hreq' : r.requests.isEmpty = false := by
      revert hreq; cases r.requests.isEmpty <;> simp
    unfold prMergeBatchFinish
    rw [hreq']
    simp only [Bool.false_eq_true, if_false]
    cases hcall : client.call (.pullRequests r.requests) with
    | error e =>
      simp only [hcall, StepResult.db]
      exact storeEvolves_refl _
    | ok ids =>
      simp only [hcall, StepResult.db]
      show storeEvolves r.db.migration_state
        (commitPrMerges (r.local_ids.zip ids) r.db r.report).1.migration_state
      exact storeEvolves_commitPrMerges _ _ _

theorem storeEvolves_migrate_project_batch (client : RemoteClient)
    (organization_id : Uuid) (projects : List Project) (rep : MigrationReport) (d : Db) :
    storeEvolves d.migration_state
      (migrate_project_batch client organization_id projects rep d).db.migration_state := by
  have hmb : migrate_project_batch client organization_id projects rep d =
      projectBatchFinish client projects
        (projects.enum.map fun (i, p) =>
          { organization_id := organization_id, name := p.name,
            color := generate_hsl_color i, created_at := p.created_at })
        rep
        { d with migration_state :=
            upsertAll .project (projects.map (·.id)) d.migration_state } := rfl
  rw [hmb]
  exact storeEvolves_trans (storeEvolves_upsertAll .project _ d.migration_state)
    (storeEvolves_projectBatchFinish client projects _ rep _)

theorem storeEvolves_migrate_task_batch (client : RemoteClient) (tasks : List Task)
    (rep : MigrationReport) (d : Db) :
    storeEvolves d.migration_state
      (migrate_task_batch client tasks rep d).db.migration_state := by
  have hmb : migrate_task_batch client tasks rep d =
      taskBatchFinish client (resolveTasks tasks
        { d with migration_state :=
            upsertAll .task (tasks.map (·.id)) d.migration_state } rep) := rfl
  rw [hmb]
  exact storeEvolves_trans (storeEvolves_upsertAll .task _ d.migration_state)
    (storeEvolves_trans (storeEvolves_resolveTasks tasks _ rep)
      (storeEvolves_taskBatchFinish client _))

theorem storeEvolves_migrate_pr_merge_batch (client : RemoteClient)
    (pr_merges : List PrMerge) (rep : MigrationReport) (d : Db) :
    storeEvolves d.migration_state
      (migrate_pr_merge_batch client pr_merges rep d).db.migration_state := by
  have hmb : migrate_pr_merge_batch client pr_merges rep d =
      prMergeBatchFinish client (resolvePrMerges pr_merges
        { d with migration_state :=
            upsertAll .prMerge (pr_merges.map (·.id)) d.migration_state } rep) := rfl
  rw [hmb]
  exact storeEvolves_trans (storeEvolves_upsertAll .prMerge _ d.migration_state)
    (storeEvolves_trans (storeEvolves_resolvePrMerges pr_merges _ rep)
      (storeEvolves_prMergeBatchFinish client _))

theorem storeEvolves_migrate_workspace_batch (client : RemoteClient)
    (workspaces : List Workspace) (rep : MigrationReport) (d : Db) :
    storeEvolves d.migration_state
      (migrate_workspace_batch client workspaces rep d).db.migration_state := by
  have hmb : migrate_workspace_batch client workspaces rep d =
      workspaceBatchFinish client (resolveWorkspaces workspaces
        { d with migration_state :=
            upsertAll .workspace (workspaces.map (·.id)) d.migration_state } rep) := rfl
  rw [hmb]
  exact storeEvolves_trans (storeEvolves_upsertAll .workspace _ d.migration_state)
    (storeEvolves_trans (storeEvolves_resolveWorkspaces workspaces _ rep)
      (storeEvolves_workspaceBatchFinish client _))

theorem storeEvolves_runBatches {α : Type}
    (batch : List α → MigrationReport → Db → StepResult Unit)
    (hb : ∀ (chunk : List α) (rep : MigrationReport) (d : Db),
      storeEvolves d.migration_state (batch chunk rep d).db.migration_state)
    (chunks : List (List α)) (rep : MigrationReport) (d : Db) :
    storeEvolves d.migration_state
      (runBatches batch chunks rep d).db.migration_state := by
  induction chunks generalizing rep d with
  | nil => exact storeEvolves_refl _
  | cons chunk rest ih =>
    unfold runBatches
    rcases hb2 : batch chunk rep d with ⟨res, d2, r2, cs2⟩
    have hb3 := hb chunk rep d
    rw [hb2] at hb3
    cases res with
    | error e =>
      simp only [hb2]
      exact hb3
    | ok u =>
      simp only [hb2]
      show storeEvolves d.migration_state (runBatches batch rest r2 d2).db.migration_state
      exact storeEvolves_trans hb3 (ih r2 d2)

theorem storeEvolves_migrate_projects (client : RemoteClient) (organization_id : Uuid)
    (project_ids : List Uuid) (rep : MigrationReport) (d : Db) :
    storeEvolves d.migration_state
      (migrate_projects client organization_id project_ids rep d).db.migration_state := by
  unfold migrate_projects
  exact storeEvolves_runBatches _
    (fun chunk r2 d2 => storeEvolves_migrate_project_batch client organization_id chunk r2 d2)
    _ _ _

theorem storeEvolves_migrate_tasks (client : RemoteClient) (project_ids : List Uuid)
    (rep : MigrationReport) (d : Db) :
    storeEvolves d.migration_state
      (migrate_tasks client project_ids rep d).db.migration_state := by
  unfold migrate_tasks
  exact storeEvolves_runBatches _
    (fun chunk r2 d2 => storeEvolves_migrate_task_batch client chunk r2 d2) _ _ _

theorem storeEvolves_migrate_pr_merges (client : RemoteClient) (project_ids : List Uuid)
    (rep : MigrationReport) (d : Db) :
    storeEvolves d.migration_state
      (migrate_pr_merges client project_ids rep d).db.migration_state := by
  unfold migrate_pr_merges
  exact storeEvolves_runBatches _
    (fun chunk r2 d2 => storeEvolves_migrate_pr_merge_batch client chunk r2 d2) _ _ _

theorem storeEvolves_migrate_workspaces (client : RemoteClient) (project_ids : List Uuid)
    (rep : MigrationReport) (d : Db) :
    storeEvolves d.migration_state
      (migrate_workspaces client project_ids rep d).db.migration_state := by
  unfold migrate_workspaces
  exact storeEvolves_runBatches _
    (fun chunk r2 d2 => storeEvolves_migrate_workspace_batch client chunk r2 d2) _ _ _

/-- The whole run, aborted or not, only evolves the store. -/
theorem storeEvolves_run_migration (client : RemoteClient) (organization_id : Uuid)
    (project_ids : List Uuid) (db : Db) :
    storeEvolves db.migration_state
      (run_migration client organization_id project_ids db).2.1.migration_state := by
  unfold run_migration
  rcases h1 : migrate_projects client organization_id project_ids MigrationReport.empty db
    with ⟨res1, db1, rep1, cs1⟩
  have he1 := storeEvolves_migrate_projects client organization_id project_ids
    MigrationReport.empty db
  rw [h1] at he1
  cases res1 with
  | error e =>
    simp only [h1]
    exact he1
  | ok u =>
    simp only [h1]
    rcases h2 : migrate_tasks client project_ids rep1 db1 with ⟨res2, db2, rep2, cs2⟩
    have he2 := storeEvolves_migrate_tasks client project_ids rep1 db1
    rw [h2] at he2
    cases res2 with
    | error e =>
      simp only [h2]
      exact storeEvolves_trans he1 he2
    | ok u =>
      simp only [h2]
      rcases h3 : migrate_pr_merges client project_ids rep2 db2 with ⟨res3, db3, rep3, cs3⟩
      have he3 := storeEvolves_migrate_pr_merges client project_ids rep2 db2
      rw [h3] at he3
      cases res3 with
      | error e =>
        simp only [h3]
        exact storeEvolves_trans (storeEvolves_trans he1 he2) he3
      | ok u =>
        simp only [h3]
        rcases h4 : migrate_workspaces client project_ids rep3 db3 with ⟨res4, db4, rep4, cs4⟩
        have he4 := storeEvolves_migrate_workspaces client project_ids rep3 db3
        rw [h4] at he4
        cases res4 with
        | error e =>
          simp only [h4]
          exact storeEvolves_trans (storeEvolves_trans (storeEvolves_trans he1 he2) he3) he4
        | ok u =>
          simp only [h4]
          exact storeEvolves_trans (storeEvolves_trans (storeEvolves_trans he1 he2) he3) he4

/-- The empty-request arm of the PR-merge batch tail. -/
theorem prMergeBatchFinish_empty (client : RemoteClient)
    (r : Resolved MigratePullRequestRequest) (h : r.requests.isEmpty = true) :
    prMergeBatchFinish client r = (.ok (), r.db, r.report, []) := by
  unfold prMergeBatchFinish
  simp [h]

/-- The error arm of the PR-merge batch tail. -/
theorem prMergeBatchFinish_error (client : RemoteClient)
    (r : Resolved MigratePullRequestRequest) {e : String} (h : r.requests.isEmpty = false)
    (hcall : client.call (.pullRequests r.requests) = .error e) :
    prMergeBatchFinish client r =
      (.error (.remoteClient e), r.db, r.report,
        [⟨.pullRequests r.requests, r.local_ids, r.db.migration_state⟩]) := by
  unfold prMergeBatchFinish
  rw [h]
  simp only [Bool.false_eq_true, if_false]
  rw [hcall]

/-- The success arm of the PR-merge batch tail. -/
theorem prMergeBatchFinish_ok (client : RemoteClient)
    (r : Resolved MigratePullRequestRequest) {ids : List Uuid}
    (h : r.requests.isEmpty = false)
    (hcall : client.call (.pullRequests r.requests) = .ok ids) :
    prMergeBatchFinish client r =
      (.ok (), (commitPrMerges (r.local_ids.zip ids) r.db r.report).1,
        (commitPrMerges (r.local_ids.zip ids) r.db r.report).2,
        [⟨.pullRequests r.requests, r.local_ids, r.db.migration_state⟩]) := by
  unfold prMergeBatchFinish
  rw [h]
  simp only [Bool.false_eq_true, if_false]
  rw [hcall]

/-- A failed task batch: the batch issued exactly one call, that call failed
with the surfaced message, the step's error wraps that message, the store is
left exactly as it was at the moment of the call, and that store already holds
a row for every record of the batch (the upserted `pending` rows). -/
theorem migrate_task_batch_error_spec (client : RemoteClient) (tasks : List Task)
    (rep : MigrationReport) (d : Db) {e : MigrationError}
    (he : (migrate_task_batch client tasks rep d).res = .error e) :
    ∃ c msg,
      (migrate_task_batch client tasks rep d).calls = [c] ∧
      client.call c.payload = .error msg ∧
      e = MigrationError.remoteClient msg ∧
      (migrate_task_batch client tasks rep d).db.migration_state = c.store_at ∧
      ∀ t ∈ tasks, (MigrationState.find_by_entity c.store_at .task t.id).isSome := by
  have hmb : migrate_task_batch client tasks rep d =
      taskBatchFinish client (resolveTasks tasks
        { d with migration_state :=
            upsertAll .task (tasks.map (·.id)) d.migration_state } rep) := rfl
  rw [hmb] at he ⊢
  set R := resolveTasks tasks
    { d with migration_state := upsertAll .task (tasks.map (·.id)) d.migration_state } rep
    with hR
  cases hemp : R.requests.isEmpty with
  | true =>
    rw [taskBatchFinish_empty client R hemp] at he
    exact Except.noConfusion he
  | false =>
    cases hc : client.call (.issues R.requests) with
    | ok ids =>
      rw [taskBatchFinish_ok client R hemp hc] at he
      exact Except.noConfusion he
    | error msg =>
      rw [taskBatchFinish_error client R hemp hc] at he ⊢
      refine ⟨⟨.issues R.requests, R.local_ids, R.db.migration_state⟩, msg,
        rfl, hc, (Except.error.inj he).symm, rfl, ?_⟩
      intro t ht
      have h1 : (MigrationState.find_by_entity
          (upsertAll .task (tasks.map (·.id)) d.migration_state) .task t.id).isSome :=
        upsertAll_mem_isSome .task _ d.migration_state (List.mem_map_of_mem _ ht)
      have h2 := resolveTasks_find_isSome tasks
        { d with migration_state := upsertAll .task (tasks.map (·.id)) d.migration_state }
        rep h1
      rw [← hR] at h2
      exact h2

/-- A failed project batch, mirroring `migrate_task_batch_error_spec`. -/
theorem migrate_project_batch_error_spec (client : RemoteClient) (organization_id : Uuid)
    (projects : List Project) (rep : MigrationReport) (d : Db) {e : MigrationError}
    (he : (migrate_project_batch client organization_id projects rep d).res = .error e) :
    ∃ c msg,
      (migrate_project_batch client organization_id projects rep d).calls = [c] ∧
      client.call c.payload = .error msg ∧
      e = MigrationError.remoteClient msg ∧
      (migrate_project_batch client organization_id projects rep d).db.migration_state =
        c.store_at ∧
      ∀ p ∈ projects, (MigrationState.find_by_entity c.store_at .project p.id).isSome := by
  have hmb : migrate_project_batch client organization_id projects rep d =
      projectBatchFinish client projects
        (projects.enum.map fun (i, p) =>
          { organization_id := organization_id, name := p.name,
            color := generate_hsl_color i, created_at := p.created_at })
        rep
        { d with migration_state :=
            upsertAll .project (projects.map (·.id)) d.migration_state } := rfl
  rw [hmb] at he ⊢
  cases hc : client.call (.projects (projects.enum.map fun (i, p) =>
      ({ organization_id := organization_id, name := p.name,
         color := generate_hsl_color i, created_at := p.created_at } :
        MigrateProjectRequest))) with
  | ok ids =>
    rw [projectBatchFinish_ok client projects _ rep _ hc] at he
    exact Except.noConfusion he
  | error msg =>
    rw [projectBatchFinish_error client projects _ rep _ hc] at he ⊢
    refine ⟨_, msg, rfl, hc, (Except.error.inj he).symm, rfl, ?_⟩
    intro p hp
    exact upsertAll_mem_isSome .project _ d.migration_state (List.mem_map_of_mem _ hp)

/-- A failed PR-merge batch (the weak form used for run-level propagation). -/
theorem migrate_pr_merge_batch_error_spec (client : RemoteClient)
    (pr_merges : List PrMerge) (rep : MigrationReport) (d : Db) {e : MigrationError}
    (he : (migrate_pr_merge_batch client pr_merges rep d).res = .error e) :
    ∃ c msg,
      (migrate_pr_merge_batch client pr_merges rep d).calls = [c] ∧
      client.call c.payload = .error msg ∧
      e = MigrationError.remoteClient msg ∧
      (migrate_pr_merge_batch client pr_merges rep d).db.migration_state = c.store_at := by
  have hmb : migrate_pr_merge_batch client pr_merges rep d =
      prMergeBatchFinish client (resolvePrMerges pr_merges
        { d with migration_state :=
            upsertAll .prMerge (pr_merges.map (·.id)) d.migration_state } rep) := rfl
  rw [hmb] at he ⊢
  set R := resolvePrMerges pr_merges
    { d with migration_state := upsertAll .prMerge (pr_merges.map (·.id)) d.migration_state }
    rep with hR
  cases hemp : R.requests.isEmpty with
  | true =>
    rw [prMergeBatchFinish_empty client R hemp] at he
    exact Except.noConfusion he
  | false =>
    cases hc : client.call (.pullRequests R.requests) with
    | ok ids =>
      rw [prMergeBatchFinish_ok client R hemp hc] at he
      exact Except.noConfusion he
    | error msg =>
      rw [prMergeBatchFinish_error client R hemp hc] at he ⊢
      exact ⟨⟨.pullRequests R.requests, R.local_ids, R.db.migration_state⟩, msg,
        rfl, hc, (Except.error.inj he).symm, rfl⟩

/-- A failed workspace batch (the weak form used for run-level propagation). -/
theorem migrate_workspace_batch_error_spec (client : RemoteClient)
    (workspaces : List Workspace) (rep : MigrationReport) (d : Db) {e : MigrationError}
    (he : (migrate_workspace_batch client workspaces rep d).res = .error e) :
    ∃ c msg,
      (migrate_workspace_batch client workspaces rep d).calls = [c] ∧
      client.call c.payload = .error msg ∧
      e = MigrationError.remoteClient msg ∧
      (migrate_workspace_batch client workspaces rep d).db.migration_state = c.store_at := by
  have hmb : migrate_workspace_batch client workspaces rep d =
      workspaceBatchFinish client (resolveWorkspaces workspaces
        { d with migration_state :=
            upsertAll .workspace (workspaces.map (·.id)) d.migration_state } rep) := rfl
  rw [hmb] at he ⊢
  set R := resolveWorkspaces workspaces
    { d with migration_state :=
        upsertAll .workspace (workspaces.map (·.id)) d.migration_state } rep with hR
  cases hemp : R.requests.isEmpty with
  | true =>
    rw [workspaceBatchFinish_empty client R hemp] at he
    exact Except.noConfusion he
  | false =>
    cases hc : client.call (.workspaces R.requests) with
    | ok ids =>
      rw [workspaceBatchFinish_ok client R hemp hc] at he
      exact Except.noConfusion he
    | error msg =>
      rw [workspaceBatchFinish_error client R hemp hc] at he ⊢
      exact ⟨⟨.workspaces R.requests, R.local_ids, R.db.migration_state⟩, msg,
        rfl, hc, (Except.error.inj he).symm, rfl⟩

/-- Error propagation through the chunk loop: a failing loop stops at its
first failing batch, whose single call is the last call issued, and leaves
the store exactly as that call saw it. -/
theorem runBatches_error_spec {α : Type} (client : RemoteClient)
    (batch : List α → MigrationReport → Db → StepResult Unit)
    (hb : ∀ (chunk : List α) (rep : MigrationReport) (d : Db) (e : MigrationError),
      (batch chunk rep d).res = .error e →
      ∃ c msg, (batch chunk rep d).calls = [c] ∧
        client.call c.payload = .error msg ∧ e = MigrationError.remoteClient msg ∧
        (batch chunk rep d).db.migration_state = c.store_at)
    (chunks : List (List α)) (rep : MigrationReport) (d : Db) {e : MigrationError}
    (he : (runBatches batch chunks rep d).res = .error e) :
    ∃ cs0 c msg, (runBatches batch chunks rep d).calls = cs0 ++ [c] ∧
      client.call c.payload = .error msg ∧ e = MigrationError.remoteClient msg ∧
      (runBatches batch chunks rep d).db.migration_state = c.store_at := by
  induction chunks generalizing rep d with
  | nil => exact Except.noConfusion he
  | cons chunk rest ih =>
    unfold runBatches at he ⊢
    rcases hb2 : batch chunk rep d with ⟨res, d2, r2, cs2⟩
    rw [hb2] at he
    cases res with
    | error e2 =>
      have he2 : e2 = e := Except.error.inj he
      have hb3 := hb chunk rep d e2 (by rw [hb2]; rfl)
      rw [hb2] at hb3
      obtain ⟨c, msg, hcs, hcall, hmsg, hst⟩ := hb3
      have hcs2 : cs2 = [c] := hcs
      have hst2 : d2.migration_state = c.store_at := hst
      refine ⟨[], c, msg, ?_, hcall, he2.symm.trans hmsg, ?_⟩
      · show cs2 = [] ++ [c]
        rw [List.nil_append]
        exact hcs2
      · show d2.migration_state = c.store_at
        exact hst2
    | ok u =>
      have he3 : (runBatches batch rest r2 d2).res = Except.error e := he
      obtain ⟨cs0, c, msg, hcs, hcall, hmsg, hst⟩ := ih r2 d2 he3
      refine ⟨cs2 ++ cs0, c, msg, ?_, hcall, hmsg, ?_⟩
      · show cs2 ++ (runBatches batch rest r2 d2).calls = cs2 ++ cs0 ++ [c]
        rw [hcs]
        simp only [List.append_assoc]
      · show (runBatches batch rest r2 d2).db.migration_state = c.store_at
        exact hst

/-- Error propagation through phase 1. -/
theorem migrate_projects_error_spec (client : RemoteClient) (organization_id : Uuid)
    (project_ids : List Uuid) (rep : MigrationReport) (d : Db) {e : MigrationError}
    (he : (migrate_projects client organization_id project_ids rep d).res = .error e) :
    ∃ cs0 c msg,
      (migrate_projects client organization_id project_ids rep d).calls = cs0 ++ [c] ∧
      client.call c.payload = .error msg ∧ e = MigrationError.remoteClient msg ∧
      (migrate_projects client organization_id project_ids rep d).db.migration_state =
        c.store_at := by
  unfold migrate_projects at he ⊢
  refine runBatches_error_spec client _ ?_ _ _ _ he
  intro chunk r2 d2 e2 he2
  obtain ⟨c, msg, h1, h2, h3, h4, _⟩ :=
    migrate_project_batch_error_spec client organization_id chunk r2 d2 he2
  exact ⟨c, msg, h1, h2, h3, h4⟩

/-- Error propagation through phase 2. -/
theorem migrate_tasks_error_spec (client : RemoteClient) (project_ids : List Uuid)
    (rep : MigrationReport) (d : Db) {e : MigrationError}
    (he : (migrate_tasks client project_ids rep d).res = .error e) :
    ∃ cs0 c msg,
      (migrate_tasks client project_ids rep d).calls = cs0 ++ [c] ∧
      client.call c.payload = .error msg ∧ e = MigrationError.remoteClient msg ∧
      (migrate_tasks client project_ids rep d).db.migration_state = c.store_at := by
  unfold migrate_tasks at he ⊢
  refine runBatches_error_spec client _ ?_ _ _ _ he
  intro chunk r2 d2 e2 he2
  obtain ⟨c, msg, h1, h2, h3, h4, _⟩ :=
    migrate_task_batch_error_spec client chunk r2 d2 he2
  exact ⟨c, msg, h1, h2, h3, h4⟩

/-- Error propagation through phase 3. -/
theorem migrate_pr_merges_error_spec (client : RemoteClient) (project_ids : List Uuid)
    (rep : MigrationReport) (d : Db) {e : MigrationError}
    (he : (migrate_pr_merges client project_ids rep d).res = .error e) :
    ∃ cs0 c msg,
      (migrate_pr_merges client project_ids rep d).calls = cs0 ++ [c] ∧
      client.call c.payload = .error msg ∧ e = MigrationError.remoteClient msg ∧
      (migrate_pr_merges client project_ids rep d).db.migration_state = c.store_at := by
  unfold migrate_pr_merges at he ⊢
  refine runBatches_error_spec client _ ?_ _ _ _ he
  intro chunk r2 d2 e2 he2
  exact migrate_pr_merge_batch_error_spec client chunk r2 d2 he2

/-- Error propagation through phase 4. -/
theorem migrate_workspaces_error_spec (client : RemoteClient) (project_ids : List Uuid)
    (rep : MigrationReport) (d : Db) {e : MigrationError}
    (he : (migrate_workspaces client project_ids rep d).res = .error e) :
    ∃ cs0 c msg,
      (migrate_workspaces client project_ids rep d).calls = cs0 ++ [c] ∧
      client.call c.payload = .error msg ∧ e = MigrationError.remoteClient msg ∧
      (migrate_workspaces client project_ids rep d).db.migration_state = c.store_at := by
  unfold migrate_workspaces at he ⊢
  refine runBatches_error_spec client _ ?_ _ _ _ he
  intro chunk r2 d2 e2 he2
  exact migrate_workspace_batch_error_spec client chunk r2 d2 he2

/-- A run that returns an error stopped at a failing remote call: that call is
the last call issued, its message is the surfaced error, and the run's final
store is exactly the store the failing call saw (everything written before the
failing batch, including its freshly upserted `pending` rows, is retained). -/
theorem run_migration_error_spec (client : RemoteClient) (organization_id : Uuid)
    (project_ids : List Uuid) (db : Db) {e : MigrationError}
    (he : (run_migration client organization_id project_ids db).1 = .error e) :
    ∃ cs0 c msg,
      (run_migration client organization_id project_ids db).2.2 = cs0 ++ [c] ∧
      client.call c.payload = .error msg ∧ e = MigrationError.remoteClient msg ∧
      (run_migration client organization_id project_ids db).2.1.migration_state =
        c.store_at := by
  unfold run_migration at he ⊢
  rcases h1 : migrate_projects client organization_id project_ids MigrationReport.empty db
    with ⟨res1, db1, rep1, cs1⟩
  simp only [h1] at he ⊢
  cases res1 with
  | error e1 =>
    have he1 : e1 = e := Except.error.inj he
    obtain ⟨cs0, c, msg, hcs, hcall, hmsg, hst⟩ :=
      migrate_projects_error_spec client organization_id project_ids
        MigrationReport.empty db (by rw [h1]; rfl)
    rw [h1] at hcs hst
    have hcs2 : cs1 = cs0 ++ [c] := hcs
    have hst2 : db1.migration_state = c.store_at := hst
    refine ⟨cs0, c, msg, ?_, hcall, he1.symm.trans hmsg, ?_⟩
    · show cs1 = cs0 ++ [c]
      exact hcs2
    · show db1.migration_state = c.store_at
      exact hst2
  | ok u =>
    simp only [h1] at he ⊢
    rcases h2 : migrate_tasks client project_ids rep1 db1 with ⟨res2, db2, rep2, cs2⟩
    simp only [h2] at he
    cases res2 with
    | error e2 =>
      have he2 : e2 = e := Except.error.inj he
      obtain ⟨cs0, c, msg, hcs, hcall, hmsg, hst⟩ :=
        migrate_tasks_error_spec client project_ids rep1 db1 (by rw [h2]; rfl)
      rw [h2] at hcs hst
      have hcs2 : cs2 = cs0 ++ [c] := hcs
      have hst2 : db2.migration_state = c.store_at := hst
      refine ⟨cs1 ++ cs0, c, msg, ?_, hcall, he2.symm.trans hmsg, ?_⟩
      · show cs1 ++ cs2 = cs1 ++ cs0 ++ [c]
        rw [hcs2]
        simp only [List.append_assoc]
      · show db2.migration_state = c.store_at
        exact hst2
    | ok u2 =>
      simp only [h2] at he ⊢
      rcases h3 : migrate_pr_merges client project_ids rep2 db2
        with ⟨res3, db3, rep3, cs3⟩
      simp only [h3] at he
      cases res3 with
      | error e3 =>
        have he3 : e3 = e := Except.error.inj he
        obtain ⟨cs0, c, msg, hcs, hcall, hmsg, hst⟩ :=
          migrate_pr_merges_error_spec client project_ids rep2 db2 (by rw [h3]; rfl)
        rw [h3] at hcs hst
        have hcs2 : cs3 = cs0 ++ [c] := hcs
        have hst2 : db3.migration_state = c.store_at := hst
        refine ⟨cs1 ++ cs2 ++ cs0, c, msg, ?_, hcall, he3.symm.trans hmsg, ?_⟩
        · show cs1 ++ cs2 ++ cs3 = cs1 ++ cs2 ++ cs0 ++ [c]
          rw [hcs2]
          simp only [List.append_assoc]
        · show db3.migration_state = c.store_at
          exact hst2
      | ok u3 =>
        simp only [h3] at he ⊢
        rcases h4 : migrate_workspaces client project_ids rep3 db3
          with ⟨res4, db4, rep4, cs4⟩
        simp only [h4] at he
        cases res4 with
        | error e4 =>
          have he4 : e4 = e := Except.error.inj he
          obtain ⟨cs0, c, msg, hcs, hcall, hmsg, hst⟩ :=
            migrate_workspaces_error_spec client project_ids rep3 db3 (by rw [h4]; rfl)
          rw [h4] at hcs hst
          have hcs2 : cs4 = cs0 ++ [c] := hcs
          have hst2 : db4.migration_state = c.store_at := hst
          refine ⟨cs1 ++ cs2 ++ cs3 ++ cs0, c, msg, ?_, hcall, he4.symm.trans hmsg, ?_⟩
          · show cs1 ++ cs2 ++ cs3 ++ cs4 = cs1 ++ cs2 ++ cs3 ++ cs0 ++ [c]
            rw [hcs2]
            simp only [List.append_assoc]
          · show db4.migration_state = c.store_at
            exact hst2
        | ok u4 =>
          exact Except.noConfusion he

/-! ### Idempotence machinery (C2): migrated rows and dead dependencies -/

theorem rowMigratedP_updateRows_of_migrating {f : MigrationRow → MigrationRow}
    (hf : keyPreserving f) (hmig : ∀ r, (f r).status = MigrationStatus.migrated)
    {s : Store} {a : EntityType} {b : Uuid} (h : rowMigratedP s a b)
    (et : EntityType) (lid : Uuid) :
    rowMigratedP (MigrationState.updateRows et lid f s) a b := by
  obtain ⟨r, hr, hst⟩ := h
  by_cases hk : a = et ∧ b = lid
  · obtain ⟨rfl, rfl⟩ := hk
    refine ⟨f r, ?_, hmig r⟩
    rw [MigrationState.find_by_entity_updateRows_self hf, hr]
    rfl
  · refine ⟨r, ?_, hst⟩
    rw [MigrationState.find_by_entity_updateRows_other hf _ hk]
    exact hr

theorem rowMigratedP_updateRows_other {f : MigrationRow → MigrationRow}
    (hf : keyPreserving f) {s : Store} {a : EntityType} {b : Uuid}
    (h : rowMigratedP s a b) {et : EntityType} {lid : Uuid}
    (hk : ¬(a = et ∧ b = lid)) :
    rowMigratedP (MigrationState.updateRows et lid f s) a b := by
  obtain ⟨r, hr, hst⟩ := h
  refine ⟨r, ?_, hst⟩
  rw [MigrationState.find_by_entity_updateRows_other hf _ hk]
  exact hr

theorem rowMigratedP_upsert {s : Store} {a : EntityType} {b : Uuid}
    (h : rowMigratedP s a b) (et : EntityType) (lid : Uuid) :
    rowMigratedP (MigrationState.upsert s et lid) a b := by
  obtain ⟨r, hr, hst⟩ := h
  exact ⟨r, MigrationState.find_by_entity_upsert_of_found hr et lid, hst⟩

theorem rowMigratedP_mark_migrated {s : Store} {a : EntityType} {b : Uuid}
    (h : rowMigratedP s a b) (et : EntityType) (lid rid : Uuid) :
    rowMigratedP (MigrationState.mark_migrated s et lid rid) a b := by
  unfold MigrationState.mark_migrated
  exact rowMigratedP_updateRows_of_migrating (keyPreserving_migrated rid)
    (fun r => rfl) h et lid

theorem rowMigratedP_of_find {s : Store} {a : EntityType} {b : Uuid}
    {r : MigrationRow} (hfind : MigrationState.find_by_entity s a b = some r)
    (hst : r.status = MigrationStatus.migrated) : rowMigratedP s a b :=
  ⟨r, hfind, hst⟩

/-- A `migrated` first row makes `get_remote_id` return its remote id, so the
pre-filter condition and the dependency lookup agree on migrated keys. -/
theorem rowMigratedP_not_of_find_none {s : Store} {a : EntityType} {b : Uuid}
    (hfind : MigrationState.find_by_entity s a b = none) : ¬rowMigratedP s a b := by
  rintro ⟨r, hr, -⟩
  rw [hfind] at hr
  exact Option.noConfusion hr

theorem rowMigratedP_not_of_find_other {s : Store} {a : EntityType} {b : Uuid}
    {r : MigrationRow} (hfind : MigrationState.find_by_entity s a b = some r)
    (hst : r.status ≠ MigrationStatus.migrated) : ¬rowMigratedP s a b := by
  rintro ⟨r2, hr2, hst2⟩
  rw [hfind] at hr2
  injection hr2 with hr2
  exact hst (hr2 ▸ hst2)

/-- `get_remote_id` that is `none` stays `none` under `mark_skipped` (no row
turns `migrated`). -/
theorem get_remote_id_none_mark_skipped {s : Store} {a : EntityType} {b : Uuid}
    (h : MigrationState.get_remote_id s a b = none) (et : EntityType) (lid : Uuid)
    (m : String) :
    MigrationState.get_remote_id (MigrationState.mark_skipped s et lid m) a b = none := by
  by_cases hk : a = et ∧ b = lid
  · obtain ⟨rfl, rfl⟩ := hk
    exact MigrationState.get_remote_id_mark_skipped_self s a b m
  · unfold MigrationState.mark_skipped
    rw [MigrationState.get_remote_id_updateRows_other (keyPreserving_skipped m) _ hk]
    exact h

theorem get_remote_id_none_upsert {s : Store} {a : EntityType} {b : Uuid}
    (h : MigrationState.get_remote_id s a b = none) (et : EntityType) (lid : Uuid) :
    MigrationState.get_remote_id (MigrationState.upsert s et lid) a b = none := by
  rw [MigrationState.get_remote_id_upsert]
  exact h

theorem rowMigratedP_upsertAll (et : EntityType) (lids : List Uuid) {s : Store}
    {a : EntityType} {b : Uuid} (h : rowMigratedP s a b) :
    rowMigratedP (upsertAll et lids s) a b := by
  induction lids generalizing s with
  | nil => exact h
  | cons l rest ih =>
    unfold upsertAll
    exact ih (rowMigratedP_upsert h et l)

theorem get_remote_id_none_upsertAll (et : EntityType) (lids : List Uuid) {s : Store}
    {a : EntityType} {b : Uuid} (h : MigrationState.get_remote_id s a b = none) :
    MigrationState.get_remote_id (upsertAll et lids s) a b = none := by
  rw [get_remote_id_upsertAll]
  exact h

/-- Every record of the input either survives into the pending list or is
skipped by the pre-filter because its state row is already `migrated`. -/
theorem filterPending_cases (et : EntityType) (key : α → Uuid) (s : Store)
    (l : List α) {x : α} (hx : x ∈ l) :
    x ∈ (filterPending et key s l).1 ∨ rowMigratedP s et (key x) := by
  induction l with
  | nil => simp at hx
  | cons y rest ih =>
    unfold filterPending
    rcases hfp : filterPending et key s rest with ⟨pend, n⟩
    rcases List.mem_cons.mp hx with rfl | hmem
    · cases hfind : MigrationState.find_by_entity s et (key x) with
      | some ex =>
        by_cases hst : (ex.status == MigrationStatus.migrated) = true
        · simp only [hfind, hfp, hst, if_true]
          exact Or.inr ⟨ex, hfind, by simpa using hst⟩
        · have hst' : (ex.status == MigrationStatus.migrated) = false := by
            revert hst; cases ex.status == MigrationStatus.migrated <;> simp
          simp only [hfind, hfp, hst', Bool.false_eq_true, if_false]
          exact Or.inl (List.mem_cons_self x pend)
      | none =>
        simp only [hfind, hfp]
        exact Or.inl (List.mem_cons_self x pend)
    · rcases ih hmem with hpend | hmig
      · rw [hfp] at hpend
        cases hfind : MigrationState.find_by_entity s et (key y) with
        | some ex =>
          by_cases hst : (ex.status == MigrationStatus.migrated) = true
          · simp only [hfind, hfp, hst, if_true]
            exact Or.inl hpend
          · have hst' : (ex.status == MigrationStatus.migrated) = false := by
              revert hst; cases ex.status == MigrationStatus.migrated <;> simp
            simp only [hfind, hfp, hst', Bool.false_eq_true, if_false]
            exact Or.inl (List.mem_cons_of_mem y hpend)
        | none =>
          simp only [hfind, hfp]
          exact Or.inl (List.mem_cons_of_mem y hpend)
      · exact Or.inr hmig

/-- When every record is already migrated the pre-filter keeps nothing and
counts them all. -/
theorem filterPending_all_migrated (et : EntityType) (key : α → Uuid) (s : Store)
    (l : List α) (h : ∀ x ∈ l, rowMigratedP s et (key x)) :
    filterPending et key s l = ([], l.length) := by
  induction l with
  | nil => rfl
  | cons y rest ih =>
    unfold filterPending
    rw [ih (fun x hx => h x (List.mem_cons_of_mem y hx))]
    obtain ⟨r, hfind, hst⟩ := h y (List.mem_cons_self y rest)
    have hbeq : (r.status == MigrationStatus.migrated) = true := by simp [hst]
    simp only [hfind, hbeq, if_true, List.length_cons]

/-- Pending records and the skipped count partition the input. -/
theorem filterPending_length (et : EntityType) (key : α → Uuid) (s : Store)
    (l : List α) :
    (filterPending et key s l).1.length + (filterPending et key s l).2 = l.length := by
  induction l with
  | nil => rfl
  | cons y rest ih =>
    unfold filterPending
    rcases hfp : filterPending et key s rest with ⟨pend, n⟩
    rw [hfp] at ih
    have ih2 : pend.length + n = rest.length := ih
    cases hfind : MigrationState.find_by_entity s et (key y) with
    | some ex =>
      by_cases hst : (ex.status == MigrationStatus.migrated) = true
      · simp only [hfind, hst, if_true]
        show pend.length + (n + 1) = (y :: rest).length
        simp only [List.length_cons]
        omega
      · have hst' : (ex.status == MigrationStatus.migrated) = false := by
          revert hst; cases ex.status == MigrationStatus.migrated <;> simp
        simp only [hfind, hst', Bool.false_eq_true, if_false]
        show (y :: pend).length + n = (y :: rest).length
        simp only [List.length_cons]
        omega
    | none =>
      simp only [hfind]
      show (y :: pend).length + n = (y :: rest).length
      simp only [List.length_cons]
      omega

/-- A record kept pending is not recorded migrated. -/
theorem filterPending_pending_not_migrated (et : EntityType) (key : α → Uuid)
    (s : Store) (l : List α) {x : α} (hx : x ∈ (filterPending et key s l).1) :
    ¬rowMigratedP s et (key x) := by
  induction l with
  | nil => simp [filterPending] at hx
  | cons y rest ih =>
    unfold filterPending at hx
    rcases hfp : filterPending et key s rest with ⟨pend, n⟩
    rw [hfp] at hx
    cases hfind : MigrationState.find_by_entity s et (key y) with
    | some ex =>
      by_cases hst : (ex.status == MigrationStatus.migrated) = true
      · simp only [hfind, hst, if_true] at hx
        exact ih (hfp ▸ hx)
      · have hst' : (ex.status == MigrationStatus.migrated) = false := by
          revert hst; cases ex.status == MigrationStatus.migrated <;> simp
        simp only [hfind, hst', Bool.false_eq_true, if_false] at hx
        rcases List.mem_cons.mp hx with rfl | hmem
        · exact rowMigratedP_not_of_find_other hfind (by
            intro hcon
            rw [hcon] at hst'
            simp at hst')
        · exact ih (hfp ▸ hmem)
    | none =>
      simp only [hfind] at hx
      rcases List.mem_cons.mp hx with rfl | hmem
      · exact rowMigratedP_not_of_find_none hfind
      · exact ih (hfp ▸ hmem)

/-- The pending list is a sublist of the input. -/
theorem filterPending_sublist (et : EntityType) (key : α → Uuid) (s : Store)
    (l : List α) : (filterPending et key s l).1.Sublist l := by
  induction l with
  | nil => simp [filterPending]
  | cons y rest ih =>
    unfold filterPending
    rcases hfp : filterPending et key s rest with ⟨pend, n⟩
    rw [hfp] at ih
    cases hfind : MigrationState.find_by_entity s et (key y) with
    | some ex =>
      by_cases hst : (ex.status == MigrationStatus.migrated) = true
      · simp only [hfind, hst, if_true]
        exact ih.cons y
      · have hst' : (ex.status == MigrationStatus.migrated) = false := by
          revert hst; cases ex.status == MigrationStatus.migrated <;> simp
        simp only [hfind, hst', Bool.false_eq_true, if_false]
        exact ih.cons₂ y
    | none =>
      simp only [hfind]
      exact ih.cons₂ y

/-- With enough fuel and a positive chunk size, the chunks concatenate back
to the input. -/
theorem chunksOfFuel_flatten (n : Nat) (hn : n ≠ 0) :
    ∀ (fuel : Nat) (xs : List α), xs.length ≤ fuel →
      (chunksOfFuel n fuel xs).flatten = xs := by
  intro fuel
  induction fuel with
  | zero =>
    intro xs hlen
    cases xs with
    | nil => rfl
    | cons x rest => simp at hlen
  | succ fuel ih =>
    intro xs hlen
    cases xs with
    | nil => rfl
    | cons x rest =>
      unfold chunksOfFuel
      simp only [hn, if_false]
      rw [List.flatten_cons]
      rw [ih ((x :: rest).drop n) (by
        rw [List.length_drop]
        have hpos : 0 < n := Nat.pos_of_ne_zero hn
        simp only [List.length_cons] at hlen ⊢
        omega)]
      exact List.take_append_drop n (x :: rest)

theorem chunksOf_flatten (n : Nat) (hn : n ≠ 0) (xs : List α) :
    (chunksOf n xs).flatten = xs :=
  chunksOfFuel_flatten n hn xs.length xs (Nat.le_refl _)

/-! #### The resolution loops: frames and submitted ids -/

/-- The task loop only rewrites `.task` rows, so `get_remote_id` of any other
entity type is untouched. -/
theorem resolveTasks_get_remote_id_other (ts : List Task) (d : Db)
    (rep : MigrationReport) {a : EntityType} {b : Uuid} (ha : a ≠ .task) :
    MigrationState.get_remote_id (resolveTasks ts d rep).db.migration_state a b =
      MigrationState.get_remote_id d.migration_state a b := by
  induction ts generalizing d rep with
  | nil => rfl
  | cons task rest ih =>
    unfold resolveTasks
    cases hdep : MigrationState.get_remote_id d.migration_state .project task.project_id with
    | some p =>
      simp only [hdep]
      exact ih d rep
    | none =>
      simp only [hdep]
      rw [ih _ _]
      exact MigrationState.get_remote_id_updateRows_other (keyPreserving_skipped _) _
        (by rintro ⟨h, -⟩; exact ha h)

/-- The task loop never makes a dead `get_remote_id` live. -/
theorem resolveTasks_get_remote_id_none (ts : List Task) (d : Db)
    (rep : MigrationReport) {a : EntityType} {b : Uuid}
    (h : MigrationState.get_remote_id d.migration_state a b = none) :
    MigrationState.get_remote_id (resolveTasks ts d rep).db.migration_state a b = none := by
  induction ts generalizing d rep with
  | nil => exact h
  | cons task rest ih =>
    unfold resolveTasks
    cases hdep : MigrationState.get_remote_id d.migration_state .project task.project_id with
    | some p =>
      simp only [hdep]
      exact ih d rep h
    | none =>
      simp only [hdep]
      exact ih _ _ (get_remote_id_none_mark_skipped h _ _ _)

/-- The task loop only rewrites the store of its database. -/
theorem resolveTasks_db_shape (ts : List Task) (d : Db) (rep : MigrationReport) :
    (resolveTasks ts d rep).db =
      { d with migration_state := (resolveTasks ts d rep).db.migration_state } := by
  induction ts generalizing d rep with
  | nil => rfl
  | cons task rest ih =>
    unfold resolveTasks
    cases hdep : MigrationState.get_remote_id d.migration_state .project task.project_id with
    | some p =>
      simp only [hdep]
      exact ih d rep
    | none =>
      simp only [hdep]
      exact ih _ _

/-- A task whose project dependency resolves is submitted. -/
theorem resolveTasks_mem_local_ids (ts : List Task) (d : Db) (rep : MigrationReport)
    {t : Task} (ht : t ∈ ts) {pid : Uuid}
    (hdep : MigrationState.get_remote_id d.migration_state .project t.project_id =
      some pid) :
    t.id ∈ (resolveTasks ts d rep).local_ids := by
  induction ts generalizing d rep with
  | nil => simp at ht
  | cons task rest ih =>
    unfold resolveTasks
    rcases List.mem_cons.mp ht with rfl | hmem
    · simp only [hdep]
      exact List.mem_cons_self _ _
    · cases hdep0 : MigrationState.get_remote_id d.migration_state .project
          task.project_id with
      | some p =>
        simp only [hdep0]
        exact List.mem_cons_of_mem _ (ih d rep hmem hdep)
      | none =>
        simp only [hdep0]
        refine ih _ _ hmem ?_
        unfold MigrationState.mark_skipped
        rw [MigrationState.get_remote_id_updateRows_other (keyPreserving_skipped _) _
          (by rintro ⟨h, -⟩; exact EntityType.noConfusion h)]
        exact hdep

/-- When every task of the batch is dependency-dead nothing is submitted. -/
theorem resolveTasks_requests_nil_of_dead (ts : List Task) (d : Db)
    (rep : MigrationReport)
    (hdead : ∀ t ∈ ts, MigrationState.get_remote_id d.migration_state .project
      t.project_id = none) :
    (resolveTasks ts d rep).requests = [] := by
  induction ts generalizing d rep with
  | nil => rfl
  | cons task rest ih =>
    unfold resolveTasks
    have hd := hdead task (List.mem_cons_self _ _)
    simp only [hd]
    refine ih _ _ ?_
    intro t ht
    unfold MigrationState.mark_skipped
    rw [MigrationState.get_remote_id_updateRows_other (keyPreserving_skipped _) _
      (by rintro ⟨h, -⟩; exact EntityType.noConfusion h)]
    exact hdead t (List.mem_cons_of_mem _ ht)

/-- The PR-merge loop only rewrites `.prMerge` rows: other lookups untouched. -/
theorem resolvePrMerges_find_untouched (ms : List PrMerge) (d : Db)
    (rep : MigrationReport) {a : EntityType} {b : Uuid}
    (h : a ≠ .prMerge ∨ b ∉ ms.map PrMerge.id) :
    MigrationState.find_by_entity (resolvePrMerges ms d rep).db.migration_state a b =
      MigrationState.find_by_entity d.migration_state a b := by
  induction ms generalizing d rep with
  | nil => rfl
  | cons pm rest ih =>
    have hrest : a ≠ EntityType.prMerge ∨ b ∉ rest.map PrMerge.id := by
      rcases h with h | h
      · exact Or.inl h
      · exact Or.inr fun hmem => h (by simpa using List.mem_cons_of_mem _ hmem)
    have hne : ¬(a = EntityType.prMerge ∧ b = pm.id) := by
      rintro ⟨rfl, rfl⟩
      rcases h with h | h
      · exact h rfl
      · exact h (by simp)
    unfold resolvePrMerges
    cases hdep : (match Workspace.find_by_id d pm.workspace_id with
      | some ws => MigrationState.get_remote_id d.migration_state .task ws.task_id
      | none => none : Option Uuid) with
    | some iid =>
      simp only [hdep]
      exact ih d rep hrest
    | none =>
      simp only [hdep]
      rw [ih _ _ hrest]
      exact MigrationState.find_by_entity_updateRows_other (keyPreserving_skipped _) _ hne

theorem resolvePrMerges_get_remote_id_other (ms : List PrMerge) (d : Db)
    (rep : MigrationReport) {a : EntityType} {b : Uuid} (ha : a ≠ .prMerge) :
    MigrationState.get_remote_id (resolvePrMerges ms d rep).db.migration_state a b =
      MigrationState.get_remote_id d.migration_state a b := by
  induction ms generalizing d rep with
  | nil => rfl
  | cons pm rest ih =>
    unfold resolvePrMerges
    cases hdep : (match Workspace.find_by_id d pm.workspace_id with
      | some ws => MigrationState.get_remote_id d.migration_state .task ws.task_id
      | none => none : Option Uuid) with
    | some iid =>
      simp only [hdep]
      exact ih d rep
    | none =>
      simp only [hdep]
      rw [ih _ _]
      exact MigrationState.get_remote_id_updateRows_other (keyPreserving_skipped _) _
        (by rintro ⟨h, -⟩; exact ha h)

theorem resolvePrMerges_get_remote_id_none (ms : List PrMerge) (d : Db)
    (rep : MigrationReport) {a : EntityType} {b : Uuid}
    (h : MigrationState.get_remote_id d.migration_state a b = none) :
    MigrationState.get_remote_id (resolvePrMerges ms d rep).db.migration_state a b =
      none := by
  induction ms generalizing d rep with
  | nil => exact h
  | cons pm rest ih =>
    unfold resolvePrMerges
    cases hdep : (match Workspace.find_by_id d pm.workspace_id with
      | some ws => MigrationState.get_remote_id d.migration_state .task ws.task_id
      | none => none : Option Uuid) with
    | some iid =>
      simp only [hdep]
      exact ih d rep h
    | none =>
      simp only [hdep]
      exact ih _ _ (get_remote_id_none_mark_skipped h _ _ _)

theorem resolvePrMerges_db_shape (ms : List PrMerge) (d : Db) (rep : MigrationReport) :
    (resolvePrMerges ms d rep).db =
      { d with migration_state := (resolvePrMerges ms d rep).db.migration_state } := by
  induction ms generalizing d rep with
  | nil => rfl
  | cons pm rest ih =>
    unfold resolvePrMerges
    cases hdep : (match Workspace.find_by_id d pm.workspace_id with
      | some ws => MigrationState.get_remote_id d.migration_state .task ws.task_id
      | none => none : Option Uuid) with
    | some iid =>
      simp only [hdep]
      exact ih d rep
    | none =>
      simp only [hdep]
      exact ih _ _

/-- `prMergeDep` ignores a store update on a non-`.task` key and any change to
other database fields. -/
theorem prMergeDep_updateRows (d : Db) (et : EntityType) (lid : Uuid)
    (f : MigrationRow → MigrationRow) (hf : keyPreserving f) (hne : et ≠ .task)
    (m : PrMerge) :
    prMergeDep { d with migration_state := MigrationState.updateRows et lid f d.migration_state } m = prMergeDep d m := by
  unfold prMergeDep Workspace.find_by_id
  dsimp only
  cases d.workspaces.find? (fun w => w.id == m.workspace_id) with
  | none => rfl
  | some ws =>
    exact MigrationState.get_remote_id_updateRows_other hf _
      (by rintro ⟨h, -⟩; exact hne h.symm)

/-- A merge whose dependency resolves is submitted. -/
theorem resolvePrMerges_mem_local_ids (ms : List PrMerge) (d : Db)
    (rep : MigrationReport) {m : PrMerge} (hm : m ∈ ms) {iid : Uuid}
    (hdep : prMergeDep d m = some iid) :
    m.id ∈ (resolvePrMerges ms d rep).local_ids := by
  induction ms generalizing d rep with
  | nil => simp at hm
  | cons pm rest ih =>
    unfold resolvePrMerges
    rcases List.mem_cons.mp hm with rfl | hmem
    · have hdep2 : (match Workspace.find_by_id d m.workspace_id with
          | some ws => MigrationState.get_remote_id d.migration_state .task ws.task_id
          | none => none : Option Uuid) = some iid := hdep
      simp only [hdep2]
      exact List.mem_cons_self _ _
    · cases hdep0 : (match Workspace.find_by_id d pm.workspace_id with
        | some ws => MigrationState.get_remote_id d.migration_state .task ws.task_id
        | none => none : Option Uuid) with
      | some p =>
        simp only [hdep0]
        exact List.mem_cons_of_mem _ (ih d rep hmem hdep)
      | none =>
        simp only [hdep0]
        refine ih _ _ hmem ?_
        exact (prMergeDep_updateRows d .prMerge pm.id _ (keyPreserving_skipped _)
          (by intro h; exact EntityType.noConfusion h) m).trans hdep

/-- When every merge of the batch is dependency-dead nothing is submitted. -/
theorem resolvePrMerges_requests_nil_of_dead (ms : List PrMerge) (d : Db)
    (rep : MigrationReport) (hdead : ∀ m ∈ ms, prMergeDep d m = none) :
    (resolvePrMerges ms d rep).requests = [] := by
  induction ms generalizing d rep with
  | nil => rfl
  | cons pm rest ih =>
    unfold resolvePrMerges
    have hd : (match Workspace.find_by_id d pm.workspace_id with
        | some ws => MigrationState.get_remote_id d.migration_state .task ws.task_id
        | none => none : Option Uuid) = none := hdead pm (List.mem_cons_self _ _)
    simp only [hd]
    refine ih _ _ ?_
    intro m hm
    exact (prMergeDep_updateRows d .prMerge pm.id _ (keyPreserving_skipped _)
      (by intro h; exact EntityType.noConfusion h) m).trans
      (hdead m (List.mem_cons_of_mem _ hm))

/-- The three dependency checks of a workspace ignore a store update on a
non-`.project`, non-`.task` key. -/
theorem workspaceDead_updateRows (d : Db) (et : EntityType) (lid : Uuid)
    (f : MigrationRow → MigrationRow) (hf : keyPreserving f) (hne1 : et ≠ .project)
    (hne2 : et ≠ .task) (w : Workspace) :
    (workspaceDead { d with migration_state := MigrationState.updateRows et lid f d.migration_state } w ↔ workspaceDead d w) := by
  unfold workspaceDead Task.find_by_id
  dsimp only
  cases d.tasks.find? (fun t => t.id == w.task_id) with
  | none => exact Iff.rfl
  | some task =>
    show (MigrationState.get_remote_id (MigrationState.updateRows et lid f d.migration_state) .project task.project_id = none ∨ MigrationState.get_remote_id (MigrationState.updateRows et lid f d.migration_state) .task w.task_id = none) ↔ (MigrationState.get_remote_id d.migration_state .project task.project_id = none ∨ MigrationState.get_remote_id d.migration_state .task w.task_id = none)
    rw [MigrationState.get_remote_id_updateRows_other hf _
      (by rintro ⟨h, -⟩; exact hne1 h.symm)]
    rw [MigrationState.get_remote_id_updateRows_other hf _
      (by rintro ⟨h, -⟩; exact hne2 h.symm)]

theorem resolveWorkspaces_get_remote_id_other (ws : List Workspace) (d : Db)
    (rep : MigrationReport) {a : EntityType} {b : Uuid} (ha : a ≠ .workspace) :
    MigrationState.get_remote_id (resolveWorkspaces ws d rep).db.migration_state a b =
      MigrationState.get_remote_id d.migration_state a b := by
  induction ws generalizing d rep with
  | nil => rfl
  | cons w rest ih =>
    have hmark : ∀ msg rep2,
        MigrationState.get_remote_id (resolveWorkspaces rest
          { d with migration_state :=
              MigrationState.mark_skipped d.migration_state .workspace w.id msg }
          rep2).db.migration_state a b =
        MigrationState.get_remote_id d.migration_state a b := by
      intro msg rep2
      rw [ih _ _]
      exact MigrationState.get_remote_id_updateRows_other (keyPreserving_skipped _) _
        (by rintro ⟨h, -⟩; exact ha h)
    unfold resolveWorkspaces
    cases htask : Task.find_by_id d w.task_id with
    | none =>
      simp only [htask]
      exact hmark _ _
    | some task =>
      cases hdep : MigrationState.get_remote_id d.migration_state .project
          task.project_id with
      | none =>
        simp only [htask, hdep]
        exact hmark _ _
      | some rpid =>
        cases hiss : (MigrationState.get_remote_id d.migration_state .task
            w.task_id).isNone with
        | true =>
          simp only [htask, hdep, hiss, if_true]
          exact hmark _ _
        | false =>
          simp only [htask, hdep, hiss, Bool.false_eq_true, if_false]
          exact ih d rep

theorem resolveWorkspaces_get_remote_id_none (ws : List Workspace) (d : Db)
    (rep : MigrationReport) {a : EntityType} {b : Uuid}
    (h : MigrationState.get_remote_id d.migration_state a b = none) :
    MigrationState.get_remote_id (resolveWorkspaces ws d rep).db.migration_state a b =
      none := by
  induction ws generalizing d rep with
  | nil => exact h
  | cons w rest ih =>
    have hmark : ∀ msg rep2,
        MigrationState.get_remote_id (resolveWorkspaces rest
          { d with migration_state :=
              MigrationState.mark_skipped d.migration_state .workspace w.id msg }
          rep2).db.migration_state a b = none := by
      intro msg rep2
      exact ih _ _ (get_remote_id_none_mark_skipped h _ _ _)
    unfold resolveWorkspaces
    cases htask : Task.find_by_id d w.task_id with
    | none =>
      simp only [htask]
      exact hmark _ _
    | some task =>
      cases hdep : MigrationState.get_remote_id d.migration_state .project
          task.project_id with
      | none =>
        simp only [htask, hdep]
        exact hmark _ _
      | some rpid =>
        cases hiss : (MigrationState.get_remote_id d.migration_state .task
            w.task_id).isNone with
        | true =>
          simp only [htask, hdep, hiss, if_true]
          exact hmark _ _
        | false =>
          simp only [htask, hdep, hiss, Bool.false_eq_true, if_false]
          exact ih d rep h

theorem resolveWorkspaces_db_shape (ws : List Workspace) (d : Db)
    (rep : MigrationReport) :
    (resolveWorkspaces ws d rep).db =
      { d with migration_state := (resolveWorkspaces ws d rep).db.migration_state } := by
  induction ws generalizing d rep with
  | nil => rfl
  | cons w rest ih =>
    unfold resolveWorkspaces
    cases htask : Task.find_by_id d w.task_id with
    | none =>
      simp only [htask]
      exact ih _ _
    | some task =>
      cases hdep : MigrationState.get_remote_id d.migration_state .project
          task.project_id with
      | none =>
        simp only [htask, hdep]
        exact ih _ _
      | some rpid =>
        cases hiss : (MigrationState.get_remote_id d.migration_state .task
            w.task_id).isNone with
        | true =>
          simp only [htask, hdep, hiss, if_true]
          exact ih _ _
        | false =>
          simp only [htask, hdep, hiss, Bool.false_eq_true, if_false]
          exact ih d rep

/-- A workspace whose three dependency checks pass is submitted. -/
theorem resolveWorkspaces_mem_local_ids (ws : List Workspace) (d : Db)
    (rep : MigrationReport) {w : Workspace} (hw : w ∈ ws) {task : Task}
    (htask : Task.find_by_id d w.task_id = some task) {rpid : Uuid}
    (hdep : MigrationState.get_remote_id d.migration_state .project task.project_id =
      some rpid) {iid : Uuid}
    (hiss : MigrationState.get_remote_id d.migration_state .task w.task_id = some iid) :
    w.id ∈ (resolveWorkspaces ws d rep).local_ids := by
  induction ws generalizing d rep with
  | nil => simp at hw
  | cons w0 rest ih =>
    unfold resolveWorkspaces
    rcases List.mem_cons.mp hw with rfl | hmem
    · have hiss2 : (MigrationState.get_remote_id d.migration_state .task
          w.task_id).isNone = false := by rw [hiss]; rfl
      simp only [htask, hdep, hiss2, Bool.false_eq_true, if_false]
      exact List.mem_cons_self _ _
    · have hstep : ∀ msg rep2, w.id ∈ (resolveWorkspaces rest
          { d with migration_state :=
              MigrationState.mark_skipped d.migration_state .workspace w0.id msg }
          rep2).local_ids := by
        intro msg rep2
        refine ih _ _ hmem htask ?_ ?_
        · unfold MigrationState.mark_skipped
          rw [MigrationState.get_remote_id_updateRows_other (keyPreserving_skipped _) _
            (by rintro ⟨h, -⟩; exact EntityType.noConfusion h)]
          exact hdep
        · unfold MigrationState.mark_skipped
          rw [MigrationState.get_remote_id_updateRows_other (keyPreserving_skipped _) _
            (by rintro ⟨h, -⟩; exact EntityType.noConfusion h)]
          exact hiss
      cases htask0 : Task.find_by_id d w0.task_id with
      | none =>
        simp only [htask0]
        exact hstep _ _
      | some task0 =>
        cases hdep0 : MigrationState.get_remote_id d.migration_state .project
            task0.project_id with
        | none =>
          simp only [htask0, hdep0]
          exact hstep _ _
        | some rpid0 =>
          cases hiss0 : (MigrationState.get_remote_id d.migration_state .task
              w0.task_id).isNone with
          | true =>
            simp only [htask0, hdep0, hiss0, if_true]
            exact hstep _ _
          | false =>
            simp only [htask0, hdep0, hiss0, Bool.false_eq_true, if_false]
            exact List.mem_cons_of_mem _ (ih d rep hmem htask hdep hiss)

/-- When every workspace of the batch is dependency-dead nothing is
submitted. -/
theorem resolveWorkspaces_requests_nil_of_dead (ws : List Workspace) (d : Db)
    (rep : MigrationReport) (hdead : ∀ w ∈ ws, workspaceDead d w) :
    (resolveWorkspaces ws d rep).requests = [] := by
  induction ws generalizing d rep with
  | nil => rfl
  | cons w rest ih =>
    have hrest : ∀ msg, ∀ w2 ∈ rest, workspaceDead
        { d with migration_state :=
            MigrationState.mark_skipped d.migration_state .workspace w.id msg } w2 := by
      intro msg w2 hw2
      exact (workspaceDead_updateRows d .workspace w.id _ (keyPreserving_skipped _)
        (by intro h; exact EntityType.noConfusion h)
        (by intro h; exact EntityType.noConfusion h) w2).mpr
        (hdead w2 (List.mem_cons_of_mem _ hw2))
    have hd := hdead w (List.mem_cons_self _ _)
    unfold resolveWorkspaces
    cases htask : Task.find_by_id d w.task_id with
    | none =>
      simp only [htask]
      exact ih _ _ (hrest _)
    | some task =>
      unfold workspaceDead at hd
      rw [htask] at hd
      cases hdep : MigrationState.get_remote_id d.migration_state .project
          task.project_id with
      | none =>
        simp only [htask, hdep]
        exact ih _ _ (hrest _)
      | some rpid =>
        have hiss : MigrationState.get_remote_id d.migration_state .task w.task_id =
            none := by
          rcases hd with hd | hd
          · rw [hdep] at hd
            exact Option.noConfusion hd
          · exact hd
        have hiss2 : (MigrationState.get_remote_id d.migration_state .task
            w.task_id).isNone = true := by rw [hiss]; rfl
        simp only [htask, hdep, hiss2, if_true]
        exact ih _ _ (hrest _)

/-! #### The recording loops: migrated rows -/

theorem commitTasks_rowMigratedP (pairs : List (Uuid × Uuid)) (d : Db)
    (rep : MigrationReport) {a : EntityType} {b : Uuid} (h : rowMigratedP d.migration_state a b) :
    rowMigratedP (commitTasks pairs d rep).1.migration_state a b := by
  induction pairs generalizing d rep with
  | nil => exact h
  | cons pr rest ih =>
    obtain ⟨tid, rid⟩ := pr
    unfold commitTasks
    exact ih _ _ (rowMigratedP_mark_migrated h .task tid rid)

/-- Every recorded pair's row is `migrated` after the loop (provided it has a
row at all). -/
theorem commitTasks_mem_migrated (pairs : List (Uuid × Uuid)) (d : Db)
    (rep : MigrationReport) {tid rid : Uuid} (hmem : (tid, rid) ∈ pairs)
    (hsome : (MigrationState.find_by_entity d.migration_state .task tid).isSome) :
    rowMigratedP (commitTasks pairs d rep).1.migration_state .task tid := by
  induction pairs generalizing d rep with
  | nil => simp at hmem
  | cons pr rest ih =>
    obtain ⟨t0, r0⟩ := pr
    rcases List.mem_cons.mp hmem with heq | hmem2
    · injection heq with h1 h2
      subst h1
      subst h2
      unfold commitTasks
      obtain ⟨r, hr⟩ := Option.isSome_iff_exists.mp hsome
      have hfind : MigrationState.find_by_entity
          (MigrationState.mark_migrated d.migration_state .task tid rid) .task tid =
          some { r with status := MigrationStatus.migrated, remote_id := some rid, error_message := none } := by
        unfold MigrationState.mark_migrated
        rw [MigrationState.find_by_entity_updateRows_self (keyPreserving_migrated rid), hr]
        rfl
      exact commitTasks_rowMigratedP rest _ _ ⟨_, hfind, rfl⟩
    · unfold commitTasks
      refine ih _ _ hmem2 ?_
      show (MigrationState.find_by_entity
        (MigrationState.mark_migrated d.migration_state .task t0 r0) .task tid).isSome
      unfold MigrationState.mark_migrated
      exact find_isSome_updateRows (keyPreserving_migrated r0) hsome .task t0

theorem commitTasks_get_remote_id_other (pairs : List (Uuid × Uuid)) (d : Db)
    (rep : MigrationReport) {a : EntityType} {b : Uuid} (ha : a ≠ .task) :
    MigrationState.get_remote_id (commitTasks pairs d rep).1.migration_state a b =
      MigrationState.get_remote_id d.migration_state a b := by
  induction pairs generalizing d rep with
  | nil => rfl
  | cons pr rest ih =>
    obtain ⟨tid, rid⟩ := pr
    unfold commitTasks
    rw [ih]
    exact MigrationState.get_remote_id_updateRows_other (keyPreserving_migrated _) _
      (by rintro ⟨h, -⟩; exact ha h)

theorem commitTasks_db_shape (pairs : List (Uuid × Uuid)) (d : Db)
    (rep : MigrationReport) :
    (commitTasks pairs d rep).1 =
      { d with migration_state := (commitTasks pairs d rep).1.migration_state } := by
  induction pairs generalizing d rep with
  | nil => rfl
  | cons pr rest ih =>
    obtain ⟨tid, rid⟩ := pr
    unfold commitTasks
    exact ih _ _

theorem commitPrMerges_rowMigratedP (pairs : List (Uuid × Uuid)) (d : Db)
    (rep : MigrationReport) {a : EntityType} {b : Uuid} (h : rowMigratedP d.migration_state a b) :
    rowMigratedP (commitPrMerges pairs d rep).1.migration_state a b := by
  induction pairs generalizing d rep with
  | nil => exact h
  | cons pr rest ih =>
    obtain ⟨mid, rid⟩ := pr
    unfold commitPrMerges
    exact ih _ _ (rowMigratedP_mark_migrated h .prMerge mid rid)

theorem commitPrMerges_mem_migrated (pairs : List (Uuid × Uuid)) (d : Db)
    (rep : MigrationReport) {mid rid : Uuid} (hmem : (mid, rid) ∈ pairs)
    (hsome : (MigrationState.find_by_entity d.migration_state .prMerge mid).isSome) :
    rowMigratedP (commitPrMerges pairs d rep).1.migration_state .prMerge mid := by
  induction pairs generalizing d rep with
  | nil => simp at hmem
  | cons pr rest ih =>
    obtain ⟨m0, r0⟩ := pr
    rcases List.mem_cons.mp hmem with heq | hmem2
    · injection heq with h1 h2
      subst h1
      subst h2
      unfold commitPrMerges
      obtain ⟨r, hr⟩ := Option.isSome_iff_exists.mp hsome
      have hfind : MigrationState.find_by_entity
          (MigrationState.mark_migrated d.migration_state .prMerge mid rid) .prMerge mid =
          some { r with status := MigrationStatus.migrated, remote_id := some rid, error_message := none } := by
        unfold MigrationState.mark_migrated
        rw [MigrationState.find_by_entity_updateRows_self (keyPreserving_migrated rid), hr]
        rfl
      exact commitPrMerges_rowMigratedP rest _ _ ⟨_, hfind, rfl⟩
    · unfold commitPrMerges
      refine ih _ _ hmem2 ?_
      show (MigrationState.find_by_entity
        (MigrationState.mark_migrated d.migration_state .prMerge m0 r0) .prMerge mid).isSome
      unfold MigrationState.mark_migrated
      exact find_isSome_updateRows (keyPreserving_migrated r0) hsome .prMerge m0

theorem commitPrMerges_get_remote_id_other (pairs : List (Uuid × Uuid)) (d : Db)
    (rep : MigrationReport) {a : EntityType} {b : Uuid} (ha : a ≠ .prMerge) :
    MigrationState.get_remote_id (commitPrMerges pairs d rep).1.migration_state a b =
      MigrationState.get_remote_id d.migration_state a b := by
  induction pairs generalizing d rep with
  | nil => rfl
  | cons pr rest ih =>
    obtain ⟨mid, rid⟩ := pr
    unfold commitPrMerges
    rw [ih]
    exact MigrationState.get_remote_id_updateRows_other (keyPreserving_migrated _) _
      (by rintro ⟨h, -⟩; exact ha h)

theorem commitPrMerges_find_other (pairs : List (Uuid × Uuid)) (d : Db)
    (rep : MigrationReport) {a : EntityType} {b : Uuid}
    (h : a ≠ .prMerge ∨ b ∉ pairs.map Prod.fst) :
    MigrationState.find_by_entity (commitPrMerges pairs d rep).1.migration_state a b =
      MigrationState.find_by_entity d.migration_state a b := by
  induction pairs generalizing d rep with
  | nil => rfl
  | cons pr rest ih =>
    obtain ⟨mid, rid⟩ := pr
    have hrest : a ≠ EntityType.prMerge ∨ b ∉ rest.map Prod.fst := by
      rcases h with h | h
      · exact Or.inl h
      · exact Or.inr fun hmem => h (by simpa using List.mem_cons_of_mem _ hmem)
    have hne : ¬(a = EntityType.prMerge ∧ b = mid) := by
      rintro ⟨rfl, rfl⟩
      rcases h with h | h
      · exact h rfl
      · exact h (by simp)
    unfold commitPrMerges
    rw [ih _ _ hrest]
    exact MigrationState.find_by_entity_updateRows_other (keyPreserving_migrated _) _ hne

theorem commitPrMerges_db_shape (pairs : List (Uuid × Uuid)) (d : Db)
    (rep : MigrationReport) :
    (commitPrMerges pairs d rep).1 =
      { d with migration_state := (commitPrMerges pairs d rep).1.migration_state } := by
  induction pairs generalizing d rep with
  | nil => rfl
  | cons pr rest ih =>
    obtain ⟨mid, rid⟩ := pr
    unfold commitPrMerges
    exact ih _ _

theorem commitWorkspaces_rowMigratedP (pairs : List (Uuid × Uuid)) (d : Db)
    (rep : MigrationReport) {a : EntityType} {b : Uuid} (h : rowMigratedP d.migration_state a b) :
    rowMigratedP (commitWorkspaces pairs d rep).1.migration_state a b := by
  induction pairs generalizing d rep with
  | nil => exact h
  | cons pr rest ih =>
    obtain ⟨wid, rid⟩ := pr
    unfold commitWorkspaces
    exact ih _ _ (rowMigratedP_mark_migrated h .workspace wid rid)

theorem commitWorkspaces_mem_migrated (pairs : List (Uuid × Uuid)) (d : Db)
    (rep : MigrationReport) {wid rid : Uuid} (hmem : (wid, rid) ∈ pairs)
    (hsome : (MigrationState.find_by_entity d.migration_state .workspace wid).isSome) :
    rowMigratedP (commitWorkspaces pairs d rep).1.migration_state .workspace wid := by
  induction pairs generalizing d rep with
  | nil => simp at hmem
  | cons pr rest ih =>
    obtain ⟨w0, r0⟩ := pr
    rcases List.mem_cons.mp hmem with heq | hmem2
    · injection heq with h1 h2
      subst h1
      subst h2
      unfold commitWorkspaces
      obtain ⟨r, hr⟩ := Option.isSome_iff_exists.mp hsome
      have hfind : MigrationState.find_by_entity
          (MigrationState.mark_migrated d.migration_state .workspace wid rid)
            .workspace wid =
          some { r with status := MigrationStatus.migrated, remote_id := some rid, error_message := none } := by
        unfold MigrationState.mark_migrated
        rw [MigrationState.find_by_entity_updateRows_self (keyPreserving_migrated rid), hr]
        rfl
      exact commitWorkspaces_rowMigratedP rest _ _ ⟨_, hfind, rfl⟩
    · unfold commitWorkspaces
      refine ih _ _ hmem2 ?_
      show (MigrationState.find_by_entity
        (MigrationState.mark_migrated d.migration_state .workspace w0 r0)
          .workspace wid).isSome
      unfold MigrationState.mark_migrated
      exact find_isSome_updateRows (keyPreserving_migrated r0) hsome .workspace w0

theorem commitWorkspaces_get_remote_id_other (pairs : List (Uuid × Uuid)) (d : Db)
    (rep : MigrationReport) {a : EntityType} {b : Uuid} (ha : a ≠ .workspace) :
    MigrationState.get_remote_id (commitWorkspaces pairs d rep).1.migration_state a b =
      MigrationState.get_remote_id d.migration_state a b := by
  induction pairs generalizing d rep with
  | nil => rfl
  | cons pr rest ih =>
    obtain ⟨wid, rid⟩ := pr
    unfold commitWorkspaces
    rw [ih]
    exact MigrationState.get_remote_id_updateRows_other (keyPreserving_migrated _) _
      (by rintro ⟨h, -⟩; exact ha h)

theorem commitWorkspaces_db_shape (pairs : List (Uuid × Uuid)) (d : Db)
    (rep : MigrationReport) :
    (commitWorkspaces pairs d rep).1 =
      { d with migration_state := (commitWorkspaces pairs d rep).1.migration_state } := by
  induction pairs generalizing d rep with
  | nil => rfl
  | cons pr rest ih =>
    obtain ⟨wid, rid⟩ := pr
    unfold commitWorkspaces
    exact ih _ _

theorem commitProjects_rowMigratedP (pairs : List (Project × Uuid)) (d : Db)
    (rep : MigrationReport) {a : EntityType} {b : Uuid} (h : rowMigratedP d.migration_state a b) :
    rowMigratedP (commitProjects pairs d rep).1.migration_state a b := by
  induction pairs generalizing d rep with
  | nil => exact h
  | cons pr rest ih =>
    obtain ⟨p, rid⟩ := pr
    unfold commitProjects
    refine ih _ _ ?_
    rw [set_remote_project_id_migration_state]
    exact rowMigratedP_mark_migrated h .project p.id rid

theorem commitProjects_mem_migrated (pairs : List (Project × Uuid)) (d : Db)
    (rep : MigrationReport) {p : Project} {rid : Uuid} (hmem : (p, rid) ∈ pairs)
    (hsome : (MigrationState.find_by_entity d.migration_state .project p.id).isSome) :
    rowMigratedP (commitProjects pairs d rep).1.migration_state .project p.id := by
  induction pairs generalizing d rep with
  | nil => simp at hmem
  | cons pr rest ih =>
    obtain ⟨p0, r0⟩ := pr
    rcases List.mem_cons.mp hmem with heq | hmem2
    · injection heq with h1 h2
      subst h1
      subst h2
      unfold commitProjects
      obtain ⟨r, hr⟩ := Option.isSome_iff_exists.mp hsome
      have hfind : MigrationState.find_by_entity
          (MigrationState.mark_migrated d.migration_state .project p.id rid)
            .project p.id =
          some { r with status := MigrationStatus.migrated, remote_id := some rid, error_message := none } := by
        unfold MigrationState.mark_migrated
        rw [MigrationState.find_by_entity_updateRows_self (keyPreserving_migrated rid), hr]
        rfl
      refine commitProjects_rowMigratedP rest _ _ ?_
      rw [set_remote_project_id_migration_state]
      exact ⟨_, hfind, rfl⟩
    · unfold commitProjects
      refine ih _ _ hmem2 ?_
      rw [set_remote_project_id_migration_state]
      show (MigrationState.find_by_entity
        (MigrationState.mark_migrated d.migration_state .project p0.id r0)
          .project p.id).isSome
      unfold MigrationState.mark_migrated
      exact find_isSome_updateRows (keyPreserving_migrated r0) hsome .project p0.id

theorem commitProjects_get_remote_id_other (pairs : List (Project × Uuid)) (d : Db)
    (rep : MigrationReport) {a : EntityType} {b : Uuid} (ha : a ≠ .project) :
    MigrationState.get_remote_id (commitProjects pairs d rep).1.migration_state a b =
      MigrationState.get_remote_id d.migration_state a b := by
  induction pairs generalizing d rep with
  | nil => rfl
  | cons pr rest ih =>
    obtain ⟨p, rid⟩ := pr
    unfold commitProjects
    rw [ih]
    rw [set_remote_project_id_migration_state]
    exact MigrationState.get_remote_id_updateRows_other (keyPreserving_migrated _) _
      (by rintro ⟨h, -⟩; exact ha h)

/-- `set_remote_project_id` keeps the project ids (it only writes the remote
id column of a matching row). -/
theorem set_remote_project_id_map_id (d : Db) (id : Uuid) (rid : Option Uuid) :
    (Project.set_remote_project_id d id rid).projects.map Project.id =
      d.projects.map Project.id := by
  unfold Project.set_remote_project_id
  dsimp only
  rw [List.map_map]
  apply List.map_congr_left
  intro p hp
  by_cases hid : (p.id == id) = true
  · have heq : p.id = id := by simpa using hid
    simp [heq]
  · have hne : ¬p.id = id := by simpa using hid
    simp [hne]

/-- The project recording loop: local tables other than `projects` are
untouched, and the project ids survive. -/
theorem commitProjects_db_tables (pairs : List (Project × Uuid)) (d : Db)
    (rep : MigrationReport) :
    (commitProjects pairs d rep).1.tasks = d.tasks ∧
    (commitProjects pairs d rep).1.pr_merges = d.pr_merges ∧
    (commitProjects pairs d rep).1.workspaces = d.workspaces ∧
    (commitProjects pairs d rep).1.projects.map Project.id =
      d.projects.map Project.id := by
  induction pairs generalizing d rep with
  | nil => exact ⟨rfl, rfl, rfl, rfl⟩
  | cons pr rest ih =>
    obtain ⟨p, rid⟩ := pr
    unfold commitProjects
    obtain ⟨h1, h2, h3, h4⟩ := ih (Project.set_remote_project_id { d with migration_state := MigrationState.mark_migrated d.migration_state .project p.id rid } p.id (some rid)) { rep with projects.migrated := rep.projects.migrated + 1 }
    refine ⟨h1.trans ?_, h2.trans ?_, h3.trans ?_, h4.trans ?_⟩
    · rfl
    · rfl
    · rfl
    · exact set_remote_project_id_map_id _ p.id (some rid)

/-- A member of the left list of a zip appears in a pair as soon as the right
list is long enough. -/
theorem mem_zip_left_of_length_le {a : α} {l1 : List α} {l2 : List β}
    (h : a ∈ l1) (hlen : l1.length ≤ l2.length) : ∃ b, (a, b) ∈ l1.zip l2 := by
  obtain ⟨i, hi, hget⟩ := List.mem_iff_getElem.mp h
  have hi2 : i < l2.length := lt_of_lt_of_le hi hlen
  have hiz : i < (l1.zip l2).length := by
    rw [List.length_zip]
    exact lt_min hi hi2
  refine ⟨l2[i], ?_⟩
  have hz : (l1.zip l2)[i] = (l1[i], l2[i]) := List.getElem_zip
  rw [hget] at hz
  exact hz ▸ List.getElem_mem hiz

/-! #### The task batch: frames, post- and dead-batch spec -/

theorem taskBatchFinish_find_other (client : RemoteClient)
    (r : Resolved MigrateIssueRequest) {a : EntityType} {b : Uuid} (ha : a ≠ .task) :
    MigrationState.find_by_entity (taskBatchFinish client r).db.migration_state a b =
      MigrationState.find_by_entity r.db.migration_state a b := by
  unfold taskBatchFinish
  by_cases hreq : r.requests.isEmpty
  · simp [hreq, StepResult.db]
  · have hreq2 : r.requests.isEmpty = false := by
      revert hreq; cases r.requests.isEmpty <;> simp
    rw [hreq2]
    simp only [Bool.false_eq_true, if_false]
    cases hcall : client.call (.issues r.requests) with
    | error e => simp only [hcall, StepResult.db]
    | ok ids =>
      simp only [hcall, StepResult.db]
      show MigrationState.find_by_entity
        (commitTasks (r.local_ids.zip ids) r.db r.report).1.migration_state a b = _
      exact commitTasks_find_other _ _ _ (Or.inl ha)

theorem taskBatchFinish_get_remote_id_other (client : RemoteClient)
    (r : Resolved MigrateIssueRequest) {a : EntityType} {b : Uuid} (ha : a ≠ .task) :
    MigrationState.get_remote_id (taskBatchFinish client r).db.migration_state a b =
      MigrationState.get_remote_id r.db.migration_state a b := by
  unfold taskBatchFinish
  by_cases hreq : r.requests.isEmpty
  · simp [hreq, StepResult.db]
  · have hreq2 : r.requests.isEmpty = false := by
      revert hreq; cases r.requests.isEmpty <;> simp
    rw [hreq2]
    simp only [Bool.false_eq_true, if_false]
    cases hcall : client.call (.issues r.requests) with
    | error e => simp only [hcall, StepResult.db]
    | ok ids =>
      simp only [hcall, StepResult.db]
      show MigrationState.get_remote_id
        (commitTasks (r.local_ids.zip ids) r.db r.report).1.migration_state a b = _
      exact commitTasks_get_remote_id_other _ _ _ ha

theorem taskBatchFinish_db_shape (client : RemoteClient)
    (r : Resolved MigrateIssueRequest) :
    (taskBatchFinish client r).db =
      { r.db with migration_state := (taskBatchFinish client r).db.migration_state } := by
  unfold taskBatchFinish
  by_cases hreq : r.requests.isEmpty
  · simp [hreq, StepResult.db]
  · have hreq2 : r.requests.isEmpty = false := by
      revert hreq; cases r.requests.isEmpty <;> simp
    rw [hreq2]
    simp only [Bool.false_eq_true, if_false]
    cases hcall : client.call (.issues r.requests) with
    | error e => simp only [hcall, StepResult.db]
    | ok ids =>
      simp only [hcall, StepResult.db]
      show (commitTasks (r.local_ids.zip ids) r.db r.report).1 = _
      exact commitTasks_db_shape _ _ _

/-- Keys of another entity type are untouched by a whole task batch. -/
theorem migrate_task_batch_find_other (client : RemoteClient) (tasks : List Task)
    (rep : MigrationReport) (d : Db) {a : EntityType} {b : Uuid} (ha : a ≠ .task) :
    MigrationState.find_by_entity
      (migrate_task_batch client tasks rep d).db.migration_state a b =
      MigrationState.find_by_entity d.migration_state a b := by
  have hmb : migrate_task_batch client tasks rep d =
      taskBatchFinish client (resolveTasks tasks
        { d with migration_state :=
            upsertAll .task (tasks.map (·.id)) d.migration_state } rep) := rfl
  rw [hmb]
  rw [taskBatchFinish_find_other client _ ha]
  rw [resolveTasks_find_untouched _ _ _ (Or.inl ha)]
  show MigrationState.find_by_entity
    (upsertAll .task (tasks.map (·.id)) d.migration_state) a b = _
  exact upsertAll_find_not_mem _ (Or.inl ha)

theorem migrate_task_batch_get_remote_id_other (client : RemoteClient)
    (tasks : List Task) (rep : MigrationReport) (d : Db) {a : EntityType} {b : Uuid}
    (ha : a ≠ .task) :
    MigrationState.get_remote_id
      (migrate_task_batch client tasks rep d).db.migration_state a b =
      MigrationState.get_remote_id d.migration_state a b := by
  have hmb : migrate_task_batch client tasks rep d =
      taskBatchFinish client (resolveTasks tasks
        { d with migration_state :=
            upsertAll .task (tasks.map (·.id)) d.migration_state } rep) := rfl
  rw [hmb]
  rw [taskBatchFinish_get_remote_id_other client _ ha]
  rw [resolveTasks_get_remote_id_other _ _ _ ha]
  show MigrationState.get_remote_id
    (upsertAll .task (tasks.map (·.id)) d.migration_state) a b = _
  exact get_remote_id_upsertAll _ _ _ _ _

/-- Task rows of ids outside the batch are untouched. -/
theorem migrate_task_batch_find_not_mem (client : RemoteClient) (tasks : List Task)
    (rep : MigrationReport) (d : Db) {b : Uuid} (hb : b ∉ tasks.map Task.id) :
    MigrationState.find_by_entity
      (migrate_task_batch client tasks rep d).db.migration_state .task b =
      MigrationState.find_by_entity d.migration_state .task b := by
  have hmb : migrate_task_batch client tasks rep d =
      taskBatchFinish client (resolveTasks tasks
        { d with migration_state :=
            upsertAll .task (tasks.map (·.id)) d.migration_state } rep) := rfl
  rw [hmb]
  set R := resolveTasks tasks
    { d with migration_state := upsertAll .task (tasks.map (·.id)) d.migration_state }
    rep with hR
  have hnotsub : b ∉ R.local_ids := by
    intro hmem
    exact hb (List.Sublist.mem hmem (by rw [hR]; exact resolveTasks_local_ids_sublist _ _ _))
  rw [taskBatchFinish_find_not_submitted client R hnotsub]
  rw [hR]
  rw [resolveTasks_find_untouched _ _ _ (Or.inr hb)]
  show MigrationState.find_by_entity
    (upsertAll .task (tasks.map (·.id)) d.migration_state) .task b = _
  exact upsertAll_find_not_mem _ (Or.inr hb)

theorem migrate_task_batch_db_shape (client : RemoteClient) (tasks : List Task)
    (rep : MigrationReport) (d : Db) :
    (migrate_task_batch client tasks rep d).db =
      { d with migration_state :=
          (migrate_task_batch client tasks rep d).db.migration_state } := by
  have hmb : migrate_task_batch client tasks rep d =
      taskBatchFinish client (resolveTasks tasks
        { d with migration_state :=
            upsertAll .task (tasks.map (·.id)) d.migration_state } rep) := rfl
  rw [hmb]
  rw [taskBatchFinish_db_shape client _]
  rw [resolveTasks_db_shape]

/-- A successful task batch leaves every batch member either migrated or
project-dead (evaluated against the store at batch entry). -/
theorem migrate_task_batch_post (client : RemoteClient) (chunk : List Task)
    (rep : MigrationReport) (d : Db) (hh : RemoteClient.honest client)
    (hok : (migrate_task_batch client chunk rep d).res = .ok ()) :
    ∀ t ∈ chunk,
      rowMigratedP (migrate_task_batch client chunk rep d).db.migration_state
        .task t.id ∨
      MigrationState.get_remote_id d.migration_state .project t.project_id = none := by
  intro t ht
  have hmb : migrate_task_batch client chunk rep d =
      taskBatchFinish client (resolveTasks chunk
        { d with migration_state :=
            upsertAll .task (chunk.map (·.id)) d.migration_state } rep) := rfl
  cases hdep : MigrationState.get_remote_id d.migration_state .project t.project_id with
  | none => exact Or.inr rfl
  | some pid =>
    refine Or.inl ?_
    set R := resolveTasks chunk
      { d with migration_state := upsertAll .task (chunk.map (·.id)) d.migration_state }
      rep with hR
    have hdep2 : MigrationState.get_remote_id
        (upsertAll .task (chunk.map (·.id)) d.migration_state) .project t.project_id =
        some pid := by
      rw [get_remote_id_upsertAll]
      exact hdep
    have hmem : t.id ∈ R.local_ids := by
      rw [hR]
      exact resolveTasks_mem_local_ids chunk _ rep ht hdep2
    have hlen : R.requests.length = R.local_ids.length := by
      rw [hR]
      exact resolveTasks_requests_length chunk _ rep
    have hne : R.requests.isEmpty = false := by
      cases hreq : R.requests with
      | nil =>
        exfalso
        rw [hreq] at hlen
        have : R.local_ids = [] := List.length_eq_zero.mp hlen.symm
        rw [this] at hmem
        simp at hmem
      | cons q qs => rfl
    rw [hmb] at hok ⊢
    cases hcall : client.call (.issues R.requests) with
    | error e =>
      rw [taskBatchFinish_error client R hne hcall] at hok
      exact Except.noConfusion hok
    | ok ids =>
      rw [taskBatchFinish_ok client R hne hcall]
      show rowMigratedP
        (commitTasks (R.local_ids.zip ids) R.db R.report).1.migration_state .task t.id
      have hids : ids.length = R.requests.length := hh (.issues R.requests) ids hcall
      have hle : R.local_ids.length ≤ ids.length := by omega
      obtain ⟨rid, hpr⟩ := mem_zip_left_of_length_le hmem hle
      refine commitTasks_mem_migrated _ _ _ hpr ?_
      have h1 : (MigrationState.find_by_entity
          (upsertAll .task (chunk.map (·.id)) d.migration_state) .task t.id).isSome :=
        upsertAll_mem_isSome .task _ d.migration_state (List.mem_map_of_mem _ ht)
      rw [hR]
      exact resolveTasks_find_isSome chunk _ rep h1

/-- A batch of project-dead tasks: no call is made, the tasks are all counted
skipped, the database only gains the skip markings. -/
theorem migrate_task_batch_all_dead (client : RemoteClient) (chunk : List Task)
    (rep : MigrationReport) (d : Db)
    (hdead : ∀ t ∈ chunk,
      MigrationState.get_remote_id d.migration_state .project t.project_id = none) :
    (migrate_task_batch client chunk rep d).res = .ok () ∧
    (migrate_task_batch client chunk rep d).calls = [] ∧
    (migrate_task_batch client chunk rep d).db =
      { d with migration_state :=
          (migrate_task_batch client chunk rep d).db.migration_state } ∧
    (migrate_task_batch client chunk rep d).report.tasks.skipped =
      rep.tasks.skipped + chunk.length ∧
    (migrate_task_batch client chunk rep d).report.tasks.migrated =
      rep.tasks.migrated ∧
    (migrate_task_batch client chunk rep d).report.tasks.total = rep.tasks.total ∧
    (migrate_task_batch client chunk rep d).report.projects = rep.projects ∧
    (migrate_task_batch client chunk rep d).report.pr_merges = rep.pr_merges ∧
    (migrate_task_batch client chunk rep d).report.workspaces = rep.workspaces ∧
    (∀ a b, a ≠ .task →
      MigrationState.find_by_entity
        (migrate_task_batch client chunk rep d).db.migration_state a b =
        MigrationState.find_by_entity d.migration_state a b) ∧
    (∀ a b, a ≠ .task →
      MigrationState.get_remote_id
        (migrate_task_batch client chunk rep d).db.migration_state a b =
        MigrationState.get_remote_id d.migration_state a b) ∧
    (∀ a b, MigrationState.get_remote_id d.migration_state a b = none →
      MigrationState.get_remote_id
        (migrate_task_batch client chunk rep d).db.migration_state a b = none) := by
  have hmb : migrate_task_batch client chunk rep d =
      taskBatchFinish client (resolveTasks chunk
        { d with migration_state :=
            upsertAll .task (chunk.map (·.id)) d.migration_state } rep) := rfl
  set R := resolveTasks chunk
    { d with migration_state := upsertAll .task (chunk.map (·.id)) d.migration_state }
    rep with hR
  have hdead2 : ∀ t ∈ chunk, MigrationState.get_remote_id
      (upsertAll .task (chunk.map (·.id)) d.migration_state) .project t.project_id =
      none := by
    intro t ht
    rw [get_remote_id_upsertAll]
    exact hdead t ht
  have hreq : R.requests = [] := by
    rw [hR]
    exact resolveTasks_requests_nil_of_dead chunk _ rep hdead2
  have hemp : R.requests.isEmpty = true := by rw [hreq]; rfl
  have hfin := taskBatchFinish_empty client R hemp
  rw [hmb, hfin]
  have hscount := resolveTasks_skipped_count chunk
    { d with migration_state := upsertAll .task (chunk.map (·.id)) d.migration_state } rep
  have hframe := resolveTasks_report_frame chunk
    { d with migration_state := upsertAll .task (chunk.map (·.id)) d.migration_state } rep
  rw [← hR] at hscount hframe
  have hcountall : chunk.countP (fun x => (MigrationState.get_remote_id
      (upsertAll .task (chunk.map (·.id)) d.migration_state) .project
        x.project_id).isNone) = chunk.length := by
    rw [List.countP_eq_length]
    intro t ht
    rw [hdead2 t ht]
    rfl
  refine ⟨rfl, rfl, ?_, ?_, ?_, ?_, ?_, ?_, ?_, ?_, ?_, ?_⟩
  · show R.db = { d with migration_state := R.db.migration_state }
    rw [hR]
    rw [resolveTasks_db_shape]
  · show R.report.tasks.skipped = rep.tasks.skipped + chunk.length
    rw [hscount]
    rw [hcountall]
  · exact hframe.2.1
  · exact hframe.2.2.1
  · exact hframe.1
  · exact hframe.2.2.2.2.2.1
  · exact hframe.2.2.2.2.2.2
  · intro a b ha
    show MigrationState.find_by_entity R.db.migration_state a b = _
    rw [hR, resolveTasks_find_untouched _ _ _ (Or.inl ha)]
    show MigrationState.find_by_entity
      (upsertAll .task (chunk.map (·.id)) d.migration_state) a b = _
    exact upsertAll_find_not_mem _ (Or.inl ha)
  · intro a b ha
    show MigrationState.get_remote_id R.db.migration_state a b = _
    rw [hR, resolveTasks_get_remote_id_other _ _ _ ha]
    show MigrationState.get_remote_id
      (upsertAll .task (chunk.map (·.id)) d.migration_state) a b = _
    exact get_remote_id_upsertAll _ _ _ _ _
  · intro a b hnone
    show MigrationState.get_remote_id R.db.migration_state a b = none
    rw [hR]
    refine resolveTasks_get_remote_id_none _ _ _ ?_
    show MigrationState.get_remote_id
      (upsertAll .task (chunk.map (·.id)) d.migration_state) a b = none
    rw [get_remote_id_upsertAll]
    exact hnone

/-! #### The PR-merge batch: frames, post- and dead-batch spec -/

theorem resolvePrMerges_local_ids_sublist (ms : List PrMerge) (d : Db)
    (rep : MigrationReport) :
    (resolvePrMerges ms d rep).local_ids.Sublist (ms.map PrMerge.id) := by
  induction ms generalizing d rep with
  | nil => simp [resolvePrMerges]
  | cons pm rest ih =>
    unfold resolvePrMerges
    cases hdep : (match Workspace.find_by_id d pm.workspace_id with
      | some ws => MigrationState.get_remote_id d.migration_state .task ws.task_id
      | none => none : Option Uuid) with
    | some iid =>
      simp only [hdep]
      exact List.Sublist.cons₂ _ (ih d rep)
    | none =>
      simp only [hdep]
      exact List.Sublist.cons _ (ih _ _)

theorem resolvePrMerges_requests_length (ms : List PrMerge) (d : Db)
    (rep : MigrationReport) :
    (resolvePrMerges ms d rep).requests.length =
      (resolvePrMerges ms d rep).local_ids.length := by
  induction ms generalizing d rep with
  | nil => rfl
  | cons pm rest ih =>
    unfold resolvePrMerges
    cases hdep : (match Workspace.find_by_id d pm.workspace_id with
      | some ws => MigrationState.get_remote_id d.migration_state .task ws.task_id
      | none => none : Option Uuid) with
    | some iid =>
      simp only [hdep, List.length_cons]
      rw [ih d rep]
    | none =>
      simp only [hdep]
      exact ih _ _

theorem resolvePrMerges_report_frame (ms : List PrMerge) (d : Db)
    (rep : MigrationReport) :
    (resolvePrMerges ms d rep).report.projects = rep.projects ∧
    (resolvePrMerges ms d rep).report.tasks = rep.tasks ∧
    (resolvePrMerges ms d rep).report.workspaces = rep.workspaces ∧
    (resolvePrMerges ms d rep).report.pr_merges.migrated = rep.pr_merges.migrated ∧
    (resolvePrMerges ms d rep).report.pr_merges.total = rep.pr_merges.total := by
  induction ms generalizing d rep with
  | nil => exact ⟨rfl, rfl, rfl, rfl, rfl⟩
  | cons pm rest ih =>
    unfold resolvePrMerges
    cases hdep : (match Workspace.find_by_id d pm.workspace_id with
      | some ws => MigrationState.get_remote_id d.migration_state .task ws.task_id
      | none => none : Option Uuid) with
    | some iid =>
      simp only [hdep]
      exact ih d rep
    | none =>
      simp only [hdep]
      obtain ⟨h1, h2, h3, h4, h5⟩ := ih _ _
      exact ⟨h1, h2, h3, h4, h5⟩

theorem resolvePrMerges_skipped_all_dead (ms : List PrMerge) (d : Db)
    (rep : MigrationReport) (hdead : ∀ m ∈ ms, prMergeDep d m = none) :
    (resolvePrMerges ms d rep).report.pr_merges.skipped =
      rep.pr_merges.skipped + ms.length := by
  induction ms generalizing d rep with
  | nil => rfl
  | cons pm rest ih =>
    unfold resolvePrMerges
    have hd : (match Workspace.find_by_id d pm.workspace_id with
        | some ws => MigrationState.get_remote_id d.migration_state .task ws.task_id
        | none => none : Option Uuid) = none := hdead pm (List.mem_cons_self _ _)
    simp only [hd]
    rw [ih _ _ ?_]
    · dsimp only
      simp only [List.length_cons]
      omega
    · intro m hm
      exact (prMergeDep_updateRows d .prMerge pm.id _ (keyPreserving_skipped _)
        (by intro h; exact EntityType.noConfusion h) m).trans
        (hdead m (List.mem_cons_of_mem _ hm))

theorem prMergeBatchFinish_find_other (client : RemoteClient)
    (r : Resolved MigratePullRequestRequest) {a : EntityType} {b : Uuid}
    (ha : a ≠ .prMerge) :
    MigrationState.find_by_entity (prMergeBatchFinish client r).db.migration_state a b =
      MigrationState.find_by_entity r.db.migration_state a b := by
  unfold prMergeBatchFinish
  by_cases hreq : r.requests.isEmpty
  · simp [hreq, StepResult.db]
  · have hreq2 : r.requests.isEmpty = false := by
      revert hreq; cases r.requests.isEmpty <;> simp
    rw [hreq2]
    simp only [Bool.false_eq_true, if_false]
    cases hcall : client.call (.pullRequests r.requests) with
    | error e => simp only [hcall, StepResult.db]
    | ok ids =>
      simp only [hcall, StepResult.db]
      show MigrationState.find_by_entity
        (commitPrMerges (r.local_ids.zip ids) r.db r.report).1.migration_state a b = _
      exact commitPrMerges_find_other _ _ _ (Or.inl ha)

theorem prMergeBatchFinish_get_remote_id_other (client : RemoteClient)
    (r : Resolved MigratePullRequestRequest) {a : EntityType} {b : Uuid}
    (ha : a ≠ .prMerge) :
    MigrationState.get_remote_id (prMergeBatchFinish client r).db.migration_state a b =
      MigrationState.get_remote_id r.db.migration_state a b := by
  unfold prMergeBatchFinish
  by_cases hreq : r.requests.isEmpty
  · simp [hreq, StepResult.db]
  · have hreq2 : r.requests.isEmpty = false := by
      revert hreq; cases r.requests.isEmpty <;> simp
    rw [hreq2]
    simp only [Bool.false_eq_true, if_false]
    cases hcall : client.call (.pullRequests r.requests) with
    | error e => simp only [hcall, StepResult.db]
    | ok ids =>
      simp only [hcall, StepResult.db]
      show MigrationState.get_remote_id
        (commitPrMerges (r.local_ids.zip ids) r.db r.report).1.migration_state a b = _
      exact commitPrMerges_get_remote_id_other _ _ _ ha

theorem prMergeBatchFinish_db_shape (client : RemoteClient)
    (r : Resolved MigratePullRequestRequest) :
    (prMergeBatchFinish client r).db =
      { r.db with migration_state :=
          (prMergeBatchFinish client r).db.migration_state } := by
  unfold prMergeBatchFinish
  by_cases hreq : r.requests.isEmpty
  · simp [hreq, StepResult.db]
  · have hreq2 : r.requests.isEmpty = false := by
      revert hreq; cases r.requests.isEmpty <;> simp
    rw [hreq2]
    simp only [Bool.false_eq_true, if_false]
    cases hcall : client.call (.pullRequests r.requests) with
    | error e => simp only [hcall, StepResult.db]
    | ok ids =>
      simp only [hcall, StepResult.db]
      show (commitPrMerges (r.local_ids.zip ids) r.db r.report).1 = _
      exact commitPrMerges_db_shape _ _ _

theorem prMergeBatchFinish_find_not_submitted (client : RemoteClient)
    (r : Resolved MigratePullRequestRequest) {b : Uuid} (hb : b ∉ r.local_ids) :
    MigrationState.find_by_entity (prMergeBatchFinish client r).db.migration_state
      .prMerge b =
      MigrationState.find_by_entity r.db.migration_state .prMerge b := by
  unfold prMergeBatchFinish
  by_cases hreq : r.requests.isEmpty
  · simp [hreq, StepResult.db]
  · have hreq2 : r.requests.isEmpty = false := by
      revert hreq; cases r.requests.isEmpty <;> simp
    rw [hreq2]
    simp only [Bool.false_eq_true, if_false]
    cases hcall : client.call (.pullRequests r.requests) with
    | error e => simp only [hcall, StepResult.db]
    | ok ids =>
      simp only [hcall, StepResult.db]
      show MigrationState.find_by_entity
        (commitPrMerges (r.local_ids.zip ids) r.db r.report).1.migration_state
          .prMerge b = _
      apply commitPrMerges_find_other
      refine Or.inr ?_
      rw [map_fst_zip_eq_take]
      intro hmem
      exact hb (List.mem_of_mem_take hmem)

theorem migrate_pr_merge_batch_find_other (client : RemoteClient)
    (pr_merges : List PrMerge) (rep : MigrationReport) (d : Db) {a : EntityType}
    {b : Uuid} (ha : a ≠ .prMerge) :
    MigrationState.find_by_entity
      (migrate_pr_merge_batch client pr_merges rep d).db.migration_state a b =
      MigrationState.find_by_entity d.migration_state a b := by
  have hmb : migrate_pr_merge_batch client pr_merges rep d =
      prMergeBatchFinish client (resolvePrMerges pr_merges
        { d with migration_state :=
            upsertAll .prMerge (pr_merges.map (·.id)) d.migration_state } rep) := rfl
  rw [hmb]
  rw [prMergeBatchFinish_find_other client _ ha]
  rw [resolvePrMerges_find_untouched _ _ _ (Or.inl ha)]
  show MigrationState.find_by_entity
    (upsertAll .prMerge (pr_merges.map (·.id)) d.migration_state) a b = _
  exact upsertAll_find_not_mem _ (Or.inl ha)

theorem migrate_pr_merge_batch_get_remote_id_other (client : RemoteClient)
    (pr_merges : List PrMerge) (rep : MigrationReport) (d : Db) {a : EntityType}
    {b : Uuid} (ha : a ≠ .prMerge) :
    MigrationState.get_remote_id
      (migrate_pr_merge_batch client pr_merges rep d).db.migration_state a b =
      MigrationState.get_remote_id d.migration_state a b := by
  have hmb : migrate_pr_merge_batch client pr_merges rep d =
      prMergeBatchFinish client (resolvePrMerges pr_merges
        { d with migration_state :=
            upsertAll .prMerge (pr_merges.map (·.id)) d.migration_state } rep) := rfl
  rw [hmb]
  rw [prMergeBatchFinish_get_remote_id_other client _ ha]
  rw [resolvePrMerges_get_remote_id_other _ _ _ ha]
  show MigrationState.get_remote_id
    (upsertAll .prMerge (pr_merges.map (·.id)) d.migration_state) a b = _
  exact get_remote_id_upsertAll _ _ _ _ _

theorem migrate_pr_merge_batch_find_not_mem (client : RemoteClient)
    (pr_merges : List PrMerge) (rep : MigrationReport) (d : Db) {b : Uuid}
    (hb : b ∉ pr_merges.map PrMerge.id) :
    MigrationState.find_by_entity
      (migrate_pr_merge_batch client pr_merges rep d).db.migration_state .prMerge b =
      MigrationState.find_by_entity d.migration_state .prMerge b := by
  have hmb : migrate_pr_merge_batch client pr_merges rep d =
      prMergeBatchFinish client (resolvePrMerges pr_merges
        { d with migration_state :=
            upsertAll .prMerge (pr_merges.map (·.id)) d.migration_state } rep) := rfl
  rw [hmb]
  set R := resolvePrMerges pr_merges
    { d with migration_state :=
        upsertAll .prMerge (pr_merges.map (·.id)) d.migration_state } rep with hR
  have hnotsub : b ∉ R.local_ids := by
    intro hmem
    exact hb (List.Sublist.mem hmem
      (by rw [hR]; exact resolvePrMerges_local_ids_sublist _ _ _))
  rw [prMergeBatchFinish_find_not_submitted client R hnotsub]
  rw [hR]
  rw [resolvePrMerges_find_untouched _ _ _ (Or.inr hb)]
  show MigrationState.find_by_entity
    (upsertAll .prMerge (pr_merges.map (·.id)) d.migration_state) .prMerge b = _
  exact upsertAll_find_not_mem _ (Or.inr hb)

theorem migrate_pr_merge_batch_db_shape (client : RemoteClient)
    (pr_merges : List PrMerge) (rep : MigrationReport) (d : Db) :
    (migrate_pr_merge_batch client pr_merges rep d).db =
      { d with migration_state :=
          (migrate_pr_merge_batch client pr_merges rep d).db.migration_state } := by
  have hmb : migrate_pr_merge_batch client pr_merges rep d =
      prMergeBatchFinish client (resolvePrMerges pr_merges
        { d with migration_state :=
            upsertAll .prMerge (pr_merges.map (·.id)) d.migration_state } rep) := rfl
  rw [hmb]
  rw [prMergeBatchFinish_db_shape client _]
  rw [resolvePrMerges_db_shape]

/-- A successful PR-merge batch leaves every batch member either migrated or
dependency-dead (evaluated against the database at batch entry). -/
theorem migrate_pr_merge_batch_post (client : RemoteClient) (chunk : List PrMerge)
    (rep : MigrationReport) (d : Db) (hh : RemoteClient.honest client)
    (hok : (migrate_pr_merge_batch client chunk rep d).res = .ok ()) :
    ∀ m ∈ chunk,
      rowMigratedP (migrate_pr_merge_batch client chunk rep d).db.migration_state
        .prMerge m.id ∨
      prMergeDep d m = none := by
  intro m hm
  have hmb : migrate_pr_merge_batch client chunk rep d =
      prMergeBatchFinish client (resolvePrMerges chunk
        { d with migration_state :=
            upsertAll .prMerge (chunk.map (·.id)) d.migration_state } rep) := rfl
  cases hdep : prMergeDep d m with
  | none => exact Or.inr rfl
  | some iid =>
    refine Or.inl ?_
    set R := resolvePrMerges chunk
      { d with migration_state :=
          upsertAll .prMerge (chunk.map (·.id)) d.migration_state } rep with hR
    have hdep2 : prMergeDep
        { d with migration_state :=
            upsertAll .prMerge (chunk.map (·.id)) d.migration_state } m = some iid := by
      unfold prMergeDep at hdep ⊢
      cases hw : Workspace.find_by_id d m.workspace_id with
      | none =>
        rw [hw] at hdep
        simp at hdep
      | some ws =>
        have hw2 : Workspace.find_by_id { d with migration_state := upsertAll .prMerge (chunk.map (·.id)) d.migration_state } m.workspace_id = some ws := hw
        rw [hw] at hdep
        rw [hw2]
        show MigrationState.get_remote_id
          (upsertAll .prMerge (chunk.map (·.id)) d.migration_state) .task ws.task_id =
          some iid
        rw [get_remote_id_upsertAll]
        exact hdep
    have hmem : m.id ∈ R.local_ids := by
      rw [hR]
      exact resolvePrMerges_mem_local_ids chunk _ rep hm hdep2
    have hlen : R.requests.length = R.local_ids.length := by
      rw [hR]
      exact resolvePrMerges_requests_length chunk _ rep
    have hne : R.requests.isEmpty = false := by
      cases hreq : R.requests with
      | nil =>
        exfalso
        rw [hreq] at hlen
        have : R.local_ids = [] := List.length_eq_zero.mp hlen.symm
        rw [this] at hmem
        simp at hmem
      | cons q qs => rfl
    rw [hmb] at hok ⊢
    cases hcall : client.call (.pullRequests R.requests) with
    | error e =>
      rw [prMergeBatchFinish_error client R hne hcall] at hok
      exact Except.noConfusion hok
    | ok ids =>
      rw [prMergeBatchFinish_ok client R hne hcall]
      show rowMigratedP
        (commitPrMerges (R.local_ids.zip ids) R.db R.report).1.migration_state
          .prMerge m.id
      have hids : ids.length = R.requests.length := hh (.pullRequests R.requests) ids hcall
      have hle : R.local_ids.length ≤ ids.length := by omega
      obtain ⟨rid, hpr⟩ := mem_zip_left_of_length_le hmem hle
      refine commitPrMerges_mem_migrated _ _ _ hpr ?_
      have h1 : (MigrationState.find_by_entity
          (upsertAll .prMerge (chunk.map (·.id)) d.migration_state)
            .prMerge m.id).isSome :=
        upsertAll_mem_isSome .prMerge _ d.migration_state (List.mem_map_of_mem _ hm)
      rw [hR]
      exact resolvePrMerges_find_isSome chunk _ rep h1

/-- A batch of dependency-dead merges: no call, all counted skipped, only skip
markings written. -/
theorem migrate_pr_merge_batch_all_dead (client : RemoteClient) (chunk : List PrMerge)
    (rep : MigrationReport) (d : Db) (hdead : ∀ m ∈ chunk, prMergeDep d m = none) :
    (migrate_pr_merge_batch client chunk rep d).res = .ok () ∧
    (migrate_pr_merge_batch client chunk rep d).calls = [] ∧
    (migrate_pr_merge_batch client chunk rep d).db =
      { d with migration_state :=
          (migrate_pr_merge_batch client chunk rep d).db.migration_state } ∧
    (migrate_pr_merge_batch client chunk rep d).report.pr_merges.skipped =
      rep.pr_merges.skipped + chunk.length ∧
    (migrate_pr_merge_batch client chunk rep d).report.pr_merges.migrated =
      rep.pr_merges.migrated ∧
    (migrate_pr_merge_batch client chunk rep d).report.pr_merges.total =
      rep.pr_merges.total ∧
    (migrate_pr_merge_batch client chunk rep d).report.projects = rep.projects ∧
    (migrate_pr_merge_batch client chunk rep d).report.tasks = rep.tasks ∧
    (migrate_pr_merge_batch client chunk rep d).report.workspaces = rep.workspaces ∧
    (∀ a b, a ≠ .prMerge →
      MigrationState.find_by_entity
        (migrate_pr_merge_batch client chunk rep d).db.migration_state a b =
        MigrationState.find_by_entity d.migration_state a b) ∧
    (∀ a b, a ≠ .prMerge →
      MigrationState.get_remote_id
        (migrate_pr_merge_batch client chunk rep d).db.migration_state a b =
        MigrationState.get_remote_id d.migration_state a b) ∧
    (∀ a b, MigrationState.get_remote_id d.migration_state a b = none →
      MigrationState.get_remote_id
        (migrate_pr_merge_batch client chunk rep d).db.migration_state a b = none) := by
  have hmb : migrate_pr_merge_batch client chunk rep d =
      prMergeBatchFinish client (resolvePrMerges chunk
        { d with migration_state :=
            upsertAll .prMerge (chunk.map (·.id)) d.migration_state } rep) := rfl
  set R := resolvePrMerges chunk
    { d with migration_state :=
        upsertAll .prMerge (chunk.map (·.id)) d.migration_state } rep with hR
  have hdead2 : ∀ m ∈ chunk, prMergeDep
      { d with migration_state :=
          upsertAll .prMerge (chunk.map (·.id)) d.migration_state } m = none := by
    intro m hm
    have hd := hdead m hm
    unfold prMergeDep at hd ⊢
    cases hw : Workspace.find_by_id d m.workspace_id with
    | none =>
      have hw2 : Workspace.find_by_id { d with migration_state := upsertAll .prMerge (chunk.map (·.id)) d.migration_state } m.workspace_id = none := hw
      rw [hw2]
    | some ws =>
      have hw2 : Workspace.find_by_id { d with migration_state := upsertAll .prMerge (chunk.map (·.id)) d.migration_state } m.workspace_id = some ws := hw
      rw [hw] at hd
      rw [hw2]
      show MigrationState.get_remote_id
        (upsertAll .prMerge (chunk.map (·.id)) d.migration_state) .task ws.task_id = none
      rw [get_remote_id_upsertAll]
      exact hd
  have hreq : R.requests = [] := by
    rw [hR]
    exact resolvePrMerges_requests_nil_of_dead chunk _ rep hdead2
  have hemp : R.requests.isEmpty = true := by rw [hreq]; rfl
  have hfin := prMergeBatchFinish_empty client R hemp
  rw [hmb, hfin]
  have hscount := resolvePrMerges_skipped_all_dead chunk
    { d with migration_state :=
        upsertAll .prMerge (chunk.map (·.id)) d.migration_state } rep hdead2
  have hframe := resolvePrMerges_report_frame chunk
    { d with migration_state :=
        upsertAll .prMerge (chunk.map (·.id)) d.migration_state } rep
  rw [← hR] at hscount hframe
  refine ⟨rfl, rfl, ?_, ?_, ?_, ?_, ?_, ?_, ?_, ?_, ?_, ?_⟩
  · show R.db = { d with migration_state := R.db.migration_state }
    rw [hR]
    rw [resolvePrMerges_db_shape]
  · exact hscount
  · exact hframe.2.2.2.1
  · exact hframe.2.2.2.2
  · exact hframe.1
  · exact hframe.2.1
  · exact hframe.2.2.1
  · intro a b ha
    show MigrationState.find_by_entity R.db.migration_state a b = _
    rw [hR, resolvePrMerges_find_untouched _ _ _ (Or.inl ha)]
    show MigrationState.find_by_entity
      (upsertAll .prMerge (chunk.map (·.id)) d.migration_state) a b = _
    exact upsertAll_find_not_mem _ (Or.inl ha)
  · intro a b ha
    show MigrationState.get_remote_id R.db.migration_state a b = _
    rw [hR, resolvePrMerges_get_remote_id_other _ _ _ ha]
    show MigrationState.get_remote_id
      (upsertAll .prMerge (chunk.map (·.id)) d.migration_state) a b = _
    exact get_remote_id_upsertAll _ _ _ _ _
  · intro a b hnone
    show MigrationState.get_remote_id R.db.migration_state a b = none
    rw [hR]
    refine resolvePrMerges_get_remote_id_none _ _ _ ?_
    show MigrationState.get_remote_id
      (upsertAll .prMerge (chunk.map (·.id)) d.migration_state) a b = none
    rw [get_remote_id_upsertAll]
    exact hnone

/-! #### The workspace batch: frames, post- and dead-batch spec -/

theorem workspaceDead_upsertAll (d : Db) (et : EntityType) (lids : List Uuid)
    (w : Workspace) :
    (workspaceDead { d with migration_state := upsertAll et lids d.migration_state } w ↔ workspaceDead d w) := by
  cases htask : Task.find_by_id d w.task_id with
  | none =>
    have htask2 : Task.find_by_id { d with migration_state := upsertAll et lids d.migration_state } w.task_id = none := htask
    simp only [workspaceDead, htask, htask2]
  | some task =>
    have htask2 : Task.find_by_id { d with migration_state := upsertAll et lids d.migration_state } w.task_id = some task := htask
    simp only [workspaceDead, htask, htask2]
    rw [get_remote_id_upsertAll, get_remote_id_upsertAll]

theorem resolveWorkspaces_requests_length (ws : List Workspace) (d : Db)
    (rep : MigrationReport) :
    (resolveWorkspaces ws d rep).requests.length =
      (resolveWorkspaces ws d rep).local_ids.length := by
  induction ws generalizing d rep with
  | nil => rfl
  | cons w rest ih =>
    unfold resolveWorkspaces
    cases htask : Task.find_by_id d w.task_id with
    | none =>
      simp only [htask]
      exact ih _ _
    | some task =>
      cases hdep : MigrationState.get_remote_id d.migration_state .project
          task.project_id with
      | none =>
        simp only [htask, hdep]
        exact ih _ _
      | some rpid =>
        cases hiss : (MigrationState.get_remote_id d.migration_state .task
            w.task_id).isNone with
        | true =>
          simp only [htask, hdep, hiss, if_true]
          exact ih _ _
        | false =>
          simp only [htask, hdep, hiss, Bool.false_eq_true, if_false, List.length_cons]
          rw [ih d rep]

theorem resolveWorkspaces_skipped_all_dead (ws : List Workspace) (d : Db)
    (rep : MigrationReport) (hdead : ∀ w ∈ ws, workspaceDead d w) :
    (resolveWorkspaces ws d rep).report.workspaces.skipped =
      rep.workspaces.skipped + ws.length := by
  induction ws generalizing d rep with
  | nil => rfl
  | cons w rest ih =>
    have hrest : ∀ msg, ∀ w2 ∈ rest, workspaceDead
        { d with migration_state :=
            MigrationState.mark_skipped d.migration_state .workspace w.id msg } w2 := by
      intro msg w2 hw2
      exact (workspaceDead_updateRows d .workspace w.id _ (keyPreserving_skipped _)
        (by intro h; exact EntityType.noConfusion h)
        (by intro h; exact EntityType.noConfusion h) w2).mpr
        (hdead w2 (List.mem_cons_of_mem _ hw2))
    have hskiparm : ∀ msg,
        (resolveWorkspaces rest
          { d with migration_state :=
              MigrationState.mark_skipped d.migration_state .workspace w.id msg }
          { rep with workspaces.skipped := rep.workspaces.skipped + 1, warnings := rep.warnings ++ ["Skipped workspace " ++ toString w.id ++ ": " ++ msg] }).report.workspaces.skipped =
        rep.workspaces.skipped + (w :: rest).length := by
      intro msg
      rw [ih _ _ (hrest msg)]
      dsimp only
      simp only [List.length_cons]
      omega
    have hd := hdead w (List.mem_cons_self _ _)
    unfold resolveWorkspaces
    cases htask : Task.find_by_id d w.task_id with
    | none =>
      simp only [htask]
      exact hskiparm _
    | some task =>
      unfold workspaceDead at hd
      rw [htask] at hd
      cases hdep : MigrationState.get_remote_id d.migration_state .project
          task.project_id with
      | none =>
        simp only [htask, hdep]
        exact hskiparm _
      | some rpid =>
        have hiss : MigrationState.get_remote_id d.migration_state .task w.task_id =
            none := by
          rcases hd with hd | hd
          · rw [hdep] at hd
            exact Option.noConfusion hd
          · exact hd
        have hiss2 : (MigrationState.get_remote_id d.migration_state .task
            w.task_id).isNone = true := by rw [hiss]; rfl
        simp only [htask, hdep, hiss2, if_true]
        exact hskiparm _

theorem workspaceBatchFinish_find_other (client : RemoteClient)
    (r : Resolved MigrateWorkspaceRequest) {a : EntityType} {b : Uuid}
    (ha : a ≠ .workspace) :
    MigrationState.find_by_entity
      (workspaceBatchFinish client r).db.migration_state a b =
      MigrationState.find_by_entity r.db.migration_state a b := by
  unfold workspaceBatchFinish
  by_cases hreq : r.requests.isEmpty
  · simp [hreq, StepResult.db]
  · have hreq2 : r.requests.isEmpty = false := by
      revert hreq; cases r.requests.isEmpty <;> simp
    rw [hreq2]
    simp only [Bool.false_eq_true, if_false]
    cases hcall : client.call (.workspaces r.requests) with
    | error e => simp only [hcall, StepResult.db]
    | ok ids =>
      simp only [hcall, StepResult.db]
      show MigrationState.find_by_entity
        (commitWorkspaces (r.local_ids.zip ids) r.db r.report).1.migration_state a b = _
      exact commitWorkspaces_find_other _ _ _ (Or.inl ha)

theorem workspaceBatchFinish_get_remote_id_other (client : RemoteClient)
    (r : Resolved MigrateWorkspaceRequest) {a : EntityType} {b : Uuid}
    (ha : a ≠ .workspace) :
    MigrationState.get_remote_id
      (workspaceBatchFinish client r).db.migration_state a b =
      MigrationState.get_remote_id r.db.migration_state a b := by
  unfold workspaceBatchFinish
  by_cases hreq : r.requests.isEmpty
  · simp [hreq, StepResult.db]
  · have hreq2 : r.requests.isEmpty = false := by
      revert hreq; cases r.requests.isEmpty <;> simp
    rw [hreq2]
    simp only [Bool.false_eq_true, if_false]
    cases hcall : client.call (.workspaces r.requests) with
    | error e => simp only [hcall, StepResult.db]
    | ok ids =>
      simp only [hcall, StepResult.db]
      show MigrationState.get_remote_id
        (commitWorkspaces (r.local_ids.zip ids) r.db r.report).1.migration_state a b = _
      exact commitWorkspaces_get_remote_id_other _ _ _ ha

theorem workspaceBatchFinish_db_shape (client : RemoteClient)
    (r : Resolved MigrateWorkspaceRequest) :
    (workspaceBatchFinish client r).db =
      { r.db with migration_state :=
          (workspaceBatchFinish client r).db.migration_state } := by
  unfold workspaceBatchFinish
  by_cases hreq : r.requests.isEmpty
  · simp [hreq, StepResult.db]
  · have hreq2 : r.requests.isEmpty = false := by
      revert hreq; cases r.requests.isEmpty <;> simp
    rw [hreq2]
    simp only [Bool.false_eq_true, if_false]
    cases hcall : client.call (.workspaces r.requests) with
    | error e => simp only [hcall, StepResult.db]
    | ok ids =>
      simp only [hcall, StepResult.db]
      show (commitWorkspaces (r.local_ids.zip ids) r.db r.report).1 = _
      exact commitWorkspaces_db_shape _ _ _

theorem workspaceBatchFinish_find_not_submitted (client : RemoteClient)
    (r : Resolved MigrateWorkspaceRequest) {b : Uuid} (hb : b ∉ r.local_ids) :
    MigrationState.find_by_entity
      (workspaceBatchFinish client r).db.migration_state .workspace b =
      MigrationState.find_by_entity r.db.migration_state .workspace b := by
  unfold workspaceBatchFinish
  by_cases hreq : r.requests.isEmpty
  · simp [hreq, StepResult.db]
  · have hreq2 : r.requests.isEmpty = false := by
      revert hreq; cases r.requests.isEmpty <;> simp
    rw [hreq2]
    simp only [Bool.false_eq_true, if_false]
    cases hcall : client.call (.workspaces r.requests) with
    | error e => simp only [hcall, StepResult.db]
    | ok ids =>
      simp only [hcall, StepResult.db]
      show MigrationState.find_by_entity
        (commitWorkspaces (r.local_ids.zip ids) r.db r.report).1.migration_state
          .workspace b = _
      apply commitWorkspaces_find_other
      refine Or.inr ?_
      rw [map_fst_zip_eq_take]
      intro hmem
      exact hb (List.mem_of_mem_take hmem)

theorem migrate_workspace_batch_find_other (client : RemoteClient)
    (workspaces : List Workspace) (rep : MigrationReport) (d : Db) {a : EntityType}
    {b : Uuid} (ha : a ≠ .workspace) :
    MigrationState.find_by_entity
      (migrate_workspace_batch client workspaces rep d).db.migration_state a b =
      MigrationState.find_by_entity d.migration_state a b := by
  have hmb : migrate_workspace_batch client workspaces rep d =
      workspaceBatchFinish client (resolveWorkspaces workspaces
        { d with migration_state :=
            upsertAll .workspace (workspaces.map (·.id)) d.migration_state } rep) := rfl
  rw [hmb]
  rw [workspaceBatchFinish_find_other client _ ha]
  rw [resolveWorkspaces_find_untouched _ _ _ (Or.inl ha)]
  show MigrationState.find_by_entity
    (upsertAll .workspace (workspaces.map (·.id)) d.migration_state) a b = _
  exact upsertAll_find_not_mem _ (Or.inl ha)

theorem migrate_workspace_batch_get_remote_id_other (client : RemoteClient)
    (workspaces : List Workspace) (rep : MigrationReport) (d : Db) {a : EntityType}
    {b : Uuid} (ha : a ≠ .workspace) :
    MigrationState.get_remote_id
      (migrate_workspace_batch client workspaces rep d).db.migration_state a b =
      MigrationState.get_remote_id d.migration_state a b := by
  have hmb : migrate_workspace_batch client workspaces rep d =
      workspaceBatchFinish client (resolveWorkspaces workspaces
        { d with migration_state :=
            upsertAll .workspace (workspaces.map (·.id)) d.migration_state } rep) := rfl
  rw [hmb]
  rw [workspaceBatchFinish_get_remote_id_other client _ ha]
  rw [resolveWorkspaces_get_remote_id_other _ _ _ ha]
  show MigrationState.get_remote_id
    (upsertAll .workspace (workspaces.map (·.id)) d.migration_state) a b = _
  exact get_remote_id_upsertAll _ _ _ _ _

theorem migrate_workspace_batch_find_not_mem (client : RemoteClient)
    (workspaces : List Workspace) (rep : MigrationReport) (d : Db) {b : Uuid}
    (hb : b ∉ workspaces.map Workspace.id) :
    MigrationState.find_by_entity
      (migrate_workspace_batch client workspaces rep d).db.migration_state
        .workspace b =
      MigrationState.find_by_entity d.migration_state .workspace b := by
  have hmb : migrate_workspace_batch client workspaces rep d =
      workspaceBatchFinish client (resolveWorkspaces workspaces
        { d with migration_state :=
            upsertAll .workspace (workspaces.map (·.id)) d.migration_state } rep) := rfl
  rw [hmb]
  set R := resolveWorkspaces workspaces
    { d with migration_state :=
        upsertAll .workspace (workspaces.map (·.id)) d.migration_state } rep with hR
  have hnotsub : b ∉ R.local_ids := by
    intro hmem
    exact hb (List.Sublist.mem hmem
      (by rw [hR]; exact resolveWorkspaces_local_ids_sublist _ _ _))
  rw [workspaceBatchFinish_find_not_submitted client R hnotsub]
  rw [hR]
  rw [resolveWorkspaces_find_untouched _ _ _ (Or.inr hb)]
  show MigrationState.find_by_entity
    (upsertAll .workspace (workspaces.map (·.id)) d.migration_state) .workspace b = _
  exact upsertAll_find_not_mem _ (Or.inr hb)

theorem migrate_workspace_batch_db_shape (client : RemoteClient)
    (workspaces : List Workspace) (rep : MigrationReport) (d : Db) :
    (migrate_workspace_batch client workspaces rep d).db =
      { d with migration_state :=
          (migrate_workspace_batch client workspaces rep d).db.migration_state } := by
  have hmb : migrate_workspace_batch client workspaces rep d =
      workspaceBatchFinish client (resolveWorkspaces workspaces
        { d with migration_state :=
            upsertAll .workspace (workspaces.map (·.id)) d.migration_state } rep) := rfl
  rw [hmb]
  rw [workspaceBatchFinish_db_shape client _]
  rw [resolveWorkspaces_db_shape]

/-- A successful workspace batch leaves every batch member either migrated or
dependency-dead (evaluated against the database at batch entry). -/
theorem migrate_workspace_batch_post (client : RemoteClient)
    (chunk : List Workspace) (rep : MigrationReport) (d : Db)
    (hh : RemoteClient.honest client)
    (hok : (migrate_workspace_batch client chunk rep d).res = .ok ()) :
    ∀ w ∈ chunk,
      rowMigratedP (migrate_workspace_batch client chunk rep d).db.migration_state
        .workspace w.id ∨
      workspaceDead d w := by
  intro w hw
  have hmb : migrate_workspace_batch client chunk rep d =
      workspaceBatchFinish client (resolveWorkspaces chunk
        { d with migration_state :=
            upsertAll .workspace (chunk.map (·.id)) d.migration_state } rep) := rfl
  cases htask : Task.find_by_id d w.task_id with
  | none =>
    refine Or.inr ?_
    unfold workspaceDead
    rw [htask]
    trivial
  | some task =>
    cases hdep : MigrationState.get_remote_id d.migration_state .project
        task.project_id with
    | none =>
      refine Or.inr ?_
      unfold workspaceDead
      rw [htask]
      exact Or.inl hdep
    | some rpid =>
      cases hiss : MigrationState.get_remote_id d.migration_state .task w.task_id with
      | none =>
        refine Or.inr ?_
        unfold workspaceDead
        rw [htask]
        exact Or.inr hiss
      | some iid =>
        refine Or.inl ?_
        set R := resolveWorkspaces chunk
          { d with migration_state :=
              upsertAll .workspace (chunk.map (·.id)) d.migration_state } rep with hR
        have htask2 : Task.find_by_id { d with migration_state := upsertAll .workspace (chunk.map (·.id)) d.migration_state } w.task_id = some task := htask
        have hdep2 : MigrationState.get_remote_id
            (upsertAll .workspace (chunk.map (·.id)) d.migration_state) .project
              task.project_id = some rpid := by
          rw [get_remote_id_upsertAll]
          exact hdep
        have hiss2 : MigrationState.get_remote_id
            (upsertAll .workspace (chunk.map (·.id)) d.migration_state) .task
              w.task_id = some iid := by
          rw [get_remote_id_upsertAll]
          exact hiss
        have hmem : w.id ∈ R.local_ids := by
          rw [hR]
          exact resolveWorkspaces_mem_local_ids chunk _ rep hw htask2 hdep2 hiss2
        have hlen : R.requests.length = R.local_ids.length := by
          rw [hR]
          exact resolveWorkspaces_requests_length chunk _ rep
        have hne : R.requests.isEmpty = false := by
          cases hreq : R.requests with
          | nil =>
            exfalso
            rw [hreq] at hlen
            have : R.local_ids = [] := List.length_eq_zero.mp hlen.symm
            rw [this] at hmem
            simp at hmem
          | cons q qs => rfl
        rw [hmb] at hok ⊢
        cases hcall : client.call (.workspaces R.requests) with
        | error e =>
          rw [workspaceBatchFinish_error client R hne hcall] at hok
          exact Except.noConfusion hok
        | ok ids =>
          rw [workspaceBatchFinish_ok client R hne hcall]
          show rowMigratedP
            (commitWorkspaces (R.local_ids.zip ids) R.db R.report).1.migration_state
              .workspace w.id
          have hids : ids.length = R.requests.length :=
            hh (.workspaces R.requests) ids hcall
          have hle : R.local_ids.length ≤ ids.length := by omega
          obtain ⟨rid, hpr⟩ := mem_zip_left_of_length_le hmem hle
          refine commitWorkspaces_mem_migrated _ _ _ hpr ?_
          have h1 : (MigrationState.find_by_entity
              (upsertAll .workspace (chunk.map (·.id)) d.migration_state)
                .workspace w.id).isSome :=
            upsertAll_mem_isSome .workspace _ d.migration_state
              (List.mem_map_of_mem _ hw)
          rw [hR]
          exact resolveWorkspaces_find_isSome chunk _ rep h1

/-- A batch of dependency-dead workspaces: no call, all counted skipped, only
skip markings written. -/
theorem migrate_workspace_batch_all_dead (client : RemoteClient)
    (chunk : List Workspace) (rep : MigrationReport) (d : Db)
    (hdead : ∀ w ∈ chunk, workspaceDead d w) :
    (migrate_workspace_batch client chunk rep d).res = .ok () ∧
    (migrate_workspace_batch client chunk rep d).calls = [] ∧
    (migrate_workspace_batch client chunk rep d).db =
      { d with migration_state :=
          (migrate_workspace_batch client chunk rep d).db.migration_state } ∧
    (migrate_workspace_batch client chunk rep d).report.workspaces.skipped =
      rep.workspaces.skipped + chunk.length ∧
    (migrate_workspace_batch client chunk rep d).report.workspaces.migrated =
      rep.workspaces.migrated ∧
    (migrate_workspace_batch client chunk rep d).report.workspaces.total =
      rep.workspaces.total ∧
    (migrate_workspace_batch client chunk rep d).report.projects = rep.projects ∧
    (migrate_workspace_batch client chunk rep d).report.tasks = rep.tasks ∧
    (migrate_workspace_batch client chunk rep d).report.pr_merges = rep.pr_merges ∧
    (∀ a b, a ≠ .workspace →
      MigrationState.find_by_entity
        (migrate_workspace_batch client chunk rep d).db.migration_state a b =
        MigrationState.find_by_entity d.migration_state a b) ∧
    (∀ a b, a ≠ .workspace →
      MigrationState.get_remote_id
        (migrate_workspace_batch client chunk rep d).db.migration_state a b =
        MigrationState.get_remote_id d.migration_state a b) ∧
    (∀ a b, MigrationState.get_remote_id d.migration_state a b = none →
      MigrationState.get_remote_id
        (migrate_workspace_batch client chunk rep d).db.migration_state a b = none) := by
  have hmb : migrate_workspace_batch client chunk rep d =
      workspaceBatchFinish client (resolveWorkspaces chunk
        { d with migration_state :=
            upsertAll .workspace (chunk.map (·.id)) d.migration_state } rep) := rfl
  set R := resolveWorkspaces chunk
    { d with migration_state :=
        upsertAll .workspace (chunk.map (·.id)) d.migration_state } rep with hR
  have hdead2 : ∀ w ∈ chunk, workspaceDead
      { d with migration_state :=
          upsertAll .workspace (chunk.map (·.id)) d.migration_state } w := by
    intro w hw
    exact (workspaceDead_upsertAll d .workspace (chunk.map (·.id)) w).mpr (hdead w hw)
  have hreq : R.requests = [] := by
    rw [hR]
    exact resolveWorkspaces_requests_nil_of_dead chunk _ rep hdead2
  have hemp : R.requests.isEmpty = true := by rw [hreq]; rfl
  have hfin := workspaceBatchFinish_empty client R hemp
  rw [hmb, hfin]
  have hscount := resolveWorkspaces_skipped_all_dead chunk
    { d with migration_state :=
        upsertAll .workspace (chunk.map (·.id)) d.migration_state } rep hdead2
  have hframe := resolveWorkspaces_report_frame chunk
    { d with migration_state :=
        upsertAll .workspace (chunk.map (·.id)) d.migration_state } rep
  rw [← hR] at hscount hframe
  refine ⟨rfl, rfl, ?_, ?_, ?_, ?_, ?_, ?_, ?_, ?_, ?_, ?_⟩
  · show R.db = { d with migration_state := R.db.migration_state }
    rw [hR]
    rw [resolveWorkspaces_db_shape]
  · exact hscount
  · exact hframe.2.2.2.1
  · exact hframe.2.2.2.2.1
  · exact hframe.1
  · exact hframe.2.1
  · exact hframe.2.2.1
  · intro a b ha
    show MigrationState.find_by_entity R.db.migration_state a b = _
    rw [hR, resolveWorkspaces_find_untouched _ _ _ (Or.inl ha)]
    show MigrationState.find_by_entity
      (upsertAll .workspace (chunk.map (·.id)) d.migration_state) a b = _
    exact upsertAll_find_not_mem _ (Or.inl ha)
  · intro a b ha
    show MigrationState.get_remote_id R.db.migration_state a b = _
    rw [hR, resolveWorkspaces_get_remote_id_other _ _ _ ha]
    show MigrationState.get_remote_id
      (upsertAll .workspace (chunk.map (·.id)) d.migration_state) a b = _
    exact get_remote_id_upsertAll _ _ _ _ _
  · intro a b hnone
    show MigrationState.get_remote_id R.db.migration_state a b = none
    rw [hR]
    refine resolveWorkspaces_get_remote_id_none _ _ _ ?_
    show MigrationState.get_remote_id
      (upsertAll .workspace (chunk.map (·.id)) d.migration_state) a b = none
    rw [get_remote_id_upsertAll]
    exact hnone

/-! #### The project batch: frames and post-spec -/

theorem projectBatchFinish_find_other (client : RemoteClient)
    (projects : List Project) (requests : List MigrateProjectRequest)
    (rep : MigrationReport) (d : Db) {a : EntityType} {b : Uuid} (ha : a ≠ .project) :
    MigrationState.find_by_entity
      (projectBatchFinish client projects requests rep d).db.migration_state a b =
      MigrationState.find_by_entity d.migration_state a b := by
  unfold projectBatchFinish
  cases hcall : client.call (.projects requests) with
  | error e => simp only [hcall, StepResult.db]
  | ok ids =>
    rcases hcp : commitProjects (projects.zip ids) d rep with ⟨d2, r2⟩
    simp only [hcall, hcp, StepResult.db]
    have h2 : MigrationState.find_by_entity
        (commitProjects (projects.zip ids) d rep).1.migration_state a b =
        MigrationState.find_by_entity d.migration_state a b :=
      commitProjects_find_other _ _ _ (Or.inl ha)
    rw [hcp] at h2
    exact h2

theorem projectBatchFinish_get_remote_id_other (client : RemoteClient)
    (projects : List Project) (requests : List MigrateProjectRequest)
    (rep : MigrationReport) (d : Db) {a : EntityType} {b : Uuid} (ha : a ≠ .project) :
    MigrationState.get_remote_id
      (projectBatchFinish client projects requests rep d).db.migration_state a b =
      MigrationState.get_remote_id d.migration_state a b := by
  unfold projectBatchFinish
  cases hcall : client.call (.projects requests) with
  | error e => simp only [hcall, StepResult.db]
  | ok ids =>
    rcases hcp : commitProjects (projects.zip ids) d rep with ⟨d2, r2⟩
    simp only [hcall, hcp, StepResult.db]
    have h2 : MigrationState.get_remote_id
        (commitProjects (projects.zip ids) d rep).1.migration_state a b =
        MigrationState.get_remote_id d.migration_state a b :=
      commitProjects_get_remote_id_other _ _ _ ha
    rw [hcp] at h2
    exact h2

theorem projectBatchFinish_rowMigratedP (client : RemoteClient)
    (projects : List Project) (requests : List MigrateProjectRequest)
    (rep : MigrationReport) (d : Db) {a : EntityType} {b : Uuid}
    (h : rowMigratedP d.migration_state a b) :
    rowMigratedP
      (projectBatchFinish client projects requests rep d).db.migration_state a b := by
  unfold projectBatchFinish
  cases hcall : client.call (.projects requests) with
  | error e =>
    simp only [hcall, StepResult.db]
    exact h
  | ok ids =>
    rcases hcp : commitProjects (projects.zip ids) d rep with ⟨d2, r2⟩
    simp only [hcall, hcp, StepResult.db]
    have := commitProjects_rowMigratedP (projects.zip ids) d rep h
    rw [hcp] at this
    exact this

theorem projectBatchFinish_db_tables (client : RemoteClient)
    (projects : List Project) (requests : List MigrateProjectRequest)
    (rep : MigrationReport) (d : Db) :
    (projectBatchFinish client projects requests rep d).db.tasks = d.tasks ∧
    (projectBatchFinish client projects requests rep d).db.pr_merges = d.pr_merges ∧
    (projectBatchFinish client projects requests rep d).db.workspaces = d.workspaces ∧
    (projectBatchFinish client projects requests rep d).db.projects.map Project.id =
      d.projects.map Project.id := by
  unfold projectBatchFinish
  cases hcall : client.call (.projects requests) with
  | error e =>
    refine ⟨?_, ?_, ?_, ?_⟩ <;> simp [hcall, StepResult.db]
  | ok ids =>
    rcases hcp : commitProjects (projects.zip ids) d rep with ⟨d2, r2⟩
    simp only [hcall, hcp, StepResult.db]
    have h2 := commitProjects_db_tables (projects.zip ids) d rep
    rw [hcp] at h2
    exact h2

theorem migrate_project_batch_find_other (client : RemoteClient)
    (organization_id : Uuid) (projects : List Project) (rep : MigrationReport)
    (d : Db) {a : EntityType} {b : Uuid} (ha : a ≠ .project) :
    MigrationState.find_by_entity
      (migrate_project_batch client organization_id projects rep d).db.migration_state
        a b =
      MigrationState.find_by_entity d.migration_state a b := by
  have hmb : migrate_project_batch client organization_id projects rep d =
      projectBatchFinish client projects
        (projects.enum.map fun (i, p) =>
          { organization_id := organization_id, name := p.name,
            color := generate_hsl_color i, created_at := p.created_at })
        rep
        { d with migration_state :=
            upsertAll .project (projects.map (·.id)) d.migration_state } := rfl
  rw [hmb]
  rw [projectBatchFinish_find_other client projects _ rep _ ha]
  show MigrationState.find_by_entity
    (upsertAll .project (projects.map (·.id)) d.migration_state) a b = _
  exact upsertAll_find_not_mem _ (Or.inl ha)

theorem migrate_project_batch_get_remote_id_other (client : RemoteClient)
    (organization_id : Uuid) (projects : List Project) (rep : MigrationReport)
    (d : Db) {a : EntityType} {b : Uuid} (ha : a ≠ .project) :
    MigrationState.get_remote_id
      (migrate_project_batch client organization_id projects rep d).db.migration_state
        a b =
      MigrationState.get_remote_id d.migration_state a b := by
  have hmb : migrate_project_batch client organization_id projects rep d =
      projectBatchFinish client projects
        (projects.enum.map fun (i, p) =>
          { organization_id := organization_id, name := p.name,
            color := generate_hsl_color i, created_at := p.created_at })
        rep
        { d with migration_state :=
            upsertAll .project (projects.map (·.id)) d.migration_state } := rfl
  rw [hmb]
  rw [projectBatchFinish_get_remote_id_other client projects _ rep _ ha]
  show MigrationState.get_remote_id
    (upsertAll .project (projects.map (·.id)) d.migration_state) a b = _
  exact get_remote_id_upsertAll _ _ _ _ _

theorem migrate_project_batch_rowMigratedP (client : RemoteClient)
    (organization_id : Uuid) (projects : List Project) (rep : MigrationReport)
    (d : Db) {a : EntityType} {b : Uuid} (h : rowMigratedP d.migration_state a b) :
    rowMigratedP
      (migrate_project_batch client organization_id projects rep d).db.migration_state
        a b := by
  have hmb : migrate_project_batch client organization_id projects rep d =
      projectBatchFinish client projects
        (projects.enum.map fun (i, p) =>
          { organization_id := organization_id, name := p.name,
            color := generate_hsl_color i, created_at := p.created_at })
        rep
        { d with migration_state :=
            upsertAll .project (projects.map (·.id)) d.migration_state } := rfl
  rw [hmb]
  refine projectBatchFinish_rowMigratedP client projects _ rep _ ?_
  exact rowMigratedP_upsertAll .project _ h

theorem migrate_project_batch_db_tables (client : RemoteClient)
    (organization_id : Uuid) (projects : List Project) (rep : MigrationReport)
    (d : Db) :
    (migrate_project_batch client organization_id projects rep d).db.tasks = d.tasks ∧
    (migrate_project_batch client organization_id projects rep d).db.pr_merges =
      d.pr_merges ∧
    (migrate_project_batch client organization_id projects rep d).db.workspaces =
      d.workspaces ∧
    (migrate_project_batch client organization_id projects
      rep d).db.projects.map Project.id = d.projects.map Project.id := by
  have hmb : migrate_project_batch client organization_id projects rep d =
      projectBatchFinish client projects
        (projects.enum.map fun (i, p) =>
          { organization_id := organization_id, name := p.name,
            color := generate_hsl_color i, created_at := p.created_at })
        rep
        { d with migration_state :=
            upsertAll .project (projects.map (·.id)) d.migration_state } := rfl
  rw [hmb]
  exact projectBatchFinish_db_tables client projects _ rep _

/-- A successful project batch (honest client) marks every batch member
migrated. -/
theorem migrate_project_batch_post (client : RemoteClient) (organization_id : Uuid)
    (chunk : List Project) (rep : MigrationReport) (d : Db)
    (hh : RemoteClient.honest client)
    (hok : (migrate_project_batch client organization_id chunk rep d).res = .ok ()) :
    ∀ p ∈ chunk,
      rowMigratedP
        (migrate_project_batch client organization_id chunk rep d).db.migration_state
          .project p.id := by
  intro p hp
  have hmb : migrate_project_batch client organization_id chunk rep d =
      projectBatchFinish client chunk
        (chunk.enum.map fun (i, q) =>
          { organization_id := organization_id, name := q.name,
            color := generate_hsl_color i, created_at := q.created_at })
        rep
        { d with migration_state :=
            upsertAll .project (chunk.map (·.id)) d.migration_state } := rfl
  rw [hmb] at hok ⊢
  cases hcall : client.call (.projects (chunk.enum.map fun (i, q) =>
      ({ organization_id := organization_id, name := q.name,
         color := generate_hsl_color i, created_at := q.created_at } :
        MigrateProjectRequest))) with
  | error e =>
    rw [projectBatchFinish_error client chunk _ rep _ hcall] at hok
    exact Except.noConfusion hok
  | ok ids =>
    rw [projectBatchFinish_ok client chunk _ rep _ hcall]
    show rowMigratedP
      (commitProjects (chunk.zip ids)
        { d with migration_state :=
            upsertAll .project (chunk.map (·.id)) d.migration_state }
        rep).1.migration_state .project p.id
    have hids := hh _ ids hcall
    have hlen2 : payloadLen (.projects (chunk.enum.map fun (i, q) =>
        ({ organization_id := organization_id, name := q.name,
           color := generate_hsl_color i, created_at := q.created_at } :
          MigrateProjectRequest))) = chunk.length := by
      simp [payloadLen]
    have hidslen : ids.length = chunk.length := by
      rw [hids]
      exact hlen2
    have hle : chunk.length ≤ ids.length := by omega
    obtain ⟨rid, hpr⟩ := mem_zip_left_of_length_le hp hle
    refine commitProjects_mem_migrated _ _ _ hpr ?_
    show (MigrationState.find_by_entity
      (upsertAll .project (chunk.map (·.id)) d.migration_state) .project p.id).isSome
    exact upsertAll_mem_isSome .project _ d.migration_state (List.mem_map_of_mem _ hp)

/-! #### The chunk loop: propagation of batch-wise facts -/

/-- A reflexive-transitive database relation established by every batch holds
across the whole chunk loop. -/
theorem runBatches_db_rel {α : Type} (P : Db → Db → Prop)
    (hrefl : ∀ d, P d d)
    (htrans : ∀ {d1 d2 d3 : Db}, P d1 d2 → P d2 d3 → P d1 d3)
    (batch : List α → MigrationReport → Db → StepResult Unit)
    (hb : ∀ (chunk : List α) (rep : MigrationReport) (d : Db),
      P d (batch chunk rep d).db)
    (chunks : List (List α)) (rep : MigrationReport) (d : Db) :
    P d (runBatches batch chunks rep d).db := by
  induction chunks generalizing rep d with
  | nil => exact hrefl d
  | cons chunk rest ih =>
    unfold runBatches
    rcases hb2 : batch chunk rep d with ⟨res, d2, r2, cs2⟩
    have hb3 := hb chunk rep d
    rw [hb2] at hb3
    cases res with
    | error e =>
      simp only [hb2]
      exact hb3
    | ok u =>
      simp only [hb2]
      show P d (runBatches batch rest r2 d2).db
      exact htrans hb3 (ih r2 d2)

/-- Task rows of ids outside every chunk survive the whole loop unchanged. -/
theorem runBatches_task_find_not_mem (client : RemoteClient)
    (chunks : List (List Task)) (rep : MigrationReport) (d : Db) {b : Uuid}
    (hb : b ∉ (chunks.flatten).map Task.id) :
    MigrationState.find_by_entity
      (runBatches (migrate_task_batch client) chunks rep d).db.migration_state
        .task b =
      MigrationState.find_by_entity d.migration_state .task b := by
  induction chunks generalizing rep d with
  | nil => rfl
  | cons chunk rest ih =>
    have hbc : b ∉ chunk.map Task.id := by
      intro hmem
      refine hb ?_
      rw [List.flatten_cons, List.map_append]
      exact List.mem_append.mpr (Or.inl hmem)
    have hbr : b ∉ (rest.flatten).map Task.id := by
      intro hmem
      refine hb ?_
      rw [List.flatten_cons, List.map_append]
      exact List.mem_append.mpr (Or.inr hmem)
    unfold runBatches
    rcases hb2 : migrate_task_batch client chunk rep d with ⟨res, d2, r2, cs2⟩
    have hbatch := migrate_task_batch_find_not_mem client chunk rep d hbc
    rw [hb2] at hbatch
    cases res with
    | error e =>
      simp only [hb2]
      exact hbatch
    | ok u =>
      simp only [hb2]
      show MigrationState.find_by_entity
        (runBatches (migrate_task_batch client) rest r2 d2).db.migration_state
          .task b = _
      rw [ih r2 d2 hbr]
      exact hbatch

theorem runBatches_pr_merge_find_not_mem (client : RemoteClient)
    (chunks : List (List PrMerge)) (rep : MigrationReport) (d : Db) {b : Uuid}
    (hb : b ∉ (chunks.flatten).map PrMerge.id) :
    MigrationState.find_by_entity
      (runBatches (migrate_pr_merge_batch client) chunks rep d).db.migration_state
        .prMerge b =
      MigrationState.find_by_entity d.migration_state .prMerge b := by
  induction chunks generalizing rep d with
  | nil => rfl
  | cons chunk rest ih =>
    have hbc : b ∉ chunk.map PrMerge.id := by
      intro hmem
      refine hb ?_
      rw [List.flatten_cons, List.map_append]
      exact List.mem_append.mpr (Or.inl hmem)
    have hbr : b ∉ (rest.flatten).map PrMerge.id := by
      intro hmem
      refine hb ?_
      rw [List.flatten_cons, List.map_append]
      exact List.mem_append.mpr (Or.inr hmem)
    unfold runBatches
    rcases hb2 : migrate_pr_merge_batch client chunk rep d with ⟨res, d2, r2, cs2⟩
    have hbatch := migrate_pr_merge_batch_find_not_mem client chunk rep d hbc
    rw [hb2] at hbatch
    cases res with
    | error e =>
      simp only [hb2]
      exact hbatch
    | ok u =>
      simp only [hb2]
      show MigrationState.find_by_entity
        (runBatches (migrate_pr_merge_batch client) rest r2 d2).db.migration_state
          .prMerge b = _
      rw [ih r2 d2 hbr]
      exact hbatch

theorem runBatches_workspace_find_not_mem (client : RemoteClient)
    (chunks : List (List Workspace)) (rep : MigrationReport) (d : Db) {b : Uuid}
    (hb : b ∉ (chunks.flatten).map Workspace.id) :
    MigrationState.find_by_entity
      (runBatches (migrate_workspace_batch client) chunks rep d).db.migration_state
        .workspace b =
      MigrationState.find_by_entity d.migration_state .workspace b := by
  induction chunks generalizing rep d with
  | nil => rfl
  | cons chunk rest ih =>
    have hbc : b ∉ chunk.map Workspace.id := by
      intro hmem
      refine hb ?_
      rw [List.flatten_cons, List.map_append]
      exact List.mem_append.mpr (Or.inl hmem)
    have hbr : b ∉ (rest.flatten).map Workspace.id := by
      intro hmem
      refine hb ?_
      rw [List.flatten_cons, List.map_append]
      exact List.mem_append.mpr (Or.inr hmem)
    unfold runBatches
    rcases hb2 : migrate_workspace_batch client chunk rep d with ⟨res, d2, r2, cs2⟩
    have hbatch := migrate_workspace_batch_find_not_mem client chunk rep d hbc
    rw [hb2] at hbatch
    cases res with
    | error e =>
      simp only [hb2]
      exact hbatch
    | ok u =>
      simp only [hb2]
      show MigrationState.find_by_entity
        (runBatches (migrate_workspace_batch client) rest r2 d2).db.migration_state
          .workspace b = _
      rw [ih r2 d2 hbr]
      exact hbatch

/-- Project batches only ever mark rows migrated, so migrated rows survive the
whole project loop. -/
theorem runBatches_project_rowMigratedP (client : RemoteClient)
    (organization_id : Uuid) (chunks : List (List Project)) (rep : MigrationReport)
    (d : Db) {a : EntityType} {b : Uuid} (h : rowMigratedP d.migration_state a b) :
    rowMigratedP
      (runBatches (migrate_project_batch client organization_id) chunks
        rep d).db.migration_state a b :=
  runBatches_db_rel
    (fun d1 d2 => ∀ a b, rowMigratedP d1.migration_state a b →
      rowMigratedP d2.migration_state a b)
    (fun d1 a b hh => hh)
    (fun h1 h2 a b hh => h2 a b (h1 a b hh))
    (migrate_project_batch client organization_id)
    (fun chunk rep2 d2 a b hh =>
      migrate_project_batch_rowMigratedP client organization_id chunk rep2 d2 hh)
    chunks rep d a b h

/-- `prMergeDep` is insensitive to a database change that keeps the tables and
the `.task` rows. -/
theorem prMergeDep_congr {d d2 : Db}
    (hshape : d2 = { d with migration_state := d2.migration_state })
    (hgri : ∀ b, MigrationState.get_remote_id d2.migration_state .task b =
      MigrationState.get_remote_id d.migration_state .task b) (m : PrMerge) :
    prMergeDep d2 m = prMergeDep d m := by
  unfold prMergeDep
  have hws : Workspace.find_by_id d2 m.workspace_id =
      Workspace.find_by_id d m.workspace_id := by
    rw [hshape]
    rfl
  rw [hws]
  cases Workspace.find_by_id d m.workspace_id with
  | none => rfl
  | some ws => exact hgri ws.task_id

/-- `workspaceDead` is insensitive to a database change that keeps the tables
and the `.project` and `.task` rows. -/
theorem workspaceDead_congr {d d2 : Db}
    (hshape : d2 = { d with migration_state := d2.migration_state })
    (hgriP : ∀ b, MigrationState.get_remote_id d2.migration_state .project b =
      MigrationState.get_remote_id d.migration_state .project b)
    (hgriT : ∀ b, MigrationState.get_remote_id d2.migration_state .task b =
      MigrationState.get_remote_id d.migration_state .task b) (w : Workspace) :
    (workspaceDead d2 w ↔ workspaceDead d w) := by
  have htask : Task.find_by_id d2 w.task_id = Task.find_by_id d w.task_id := by
    rw [hshape]
    rfl
  cases htd : Task.find_by_id d w.task_id with
  | none =>
    have htd2 : Task.find_by_id d2 w.task_id = none := htask.trans htd
    simp only [workspaceDead, htd, htd2]
  | some task =>
    have htd2 : Task.find_by_id d2 w.task_id = some task := htask.trans htd
    simp only [workspaceDead, htd, htd2]
    rw [hgriP task.project_id, hgriT w.task_id]

/-- A successful task loop (honest client, distinct ids) leaves every task of
every chunk migrated or project-dead. -/
theorem runBatches_task_post (client : RemoteClient) (chunks : List (List Task))
    (rep : MigrationReport) (d : Db) (hh : RemoteClient.honest client)
    (hN : ((chunks.flatten).map Task.id).Nodup)
    (hok : (runBatches (migrate_task_batch client) chunks rep d).res = .ok ()) :
    ∀ t ∈ chunks.flatten,
      rowMigratedP
        (runBatches (migrate_task_batch client) chunks rep d).db.migration_state
          .task t.id ∨
      MigrationState.get_remote_id d.migration_state .project t.project_id = none := by
  induction chunks generalizing rep d with
  | nil =>
    intro t ht
    simp at ht
  | cons chunk rest ih =>
    rw [List.flatten_cons, List.map_append] at hN
    have hNc := (List.nodup_append.mp hN).1
    have hNr := (List.nodup_append.mp hN).2.1
    have hdisj := (List.nodup_append.mp hN).2.2
    unfold runBatches at hok ⊢
    rcases hb2 : migrate_task_batch client chunk rep d with ⟨res, d2, r2, cs2⟩
    rw [hb2] at hok
    cases res with
    | error e => exact Except.noConfusion hok
    | ok u =>
      have hbok : (migrate_task_batch client chunk rep d).res = Except.ok () := by
        rw [hb2]
        rfl
      have hok3 : (runBatches (migrate_task_batch client) rest r2 d2).res =
          Except.ok () := hok
      intro t ht
      rw [List.flatten_cons] at ht
      rcases List.mem_append.mp ht with htc | htr
      · have hpost := migrate_task_batch_post client chunk rep d hh hbok t htc
        rw [hb2] at hpost
        have hpost2 : rowMigratedP d2.migration_state .task t.id ∨
            MigrationState.get_remote_id d.migration_state .project t.project_id =
              none := hpost
        rcases hpost2 with hmig | hdead
        · refine Or.inl ?_
          show rowMigratedP
            (runBatches (migrate_task_batch client) rest r2 d2).db.migration_state
              .task t.id
          obtain ⟨r, hf, hs⟩ := hmig
          refine ⟨r, ?_, hs⟩
          rw [runBatches_task_find_not_mem client rest r2 d2 ?_]
          · exact hf
          · intro hmem
            exact hdisj (List.mem_map_of_mem Task.id htc) hmem
        · exact Or.inr hdead
      · have hih := ih r2 d2 hNr hok3 t htr
        rcases hih with hmig | hdead
        · refine Or.inl ?_
          show rowMigratedP
            (runBatches (migrate_task_batch client) rest r2 d2).db.migration_state
              .task t.id
          exact hmig
        · refine Or.inr ?_
          have hgri : MigrationState.get_remote_id
              (migrate_task_batch client chunk rep d).db.migration_state .project
                t.project_id =
              MigrationState.get_remote_id d.migration_state .project t.project_id :=
            migrate_task_batch_get_remote_id_other client chunk rep d
              (by intro h; exact EntityType.noConfusion h)
          rw [hb2] at hgri
          exact hgri.symm.trans hdead

/-- A successful PR-merge loop (honest client, distinct ids) leaves every merge
of every chunk migrated or dependency-dead. -/
theorem runBatches_pr_merge_post (client : RemoteClient)
    (chunks : List (List PrMerge)) (rep : MigrationReport) (d : Db)
    (hh : RemoteClient.honest client)
    (hN : ((chunks.flatten).map PrMerge.id).Nodup)
    (hok : (runBatches (migrate_pr_merge_batch client) chunks rep d).res = .ok ()) :
    ∀ m ∈ chunks.flatten,
      rowMigratedP
        (runBatches (migrate_pr_merge_batch client) chunks rep d).db.migration_state
          .prMerge m.id ∨
      prMergeDep d m = none := by
  induction chunks generalizing rep d with
  | nil =>
    intro m hm
    simp at hm
  | cons chunk rest ih =>
    rw [List.flatten_cons, List.map_append] at hN
    have hNc := (List.nodup_append.mp hN).1
    have hNr := (List.nodup_append.mp hN).2.1
    have hdisj := (List.nodup_append.mp hN).2.2
    unfold runBatches at hok ⊢
    rcases hb2 : migrate_pr_merge_batch client chunk rep d with ⟨res, d2, r2, cs2⟩
    rw [hb2] at hok
    cases res with
    | error e => exact Except.noConfusion hok
    | ok u =>
      have hbok : (migrate_pr_merge_batch client chunk rep d).res = Except.ok () := by
        rw [hb2]
        rfl
      have hok3 : (runBatches (migrate_pr_merge_batch client) rest r2 d2).res =
          Except.ok () := hok
      intro m hm
      rw [List.flatten_cons] at hm
      rcases List.mem_append.mp hm with hmc | hmr
      · have hpost := migrate_pr_merge_batch_post client chunk rep d hh hbok m hmc
        rw [hb2] at hpost
        have hpost2 : rowMigratedP d2.migration_state .prMerge m.id ∨
            prMergeDep d m = none := hpost
        rcases hpost2 with hmig | hdead
        · refine Or.inl ?_
          show rowMigratedP
            (runBatches (migrate_pr_merge_batch client) rest r2 d2).db.migration_state
              .prMerge m.id
          obtain ⟨r, hf, hs⟩ := hmig
          refine ⟨r, ?_, hs⟩
          rw [runBatches_pr_merge_find_not_mem client rest r2 d2 ?_]
          · exact hf
          · intro hmem
            exact hdisj (List.mem_map_of_mem PrMerge.id hmc) hmem
        · exact Or.inr hdead
      · have hshape := migrate_pr_merge_batch_db_shape client chunk rep d
        rw [hb2] at hshape
        have hshape2 : d2 = { d with migration_state := d2.migration_state } := hshape
        have hgri : ∀ b, MigrationState.get_remote_id d2.migration_state .task b =
            MigrationState.get_remote_id d.migration_state .task b := by
          intro b
          have h : MigrationState.get_remote_id
              (migrate_pr_merge_batch client chunk rep d).db.migration_state .task b =
              MigrationState.get_remote_id d.migration_state .task b :=
            migrate_pr_merge_batch_get_remote_id_other client chunk rep d
              (by intro h; exact EntityType.noConfusion h)
          rw [hb2] at h
          exact h
        have hih := ih r2 d2 hNr hok3 m hmr
        rcases hih with hmig | hdead
        · refine Or.inl ?_
          show rowMigratedP
            (runBatches (migrate_pr_merge_batch client) rest r2 d2).db.migration_state
              .prMerge m.id
          exact hmig
        · refine Or.inr ?_
          rw [← prMergeDep_congr hshape2 hgri m]
          exact hdead

/-- A successful workspace loop (honest client, distinct ids) leaves every
workspace of every chunk migrated or dependency-dead. -/
theorem runBatches_workspace_post (client : RemoteClient)
    (chunks : List (List Workspace)) (rep : MigrationReport) (d : Db)
    (hh : RemoteClient.honest client)
    (hN : ((chunks.flatten).map Workspace.id).Nodup)
    (hok : (runBatches (migrate_workspace_batch client) chunks rep d).res = .ok ()) :
    ∀ w ∈ chunks.flatten,
      rowMigratedP
        (runBatches (migrate_workspace_batch client) chunks rep d).db.migration_state
          .workspace w.id ∨
      workspaceDead d w := by
  induction chunks generalizing rep d with
  | nil =>
    intro w hw
    simp at hw
  | cons chunk rest ih =>
    rw [List.flatten_cons, List.map_append] at hN
    have hNc := (List.nodup_append.mp hN).1
    have hNr := (List.nodup_append.mp hN).2.1
    have hdisj := (List.nodup_append.mp hN).2.2
    unfold runBatches at hok ⊢
    rcases hb2 : migrate_workspace_batch client chunk rep d with ⟨res, d2, r2, cs2⟩
    rw [hb2] at hok
    cases res with
    | error e => exact Except.noConfusion hok
    | ok u =>
      have hbok : (migrate_workspace_batch client chunk rep d).res = Except.ok () := by
        rw [hb2]
        rfl
      have hok3 : (runBatches (migrate_workspace_batch client) rest r2 d2).res =
          Except.ok () := hok
      intro w hw
      rw [List.flatten_cons] at hw
      rcases List.mem_append.mp hw with hwc | hwr
      · have hpost := migrate_workspace_batch_post client chunk rep d hh hbok w hwc
        rw [hb2] at hpost
        have hpost2 : rowMigratedP d2.migration_state .workspace w.id ∨
            workspaceDead d w := hpost
        rcases hpost2 with hmig | hdead
        · refine Or.inl ?_
          show rowMigratedP
            (runBatches (migrate_workspace_batch client) rest r2 d2).db.migration_state
              .workspace w.id
          obtain ⟨r, hf, hs⟩ := hmig
          refine ⟨r, ?_, hs⟩
          rw [runBatches_workspace_find_not_mem client rest r2 d2 ?_]
          · exact hf
          · intro hmem
            exact hdisj (List.mem_map_of_mem Workspace.id hwc) hmem
        · exact Or.inr hdead
      · have hshape := migrate_workspace_batch_db_shape client chunk rep d
        rw [hb2] at hshape
        have hshape2 : d2 = { d with migration_state := d2.migration_state } := hshape
        have hgriP : ∀ b, MigrationState.get_remote_id d2.migration_state .project b =
            MigrationState.get_remote_id d.migration_state .project b := by
          intro b
          have h : MigrationState.get_remote_id
              (migrate_workspace_batch client chunk rep d).db.migration_state
                .project b =
              MigrationState.get_remote_id d.migration_state .project b :=
            migrate_workspace_batch_get_remote_id_other client chunk rep d
              (by intro h; exact EntityType.noConfusion h)
          rw [hb2] at h
          exact h
        have hgriT : ∀ b, MigrationState.get_remote_id d2.migration_state .task b =
            MigrationState.get_remote_id d.migration_state .task b := by
          intro b
          have h : MigrationState.get_remote_id
              (migrate_workspace_batch client chunk rep d).db.migration_state
                .task b =
              MigrationState.get_remote_id d.migration_state .task b :=
            migrate_workspace_batch_get_remote_id_other client chunk rep d
              (by intro h; exact EntityType.noConfusion h)
          rw [hb2] at h
          exact h
        have hih := ih r2 d2 hNr hok3 w hwr
        rcases hih with hmig | hdead
        · refine Or.inl ?_
          show rowMigratedP
            (runBatches (migrate_workspace_batch client) rest r2 d2).db.migration_state
              .workspace w.id
          exact hmig
        · exact Or.inr ((workspaceDead_congr hshape2 hgriP hgriT w).mp hdead)

/-- Database-shape facts (only `migration_state` changes) compose transitively. -/
theorem dbShape_trans {d1 d2 d3 : Db}
    (h12 : d2 = { d1 with migration_state := d2.migration_state })
    (h23 : d3 = { d2 with migration_state := d3.migration_state }) :
    d3 = { d1 with migration_state := d3.migration_state } := by
  refine h23.trans ?_
  rw [h12]

/-- A task loop whose tasks are all project-dead: no call is made, every task is
counted skipped, only `.task` rows change, and remote-id lookups that were
`none` stay `none`. -/
theorem runBatches_task_all_dead (client : RemoteClient)
    (chunks : List (List Task)) (rep : MigrationReport) (d : Db)
    (hdead : ∀ t ∈ chunks.flatten,
      MigrationState.get_remote_id d.migration_state .project t.project_id = none) :
    (runBatches (migrate_task_batch client) chunks rep d).res = .ok () ∧
    (runBatches (migrate_task_batch client) chunks rep d).calls = [] ∧
    (runBatches (migrate_task_batch client) chunks rep d).db =
      { d with migration_state :=
          (runBatches (migrate_task_batch client) chunks rep d).db.migration_state } ∧
    (runBatches (migrate_task_batch client) chunks rep d).report.tasks.skipped =
      rep.tasks.skipped + (chunks.flatten).length ∧
    (runBatches (migrate_task_batch client) chunks rep d).report.tasks.migrated =
      rep.tasks.migrated ∧
    (runBatches (migrate_task_batch client) chunks rep d).report.tasks.total =
      rep.tasks.total ∧
    (runBatches (migrate_task_batch client) chunks rep d).report.projects =
      rep.projects ∧
    (runBatches (migrate_task_batch client) chunks rep d).report.pr_merges =
      rep.pr_merges ∧
    (runBatches (migrate_task_batch client) chunks rep d).report.workspaces =
      rep.workspaces ∧
    (∀ a b, a ≠ .task →
      MigrationState.find_by_entity
        (runBatches (migrate_task_batch client) chunks rep d).db.migration_state a b =
        MigrationState.find_by_entity d.migration_state a b) ∧
    (∀ a b, a ≠ .task →
      MigrationState.get_remote_id
        (runBatches (migrate_task_batch client) chunks rep d).db.migration_state a b =
        MigrationState.get_remote_id d.migration_state a b) ∧
    (∀ a b, MigrationState.get_remote_id d.migration_state a b = none →
      MigrationState.get_remote_id
        (runBatches (migrate_task_batch client) chunks rep d).db.migration_state a b =
          none) := by
  induction chunks generalizing rep d with
  | nil =>
    exact ⟨rfl, rfl, rfl, rfl, rfl, rfl, rfl, rfl, rfl,
      fun a b ha => rfl, fun a b ha => rfl, fun a b h => h⟩
  | cons chunk rest ih =>
    have hdc : ∀ t ∈ chunk,
        MigrationState.get_remote_id d.migration_state .project t.project_id =
          none := by
      intro t ht
      refine hdead t ?_
      rw [List.flatten_cons]
      exact List.mem_append.mpr (Or.inl ht)
    have hdr0 : ∀ t ∈ rest.flatten,
        MigrationState.get_remote_id d.migration_state .project t.project_id =
          none := by
      intro t ht
      refine hdead t ?_
      rw [List.flatten_cons]
      exact List.mem_append.mpr (Or.inr ht)
    obtain ⟨h1, h2, h3, h4, h5, h6, h7, h8, h9, h10, h11, h12⟩ :=
      migrate_task_batch_all_dead client chunk rep d hdc
    unfold runBatches
    rcases hb2 : migrate_task_batch client chunk rep d with ⟨res, d2, r2, cs2⟩
    rw [hb2] at h1 h2 h3 h4 h5 h6 h7 h8 h9 h10 h11 h12
    have hres : res = Except.ok () := h1
    subst hres
    have hshape2 : d2 = { d with migration_state := d2.migration_state } := h3
    have hdr : ∀ t ∈ rest.flatten,
        MigrationState.get_remote_id d2.migration_state .project t.project_id =
          none := by
      intro t ht
      exact h12 .project t.project_id (hdr0 t ht)
    obtain ⟨g1, g2, g3, g4, g5, g6, g7, g8, g9, g10, g11, g12⟩ := ih r2 d2 hdr
    refine ⟨?_, ?_, ?_, ?_, ?_, ?_, ?_, ?_, ?_, ?_, ?_, ?_⟩
    · show (runBatches (migrate_task_batch client) rest r2 d2).res = Except.ok ()
      exact g1
    · show cs2 ++ (runBatches (migrate_task_batch client) rest r2 d2).calls = []
      have hcs2 : cs2 = [] := h2
      rw [hcs2, g2]
      rfl
    · show (runBatches (migrate_task_batch client) rest r2 d2).db =
        { d with migration_state :=
            (runBatches (migrate_task_batch client) rest r2 d2).db.migration_state }
      exact dbShape_trans hshape2 g3
    · show (runBatches (migrate_task_batch client) rest r2 d2).report.tasks.skipped =
        rep.tasks.skipped + ((chunk :: rest).flatten).length
      have h4b : r2.tasks.skipped = rep.tasks.skipped + chunk.length := h4
      have g4b : (runBatches
          (migrate_task_batch client) rest r2 d2).report.tasks.skipped =
          r2.tasks.skipped + (rest.flatten).length := g4
      rw [g4b, h4b, List.flatten_cons, List.length_append]
      omega
    · show (runBatches (migrate_task_batch client) rest r2 d2).report.tasks.migrated =
        rep.tasks.migrated
      have h5b : r2.tasks.migrated = rep.tasks.migrated := h5
      have g5b : (runBatches
          (migrate_task_batch client) rest r2 d2).report.tasks.migrated =
          r2.tasks.migrated := g5
      exact g5b.trans h5b
    · show (runBatches (migrate_task_batch client) rest r2 d2).report.tasks.total =
        rep.tasks.total
      have h6b : r2.tasks.total = rep.tasks.total := h6
      have g6b : (runBatches
          (migrate_task_batch client) rest r2 d2).report.tasks.total =
          r2.tasks.total := g6
      exact g6b.trans h6b
    · show (runBatches (migrate_task_batch client) rest r2 d2).report.projects =
        rep.projects
      have h7b : r2.projects = rep.projects := h7
      have g7b : (runBatches (migrate_task_batch client) rest r2 d2).report.projects =
          r2.projects := g7
      exact g7b.trans h7b
    · show (runBatches (migrate_task_batch client) rest r2 d2).report.pr_merges =
        rep.pr_merges
      have h8b : r2.pr_merges = rep.pr_merges := h8
      have g8b : (runBatches
          (migrate_task_batch client) rest r2 d2).report.pr_merges =
          r2.pr_merges := g8
      exact g8b.trans h8b
    · show (runBatches (migrate_task_batch client) rest r2 d2).report.workspaces =
        rep.workspaces
      have h9b : r2.workspaces = rep.workspaces := h9
      have g9b : (runBatches
          (migrate_task_batch client) rest r2 d2).report.workspaces =
          r2.workspaces := g9
      exact g9b.trans h9b
    · intro a b ha
      have h10b : MigrationState.find_by_entity d2.migration_state a b =
          MigrationState.find_by_entity d.migration_state a b := h10 a b ha
      have g10b : MigrationState.find_by_entity
          (runBatches (migrate_task_batch client) rest r2 d2).db.migration_state a b =
          MigrationState.find_by_entity d2.migration_state a b := g10 a b ha
      show MigrationState.find_by_entity
        (runBatches (migrate_task_batch client) rest r2 d2).db.migration_state a b =
        MigrationState.find_by_entity d.migration_state a b
      exact g10b.trans h10b
    · intro a b ha
      have h11b : MigrationState.get_remote_id d2.migration_state a b =
          MigrationState.get_remote_id d.migration_state a b := h11 a b ha
      have g11b : MigrationState.get_remote_id
          (runBatches (migrate_task_batch client) rest r2 d2).db.migration_state a b =
          MigrationState.get_remote_id d2.migration_state a b := g11 a b ha
      show MigrationState.get_remote_id
        (runBatches (migrate_task_batch client) rest r2 d2).db.migration_state a b =
        MigrationState.get_remote_id d.migration_state a b
      exact g11b.trans h11b
    · intro a b hn
      have h12b : MigrationState.get_remote_id d2.migration_state a b = none :=
        h12 a b hn
      have g12b : MigrationState.get_remote_id
          (runBatches (migrate_task_batch client) rest r2 d2).db.migration_state a b =
          none := g12 a b h12b
      exact g12b

/-- A PR-merge loop whose merges are all dependency-dead: no call is made, every
merge is counted skipped, only `.prMerge` rows change, and remote-id lookups
that were `none` stay `none`. -/
theorem runBatches_pr_merge_all_dead (client : RemoteClient)
    (chunks : List (List PrMerge)) (rep : MigrationReport) (d : Db)
    (hdead : ∀ m ∈ chunks.flatten, prMergeDep d m = none) :
    (runBatches (migrate_pr_merge_batch client) chunks rep d).res = .ok () ∧
    (runBatches (migrate_pr_merge_batch client) chunks rep d).calls = [] ∧
    (runBatches (migrate_pr_merge_batch client) chunks rep d).db =
      { d with migration_state :=
          (runBatches
            (migrate_pr_merge_batch client) chunks rep d).db.migration_state } ∧
    (runBatches
        (migrate_pr_merge_batch client) chunks rep d).report.pr_merges.skipped =
      rep.pr_merges.skipped + (chunks.flatten).length ∧
    (runBatches
        (migrate_pr_merge_batch client) chunks rep d).report.pr_merges.migrated =
      rep.pr_merges.migrated ∧
    (runBatches
        (migrate_pr_merge_batch client) chunks rep d).report.pr_merges.total =
      rep.pr_merges.total ∧
    (runBatches (migrate_pr_merge_batch client) chunks rep d).report.projects =
      rep.projects ∧
    (runBatches (migrate_pr_merge_batch client) chunks rep d).report.tasks =
      rep.tasks ∧
    (runBatches (migrate_pr_merge_batch client) chunks rep d).report.workspaces =
      rep.workspaces ∧
    (∀ a b, a ≠ .prMerge →
      MigrationState.find_by_entity
        (runBatches
          (migrate_pr_merge_batch client) chunks rep d).db.migration_state a b =
        MigrationState.find_by_entity d.migration_state a b) ∧
    (∀ a b, a ≠ .prMerge →
      MigrationState.get_remote_id
        (runBatches
          (migrate_pr_merge_batch client) chunks rep d).db.migration_state a b =
        MigrationState.get_remote_id d.migration_state a b) ∧
    (∀ a b, MigrationState.get_remote_id d.migration_state a b = none →
      MigrationState.get_remote_id
        (runBatches
          (migrate_pr_merge_batch client) chunks rep d).db.migration_state a b =
          none) := by
  induction chunks generalizing rep d with
  | nil =>
    exact ⟨rfl, rfl, rfl, rfl, rfl, rfl, rfl, rfl, rfl,
      fun a b ha => rfl, fun a b ha => rfl, fun a b h => h⟩
  | cons chunk rest ih =>
    have hdc : ∀ m ∈ chunk, prMergeDep d m = none := by
      intro m hm
      refine hdead m ?_
      rw [List.flatten_cons]
      exact List.mem_append.mpr (Or.inl hm)
    have hdr0 : ∀ m ∈ rest.flatten, prMergeDep d m = none := by
      intro m hm
      refine hdead m ?_
      rw [List.flatten_cons]
      exact List.mem_append.mpr (Or.inr hm)
    obtain ⟨h1, h2, h3, h4, h5, h6, h7, h8, h9, h10, h11, h12⟩ :=
      migrate_pr_merge_batch_all_dead client chunk rep d hdc
    unfold runBatches
    rcases hb2 : migrate_pr_merge_batch client chunk rep d with ⟨res, d2, r2, cs2⟩
    rw [hb2] at h1 h2 h3 h4 h5 h6 h7 h8 h9 h10 h11 h12
    have hres : res = Except.ok () := h1
    subst hres
    have hshape2 : d2 = { d with migration_state := d2.migration_state } := h3
    have hgriT : ∀ b, MigrationState.get_remote_id d2.migration_state .task b =
        MigrationState.get_remote_id d.migration_state .task b := by
      intro b
      exact h11 .task b (by intro h; exact EntityType.noConfusion h)
    have hdr : ∀ m ∈ rest.flatten, prMergeDep d2 m = none := by
      intro m hm
      rw [prMergeDep_congr hshape2 hgriT m]
      exact hdr0 m hm
    obtain ⟨g1, g2, g3, g4, g5, g6, g7, g8, g9, g10, g11, g12⟩ := ih r2 d2 hdr
    refine ⟨?_, ?_, ?_, ?_, ?_, ?_, ?_, ?_, ?_, ?_, ?_, ?_⟩
    · show (runBatches (migrate_pr_merge_batch client) rest r2 d2).res = Except.ok ()
      exact g1
    · show cs2 ++ (runBatches (migrate_pr_merge_batch client) rest r2 d2).calls = []
      have hcs2 : cs2 = [] := h2
      rw [hcs2, g2]
      rfl
    · show (runBatches (migrate_pr_merge_batch client) rest r2 d2).db =
        { d with migration_state :=
            (runBatches
              (migrate_pr_merge_batch client) rest r2 d2).db.migration_state }
      exact dbShape_trans hshape2 g3
    · show (runBatches
          (migrate_pr_merge_batch client) rest r2 d2).report.pr_merges.skipped =
        rep.pr_merges.skipped + ((chunk :: rest).flatten).length
      have h4b : r2.pr_merges.skipped = rep.pr_merges.skipped + chunk.length := h4
      have g4b : (runBatches
          (migrate_pr_merge_batch client) rest r2 d2).report.pr_merges.skipped =
          r2.pr_merges.skipped + (rest.flatten).length := g4
      rw [g4b, h4b, List.flatten_cons, List.length_append]
      omega
    · show (runBatches
          (migrate_pr_merge_batch client) rest r2 d2).report.pr_merges.migrated =
        rep.pr_merges.migrated
      have h5b : r2.pr_merges.migrated = rep.pr_merges.migrated := h5
      have g5b : (runBatches
          (migrate_pr_merge_batch client) rest r2 d2).report.pr_merges.migrated =
          r2.pr_merges.migrated := g5
      exact g5b.trans h5b
    · show (runBatches
          (migrate_pr_merge_batch client) rest r2 d2).report.pr_merges.total =
        rep.pr_merges.total
      have h6b : r2.pr_merges.total = rep.pr_merges.total := h6
      have g6b : (runBatches
          (migrate_pr_merge_batch client) rest r2 d2).report.pr_merges.total =
          r2.pr_merges.total := g6
      exact g6b.trans h6b
    · show (runBatches (migrate_pr_merge_batch client) rest r2 d2).report.projects =
        rep.projects
      have h7b : r2.projects = rep.projects := h7
      have g7b : (runBatches
          (migrate_pr_merge_batch client) rest r2 d2).report.projects =
          r2.projects := g7
      exact g7b.trans h7b
    · show (runBatches (migrate_pr_merge_batch client) rest r2 d2).report.tasks =
        rep.tasks
      have h8b : r2.tasks = rep.tasks := h8
      have g8b : (runBatches
          (migrate_pr_merge_batch client) rest r2 d2).report.tasks =
          r2.tasks := g8
      exact g8b.trans h8b
    · show (runBatches (migrate_pr_merge_batch client) rest r2 d2).report.workspaces =
        rep.workspaces
      have h9b : r2.workspaces = rep.workspaces := h9
      have g9b : (runBatches
          (migrate_pr_merge_batch client) rest r2 d2).report.workspaces =
          r2.workspaces := g9
      exact g9b.trans h9b
    · intro a b ha
      have h10b : MigrationState.find_by_entity d2.migration_state a b =
          MigrationState.find_by_entity d.migration_state a b := h10 a b ha
      have g10b : MigrationState.find_by_entity
          (runBatches
            (migrate_pr_merge_batch client) rest r2 d2).db.migration_state a b =
          MigrationState.find_by_entity d2.migration_state a b := g10 a b ha
      show MigrationState.find_by_entity
        (runBatches
          (migrate_pr_merge_batch client) rest r2 d2).db.migration_state a b =
        MigrationState.find_by_entity d.migration_state a b
      exact g10b.trans h10b
    · intro a b ha
      have h11b : MigrationState.get_remote_id d2.migration_state a b =
          MigrationState.get_remote_id d.migration_state a b := h11 a b ha
      have g11b : MigrationState.get_remote_id
          (runBatches
            (migrate_pr_merge_batch client) rest r2 d2).db.migration_state a b =
          MigrationState.get_remote_id d2.migration_state a b := g11 a b ha
      show MigrationState.get_remote_id
        (runBatches
          (migrate_pr_merge_batch client) rest r2 d2).db.migration_state a b =
        MigrationState.get_remote_id d.migration_state a b
      exact g11b.trans h11b
    · intro a b hn
      have h12b : MigrationState.get_remote_id d2.migration_state a b = none :=
        h12 a b hn
      have g12b : MigrationState.get_remote_id
          (runBatches
            (migrate_pr_merge_batch client) rest r2 d2).db.migration_state a b =
          none := g12 a b h12b
      exact g12b

/-- A workspace loop whose workspaces are all dependency-dead: no call is made,
every workspace is counted skipped, only `.workspace` rows change, and
remote-id lookups that were `none` stay `none`. -/
theorem runBatches_workspace_all_dead (client : RemoteClient)
    (chunks : List (List Workspace)) (rep : MigrationReport) (d : Db)
    (hdead : ∀ w ∈ chunks.flatten, workspaceDead d w) :
    (runBatches (migrate_workspace_batch client) chunks rep d).res = .ok () ∧
    (runBatches (migrate_workspace_batch client) chunks rep d).calls = [] ∧
    (runBatches (migrate_workspace_batch client) chunks rep d).db =
      { d with migration_state :=
          (runBatches
            (migrate_workspace_batch client) chunks rep d).db.migration_state } ∧
    (runBatches
        (migrate_workspace_batch client) chunks rep d).report.workspaces.skipped =
      rep.workspaces.skipped + (chunks.flatten).length ∧
    (runBatches
        (migrate_workspace_batch client) chunks rep d).report.workspaces.migrated =
      rep.workspaces.migrated ∧
    (runBatches
        (migrate_workspace_batch client) chunks rep d).report.workspaces.total =
      rep.workspaces.total ∧
    (runBatches (migrate_workspace_batch client) chunks rep d).report.projects =
      rep.projects ∧
    (runBatches (migrate_workspace_batch client) chunks rep d).report.tasks =
      rep.tasks ∧
    (runBatches (migrate_workspace_batch client) chunks rep d).report.pr_merges =
      rep.pr_merges ∧
    (∀ a b, a ≠ .workspace →
      MigrationState.find_by_entity
        (runBatches
          (migrate_workspace_batch client) chunks rep d).db.migration_state a b =
        MigrationState.find_by_entity d.migration_state a b) ∧
    (∀ a b, a ≠ .workspace →
      MigrationState.get_remote_id
        (runBatches
          (migrate_workspace_batch client) chunks rep d).db.migration_state a b =
        MigrationState.get_remote_id d.migration_state a b) ∧
    (∀ a b, MigrationState.get_remote_id d.migration_state a b = none →
      MigrationState.get_remote_id
        (runBatches
          (migrate_workspace_batch client) chunks rep d).db.migration_state a b =
          none) := by
  induction chunks generalizing rep d with
  | nil =>
    exact ⟨rfl, rfl, rfl, rfl, rfl, rfl, rfl, rfl, rfl,
      fun a b ha => rfl, fun a b ha => rfl, fun a b h => h⟩
  | cons chunk rest ih =>
    have hdc : ∀ w ∈ chunk, workspaceDead d w := by
      intro w hw
      refine hdead w ?_
      rw [List.flatten_cons]
      exact List.mem_append.mpr (Or.inl hw)
    have hdr0 : ∀ w ∈ rest.flatten, workspaceDead d w := by
      intro w hw
      refine hdead w ?_
      rw [List.flatten_cons]
      exact List.mem_append.mpr (Or.inr hw)
    obtain ⟨h1, h2, h3, h4, h5, h6, h7, h8, h9, h10, h11, h12⟩ :=
      migrate_workspace_batch_all_dead client chunk rep d hdc
    unfold runBatches
    rcases hb2 : migrate_workspace_batch client chunk rep d with ⟨res, d2, r2, cs2⟩
    rw [hb2] at h1 h2 h3 h4 h5 h6 h7 h8 h9 h10 h11 h12
    have hres : res = Except.ok () := h1
    subst hres
    have hshape2 : d2 = { d with migration_state := d2.migration_state } := h3
    have hgriP : ∀ b, MigrationState.get_remote_id d2.migration_state .project b =
        MigrationState.get_remote_id d.migration_state .project b := by
      intro b
      exact h11 .project b (by intro h; exact EntityType.noConfusion h)
    have hgriT : ∀ b, MigrationState.get_remote_id d2.migration_state .task b =
        MigrationState.get_remote_id d.migration_state .task b := by
      intro b
      exact h11 .task b (by intro h; exact EntityType.noConfusion h)
    have hdr : ∀ w ∈ rest.flatten, workspaceDead d2 w := by
      intro w hw
      exact (workspaceDead_congr hshape2 hgriP hgriT w).mpr (hdr0 w hw)
    obtain ⟨g1, g2, g3, g4, g5, g6, g7, g8, g9, g10, g11, g12⟩ := ih r2 d2 hdr
    refine ⟨?_, ?_, ?_, ?_, ?_, ?_, ?_, ?_, ?_, ?_, ?_, ?_⟩
    · show (runBatches (migrate_workspace_batch client) rest r2 d2).res = Except.ok ()
      exact g1
    · show cs2 ++ (runBatches (migrate_workspace_batch client) rest r2 d2).calls = []
      have hcs2 : cs2 = [] := h2
      rw [hcs2, g2]
      rfl
    · show (runBatches (migrate_workspace_batch client) rest r2 d2).db =
        { d with migration_state :=
            (runBatches
              (migrate_workspace_batch client) rest r2 d2).db.migration_state }
      exact dbShape_trans hshape2 g3
    · show (runBatches
          (migrate_workspace_batch client) rest r2 d2).report.workspaces.skipped =
        rep.workspaces.skipped + ((chunk :: rest).flatten).length
      have h4b : r2.workspaces.skipped = rep.workspaces.skipped + chunk.length := h4
      have g4b : (runBatches
          (migrate_workspace_batch client) rest r2 d2).report.workspaces.skipped =
          r2.workspaces.skipped + (rest.flatten).length := g4
      rw [g4b, h4b, List.flatten_cons, List.length_append]
      omega
    · show (runBatches
          (migrate_workspace_batch client) rest r2 d2).report.workspaces.migrated =
        rep.workspaces.migrated
      have h5b : r2.workspaces.migrated = rep.workspaces.migrated := h5
      have g5b : (runBatches
          (migrate_workspace_batch client) rest r2 d2).report.workspaces.migrated =
          r2.workspaces.migrated := g5
      exact g5b.trans h5b
    · show (runBatches
          (migrate_workspace_batch client) rest r2 d2).report.workspaces.total =
        rep.workspaces.total
      have h6b : r2.workspaces.total = rep.workspaces.total := h6
      have g6b : (runBatches
          (migrate_workspace_batch client) rest r2 d2).report.workspaces.total =
          r2.workspaces.total := g6
      exact g6b.trans h6b
    · show (runBatches (migrate_workspace_batch client) rest r2 d2).report.projects =
        rep.projects
      have h7b : r2.projects = rep.projects := h7
      have g7b : (runBatches
          (migrate_workspace_batch client) rest r2 d2).report.projects =
          r2.projects := g7
      exact g7b.trans h7b
    · show (runBatches (migrate_workspace_batch client) rest r2 d2).report.tasks =
        rep.tasks
      have h8b : r2.tasks = rep.tasks := h8
      have g8b : (runBatches
          (migrate_workspace_batch client) rest r2 d2).report.tasks =
          r2.tasks := g8
      exact g8b.trans h8b
    · show (runBatches
          (migrate_workspace_batch client) rest r2 d2).report.pr_merges =
        rep.pr_merges
      have h9b : r2.pr_merges = rep.pr_merges := h9
      have g9b : (runBatches
          (migrate_workspace_batch client) rest r2 d2).report.pr_merges =
          r2.pr_merges := g9
      exact g9b.trans h9b
    · intro a b ha
      have h10b : MigrationState.find_by_entity d2.migration_state a b =
          MigrationState.find_by_entity d.migration_state a b := h10 a b ha
      have g10b : MigrationState.find_by_entity
          (runBatches
            (migrate_workspace_batch client) rest r2 d2).db.migration_state a b =
          MigrationState.find_by_entity d2.migration_state a b := g10 a b ha
      show MigrationState.find_by_entity
        (runBatches
          (migrate_workspace_batch client) rest r2 d2).db.migration_state a b =
        MigrationState.find_by_entity d.migration_state a b
      exact g10b.trans h10b
    · intro a b ha
      have h11b : MigrationState.get_remote_id d2.migration_state a b =
          MigrationState.get_remote_id d.migration_state a b := h11 a b ha
      have g11b : MigrationState.get_remote_id
          (runBatches
            (migrate_workspace_batch client) rest r2 d2).db.migration_state a b =
          MigrationState.get_remote_id d2.migration_state a b := g11 a b ha
      show MigrationState.get_remote_id
        (runBatches
          (migrate_workspace_batch client) rest r2 d2).db.migration_state a b =
        MigrationState.get_remote_id d.migration_state a b
      exact g11b.trans h11b
    · intro a b hn
      have h12b : MigrationState.get_remote_id d2.migration_state a b = none :=
        h12 a b hn
      have g12b : MigrationState.get_remote_id
          (runBatches
            (migrate_workspace_batch client) rest r2 d2).db.migration_state a b =
          none := g12 a b h12b
      exact g12b

/-- Mapping commutes with filtering through a predicate on the image. -/
theorem map_filter_comm {α β : Type} (f : α → β) (p : β → Bool) (l : List α) :
    (l.filter (fun x => p (f x))).map f = (l.map f).filter p := by
  induction l with
  | nil => rfl
  | cons x rest ih =>
    simp only [List.filter_cons, List.map_cons]
    cases hp : p (f x) with
    | true => simp [hp, ih]
    | false => simp [hp, ih]

/-- Under a duplicate-free id map, an element outside a sublist has its image
outside the mapped sublist. -/
theorem not_mem_map_of_not_mem {α β : Type} {f : α → β} {l sub : List α}
    (hN : (l.map f).Nodup) (hsub : sub.Sublist l) {x : α} (hx : x ∈ l)
    (hxs : x ∉ sub) : f x ∉ sub.map f := by
  intro hmem
  obtain ⟨y, hy, hfy⟩ := List.mem_map.mp hmem
  have hyx : y = x := List.inj_on_of_nodup_map hN (hsub.subset hy) hx hfy
  exact hxs (hyx ▸ hy)

/-- A dead PR-merge dependency stays dead across a change that keeps the
tables and turns no `.task` remote id from `none` into `some`. -/
theorem prMergeDep_none_mono {d d2 : Db}
    (hshape : d2 = { d with migration_state := d2.migration_state })
    (hnone : ∀ b, MigrationState.get_remote_id d.migration_state .task b = none →
      MigrationState.get_remote_id d2.migration_state .task b = none)
    {m : PrMerge} (hdead : prMergeDep d m = none) : prMergeDep d2 m = none := by
  unfold prMergeDep at hdead ⊢
  have hws : Workspace.find_by_id d2 m.workspace_id =
      Workspace.find_by_id d m.workspace_id := by
    rw [hshape]
    rfl
  rw [hws]
  cases hw : Workspace.find_by_id d m.workspace_id with
  | none => rfl
  | some ws =>
    rw [hw] at hdead
    exact hnone ws.task_id hdead

/-- A dead workspace stays dead across a change that keeps the tables and the
`.project` rows and turns no `.task` remote id from `none` into `some`. -/
theorem workspaceDead_mono {d d2 : Db}
    (hshape : d2 = { d with migration_state := d2.migration_state })
    (hgriP : ∀ b, MigrationState.get_remote_id d2.migration_state .project b =
      MigrationState.get_remote_id d.migration_state .project b)
    (hnoneT : ∀ b, MigrationState.get_remote_id d.migration_state .task b = none →
      MigrationState.get_remote_id d2.migration_state .task b = none)
    {w : Workspace} (hdead : workspaceDead d w) : workspaceDead d2 w := by
  have htask : Task.find_by_id d2 w.task_id = Task.find_by_id d w.task_id := by
    rw [hshape]
    rfl
  cases htd : Task.find_by_id d w.task_id with
  | none =>
    have htd2 : Task.find_by_id d2 w.task_id = none := htask.trans htd
    simp only [workspaceDead, htd2]
  | some task =>
    have htd2 : Task.find_by_id d2 w.task_id = some task := htask.trans htd
    simp only [workspaceDead, htd] at hdead
    simp only [workspaceDead, htd2]
    rcases hdead with hp | ht
    · exact Or.inl ((hgriP task.project_id).trans hp)
    · exact Or.inr (hnoneT w.task_id ht)

/-- A successful project loop (honest client) marks every project of every
chunk migrated. -/
theorem runBatches_project_post (client : RemoteClient) (organization_id : Uuid)
    (chunks : List (List Project)) (rep : MigrationReport) (d : Db)
    (hh : RemoteClient.honest client)
    (hok : (runBatches (migrate_project_batch client organization_id) chunks
      rep d).res = .ok ()) :
    ∀ p ∈ chunks.flatten,
      rowMigratedP
        (runBatches (migrate_project_batch client organization_id) chunks
          rep d).db.migration_state .project p.id := by
  induction chunks generalizing rep d with
  | nil =>
    intro p hp
    simp at hp
  | cons chunk rest ih =>
    unfold runBatches at hok ⊢
    rcases hb2 : migrate_project_batch client organization_id chunk rep d with
      ⟨res, d2, r2, cs2⟩
    rw [hb2] at hok
    cases res with
    | error e => exact Except.noConfusion hok
    | ok u =>
      have hbok : (migrate_project_batch client organization_id chunk rep d).res =
          Except.ok () := by
        rw [hb2]
        rfl
      have hok3 : (runBatches (migrate_project_batch client organization_id) rest
          r2 d2).res = Except.ok () := hok
      intro p hp
      rw [List.flatten_cons] at hp
      rcases List.mem_append.mp hp with hpc | hpr
      · have hpost := migrate_project_batch_post client organization_id chunk rep d
          hh hbok p hpc
        rw [hb2] at hpost
        have hpost2 : rowMigratedP d2.migration_state .project p.id := hpost
        show rowMigratedP
          (runBatches (migrate_project_batch client organization_id) rest
            r2 d2).db.migration_state .project p.id
        exact runBatches_project_rowMigratedP client organization_id rest r2 d2 hpost2
      · exact ih r2 d2 hok3 p hpr

/-- Frame of phase 1: the task, merge and workspace tables and the project id
column are unchanged, and so is every non-`.project` state row. -/
theorem migrate_projects_frame (client : RemoteClient) (organization_id : Uuid)
    (pids : List Uuid) (rep : MigrationReport) (d : Db) :
    (migrate_projects client organization_id pids rep d).db.tasks = d.tasks ∧
    (migrate_projects client organization_id pids rep d).db.pr_merges =
      d.pr_merges ∧
    (migrate_projects client organization_id pids rep d).db.workspaces =
      d.workspaces ∧
    (migrate_projects client organization_id pids
      rep d).db.projects.map Project.id = d.projects.map Project.id ∧
    (∀ a b, a ≠ .project →
      MigrationState.find_by_entity
        (migrate_projects client organization_id pids rep d).db.migration_state a b =
        MigrationState.find_by_entity d.migration_state a b) ∧
    (∀ a b, a ≠ .project →
      MigrationState.get_remote_id
        (migrate_projects client organization_id pids rep d).db.migration_state a b =
        MigrationState.get_remote_id d.migration_state a b) := by
  exact runBatches_db_rel
    (fun x y => y.tasks = x.tasks ∧ y.pr_merges = x.pr_merges ∧
      y.workspaces = x.workspaces ∧
      y.projects.map Project.id = x.projects.map Project.id ∧
      (∀ a b, a ≠ EntityType.project →
        MigrationState.find_by_entity y.migration_state a b =
          MigrationState.find_by_entity x.migration_state a b) ∧
      (∀ a b, a ≠ EntityType.project →
        MigrationState.get_remote_id y.migration_state a b =
          MigrationState.get_remote_id x.migration_state a b))
    (fun x => ⟨rfl, rfl, rfl, rfl, fun a b ha => rfl, fun a b ha => rfl⟩)
    (fun h1 h2 => ⟨h2.1.trans h1.1, h2.2.1.trans h1.2.1, h2.2.2.1.trans h1.2.2.1,
      h2.2.2.2.1.trans h1.2.2.2.1,
      fun a b ha => (h2.2.2.2.2.1 a b ha).trans (h1.2.2.2.2.1 a b ha),
      fun a b ha => (h2.2.2.2.2.2 a b ha).trans (h1.2.2.2.2.2 a b ha)⟩)
    (migrate_project_batch client organization_id)
    (fun chunk rep2 d2 =>
      ⟨(migrate_project_batch_db_tables client organization_id chunk rep2 d2).1,
        (migrate_project_batch_db_tables client organization_id chunk rep2 d2).2.1,
        (migrate_project_batch_db_tables client organization_id chunk rep2 d2).2.2.1,
        (migrate_project_batch_db_tables client organization_id chunk rep2 d2).2.2.2,
        fun a b ha =>
          migrate_project_batch_find_other client organization_id chunk rep2 d2 ha,
        fun a b ha =>
          migrate_project_batch_get_remote_id_other client organization_id chunk
            rep2 d2 ha⟩)
    _ _ d

/-- Frame of phase 2: only `migration_state` changes, and only `.task` rows. -/
theorem migrate_tasks_frame (client : RemoteClient) (pids : List Uuid)
    (rep : MigrationReport) (d : Db) :
    (migrate_tasks client pids rep d).db =
      { d with migration_state :=
          (migrate_tasks client pids rep d).db.migration_state } ∧
    (∀ a b, a ≠ .task →
      MigrationState.find_by_entity
        (migrate_tasks client pids rep d).db.migration_state a b =
        MigrationState.find_by_entity d.migration_state a b) ∧
    (∀ a b, a ≠ .task →
      MigrationState.get_remote_id
        (migrate_tasks client pids rep d).db.migration_state a b =
        MigrationState.get_remote_id d.migration_state a b) := by
  exact runBatches_db_rel
    (fun x y => y = { x with migration_state := y.migration_state } ∧
      (∀ a b, a ≠ EntityType.task →
        MigrationState.find_by_entity y.migration_state a b =
          MigrationState.find_by_entity x.migration_state a b) ∧
      (∀ a b, a ≠ EntityType.task →
        MigrationState.get_remote_id y.migration_state a b =
          MigrationState.get_remote_id x.migration_state a b))
    (fun x => ⟨rfl, fun a b ha => rfl, fun a b ha => rfl⟩)
    (fun h1 h2 => ⟨dbShape_trans h1.1 h2.1,
      fun a b ha => (h2.2.1 a b ha).trans (h1.2.1 a b ha),
      fun a b ha => (h2.2.2 a b ha).trans (h1.2.2 a b ha)⟩)
    (migrate_task_batch client)
    (fun chunk rep2 d2 => ⟨migrate_task_batch_db_shape client chunk rep2 d2,
      fun a b ha => migrate_task_batch_find_other client chunk rep2 d2 ha,
      fun a b ha => migrate_task_batch_get_remote_id_other client chunk rep2 d2 ha⟩)
    _ _ d

/-- Frame of phase 3: only `migration_state` changes, and only `.prMerge`
rows. -/
theorem migrate_pr_merges_frame (client : RemoteClient) (pids : List Uuid)
    (rep : MigrationReport) (d : Db) :
    (migrate_pr_merges client pids rep d).db =
      { d with migration_state :=
          (migrate_pr_merges client pids rep d).db.migration_state } ∧
    (∀ a b, a ≠ .prMerge →
      MigrationState.find_by_entity
        (migrate_pr_merges client pids rep d).db.migration_state a b =
        MigrationState.find_by_entity d.migration_state a b) ∧
    (∀ a b, a ≠ .prMerge →
      MigrationState.get_remote_id
        (migrate_pr_merges client pids rep d).db.migration_state a b =
        MigrationState.get_remote_id d.migration_state a b) := by
  exact runBatches_db_rel
    (fun x y => y = { x with migration_state := y.migration_state } ∧
      (∀ a b, a ≠ EntityType.prMerge →
        MigrationState.find_by_entity y.migration_state a b =
          MigrationState.find_by_entity x.migration_state a b) ∧
      (∀ a b, a ≠ EntityType.prMerge →
        MigrationState.get_remote_id y.migration_state a b =
          MigrationState.get_remote_id x.migration_state a b))
    (fun x => ⟨rfl, fun a b ha => rfl, fun a b ha => rfl⟩)
    (fun h1 h2 => ⟨dbShape_trans h1.1 h2.1,
      fun a b ha => (h2.2.1 a b ha).trans (h1.2.1 a b ha),
      fun a b ha => (h2.2.2 a b ha).trans (h1.2.2 a b ha)⟩)
    (migrate_pr_merge_batch client)
    (fun chunk rep2 d2 => ⟨migrate_pr_merge_batch_db_shape client chunk rep2 d2,
      fun a b ha => migrate_pr_merge_batch_find_other client chunk rep2 d2 ha,
      fun a b ha =>
        migrate_pr_merge_batch_get_remote_id_other client chunk rep2 d2 ha⟩)
    _ _ d

/-- Frame of phase 4: only `migration_state` changes, and only `.workspace`
rows. -/
theorem migrate_workspaces_frame (client : RemoteClient) (pids : List Uuid)
    (rep : MigrationReport) (d : Db) :
    (migrate_workspaces client pids rep d).db =
      { d with migration_state :=
          (migrate_workspaces client pids rep d).db.migration_state } ∧
    (∀ a b, a ≠ .workspace →
      MigrationState.find_by_entity
        (migrate_workspaces client pids rep d).db.migration_state a b =
        MigrationState.find_by_entity d.migration_state a b) ∧
    (∀ a b, a ≠ .workspace →
      MigrationState.get_remote_id
        (migrate_workspaces client pids rep d).db.migration_state a b =
        MigrationState.get_remote_id d.migration_state a b) := by
  exact runBatches_db_rel
    (fun x y => y = { x with migration_state := y.migration_state } ∧
      (∀ a b, a ≠ EntityType.workspace →
        MigrationState.find_by_entity y.migration_state a b =
          MigrationState.find_by_entity x.migration_state a b) ∧
      (∀ a b, a ≠ EntityType.workspace →
        MigrationState.get_remote_id y.migration_state a b =
          MigrationState.get_remote_id x.migration_state a b))
    (fun x => ⟨rfl, fun a b ha => rfl, fun a b ha => rfl⟩)
    (fun h1 h2 => ⟨dbShape_trans h1.1 h2.1,
      fun a b ha => (h2.2.1 a b ha).trans (h1.2.1 a b ha),
      fun a b ha => (h2.2.2 a b ha).trans (h1.2.2 a b ha)⟩)
    (migrate_workspace_batch client)
    (fun chunk rep2 d2 => ⟨migrate_workspace_batch_db_shape client chunk rep2 d2,
      fun a b ha => migrate_workspace_batch_find_other client chunk rep2 d2 ha,
      fun a b ha =>
        migrate_workspace_batch_get_remote_id_other client chunk rep2 d2 ha⟩)
    _ _ d

/-- Post of a successful phase 1 (honest client): every selected project is
recorded migrated. -/
theorem migrate_projects_ok_post (client : RemoteClient) (organization_id : Uuid)
    (pids : List Uuid) (rep : MigrationReport) (d : Db)
    (hh : RemoteClient.honest client)
    (hok : (migrate_projects client organization_id pids rep d).res = .ok ()) :
    ∀ p ∈ (Project.find_all d).filter (fun p => pids.contains p.id),
      rowMigratedP
        (migrate_projects client organization_id pids rep d).db.migration_state
          .project p.id := by
  intro p hp
  rcases filterPending_cases .project (fun q => q.id) d.migration_state _ hp with
    hpend | hmig
  · refine runBatches_project_post client organization_id _ _ d hh ?_ p ?_
    · exact hok
    · rw [chunksOf_flatten BATCH_SIZE (by decide)]
      exact hpend
  · exact runBatches_project_rowMigratedP client organization_id _ _ d hmig

/-- Post of a successful phase 2 (honest client, distinct selected task ids):
every selected task ends recorded migrated or its project had no migrated
remote id at phase entry. -/
theorem migrate_tasks_ok_post (client : RemoteClient) (pids : List Uuid)
    (rep : MigrationReport) (d : Db) (hh : RemoteClient.honest client)
    (hN : (((Task.find_all d).filter fun t =>
      pids.contains t.project_id).map Task.id).Nodup)
    (hok : (migrate_tasks client pids rep d).res = .ok ()) :
    ∀ t ∈ (Task.find_all d).filter fun t => pids.contains t.project_id,
      rowMigratedP (migrate_tasks client pids rep d).db.migration_state .task t.id ∨
      MigrationState.get_remote_id d.migration_state .project t.project_id =
        none := by
  intro t ht
  rcases filterPending_cases .task (fun q => q.id) d.migration_state _ ht with
    hpend | hmig
  · refine runBatches_task_post client _ _ d hh ?_ ?_ t ?_
    · rw [chunksOf_flatten BATCH_SIZE (by decide)]
      exact List.Nodup.sublist
        (List.Sublist.map Task.id
          (filterPending_sublist .task (fun q : Task => q.id)
            d.migration_state _)) hN
    · exact hok
    · rw [chunksOf_flatten BATCH_SIZE (by decide)]
      exact hpend
  · have hnotpend : t ∉ (filterPending .task (fun q => q.id) d.migration_state
        ((Task.find_all d).filter fun t => pids.contains t.project_id)).1 := by
      intro hmem
      exact filterPending_pending_not_migrated .task (fun q : Task => q.id)
        d.migration_state _ hmem hmig
    have hnotid : Task.id t ∉ ((filterPending .task (fun q => q.id)
        d.migration_state
        ((Task.find_all d).filter fun t =>
          pids.contains t.project_id)).1).map Task.id :=
      not_mem_map_of_not_mem hN
        (filterPending_sublist .task (fun q : Task => q.id)
          d.migration_state _) ht hnotpend
    refine Or.inl ?_
    obtain ⟨r, hf, hs⟩ := hmig
    refine ⟨r, ?_, hs⟩
    have hfr : MigrationState.find_by_entity
        (migrate_tasks client pids rep d).db.migration_state .task t.id =
        MigrationState.find_by_entity d.migration_state .task t.id := by
      refine runBatches_task_find_not_mem client _ _ d ?_
      rw [chunksOf_flatten BATCH_SIZE (by decide)]
      exact hnotid
    rw [hfr]
    exact hf

/-- Post of a successful phase 3 (honest client, distinct selected merge ids):
every in-scope merge ends recorded migrated or its issue dependency was
unresolvable at phase entry. -/
theorem migrate_pr_merges_ok_post (client : RemoteClient) (pids : List Uuid)
    (rep : MigrationReport) (d : Db) (hh : RemoteClient.honest client)
    (hN : (((Merge.find_all_pr d).filter
      (prMergeInScope d pids)).map PrMerge.id).Nodup)
    (hok : (migrate_pr_merges client pids rep d).res = .ok ()) :
    ∀ m ∈ (Merge.find_all_pr d).filter (prMergeInScope d pids),
      rowMigratedP (migrate_pr_merges client pids rep d).db.migration_state
        .prMerge m.id ∨
      prMergeDep d m = none := by
  intro m hm
  rcases filterPending_cases .prMerge (fun q => q.id) d.migration_state _ hm with
    hpend | hmig
  · refine runBatches_pr_merge_post client _ _ d hh ?_ ?_ m ?_
    · rw [chunksOf_flatten BATCH_SIZE (by decide)]
      exact List.Nodup.sublist
        (List.Sublist.map PrMerge.id
          (filterPending_sublist .prMerge (fun q : PrMerge => q.id)
            d.migration_state _)) hN
    · exact hok
    · rw [chunksOf_flatten BATCH_SIZE (by decide)]
      exact hpend
  · have hnotpend : m ∉ (filterPending .prMerge (fun q => q.id) d.migration_state
        ((Merge.find_all_pr d).filter (prMergeInScope d pids))).1 := by
      intro hmem
      exact filterPending_pending_not_migrated .prMerge (fun q : PrMerge => q.id)
        d.migration_state _ hmem hmig
    have hnotid : PrMerge.id m ∉ ((filterPending .prMerge (fun q => q.id)
        d.migration_state
        ((Merge.find_all_pr d).filter (prMergeInScope d pids))).1).map PrMerge.id :=
      not_mem_map_of_not_mem hN
        (filterPending_sublist .prMerge (fun q : PrMerge => q.id)
          d.migration_state _)
        hm hnotpend
    refine Or.inl ?_
    obtain ⟨r, hf, hs⟩ := hmig
    refine ⟨r, ?_, hs⟩
    have hfr : MigrationState.find_by_entity
        (migrate_pr_merges client pids rep d).db.migration_state .prMerge m.id =
        MigrationState.find_by_entity d.migration_state .prMerge m.id := by
      refine runBatches_pr_merge_find_not_mem client _ _ d ?_
      rw [chunksOf_flatten BATCH_SIZE (by decide)]
      exact hnotid
    rw [hfr]
    exact hf

/-- Post of a successful phase 4 (honest client, distinct selected workspace
ids): every in-scope workspace ends recorded migrated or failed one of its
dependency checks at phase entry. -/
theorem migrate_workspaces_ok_post (client : RemoteClient) (pids : List Uuid)
    (rep : MigrationReport) (d : Db) (hh : RemoteClient.honest client)
    (hN : (((Workspace.fetch_all d).filter
      (workspaceInScope d pids)).map Workspace.id).Nodup)
    (hok : (migrate_workspaces client pids rep d).res = .ok ()) :
    ∀ w ∈ (Workspace.fetch_all d).filter (workspaceInScope d pids),
      rowMigratedP (migrate_workspaces client pids rep d).db.migration_state
        .workspace w.id ∨
      workspaceDead d w := by
  intro w hw
  rcases filterPending_cases .workspace (fun q => q.id) d.migration_state _ hw with
    hpend | hmig
  · refine runBatches_workspace_post client _ _ d hh ?_ ?_ w ?_
    · rw [chunksOf_flatten BATCH_SIZE (by decide)]
      exact List.Nodup.sublist
        (List.Sublist.map Workspace.id
          (filterPending_sublist .workspace (fun q : Workspace => q.id)
            d.migration_state _)) hN
    · exact hok
    · rw [chunksOf_flatten BATCH_SIZE (by decide)]
      exact hpend
  · have hnotpend : w ∉ (filterPending .workspace (fun q => q.id)
        d.migration_state
        ((Workspace.fetch_all d).filter (workspaceInScope d pids))).1 := by
      intro hmem
      exact filterPending_pending_not_migrated .workspace (fun q : Workspace => q.id)
        d.migration_state _ hmem hmig
    have hnotid : Workspace.id w ∉ ((filterPending .workspace (fun q => q.id)
        d.migration_state
        ((Workspace.fetch_all d).filter
          (workspaceInScope d pids))).1).map Workspace.id :=
      not_mem_map_of_not_mem hN
        (filterPending_sublist .workspace (fun q : Workspace => q.id)
          d.migration_state _)
        hw hnotpend
    refine Or.inl ?_
    obtain ⟨r, hf, hs⟩ := hmig
    refine ⟨r, ?_, hs⟩
    have hfr : MigrationState.find_by_entity
        (migrate_workspaces client pids rep d).db.migration_state .workspace w.id =
        MigrationState.find_by_entity d.migration_state .workspace w.id := by
      refine runBatches_workspace_find_not_mem client _ _ d ?_
      rw [chunksOf_flatten BATCH_SIZE (by decide)]
      exact hnotid
    rw [hfr]
    exact hf

/-- Phase 1 on a store where every selected project is already migrated: the
pre-filter removes everything, so the phase is a no-op that only counts the
selected projects as skipped. -/
theorem migrate_projects_all_migrated (client : RemoteClient)
    (organization_id : Uuid) (pids : List Uuid) (rep : MigrationReport) (d : Db)
    (hmig : ∀ p ∈ (Project.find_all d).filter (fun p => pids.contains p.id),
      rowMigratedP d.migration_state .project p.id) :
    migrate_projects client organization_id pids rep d =
      (.ok (), d,
        { rep with
            projects.total :=
              ((Project.find_all d).filter fun p => pids.contains p.id).length,
            projects.skipped := rep.projects.skipped +
              ((Project.find_all d).filter fun p => pids.contains p.id).length },
        []) := by
  have hfp : filterPending .project (fun p : Project => p.id) d.migration_state
      ((Project.find_all d).filter fun p => pids.contains p.id) =
      ([], ((Project.find_all d).filter fun p => pids.contains p.id).length) :=
    filterPending_all_migrated _ _ _ _ hmig
  have h1 : (filterPending .project (fun p : Project => p.id) d.migration_state
      ((Project.find_all d).filter fun p => pids.contains p.id)).1 = [] := by
    rw [hfp]
  have h2 : (filterPending .project (fun p : Project => p.id) d.migration_state
      ((Project.find_all d).filter fun p => pids.contains p.id)).2 =
      ((Project.find_all d).filter fun p => pids.contains p.id).length := by
    rw [hfp]
  show runBatches (migrate_project_batch client organization_id)
      (chunksOf BATCH_SIZE (filterPending .project (fun p : Project => p.id)
        d.migration_state
        ((Project.find_all d).filter fun p => pids.contains p.id)).1)
      { rep with
          projects.total :=
            ((Project.find_all d).filter fun p => pids.contains p.id).length,
          projects.skipped := rep.projects.skipped +
            (filterPending .project (fun p : Project => p.id) d.migration_state
              ((Project.find_all d).filter fun p => pids.contains p.id)).2 } d =
      _
  rw [h1, h2]
  rfl

/-- Phase 2 on a store where every selected task is already migrated or
project-dead: no remote call, every selected task counted skipped, only
`.task` rows change, and `none` remote-id lookups stay `none`. -/
theorem migrate_tasks_all_dead (client : RemoteClient) (pids : List Uuid)
    (rep : MigrationReport) (d : Db)
    (hdisj : ∀ t ∈ (Task.find_all d).filter fun t => pids.contains t.project_id,
      rowMigratedP d.migration_state .task t.id ∨
      MigrationState.get_remote_id d.migration_state .project t.project_id = none) :
    (migrate_tasks client pids rep d).res = .ok () ∧
    (migrate_tasks client pids rep d).calls = [] ∧
    (migrate_tasks client pids rep d).db =
      { d with migration_state :=
          (migrate_tasks client pids rep d).db.migration_state } ∧
    (migrate_tasks client pids rep d).report.tasks.migrated = rep.tasks.migrated ∧
    (migrate_tasks client pids rep d).report.tasks.total =
      ((Task.find_all d).filter fun t => pids.contains t.project_id).length ∧
    (migrate_tasks client pids rep d).report.tasks.skipped = rep.tasks.skipped +
      ((Task.find_all d).filter fun t => pids.contains t.project_id).length ∧
    (migrate_tasks client pids rep d).report.projects = rep.projects ∧
    (migrate_tasks client pids rep d).report.pr_merges = rep.pr_merges ∧
    (migrate_tasks client pids rep d).report.workspaces = rep.workspaces ∧
    (∀ a b, a ≠ .task →
      MigrationState.get_remote_id
        (migrate_tasks client pids rep d).db.migration_state a b =
        MigrationState.get_remote_id d.migration_state a b) ∧
    (∀ a b, MigrationState.get_remote_id d.migration_state a b = none →
      MigrationState.get_remote_id
        (migrate_tasks client pids rep d).db.migration_state a b = none) ∧
    (∀ a b, a ≠ .task →
      MigrationState.find_by_entity
        (migrate_tasks client pids rep d).db.migration_state a b =
        MigrationState.find_by_entity d.migration_state a b) := by
  have hdeadp : ∀ t ∈ (filterPending .task (fun q : Task => q.id)
      d.migration_state
      ((Task.find_all d).filter fun t => pids.contains t.project_id)).1,
      MigrationState.get_remote_id d.migration_state .project t.project_id =
        none := by
    intro t htp
    have hts : t ∈ (Task.find_all d).filter fun t => pids.contains t.project_id :=
      (filterPending_sublist .task (fun q : Task => q.id)
        d.migration_state _).subset htp
    rcases hdisj t hts with hmig | hdead
    · exact absurd hmig (filterPending_pending_not_migrated .task
        (fun q : Task => q.id) d.migration_state _ htp)
    · exact hdead
  have hfl : ((chunksOf BATCH_SIZE (filterPending .task (fun q : Task => q.id)
      d.migration_state
      ((Task.find_all d).filter fun t =>
        pids.contains t.project_id)).1).flatten).length =
      ((filterPending .task (fun q : Task => q.id) d.migration_state
        ((Task.find_all d).filter fun t =>
          pids.contains t.project_id)).1).length := by
    rw [chunksOf_flatten BATCH_SIZE (by decide)]
  have hlen := filterPending_length .task (fun q : Task => q.id) d.migration_state
    ((Task.find_all d).filter fun t => pids.contains t.project_id)
  obtain ⟨g1, g2, g3, g4, g5, g6, g7, g8, g9, g10, g11, g12⟩ :=
    runBatches_task_all_dead client
      (chunksOf BATCH_SIZE (filterPending .task (fun q : Task => q.id)
        d.migration_state
        ((Task.find_all d).filter fun t => pids.contains t.project_id)).1)
      { rep with
          tasks.total :=
            ((Task.find_all d).filter fun t => pids.contains t.project_id).length,
          tasks.skipped := rep.tasks.skipped +
            (filterPending .task (fun q : Task => q.id) d.migration_state
              ((Task.find_all d).filter fun t => pids.contains t.project_id)).2 }
      d
      (by
        intro t htf
        rw [chunksOf_flatten BATCH_SIZE (by decide)] at htf
        exact hdeadp t htf)
  refine ⟨g1, g2, g3, ?_, ?_, ?_, g7, g8, g9, fun a b ha => g11 a b ha,
    fun a b hn => g12 a b hn, fun a b ha => g10 a b ha⟩
  · exact g5
  · exact g6
  · have g4b : (migrate_tasks client pids rep d).report.tasks.skipped =
        rep.tasks.skipped +
        (filterPending .task (fun q : Task => q.id) d.migration_state
          ((Task.find_all d).filter fun t => pids.contains t.project_id)).2 +
        ((chunksOf BATCH_SIZE (filterPending .task (fun q : Task => q.id)
          d.migration_state
          ((Task.find_all d).filter fun t =>
            pids.contains t.project_id)).1).flatten).length := g4
    rw [hfl] at g4b
    rw [g4b]
    omega

/-- Phase 3 on a store where every in-scope merge is already migrated or
dependency-dead: no remote call, every in-scope merge counted skipped, only
`.prMerge` rows change, and `none` remote-id lookups stay `none`. -/
theorem migrate_pr_merges_all_dead (client : RemoteClient) (pids : List Uuid)
    (rep : MigrationReport) (d : Db)
    (hdisj : ∀ m ∈ (Merge.find_all_pr d).filter (prMergeInScope d pids),
      rowMigratedP d.migration_state .prMerge m.id ∨ prMergeDep d m = none) :
    (migrate_pr_merges client pids rep d).res = .ok () ∧
    (migrate_pr_merges client pids rep d).calls = [] ∧
    (migrate_pr_merges client pids rep d).db =
      { d with migration_state :=
          (migrate_pr_merges client pids rep d).db.migration_state } ∧
    (migrate_pr_merges client pids rep d).report.pr_merges.migrated =
      rep.pr_merges.migrated ∧
    (migrate_pr_merges client pids rep d).report.pr_merges.total =
      ((Merge.find_all_pr d).filter (prMergeInScope d pids)).length ∧
    (migrate_pr_merges client pids rep d).report.pr_merges.skipped =
      rep.pr_merges.skipped +
      ((Merge.find_all_pr d).filter (prMergeInScope d pids)).length ∧
    (migrate_pr_merges client pids rep d).report.projects = rep.projects ∧
    (migrate_pr_merges client pids rep d).report.tasks = rep.tasks ∧
    (migrate_pr_merges client pids rep d).report.workspaces = rep.workspaces ∧
    (∀ a b, a ≠ .prMerge →
      MigrationState.get_remote_id
        (migrate_pr_merges client pids rep d).db.migration_state a b =
        MigrationState.get_remote_id d.migration_state a b) ∧
    (∀ a b, MigrationState.get_remote_id d.migration_state a b = none →
      MigrationState.get_remote_id
        (migrate_pr_merges client pids rep d).db.migration_state a b = none) ∧
    (∀ a b, a ≠ .prMerge →
      MigrationState.find_by_entity
        (migrate_pr_merges client pids rep d).db.migration_state a b =
        MigrationState.find_by_entity d.migration_state a b) := by
  have hdeadp : ∀ m ∈ (filterPending .prMerge (fun q : PrMerge => q.id)
      d.migration_state ((Merge.find_all_pr d).filter (prMergeInScope d pids))).1,
      prMergeDep d m = none := by
    intro m hmp
    have hms : m ∈ (Merge.find_all_pr d).filter (prMergeInScope d pids) :=
      (filterPending_sublist .prMerge (fun q : PrMerge => q.id)
        d.migration_state _).subset hmp
    rcases hdisj m hms with hmig | hdead
    · exact absurd hmig (filterPending_pending_not_migrated .prMerge
        (fun q : PrMerge => q.id) d.migration_state _ hmp)
    · exact hdead
  have hfl : ((chunksOf BATCH_SIZE (filterPending .prMerge
      (fun q : PrMerge => q.id) d.migration_state
      ((Merge.find_all_pr d).filter (prMergeInScope d pids))).1).flatten).length =
      ((filterPending .prMerge (fun q : PrMerge => q.id) d.migration_state
        ((Merge.find_all_pr d).filter (prMergeInScope d pids))).1).length := by
    rw [chunksOf_flatten BATCH_SIZE (by decide)]
  have hlen := filterPending_length .prMerge (fun q : PrMerge => q.id)
    d.migration_state ((Merge.find_all_pr d).filter (prMergeInScope d pids))
  obtain ⟨g1, g2, g3, g4, g5, g6, g7, g8, g9, g10, g11, g12⟩ :=
    runBatches_pr_merge_all_dead client
      (chunksOf BATCH_SIZE (filterPending .prMerge (fun q : PrMerge => q.id)
        d.migration_state ((Merge.find_all_pr d).filter (prMergeInScope d pids))).1)
      { rep with
          pr_merges.total :=
            ((Merge.find_all_pr d).filter (prMergeInScope d pids)).length,
          pr_merges.skipped := rep.pr_merges.skipped +
            (filterPending .prMerge (fun q : PrMerge => q.id) d.migration_state
              ((Merge.find_all_pr d).filter (prMergeInScope d pids))).2 }
      d
      (by
        intro m hmf
        rw [chunksOf_flatten BATCH_SIZE (by decide)] at hmf
        exact hdeadp m hmf)
  refine ⟨g1, g2, g3, ?_, ?_, ?_, g7, g8, g9, fun a b ha => g11 a b ha,
    fun a b hn => g12 a b hn, fun a b ha => g10 a b ha⟩
  · exact g5
  · exact g6
  · have g4b : (migrate_pr_merges client pids rep d).report.pr_merges.skipped =
        rep.pr_merges.skipped +
        (filterPending .prMerge (fun q : PrMerge => q.id) d.migration_state
          ((Merge.find_all_pr d).filter (prMergeInScope d pids))).2 +
        ((chunksOf BATCH_SIZE (filterPending .prMerge (fun q : PrMerge => q.id)
          d.migration_state
          ((Merge.find_all_pr d).filter
            (prMergeInScope d pids))).1).flatten).length := g4
    rw [hfl] at g4b
    rw [g4b]
    omega

/-- After a fully successful run (honest client, duplicate-free id columns)
the final database keeps the tables (projects up to the id column) and every
selected record of every phase is recorded migrated or was dependency-dead —
all evaluated at the final database. -/
theorem run_migration_ok_spec (client : RemoteClient) (organization_id : Uuid)
    (pids : List Uuid) (db : Db) {rep1 : MigrationReport} {db1 : Db}
    {cs1 : List RemoteCall}
    (hh : RemoteClient.honest client)
    (hNt : (db.tasks.map Task.id).Nodup)
    (hNm : (db.pr_merges.map PrMerge.id).Nodup)
    (hNw : (db.workspaces.map Workspace.id).Nodup)
    (hrun : run_migration client organization_id pids db = (.ok rep1, db1, cs1)) :
    (db1.tasks = db.tasks ∧ db1.pr_merges = db.pr_merges ∧
      db1.workspaces = db.workspaces ∧
      db1.projects.map Project.id = db.projects.map Project.id) ∧
    (∀ p ∈ (Project.find_all db1).filter (fun p => pids.contains p.id),
      rowMigratedP db1.migration_state .project p.id) ∧
    (∀ t ∈ (Task.find_all db1).filter fun t => pids.contains t.project_id,
      rowMigratedP db1.migration_state .task t.id ∨
      MigrationState.get_remote_id db1.migration_state .project t.project_id =
        none) ∧
    (∀ m ∈ (Merge.find_all_pr db1).filter (prMergeInScope db1 pids),
      rowMigratedP db1.migration_state .prMerge m.id ∨ prMergeDep db1 m = none) ∧
    (∀ w ∈ (Workspace.fetch_all db1).filter (workspaceInScope db1 pids),
      rowMigratedP db1.migration_state .workspace w.id ∨ workspaceDead db1 w) := by
  unfold run_migration at hrun
  rcases h1 : migrate_projects client organization_id pids MigrationReport.empty db
    with ⟨res1, dA, rA, csA⟩
  simp only [h1] at hrun
  cases res1 with
  | error e1 => simp at hrun
  | ok u1 =>
    rcases h2 : migrate_tasks client pids rA dA with ⟨res2, dB, rB, csB⟩
    simp only [h2] at hrun
    cases res2 with
    | error e2 => simp at hrun
    | ok u2 =>
      rcases h3 : migrate_pr_merges client pids rB dB with ⟨res3, dC, rC, csC⟩
      simp only [h3] at hrun
      cases res3 with
      | error e3 => simp at hrun
      | ok u3 =>
        rcases h4 : migrate_workspaces client pids rC dC with ⟨res4, dD, rD, csD⟩
        simp only [h4] at hrun
        cases res4 with
        | error e4 => simp at hrun
        | ok u4 =>
          have hdb1 : dD = db1 := congrArg (fun x => x.2.1) hrun
          subst hdb1
          have hFA := migrate_projects_frame client organization_id pids
            MigrationReport.empty db
          rw [h1] at hFA
          have hA1 : dA.tasks = db.tasks := hFA.1
          have hA2 : dA.pr_merges = db.pr_merges := hFA.2.1
          have hA3 : dA.workspaces = db.workspaces := hFA.2.2.1
          have hA4 : dA.projects.map Project.id = db.projects.map Project.id :=
            hFA.2.2.2.1
          have hFB := migrate_tasks_frame client pids rA dA
          rw [h2] at hFB
          have hB0 : dB = { dA with migration_state := dB.migration_state } :=
            hFB.1
          have hB1 : ∀ a b, a ≠ EntityType.task →
              MigrationState.find_by_entity dB.migration_state a b =
              MigrationState.find_by_entity dA.migration_state a b := hFB.2.1
          have hB2 : ∀ a b, a ≠ EntityType.task →
              MigrationState.get_remote_id dB.migration_state a b =
              MigrationState.get_remote_id dA.migration_state a b := hFB.2.2
          have hFC := migrate_pr_merges_frame client pids rB dB
          rw [h3] at hFC
          have hC0 : dC = { dB with migration_state := dC.migration_state } :=
            hFC.1
          have hC1 : ∀ a b, a ≠ EntityType.prMerge →
              MigrationState.find_by_entity dC.migration_state a b =
              MigrationState.find_by_entity dB.migration_state a b := hFC.2.1
          have hC2 : ∀ a b, a ≠ EntityType.prMerge →
              MigrationState.get_remote_id dC.migration_state a b =
              MigrationState.get_remote_id dB.migration_state a b := hFC.2.2
          have hFD := migrate_workspaces_frame client pids rC dC
          rw [h4] at hFD
          have hD0 : dD = { dC with migration_state := dD.migration_state } :=
            hFD.1
          have hD1 : ∀ a b, a ≠ EntityType.workspace →
              MigrationState.find_by_entity dD.migration_state a b =
              MigrationState.find_by_entity dC.migration_state a b := hFD.2.1
          have hD2 : ∀ a b, a ≠ EntityType.workspace →
              MigrationState.get_remote_id dD.migration_state a b =
              MigrationState.get_remote_id dC.migration_state a b := hFD.2.2
          have hshapeCD : dD = { dC with migration_state := dD.migration_state } :=
            hD0
          have hshapeBD : dD = { dB with migration_state := dD.migration_state } :=
            dbShape_trans hC0 hD0
          have hshapeAD : dD = { dA with migration_state := dD.migration_state } :=
            dbShape_trans hB0 hshapeBD
          have eDAt := congrArg Db.tasks hshapeAD
          have eDAt2 : dD.tasks = dA.tasks := eDAt
          have hD_tasks : dD.tasks = db.tasks := eDAt2.trans hA1
          have eDAp := congrArg Db.pr_merges hshapeAD
          have eDAp2 : dD.pr_merges = dA.pr_merges := eDAp
          have hD_pr : dD.pr_merges = db.pr_merges := eDAp2.trans hA2
          have eDAw := congrArg Db.workspaces hshapeAD
          have eDAw2 : dD.workspaces = dA.workspaces := eDAw
          have hD_ws : dD.workspaces = db.workspaces := eDAw2.trans hA3
          have eDAq := congrArg Db.projects hshapeAD
          have eDAq2 : dD.projects = dA.projects := eDAq
          have hD_projmap : dD.projects.map Project.id =
              db.projects.map Project.id :=
            (congrArg (List.map Project.id) eDAq2).trans hA4
          have hP1 := migrate_projects_ok_post client organization_id pids
            MigrationReport.empty db hh (by rw [h1]; rfl)
          rw [h1] at hP1
          have hP1D : ∀ p ∈ (Project.find_all db).filter
              (fun p => pids.contains p.id),
              rowMigratedP dD.migration_state .project p.id := by
            intro p hp
            have hA : rowMigratedP dA.migration_state .project p.id := hP1 p hp
            obtain ⟨r, hf, hs⟩ := hA
            refine ⟨r, ?_, hs⟩
            rw [hD1 .project p.id (by intro hcon; exact EntityType.noConfusion hcon),
              hC1 .project p.id (by intro hcon; exact EntityType.noConfusion hcon),
              hB1 .project p.id (by intro hcon; exact EntityType.noConfusion hcon)]
            exact hf
          have hN2 : (((Task.find_all dA).filter fun t =>
              pids.contains t.project_id).map Task.id).Nodup := by
            refine List.Nodup.sublist
              (List.Sublist.map Task.id (List.filter_sublist _)) ?_
            show ((dA.tasks).map Task.id).Nodup
            rw [hA1]
            exact hNt
          have hP2 := migrate_tasks_ok_post client pids rA dA hh hN2
            (by rw [h2]; rfl)
          rw [h2] at hP2
          have hN3 : (((Merge.find_all_pr dB).filter
              (prMergeInScope dB pids)).map PrMerge.id).Nodup := by
            refine List.Nodup.sublist
              (List.Sublist.map PrMerge.id (List.filter_sublist _)) ?_
            show ((dB.pr_merges).map PrMerge.id).Nodup
            have eBAp := congrArg Db.pr_merges hB0
            have eBAp2 : dB.pr_merges = dA.pr_merges := eBAp
            rw [eBAp2, hA2]
            exact hNm
          have hP3 := migrate_pr_merges_ok_post client pids rB dB hh hN3
            (by rw [h3]; rfl)
          rw [h3] at hP3
          have hN4 : (((Workspace.fetch_all dC).filter
              (workspaceInScope dC pids)).map Workspace.id).Nodup := by
            refine List.Nodup.sublist
              (List.Sublist.map Workspace.id (List.filter_sublist _)) ?_
            show ((dC.workspaces).map Workspace.id).Nodup
            have eCBw := congrArg Db.workspaces hC0
            have eCBw2 : dC.workspaces = dB.workspaces := eCBw
            have eBAw := congrArg Db.workspaces hB0
            have eBAw2 : dB.workspaces = dA.workspaces := eBAw
            rw [eCBw2, eBAw2, hA3]
            exact hNw
          have hP4 := migrate_workspaces_ok_post client pids rC dC hh hN4
            (by rw [h4]; rfl)
          rw [h4] at hP4
          refine ⟨⟨hD_tasks, hD_pr, hD_ws, hD_projmap⟩, ?_, ?_, ?_, ?_⟩
          · intro p hp
            have hpin : p ∈ dD.projects := (List.mem_filter.mp hp).1
            have hpred : pids.contains p.id = true := (List.mem_filter.mp hp).2
            have hidin : p.id ∈ db.projects.map Project.id := by
              rw [← hD_projmap]
              exact List.mem_map_of_mem Project.id hpin
            obtain ⟨q, hq, hqid⟩ := List.mem_map.mp hidin
            have hqsel : q ∈ (Project.find_all db).filter
                (fun p => pids.contains p.id) := by
              refine List.mem_filter.mpr ⟨hq, ?_⟩
              show pids.contains q.id = true
              rw [hqid]
              exact hpred
            rw [← hqid]
            exact hP1D q hqsel
          · intro t ht
            have hselT : (Task.find_all dD).filter
                (fun t => pids.contains t.project_id) =
                (Task.find_all dA).filter (fun t => pids.contains t.project_id) := by
              show List.filter _ dD.tasks = List.filter _ dA.tasks
              rw [eDAt2]
            rw [hselT] at ht
            have hP2t : rowMigratedP dB.migration_state .task t.id ∨
                MigrationState.get_remote_id dA.migration_state .project
                  t.project_id = none := hP2 t ht
            rcases hP2t with hmig | hdead
            · refine Or.inl ?_
              obtain ⟨r, hf, hs⟩ := hmig
              refine ⟨r, ?_, hs⟩
              rw [hD1 .task t.id (by intro hcon; exact EntityType.noConfusion hcon),
                hC1 .task t.id (by intro hcon; exact EntityType.noConfusion hcon)]
              exact hf
            · refine Or.inr ?_
              rw [hD2 .project t.project_id
                  (by intro hcon; exact EntityType.noConfusion hcon),
                hC2 .project t.project_id
                  (by intro hcon; exact EntityType.noConfusion hcon),
                hB2 .project t.project_id
                  (by intro hcon; exact EntityType.noConfusion hcon)]
              exact hdead
          · intro m hm
            have hselM : (Merge.find_all_pr dD).filter (prMergeInScope dD pids) =
                (Merge.find_all_pr dB).filter (prMergeInScope dB pids) := by
              have hfun : prMergeInScope dD pids = prMergeInScope dB pids := by
                rw [hshapeBD]
                rfl
              have eDBp := congrArg Db.pr_merges hshapeBD
              have eDBp2 : Merge.find_all_pr dD = Merge.find_all_pr dB := eDBp
              rw [hfun, eDBp2]
            rw [hselM] at hm
            have hP3m : rowMigratedP dC.migration_state .prMerge m.id ∨
                prMergeDep dB m = none := hP3 m hm
            rcases hP3m with hmig | hdead
            · refine Or.inl ?_
              obtain ⟨r, hf, hs⟩ := hmig
              refine ⟨r, ?_, hs⟩
              rw [hD1 .prMerge m.id
                (by intro hcon; exact EntityType.noConfusion hcon)]
              exact hf
            · refine Or.inr ?_
              have hgriT : ∀ b,
                  MigrationState.get_remote_id dD.migration_state .task b =
                  MigrationState.get_remote_id dB.migration_state .task b := by
                intro b
                exact (hD2 .task b
                    (by intro hcon; exact EntityType.noConfusion hcon)).trans
                  (hC2 .task b (by intro hcon; exact EntityType.noConfusion hcon))
              rw [prMergeDep_congr hshapeBD hgriT m]
              exact hdead
          · intro w hw
            have hselW : (Workspace.fetch_all dD).filter
                (workspaceInScope dD pids) =
                (Workspace.fetch_all dC).filter (workspaceInScope dC pids) := by
              have hfun : workspaceInScope dD pids = workspaceInScope dC pids := by
                rw [hshapeCD]
                rfl
              have eDCw := congrArg Db.workspaces hshapeCD
              have eDCw2 : Workspace.fetch_all dD = Workspace.fetch_all dC := eDCw
              rw [hfun, eDCw2]
            rw [hselW] at hw
            have hP4w : rowMigratedP dD.migration_state .workspace w.id ∨
                workspaceDead dC w := hP4 w hw
            rcases hP4w with hmig | hdead
            · exact Or.inl hmig
            · refine Or.inr ?_
              refine (workspaceDead_congr hshapeCD ?_ ?_ w).mpr hdead
              · intro b
                exact hD2 .project b
                  (by intro hcon; exact EntityType.noConfusion hcon)
              · intro b
                exact hD2 .task b
                  (by intro hcon; exact EntityType.noConfusion hcon)

/-- Phase 4 on a store where every in-scope workspace is already migrated or
dependency-dead: no remote call, every in-scope workspace counted skipped,
only `.workspace` rows change, and `none` remote-id lookups stay `none`. -/
theorem migrate_workspaces_all_dead (client : RemoteClient) (pids : List Uuid)
    (rep : MigrationReport) (d : Db)
    (hdisj : ∀ w ∈ (Workspace.fetch_all d).filter (workspaceInScope d pids),
      rowMigratedP d.migration_state .workspace w.id ∨ workspaceDead d w) :
    (migrate_workspaces client pids rep d).res = .ok () ∧
    (migrate_workspaces client pids rep d).calls = [] ∧
    (migrate_workspaces client pids rep d).db =
      { d with migration_state :=
          (migrate_workspaces client pids rep d).db.migration_state } ∧
    (migrate_workspaces client pids rep d).report.workspaces.migrated =
      rep.workspaces.migrated ∧
    (migrate_workspaces client pids rep d).report.workspaces.total =
      ((Workspace.fetch_all d).filter (workspaceInScope d pids)).length ∧
    (migrate_workspaces client pids rep d).report.workspaces.skipped =
      rep.workspaces.skipped +
      ((Workspace.fetch_all d).filter (workspaceInScope d pids)).length ∧
    (migrate_workspaces client pids rep d).report.projects = rep.projects ∧
    (migrate_workspaces client pids rep d).report.tasks = rep.tasks ∧
    (migrate_workspaces client pids rep d).report.pr_merges = rep.pr_merges ∧
    (∀ a b, a ≠ .workspace →
      MigrationState.get_remote_id
        (migrate_workspaces client pids rep d).db.migration_state a b =
        MigrationState.get_remote_id d.migration_state a b) ∧
    (∀ a b, MigrationState.get_remote_id d.migration_state a b = none →
      MigrationState.get_remote_id
        (migrate_workspaces client pids rep d).db.migration_state a b = none) ∧
    (∀ a b, a ≠ .workspace →
      MigrationState.find_by_entity
        (migrate_workspaces client pids rep d).db.migration_state a b =
        MigrationState.find_by_entity d.migration_state a b) := by
  have hdeadp : ∀ w ∈ (filterPending .workspace (fun q : Workspace => q.id)
      d.migration_state
      ((Workspace.fetch_all d).filter (workspaceInScope d pids))).1,
      workspaceDead d w := by
    intro w hwp
    have hws : w ∈ (Workspace.fetch_all d).filter (workspaceInScope d pids) :=
      (filterPending_sublist .workspace (fun q : Workspace => q.id)
        d.migration_state _).subset hwp
    rcases hdisj w hws with hmig | hdead
    · exact absurd hmig (filterPending_pending_not_migrated .workspace
        (fun q : Workspace => q.id) d.migration_state _ hwp)
    · exact hdead
  have hfl : ((chunksOf BATCH_SIZE (filterPending .workspace
      (fun q : Workspace => q.id) d.migration_state
      ((Workspace.fetch_all d).filter
        (workspaceInScope d pids))).1).flatten).length =
      ((filterPending .workspace (fun q : Workspace => q.id) d.migration_state
        ((Workspace.fetch_all d).filter (workspaceInScope d pids))).1).length := by
    rw [chunksOf_flatten BATCH_SIZE (by decide)]
  have hlen := filterPending_length .workspace (fun q : Workspace => q.id)
    d.migration_state ((Workspace.fetch_all d).filter (workspaceInScope d pids))
  obtain ⟨g1, g2, g3, g4, g5, g6, g7, g8, g9, g10, g11, g12⟩ :=
    runBatches_workspace_all_dead client
      (chunksOf BATCH_SIZE (filterPending .workspace (fun q : Workspace => q.id)
        d.migration_state
        ((Workspace.fetch_all d).filter (workspaceInScope d pids))).1)
      { rep with
          workspaces.total :=
            ((Workspace.fetch_all d).filter (workspaceInScope d pids)).length,
          workspaces.skipped := rep.workspaces.skipped +
            (filterPending .workspace (fun q : Workspace => q.id)
              d.migration_state
              ((Workspace.fetch_all d).filter (workspaceInScope d pids))).2 }
      d
      (by
        intro w hwf
        rw [chunksOf_flatten BATCH_SIZE (by decide)] at hwf
        exact hdeadp w hwf)
  refine ⟨g1, g2, g3, ?_, ?_, ?_, g7, g8, g9, fun a b ha => g11 a b ha,
    fun a b hn => g12 a b hn, fun a b ha => g10 a b ha⟩
  · exact g5
  · exact g6
  · have g4b : (migrate_workspaces client pids rep d).report.workspaces.skipped =
        rep.workspaces.skipped +
        (filterPending .workspace (fun q : Workspace => q.id) d.migration_state
          ((Workspace.fetch_all d).filter (workspaceInScope d pids))).2 +
        ((chunksOf BATCH_SIZE (filterPending .workspace
          (fun q : Workspace => q.id) d.migration_state
          ((Workspace.fetch_all d).filter
            (workspaceInScope d pids))).1).flatten).length := g4
    rw [hfl] at g4b
    rw [g4b]
    omega

/-- A run of `run_migration` on a store where every selected record of every
phase is already migrated or dependency-dead: it succeeds, issues no remote
call, migrates nothing, and every phase counts all its selected records as
skipped. -/
theorem run_migration_second (client : RemoteClient) (organization_id : Uuid)
    (pids : List Uuid) (d : Db)
    (hPm : ∀ p ∈ (Project.find_all d).filter (fun p => pids.contains p.id),
      rowMigratedP d.migration_state .project p.id)
    (hTd : ∀ t ∈ (Task.find_all d).filter fun t => pids.contains t.project_id,
      rowMigratedP d.migration_state .task t.id ∨
      MigrationState.get_remote_id d.migration_state .project t.project_id = none)
    (hMd : ∀ m ∈ (Merge.find_all_pr d).filter (prMergeInScope d pids),
      rowMigratedP d.migration_state .prMerge m.id ∨ prMergeDep d m = none)
    (hWd : ∀ w ∈ (Workspace.fetch_all d).filter (workspaceInScope d pids),
      rowMigratedP d.migration_state .workspace w.id ∨ workspaceDead d w) :
    ∃ rep2 d2,
      run_migration client organization_id pids d = (.ok rep2, d2, []) ∧
      rep2.projects.migrated = 0 ∧ rep2.tasks.migrated = 0 ∧
      rep2.pr_merges.migrated = 0 ∧ rep2.workspaces.migrated = 0 ∧
      rep2.projects.skipped = rep2.projects.total ∧
      rep2.tasks.skipped = rep2.tasks.total ∧
      rep2.pr_merges.skipped = rep2.pr_merges.total ∧
      rep2.workspaces.skipped = rep2.workspaces.total := by
  obtain ⟨R1, hEq1, hR1a, hR1b, hR1c, hR1d, hR1e⟩ :
      ∃ R1, migrate_projects client organization_id pids MigrationReport.empty d =
          (.ok (), d, R1, []) ∧
        R1.projects.migrated = 0 ∧ R1.projects.skipped = R1.projects.total ∧
        R1.tasks = MigrationReport.empty.tasks ∧
        R1.pr_merges = MigrationReport.empty.pr_merges ∧
        R1.workspaces = MigrationReport.empty.workspaces := by
    refine ⟨_, migrate_projects_all_migrated client organization_id pids
      MigrationReport.empty d hPm, rfl, ?_, rfl, rfl, rfl⟩
    show MigrationReport.empty.projects.skipped +
        ((Project.find_all d).filter fun p => pids.contains p.id).length =
      ((Project.find_all d).filter fun p => pids.contains p.id).length
    exact Nat.zero_add _
  obtain ⟨D2, R2, hEq2, hsh2, ht4, ht5, ht6, ht7, ht8, ht9, ht10, ht11, ht12⟩ :
      ∃ D2 R2, migrate_tasks client pids R1 d = (.ok (), D2, R2, []) ∧
        D2 = { d with migration_state := D2.migration_state } ∧
        R2.tasks.migrated = R1.tasks.migrated ∧
        R2.tasks.total =
          ((Task.find_all d).filter fun t => pids.contains t.project_id).length ∧
        R2.tasks.skipped = R1.tasks.skipped +
          ((Task.find_all d).filter fun t => pids.contains t.project_id).length ∧
        R2.projects = R1.projects ∧ R2.pr_merges = R1.pr_merges ∧
        R2.workspaces = R1.workspaces ∧
        (∀ a b, a ≠ EntityType.task →
          MigrationState.get_remote_id D2.migration_state a b =
            MigrationState.get_remote_id d.migration_state a b) ∧
        (∀ a b, MigrationState.get_remote_id d.migration_state a b = none →
          MigrationState.get_remote_id D2.migration_state a b = none) ∧
        (∀ a b, a ≠ EntityType.task →
          MigrationState.find_by_entity D2.migration_state a b =
            MigrationState.find_by_entity d.migration_state a b) := by
    obtain ⟨u1, u2, u3, u4, u5, u6, u7, u8, u9, u10, u11, u12⟩ :=
      migrate_tasks_all_dead client pids R1 d hTd
    refine ⟨(migrate_tasks client pids R1 d).db,
      (migrate_tasks client pids R1 d).report,
      ?_, u3, u4, u5, u6, u7, u8, u9, u10, u11, u12⟩
    rw [← u1, ← u2]
    rfl
  have hMd2 : ∀ m ∈ (Merge.find_all_pr D2).filter (prMergeInScope D2 pids),
      rowMigratedP D2.migration_state .prMerge m.id ∨ prMergeDep D2 m = none := by
    have hfun : prMergeInScope D2 pids = prMergeInScope d pids := by
      rw [hsh2]
      rfl
    have eD2p := congrArg Db.pr_merges hsh2
    have eD2p2 : Merge.find_all_pr D2 = Merge.find_all_pr d := eD2p
    intro m hm
    rw [hfun, eD2p2] at hm
    rcases hMd m hm with hmig | hdead
    · refine Or.inl ?_
      obtain ⟨r, hf, hs⟩ := hmig
      refine ⟨r, ?_, hs⟩
      rw [ht12 .prMerge m.id (by intro hcon; exact EntityType.noConfusion hcon)]
      exact hf
    · exact Or.inr (prMergeDep_none_mono hsh2 (fun b hb => ht11 .task b hb) hdead)
  obtain ⟨D3, R3, hEq3, hsh3, hm4, hm5, hm6, hm7, hm8, hm9, hm10, hm11, hm12⟩ :
      ∃ D3 R3, migrate_pr_merges client pids R2 D2 = (.ok (), D3, R3, []) ∧
        D3 = { D2 with migration_state := D3.migration_state } ∧
        R3.pr_merges.migrated = R2.pr_merges.migrated ∧
        R3.pr_merges.total =
          ((Merge.find_all_pr D2).filter (prMergeInScope D2 pids)).length ∧
        R3.pr_merges.skipped = R2.pr_merges.skipped +
          ((Merge.find_all_pr D2).filter (prMergeInScope D2 pids)).length ∧
        R3.projects = R2.projects ∧ R3.tasks = R2.tasks ∧
        R3.workspaces = R2.workspaces ∧
        (∀ a b, a ≠ EntityType.prMerge →
          MigrationState.get_remote_id D3.migration_state a b =
            MigrationState.get_remote_id D2.migration_state a b) ∧
        (∀ a b, MigrationState.get_remote_id D2.migration_state a b = none →
          MigrationState.get_remote_id D3.migration_state a b = none) ∧
        (∀ a b, a ≠ EntityType.prMerge →
          MigrationState.find_by_entity D3.migration_state a b =
            MigrationState.find_by_entity D2.migration_state a b) := by
    obtain ⟨u1, u2, u3, u4, u5, u6, u7, u8, u9, u10, u11, u12⟩ :=
      migrate_pr_merges_all_dead client pids R2 D2 hMd2
    refine ⟨(migrate_pr_merges client pids R2 D2).db,
      (migrate_pr_merges client pids R2 D2).report,
      ?_, u3, u4, u5, u6, u7, u8, u9, u10, u11, u12⟩
    rw [← u1, ← u2]
    rfl
  have hshd3 : D3 = { d with migration_state := D3.migration_state } :=
    dbShape_trans hsh2 hsh3
  have hWd3 : ∀ w ∈ (Workspace.fetch_all D3).filter (workspaceInScope D3 pids),
      rowMigratedP D3.migration_state .workspace w.id ∨ workspaceDead D3 w := by
    have hfun : workspaceInScope D3 pids = workspaceInScope d pids := by
      rw [hshd3]
      rfl
    have eD3w := congrArg Db.workspaces hshd3
    have eD3w2 : Workspace.fetch_all D3 = Workspace.fetch_all d := eD3w
    intro w hw
    rw [hfun, eD3w2] at hw
    rcases hWd w hw with hmig | hdead
    · refine Or.inl ?_
      obtain ⟨r, hf, hs⟩ := hmig
      refine ⟨r, ?_, hs⟩
      rw [hm12 .workspace w.id (by intro hcon; exact EntityType.noConfusion hcon),
        ht12 .workspace w.id (by intro hcon; exact EntityType.noConfusion hcon)]
      exact hf
    · refine Or.inr ?_
      refine workspaceDead_mono hshd3 ?_ ?_ hdead
      · intro b
        exact (hm10 .project b
            (by intro hcon; exact EntityType.noConfusion hcon)).trans
          (ht10 .project b (by intro hcon; exact EntityType.noConfusion hcon))
      · intro b hb
        exact hm11 .task b (ht11 .task b hb)
  obtain ⟨D4, R4, hEq4, hsh4, hw4, hw5, hw6, hw7, hw8, hw9⟩ :
      ∃ D4 R4, migrate_workspaces client pids R3 D3 = (.ok (), D4, R4, []) ∧
        D4 = { D3 with migration_state := D4.migration_state } ∧
        R4.workspaces.migrated = R3.workspaces.migrated ∧
        R4.workspaces.total =
          ((Workspace.fetch_all D3).filter (workspaceInScope D3 pids)).length ∧
        R4.workspaces.skipped = R3.workspaces.skipped +
          ((Workspace.fetch_all D3).filter (workspaceInScope D3 pids)).length ∧
        R4.projects = R3.projects ∧ R4.tasks = R3.tasks ∧
        R4.pr_merges = R3.pr_merges := by
    obtain ⟨u1, u2, u3, u4, u5, u6, u7, u8, u9, u10, u11, u12⟩ :=
      migrate_workspaces_all_dead client pids R3 D3 hWd3
    refine ⟨(migrate_workspaces client pids R3 D3).db,
      (migrate_workspaces client pids R3 D3).report,
      ?_, u3, u4, u5, u6, u7, u8, u9⟩
    rw [← u1, ← u2]
    rfl
  refine ⟨R4, D4, ?_, ?_, ?_, ?_, ?_, ?_, ?_, ?_, ?_⟩
  · unfold run_migration
    simp only [hEq1, hEq2, hEq3, hEq4, List.nil_append, List.append_nil]
  · rw [hw7, hm7, ht7]
    exact hR1a
  · rw [hw8, hm8, ht4, hR1c]
    rfl
  · rw [hw9, hm4, ht8, hR1d]
    rfl
  · rw [hw4, hm9, ht9, hR1e]
    rfl
  · rw [hw7, hm7, ht7]
    exact hR1b
  · rw [hw8, hm8, ht6, ht5]
    have h0 : R1.tasks.skipped = 0 := by
      rw [hR1c]
      rfl
    rw [h0]
    exact Nat.zero_add _
  · rw [hw9, hm6, hm5]
    have h0 : R2.pr_merges.skipped = 0 := by
      rw [ht8, hR1d]
      rfl
    rw [h0]
    exact Nat.zero_add _
  · rw [hw6, hw5]
    have h0 : R3.workspaces.skipped = 0 := by
      rw [hm9, ht9, hR1e]
      rfl
    rw [h0]
    exact Nat.zero_add _

end MigrationService

/-- `reset_failed` leaves no `failed` row behind. -/
theorem noFailed_reset_failed (s : Store) : noFailed (MigrationState.reset_failed s) := by
  intro i
  unfold MigrationState.reset_failed at i ⊢
  have hlen : i.val < s.length := by
    have := i.isLt
    simpa using this
  have hmap : (s.map (fun r => if r.status == MigrationStatus.failed then { r with status := MigrationStatus.pending, error_message := none } else r)).get i =
      (fun r => if r.status == MigrationStatus.failed then { r with status := MigrationStatus.pending, error_message := none } else r) (s.get ⟨i.val, hlen⟩) := by
    rw [List.get_eq_getElem, List.get_eq_getElem, List.getElem_map]
  rw [hmap]
  by_cases hm : (s.get ⟨i.val, hlen⟩).status == MigrationStatus.failed
  · simp only [hm, if_true]
    intro hcon
    exact MigrationStatus.noConfusion hcon
  · have hm' : ((s.get ⟨i.val, hlen⟩).status == MigrationStatus.failed) = false := by
      revert hm; cases (s.get ⟨i.val, hlen⟩).status == MigrationStatus.failed <;> simp
    simp only [hm', Bool.false_eq_true, if_false]
    intro hcon
    rw [hcon] at hm'
    simp at hm'

/-- A table without `failed` rows stays without them under any evolution. -/
theorem noFailed_mono {s s' : Store} (h : noFailed s) (hn : noNewFailed s s') :
    noFailed s' := by
  intro i hcon
  obtain ⟨hl, he⟩ := hn i hcon
  rw [he] at hcon
  exact h ⟨i.val, hl⟩ hcon

/-! ### Claim theorems -/

/-- C3: when the remote client answers a batch of N submitted records with a
list of N ids, the state row of the record submitted at position i is marked
`migrated` with exactly the id at position i (records skipped before
submission are not part of the submitted list, so they do not shift the
correspondence); proved for the project batch and the task batch. -/
theorem claim3_order_preservation :
    (∀ (client : RemoteClient) (organization_id : Uuid) (projects : List Project)
        (report : MigrationReport) (db : Db),
      (projects.map Project.id).Nodup →
      ∀ c ∈ (MigrationService.migrate_project_batch client organization_id projects
          report db).calls,
        ∀ ids : List Uuid, client.call c.payload = .ok ids →
          ids.length = c.local_ids.length →
          ∀ i (hi : i < c.local_ids.length) (hlt : i < ids.length),
            ∃ row, MigrationState.find_by_entity
                (MigrationService.migrate_project_batch client organization_id projects
                  report db).db.migration_state .project (c.local_ids.get ⟨i, hi⟩) =
              some row ∧
              row.status = MigrationStatus.migrated ∧
              row.remote_id = some (ids.get ⟨i, hlt⟩)) ∧
    (∀ (client : RemoteClient) (tasks : List Task) (report : MigrationReport) (db : Db),
      (tasks.map Task.id).Nodup →
      ∀ c ∈ (MigrationService.migrate_task_batch client tasks report db).calls,
        ∀ ids : List Uuid, client.call c.payload = .ok ids →
          ids.length = c.local_ids.length →
          ∀ i (hi : i < c.local_ids.length) (hlt : i < ids.length),
            ∃ row, MigrationState.find_by_entity
                (MigrationService.migrate_task_batch client tasks
                  report db).db.migration_state .task (c.local_ids.get ⟨i, hi⟩) =
              some row ∧
              row.status = MigrationStatus.migrated ∧
              row.remote_id = some (ids.get ⟨i, hlt⟩)) := by
  constructor
  · intro client organization_id projects report db hnodup c hc ids hcall hlen i hi hlt
    exact (MigrationService.migrate_project_batch_ok_spec client organization_id projects
      report db hnodup hc hcall).2.2 i hi hlt
  · intro client tasks report db hnodup c hc ids hcall hlen i hi hlt
    exact (MigrationService.migrate_task_batch_ok_spec client tasks report db hnodup
      hc hcall).2.2.1 i hi hlt

theorem claim3_order_preservation_witness :
    ∃ row, MigrationState.find_by_entity
        (MigrationService.migrate_task_batch wClient [wTask] MigrationReport.empty
          wDbP).db.migration_state .task 2 = some row ∧
      row.status = MigrationStatus.migrated ∧ row.remote_id = some 200 := by
  have h := (claim3_order_preservation.2 wClient [wTask] MigrationReport.empty wDbP
    (by decide)
    ⟨RemoteCallPayload.issues [⟨5, "To do", "t", none, 0⟩], [2],
      [wProjRow, MigrationState.newRow .task 2]⟩
    (by decide) [200] rfl (by decide) 0 (by decide) (by decide))
  simpa using h

/-- C6: a task of the batch whose project has no `migrated` state row (its
`get_remote_id` answers `none`) is never submitted to the remote client; its
state row is marked `skipped` with a reason naming the project, the
`tasks.skipped` counter grows by one per such task, and a warning naming the
task and the project is appended to the report. -/
theorem claim6_dependency_skip :
    ∀ (client : RemoteClient) (tasks : List Task) (report : MigrationReport) (db : Db),
      (tasks.map Task.id).Nodup →
      ∀ t ∈ tasks,
        MigrationState.get_remote_id db.migration_state .project t.project_id = none →
        (∀ c ∈ (MigrationService.migrate_task_batch client tasks report db).calls,
          t.id ∉ c.local_ids) ∧
        (∃ row, MigrationState.find_by_entity
            (MigrationService.migrate_task_batch client tasks
              report db).db.migration_state .task t.id = some row ∧
          row.status = MigrationStatus.skipped ∧
          row.error_message =
            some ("Project " ++ toString t.project_id ++ " not migrated")) ∧
        (MigrationService.migrate_task_batch client tasks
            report db).report.tasks.skipped =
          report.tasks.skipped + tasks.countP (fun x =>
            (MigrationState.get_remote_id db.migration_state .project
              x.project_id).isNone) ∧
        ("Skipped task " ++ toString t.id ++ ": " ++
            ("Project " ++ toString t.project_id ++ " not migrated")) ∈
          (MigrationService.migrate_task_batch client tasks report db).report.warnings := by
  intro client tasks report db hnodup t ht hdep
  have hmb : MigrationService.migrate_task_batch client tasks report db =
      MigrationService.taskBatchFinish client (MigrationService.resolveTasks tasks
        { db with migration_state :=
            MigrationService.upsertAll .task (tasks.map (·.id)) db.migration_state }
        report) := rfl
  set db1 : Db :=
    { db with migration_state :=
        MigrationService.upsertAll .task (tasks.map (·.id)) db.migration_state } with hdb1
  have hdep1 : MigrationState.get_remote_id db1.migration_state .project t.project_id
      = none := by
    show MigrationState.get_remote_id
      (MigrationService.upsertAll .task (tasks.map (·.id)) db.migration_state)
      .project t.project_id = none
    rw [MigrationService.get_remote_id_upsertAll]
    exact hdep
  obtain ⟨hnot, hfind, hwarn⟩ :=
    MigrationService.resolveTasks_skip_spec tasks db1 report ht hdep1 hnodup
  refine ⟨?_, ?_, ?_, ?_⟩
  · intro c hc
    rw [hmb] at hc
    have hcc := MigrationService.taskBatchFinish_calls client _ hc
    subst hcc
    exact hnot
  · rw [hmb]
    rw [MigrationService.taskBatchFinish_find_not_submitted client _ hnot]
    rw [hfind]
    have hin : t.id ∈ tasks.map Task.id := List.mem_map_of_mem Task.id ht
    have hrow := MigrationService.upsertAll_mem_isSome .task (tasks.map (·.id))
      db.migration_state hin
    obtain ⟨row, hrowe⟩ := Option.isSome_iff_exists.mp hrow
    show ∃ r2, (MigrationState.find_by_entity
        (MigrationService.upsertAll .task (tasks.map (·.id)) db.migration_state)
        .task t.id).map _ = some r2 ∧ _
    rw [hrowe]
    exact ⟨_, rfl, rfl, rfl⟩
  · rw [hmb]
    rw [(MigrationService.taskBatchFinish_report_frame client _).1]
    rw [MigrationService.resolveTasks_skipped_count tasks db1 report]
    have hcong : tasks.countP (fun x =>
        (MigrationState.get_remote_id db1.migration_state .project
          x.project_id).isNone) =
        tasks.countP (fun x =>
          (MigrationState.get_remote_id db.migration_state .project
            x.project_id).isNone) := by
      apply List.countP_congr
      intro x hx
      show ((MigrationState.get_remote_id
        (MigrationService.upsertAll .task (tasks.map (·.id)) db.migration_state)
        .project x.project_id).isNone = true) ↔ _
      rw [MigrationService.get_remote_id_upsertAll]
    rw [hcong]
  · rw [hmb]
    rw [(MigrationService.taskBatchFinish_report_frame client _).2.2]
    exact hwarn

theorem claim6_dependency_skip_witness :
    ∃ row, MigrationState.find_by_entity
        (MigrationService.migrate_task_batch wClient [wTask2] MigrationReport.empty
          wDb).db.migration_state .task wTask2.id = some row ∧
      row.status = MigrationStatus.skipped ∧
      row.error_message =
        some ("Project " ++ toString wTask2.project_id ++ " not migrated") := by
  exact (claim6_dependency_skip wClient [wTask2] MigrationReport.empty wDb (by decide)
    wTask2 (by decide) (by decide)).2.1

/-- C10: when the remote bulk-create response of a batch carries fewer ids
than the submitted records, the batch step still succeeds: exactly the first
`|ids|` submitted positions are marked `migrated` (and counted), the
remaining submitted records keep their plain `pending` row untouched, and ids
beyond the submitted count are ignored (the `min` in the counter); proved for
the task batch and the workspace batch. -/
theorem claim10_short_response_tolerated :
    (∀ (client : RemoteClient) (tasks : List Task) (report : MigrationReport) (db : Db),
      (tasks.map Task.id).Nodup →
      (∀ t ∈ tasks,
        MigrationState.find_by_entity db.migration_state .task t.id = none) →
      ∀ c ∈ (MigrationService.migrate_task_batch client tasks report db).calls,
        ∀ ids : List Uuid, client.call c.payload = .ok ids →
          (MigrationService.migrate_task_batch client tasks report db).res = .ok () ∧
          (MigrationService.migrate_task_batch client tasks
              report db).report.tasks.migrated =
            report.tasks.migrated + min c.local_ids.length ids.length ∧
          (∀ i (hi : i < c.local_ids.length) (hlt : i < ids.length),
            ∃ row, MigrationState.find_by_entity
                (MigrationService.migrate_task_batch client tasks
                  report db).db.migration_state .task (c.local_ids.get ⟨i, hi⟩) =
              some row ∧
              row.status = MigrationStatus.migrated ∧
              row.remote_id = some (ids.get ⟨i, hlt⟩)) ∧
          (∀ i (hi : i < c.local_ids.length), ids.length ≤ i →
            MigrationState.find_by_entity
                (MigrationService.migrate_task_batch client tasks
                  report db).db.migration_state .task (c.local_ids.get ⟨i, hi⟩) =
              some (MigrationState.newRow .task (c.local_ids.get ⟨i, hi⟩)))) ∧
    (∀ (client : RemoteClient) (workspaces : List Workspace) (report : MigrationReport)
        (db : Db),
      (workspaces.map Workspace.id).Nodup →
      (∀ w ∈ workspaces,
        MigrationState.find_by_entity db.migration_state .workspace w.id = none) →
      ∀ c ∈ (MigrationService.migrate_workspace_batch client workspaces report db).calls,
        ∀ ids : List Uuid, client.call c.payload = .ok ids →
          (MigrationService.migrate_workspace_batch client workspaces report db).res =
            .ok () ∧
          (MigrationService.migrate_workspace_batch client workspaces
              report db).report.workspaces.migrated =
            report.workspaces.migrated + min c.local_ids.length ids.length ∧
          (∀ i (hi : i < c.local_ids.length), ids.length ≤ i →
            MigrationState.find_by_entity
                (MigrationService.migrate_workspace_batch client workspaces
                  report db).db.migration_state .workspace (c.local_ids.get ⟨i, hi⟩) =
              some (MigrationState.newRow .workspace (c.local_ids.get ⟨i, hi⟩)))) := by
  constructor
  · intro client tasks report db hnodup hfresh c hc ids hcall
    obtain ⟨hres, hcount, hmark, hkeep⟩ :=
      MigrationService.migrate_task_batch_ok_spec client tasks report db hnodup hc hcall
    refine ⟨hres, hcount, hmark, ?_⟩
    intro i hi hge
    rw [hkeep i hi hge]
    exact MigrationService.migrate_task_batch_call_pending client tasks report db hnodup
      hfresh hc (List.get_mem c.local_ids i hi)
  · intro client workspaces report db hnodup hfresh c hc ids hcall
    obtain ⟨hres, hcount, hmark, hkeep⟩ :=
      MigrationService.migrate_workspace_batch_ok_spec client workspaces report db hnodup
        hc hcall
    refine ⟨hres, hcount, ?_⟩
    intro i hi hge
    rw [hkeep i hi hge]
    exact MigrationService.migrate_workspace_batch_call_pending client workspaces report db
      hnodup hfresh hc (List.get_mem c.local_ids i hi)

theorem claim10_short_response_tolerated_witness :
    (MigrationService.migrate_task_batch wShortClient [wTask] MigrationReport.empty
        wDbP).res = .ok () ∧
    MigrationState.find_by_entity
        (MigrationService.migrate_task_batch wShortClient [wTask] MigrationReport.empty
          wDbP).db.migration_state .task 2 =
      some (MigrationState.newRow .task 2) := by
  have h := claim10_short_response_tolerated.1 wShortClient [wTask] MigrationReport.empty
    wDbP (by decide) (by decide)
    ⟨RemoteCallPayload.issues [⟨5, "To do", "t", none, 0⟩], [2],
      [wProjRow, MigrationState.newRow .task 2]⟩
    (by decide) [] rfl
  exact ⟨h.1, by simpa using h.2.2.2 0 (by decide) (by decide)⟩

/-- C4: in every batch-migration step, a state row exists for every record of
the batch in the state store passed to the remote bulk-create call of that
batch (the rows are upserted `pending` strictly before the call is issued), so
no record is ever in flight without a state row. -/
theorem claim4_upsert_before_submit :
    (∀ (client : RemoteClient) (organization_id : Uuid) (projects : List Project)
        (report : MigrationReport) (db : Db),
      ∀ c ∈ (MigrationService.migrate_project_batch client organization_id projects
          report db).calls,
        ∀ p ∈ projects, (MigrationState.find_by_entity c.store_at .project p.id).isSome) ∧
    (∀ (client : RemoteClient) (tasks : List Task) (report : MigrationReport) (db : Db),
      ∀ c ∈ (MigrationService.migrate_task_batch client tasks report db).calls,
        ∀ t ∈ tasks, (MigrationState.find_by_entity c.store_at .task t.id).isSome) ∧
    (∀ (client : RemoteClient) (pr_merges : List PrMerge) (report : MigrationReport) (db : Db),
      ∀ c ∈ (MigrationService.migrate_pr_merge_batch client pr_merges report db).calls,
        ∀ m ∈ pr_merges, (MigrationState.find_by_entity c.store_at .prMerge m.id).isSome) ∧
    (∀ (client : RemoteClient) (workspaces : List Workspace) (report : MigrationReport)
        (db : Db),
      ∀ c ∈ (MigrationService.migrate_workspace_batch client workspaces report db).calls,
        ∀ w ∈ workspaces,
          (MigrationState.find_by_entity c.store_at .workspace w.id).isSome) := by
  refine ⟨?_, ?_, ?_, ?_⟩
  · intro client organization_id projects report db c hc p hp
    rw [MigrationService.projectBatchFinish_calls client projects _ report _ hc]
    exact MigrationService.upsertAll_mem_isSome .project _ db.migration_state
      (List.mem_map_of_mem _ hp)
  · intro client tasks report db c hc t ht
    rw [MigrationService.taskBatchFinish_calls client _ hc]
    apply MigrationService.resolveTasks_find_isSome
    exact MigrationService.upsertAll_mem_isSome .task _ db.migration_state
      (List.mem_map_of_mem _ ht)
  · intro client pr_merges report db c hc m hm
    rw [MigrationService.prMergeBatchFinish_calls client _ hc]
    apply MigrationService.resolvePrMerges_find_isSome
    exact MigrationService.upsertAll_mem_isSome .prMerge _ db.migration_state
      (List.mem_map_of_mem _ hm)
  · intro client workspaces report db c hc w hw
    rw [MigrationService.workspaceBatchFinish_calls client _ hc]
    apply MigrationService.resolveWorkspaces_find_isSome
    exact MigrationService.upsertAll_mem_isSome .workspace _ db.migration_state
      (List.mem_map_of_mem _ hw)

theorem claim4_upsert_before_submit_witness :
    (MigrationState.find_by_entity
        (⟨RemoteCallPayload.projects [⟨9, "p", "217 70% 50%", 0⟩], [1],
          [⟨EntityType.project, 1, none, MigrationStatus.pending, none, 0⟩]⟩ :
          RemoteCall).store_at .project 1).isSome := by
  exact claim4_upsert_before_submit.1 wClient 9 [wProject] MigrationReport.empty
    ⟨[wProject], [], [], [], []⟩
    ⟨RemoteCallPayload.projects [⟨9, "p", "217 70% 50%", 0⟩], [1],
      [⟨EntityType.project, 1, none, MigrationStatus.pending, none, 0⟩]⟩
    (by decide) wProject (by decide)

/-- C5: `resume_migration` first applies `reset_failed`, which turns exactly
the `failed` rows into `pending` rows with a cleared `error_message` (all
other columns kept) and leaves every `migrated`, `skipped` and `pending` row
completely unchanged; it then behaves exactly like `run_migration` on the
reset store with the same arguments. -/
theorem claim5_resume_resets_only_failed :
    (∀ (s : Store) (i : Nat) (r : MigrationRow), s[i]? = some r →
      (r.status = MigrationStatus.failed →
        (MigrationState.reset_failed s)[i]? =
          some { r with status := MigrationStatus.pending, error_message := none }) ∧
      (r.status ≠ MigrationStatus.failed → (MigrationState.reset_failed s)[i]? = some r)) ∧
    (∀ (client : RemoteClient) (organization_id : Uuid) (project_ids : List Uuid) (db : Db),
      MigrationService.resume_migration client organization_id project_ids db =
        MigrationService.run_migration client organization_id project_ids
          { db with migration_state := MigrationState.reset_failed db.migration_state }) := by
  constructor
  · intro s i r h
    unfold MigrationState.reset_failed
    rw [List.getElem?_map, h]
    constructor
    · intro hst
      simp [hst]
    · intro hst
      cases hb : r.status == MigrationStatus.failed
      · simp only [Option.map_some', hb, Bool.false_eq_true, if_false]
      · exact absurd (by simpa using hb) hst
  · intro client organization_id project_ids db
    rfl

theorem claim5_resume_resets_only_failed_witness :
    (MigrationState.reset_failed
        [⟨EntityType.task, 5, none, MigrationStatus.failed, some "boom", 2⟩,
         ⟨EntityType.project, 6, some 9, MigrationStatus.migrated, none, 0⟩])[0]? =
      some ⟨EntityType.task, 5, none, MigrationStatus.pending, none, 2⟩ ∧
    (MigrationState.reset_failed
        [⟨EntityType.task, 5, none, MigrationStatus.failed, some "boom", 2⟩,
         ⟨EntityType.project, 6, some 9, MigrationStatus.migrated, none, 0⟩])[1]? =
      some ⟨EntityType.project, 6, some 9, MigrationStatus.migrated, none, 0⟩ := by
  constructor
  · have h := (claim5_resume_resets_only_failed.1
      [⟨EntityType.task, 5, none, MigrationStatus.failed, some "boom", 2⟩,
       ⟨EntityType.project, 6, some 9, MigrationStatus.migrated, none, 0⟩] 0
      ⟨EntityType.task, 5, none, MigrationStatus.failed, some "boom", 2⟩ rfl).1 rfl
    simpa using h
  · have h := (claim5_resume_resets_only_failed.1
      [⟨EntityType.task, 5, none, MigrationStatus.failed, some "boom", 2⟩,
       ⟨EntityType.project, 6, some 9, MigrationStatus.migrated, none, 0⟩] 1
      ⟨EntityType.project, 6, some 9, MigrationStatus.migrated, none, 0⟩ rfl).2 (by decide)
    simpa using h

/-- C7: every state-store operation (`create`, `upsert`, `mark_migrated`,
`mark_failed`, `mark_skipped`, `reset_failed`) preserves the invariant that a
`migrated` row has a non-null `remote_id`, and every table reachable from the
empty table by these operations satisfies it. -/
theorem claim7_migrated_rows_have_remote_id :
    (∀ (op : StoreOp) (s : Store), storeInv s → storeInv (applyOp op s)) ∧
    (∀ ops : List StoreOp, storeInv (ops.foldl (fun t op => applyOp op t) [])) := by
  constructor
  · exact fun op s h => storeInv_applyOp op s h
  · intro ops
    exact storeInv_foldl ops [] storeInv_nil

theorem claim7_migrated_rows_have_remote_id_witness :
    storeInv (applyOp (.markMigratedOp .task 1 9) [MigrationState.newRow .task 1]) := by
  exact claim7_migrated_rows_have_remote_id.1 (.markMigratedOp .task 1 9)
    [MigrationState.newRow .task 1] (by unfold storeInv; decide)

/-- C9: `get_status` restricts only the projects section to the selected
project-id set — the tasks, PR-merge and workspace sections aggregate all
state rows of their entity type irrespective of the set — and the returned
report's warnings list is always empty. -/
theorem claim9_get_status_filters_only_projects :
    ∀ (project_ids project_ids2 : List Uuid) (db : Db),
      (MigrationService.get_status project_ids db).warnings = [] ∧
      (MigrationService.get_status project_ids db).tasks =
        (MigrationService.get_status project_ids2 db).tasks ∧
      (MigrationService.get_status project_ids db).pr_merges =
        (MigrationService.get_status project_ids2 db).pr_merges ∧
      (MigrationService.get_status project_ids db).workspaces =
        (MigrationService.get_status project_ids2 db).workspaces ∧
      (MigrationService.get_status project_ids db).projects =
        MigrationService.entity_report_from_states
          ((MigrationState.find_by_entity_type db.migration_state .project).filter
            (fun s => project_ids.contains s.local_id)) ∧
      (MigrationService.get_status project_ids db).tasks =
        MigrationService.entity_report_from_states
          (MigrationState.find_by_entity_type db.migration_state .task) ∧
      (MigrationService.get_status project_ids db).pr_merges =
        MigrationService.entity_report_from_states
          (MigrationState.find_by_entity_type db.migration_state .prMerge) ∧
      (MigrationService.get_status project_ids db).workspaces =
        MigrationService.entity_report_from_states
          (MigrationState.find_by_entity_type db.migration_state .workspace) := by
  intro project_ids project_ids2 db
  exact ⟨rfl, rfl, rfl, rfl, rfl, rfl, rfl, rfl⟩

/-- C8: the migration service never sets a state row to `failed` — a
`run_migration` run only rewrites rows to non-`failed` statuses (any `failed`
row in the output was already present, unchanged, at the same position of the
input store), and `resume_migration`, which first resets `failed` rows to
`pending`, therefore ends with a store containing no `failed` row at all. -/
theorem claim8_never_marks_failed :
    (∀ (client : RemoteClient) (organization_id : Uuid) (project_ids : List Uuid) (db : Db),
      noNewFailed db.migration_state
        (MigrationService.run_migration client organization_id project_ids
          db).2.1.migration_state) ∧
    (∀ (client : RemoteClient) (organization_id : Uuid) (project_ids : List Uuid) (db : Db),
      noFailed
        (MigrationService.resume_migration client organization_id project_ids
          db).2.1.migration_state) := by
  constructor
  · intro client organization_id project_ids db
    exact (MigrationService.storeEvolves_run_migration client organization_id
      project_ids db).1
  · intro client organization_id project_ids db
    unfold MigrationService.resume_migration
    exact noFailed_mono (noFailed_reset_failed db.migration_state)
      (MigrationService.storeEvolves_run_migration client organization_id project_ids
        { db with migration_state := MigrationState.reset_failed db.migration_state }).1

/-- C1: when the remote bulk-create call of a batch fails, the run aborts with
that error (`Err`, so no report): the failing call is the last call the run
issued, its message is the surfaced `remoteClient` error, no row turned
`failed`, and the run's final store is exactly the store the failing call saw
— so every row written before the failing batch is retained unchanged, and
(batch level, shown for the task and the project batch) the store at the
failing call already holds a row for every record of the failing batch (its
freshly upserted `pending` rows), the batch having issued exactly that one
call. -/
theorem claim1_remote_error_aborts_run :
    (∀ (client : RemoteClient) (organization_id : Uuid) (project_ids : List Uuid)
        (db : Db) (e : MigrationError),
      (MigrationService.run_migration client organization_id project_ids db).1 =
        .error e →
      noNewFailed db.migration_state
        (MigrationService.run_migration client organization_id project_ids
          db).2.1.migration_state ∧
      ∃ cs0 c msg,
        (MigrationService.run_migration client organization_id project_ids db).2.2 =
          cs0 ++ [c] ∧
        client.call c.payload = .error msg ∧
        e = MigrationError.remoteClient msg ∧
        (MigrationService.run_migration client organization_id project_ids
          db).2.1.migration_state = c.store_at) ∧
    (∀ (client : RemoteClient) (tasks : List Task) (report : MigrationReport) (db : Db)
        (e : MigrationError),
      (MigrationService.migrate_task_batch client tasks report db).res = .error e →
      ∃ c msg,
        (MigrationService.migrate_task_batch client tasks report db).calls = [c] ∧
        client.call c.payload = .error msg ∧
        e = MigrationError.remoteClient msg ∧
        (MigrationService.migrate_task_batch client tasks report
          db).db.migration_state = c.store_at ∧
        ∀ t ∈ tasks, (MigrationState.find_by_entity c.store_at .task t.id).isSome) ∧
    (∀ (client : RemoteClient) (organization_id : Uuid) (projects : List Project)
        (report : MigrationReport) (db : Db) (e : MigrationError),
      (MigrationService.migrate_project_batch client organization_id projects report
        db).res = .error e →
      ∃ c msg,
        (MigrationService.migrate_project_batch client organization_id projects report
          db).calls = [c] ∧
        client.call c.payload = .error msg ∧
        e = MigrationError.remoteClient msg ∧
        (MigrationService.migrate_project_batch client organization_id projects report
          db).db.migration_state = c.store_at ∧
        ∀ p ∈ projects,
          (MigrationState.find_by_entity c.store_at .project p.id).isSome) := by
  refine ⟨?_, ?_, ?_⟩
  · intro client organization_id project_ids db e he
    exact ⟨(MigrationService.storeEvolves_run_migration client organization_id
        project_ids db).1,
      MigrationService.run_migration_error_spec client organization_id project_ids db he⟩
  · intro client tasks report db e he
    exact MigrationService.migrate_task_batch_error_spec client tasks report db he
  · intro client organization_id projects report db e he
    exact MigrationService.migrate_project_batch_error_spec client organization_id
      projects report db he

/-- Witness for C1: with a client whose issues endpoint is down, the run on
`wDbP` (project 1 already migrated) aborts in phase 2 with the transport
message. -/
theorem claim1_remote_error_aborts_run_witness :
    (MigrationService.run_migration wIssuesDownClient 9 [1, 7] wDbP).1 =
      .error (.remoteClient "boom") ∧
    (noNewFailed wDbP.migration_state
        (MigrationService.run_migration wIssuesDownClient 9 [1, 7]
          wDbP).2.1.migration_state ∧
      ∃ cs0 c msg,
        (MigrationService.run_migration wIssuesDownClient 9 [1, 7] wDbP).2.2 =
          cs0 ++ [c] ∧
        wIssuesDownClient.call c.payload = .error msg ∧
        MigrationError.remoteClient "boom" = MigrationError.remoteClient msg ∧
        (MigrationService.run_migration wIssuesDownClient 9 [1, 7]
          wDbP).2.1.migration_state = c.store_at) :=
  ⟨by rfl, claim1_remote_error_aborts_run.1 wIssuesDownClient 9 [1, 7] wDbP
    (.remoteClient "boom") (by rfl)⟩

/-- `wClient` answers every bulk create with exactly one remote id per
request. -/
theorem wClient_honest : RemoteClient.honest wClient := by
  intro payload ids h
  cases payload with
  | projects reqs =>
    have h2 : Except.ok ((List.range reqs.length).map (100 + ·)) =
        Except.ok ids := h
    rw [← Except.ok.inj h2]
    simp [payloadLen]
  | issues reqs =>
    have h2 : Except.ok ((List.range reqs.length).map (200 + ·)) =
        Except.ok ids := h
    rw [← Except.ok.inj h2]
    simp [payloadLen]
  | pullRequests reqs =>
    have h2 : Except.ok ((List.range reqs.length).map (300 + ·)) =
        Except.ok ids := h
    rw [← Except.ok.inj h2]
    simp [payloadLen]
  | workspaces reqs =>
    have h2 : Except.ok ((List.range reqs.length).map (400 + ·)) =
        Except.ok ids := h
    rw [← Except.ok.inj h2]
    simp [payloadLen]

/-- C2: Idempotence.  With an honest remote client and duplicate-free id
columns, after a fully successful `run_migration` an immediate second run with
the same arguments (no state-store reset in between) succeeds while issuing NO
remote call at all — so every already-migrated row is excluded from remote
submission and no entity is submitted to the remote twice — and the second
report has `migrated = 0` and `skipped = total` in every phase: every selected
record is counted in the skipped counter. -/
theorem claim2_idempotent_rerun (client : RemoteClient) (organization_id : Uuid)
    (project_ids : List Uuid) (db : Db) (rep1 : MigrationReport) (db1 : Db)
    (cs1 : List RemoteCall)
    (hh : RemoteClient.honest client)
    (hNt : (db.tasks.map Task.id).Nodup)
    (hNm : (db.pr_merges.map PrMerge.id).Nodup)
    (hNw : (db.workspaces.map Workspace.id).Nodup)
    (hrun : MigrationService.run_migration client organization_id project_ids db =
      (.ok rep1, db1, cs1)) :
    ∃ rep2 db2,
      MigrationService.run_migration client organization_id project_ids db1 =
        (.ok rep2, db2, []) ∧
      rep2.projects.migrated = 0 ∧ rep2.tasks.migrated = 0 ∧
      rep2.pr_merges.migrated = 0 ∧ rep2.workspaces.migrated = 0 ∧
      rep2.projects.skipped = rep2.projects.total ∧
      rep2.tasks.skipped = rep2.tasks.total ∧
      rep2.pr_merges.skipped = rep2.pr_merges.total ∧
      rep2.workspaces.skipped = rep2.workspaces.total := by
  obtain ⟨hTab, hB, hC, hD, hE⟩ :=
    MigrationService.run_migration_ok_spec client organization_id project_ids db
      hh hNt hNm hNw hrun
  exact MigrationService.run_migration_second client organization_id project_ids
    db1 hB hC hD hE

/-- Witness for C2: on `wDbP` (project 1 pre-migrated) the first run migrates
task 2 in one remote call; the theorem then yields an idempotent second run. -/
theorem claim2_idempotent_rerun_witness :
    RemoteClient.honest wClient ∧
    ((wDbP.tasks.map Task.id).Nodup ∧ (wDbP.pr_merges.map PrMerge.id).Nodup ∧
      (wDbP.workspaces.map Workspace.id).Nodup) ∧
    MigrationService.run_migration wClient 9 [1] wDbP =
      (.ok
        { projects :=
            { total := 1, migrated := 0, failed := 0, skipped := 1, errors := [] },
          tasks :=
            { total := 1, migrated := 1, failed := 0, skipped := 0, errors := [] },
          pr_merges := EntityReport.empty, workspaces := EntityReport.empty,
          warnings := [] },
        ⟨[wProject], [wTask, wTask2], [], [],
          [wProjRow, ⟨.task, 2, some 200, .migrated, none, 0⟩]⟩,
        [{ payload :=
             .issues
               [{ project_id := 5, status_name := "To do", title := "t",
                  description := none, created_at := 0 }],
           local_ids := [2],
           store_at := [wProjRow, ⟨.task, 2, none, .pending, none, 0⟩] }]) ∧
    ∃ rep2 db2,
      MigrationService.run_migration wClient 9 [1]
          ⟨[wProject], [wTask, wTask2], [], [],
            [wProjRow, ⟨.task, 2, some 200, .migrated, none, 0⟩]⟩ =
        (.ok rep2, db2, []) ∧
      rep2.projects.migrated = 0 ∧ rep2.tasks.migrated = 0 ∧
      rep2.pr_merges.migrated = 0 ∧ rep2.workspaces.migrated = 0 ∧
      rep2.projects.skipped = rep2.projects.total ∧
      rep2.tasks.skipped = rep2.tasks.total ∧
      rep2.pr_merges.skipped = rep2.pr_merges.total ∧
      rep2.workspaces.skipped = rep2.workspaces.total :=
  ⟨wClient_honest, ⟨by decide, by decide, by decide⟩, by rfl,
    claim2_idempotent_rerun wClient 9 [1] wDbP
      { projects :=
          { total := 1, migrated := 0, failed := 0, skipped := 1, errors := [] },
        tasks :=
          { total := 1, migrated := 1, failed := 0, skipped := 0, errors := [] },
        pr_merges := EntityReport.empty, workspaces := EntityReport.empty,
        warnings := [] }
      ⟨[wProject], [wTask, wTask2], [], [],
        [wProjRow, ⟨.task, 2, some 200, .migrated, none, 0⟩]⟩
      [{ payload :=
           .issues
             [{ project_id := 5, status_name := "To do", title := "t",
                description := none, created_at := 0 }],
         local_ids := [2],
         store_at := [wProjRow, ⟨.task, 2, none, .pending, none, 0⟩] }]
      wClient_honest (by decide) (by decide) (by decide) (by rfl)⟩

end Executor
